import Mathlib

/-!
# nanovg: state stack, transforms, command recording and the pick scene

A shallow embedding of `src/nanovg.c`.

Conventions of the embedding:

* a C `float` or `double` is a rational number and arithmetic on it is exact
  (rounding, infinities and NaN are not modelled; division by zero yields 0);
* a C `int` is an `Int`, a count or a flag word that is never negative is a `Nat`;
  the cast `(int)f` truncates toward zero, the cast `(short)n` wraps to 16 bits;
* a C array is a list that holds its live elements, so a count such as
  `ncommands` is the length of the list;
* a pointer to a pick path is the index of the record in `NVGpickScene.store`,
  `NULL` is `none`; an owned singly linked list (the sub paths of a pick path)
  is a list, head first;
* memory allocation always succeeds, and the recycling of freed records through
  the free lists is not modelled;
* libm (`sqrtf`, `cosf`, `sinf`, `tanf`) and the font stash are outside the
  repository: the functions that call them take them as parameters.
-/

set_option autoImplicit false

namespace NanoVG

/-! ## Constants -/

/-- Value of `NVG_MAX_STATES`. -/
def NVG_MAX_STATES : Nat := 32

/-- Value of `NVG_KAPPA90`, the literal `0.5522847493f`. -/
def NVG_KAPPA90 : ℚ := 5522847493 / 10000000000

/-- Value of `NVG_PICK_EPS`, the literal `0.0001f`. -/
def NVG_PICK_EPS : ℚ := 1 / 10000

/-- The enumerator `NVG_MOVETO` of `enum NVGcommands`. -/
def NVG_MOVETO : Int := 0
/-- The enumerator `NVG_LINETO` of `enum NVGcommands`. -/
def NVG_LINETO : Int := 1
/-- The enumerator `NVG_BEZIERTO` of `enum NVGcommands`. -/
def NVG_BEZIERTO : Int := 2
/-- The enumerator `NVG_CLOSE` of `enum NVGcommands`. -/
def NVG_CLOSE : Int := 3
/-- The enumerator `NVG_WINDING` of `enum NVGcommands`. -/
def NVG_WINDING : Int := 4

/-- The enumerator `NVG_PICK_CORNER` of `enum NVGsegmentFlags`. -/
def NVG_PICK_CORNER : Nat := 1
/-- The enumerator `NVG_PICK_BEVEL` of `enum NVGsegmentFlags`. -/
def NVG_PICK_BEVEL : Nat := 2
/-- The enumerator `NVG_PICK_INNERBEVEL` of `enum NVGsegmentFlags`. -/
def NVG_PICK_INNERBEVEL : Nat := 4
/-- The enumerator `NVG_PICK_CAP` of `enum NVGsegmentFlags`. -/
def NVG_PICK_CAP : Nat := 8
/-- The enumerator `NVG_PICK_ENDCAP` of `enum NVGsegmentFlags`. -/
def NVG_PICK_ENDCAP : Nat := 16

/-- The enumerator `NVG_PICK_SCISSOR` of `enum NVGpathFlags`. -/
def NVG_PICK_SCISSOR : Nat := 1
/-- The enumerator `NVG_PICK_STROKE` of `enum NVGpathFlags`. -/
def NVG_PICK_STROKE : Nat := 2
/-- The enumerator `NVG_PICK_FILL` of `enum NVGpathFlags`. -/
def NVG_PICK_FILL : Nat := 4

/-- The enumerator `NVG_PT_CORNER` of `enum NVGpointFlags`. -/
def NVG_PT_CORNER : Nat := 1
/-- The enumerator `NVG_PT_LEFT` of `enum NVGpointFlags`. -/
def NVG_PT_LEFT : Nat := 2
/-- The enumerator `NVG_PT_BEVEL` of `enum NVGpointFlags`. -/
def NVG_PT_BEVEL : Nat := 4
/-- The enumerator `NVG_PR_INNERBEVEL` of `enum NVGpointFlags`. -/
def NVG_PR_INNERBEVEL : Nat := 8

/-- Modelled from the spec: the macro `NVG_PI` of `nanovg.h`, which is not under
`src/`: the decimal literal of pi that the header writes,
`3.14159265358979323846264338327f`, taken as a rational number. -/
def NVG_PI : ℚ := 314159265358979323846264338327 / 100000000000000000000000000000
/-- Modelled from the spec: the winding `CCW` of `nanovg.h`, the same enumerator
value as `Solid`. -/
def NVG_CCW : Int := 1
/-- Modelled from the spec: the winding `CW` of `nanovg.h`, the same enumerator
value as `Hole`. -/
def NVG_CW : Int := 2
/-- Modelled from the spec: `nanovg.h` is not under `src/`; the spec names the
winding `Solid` (the same enumerator value as `CCW`), 1 in the header. -/
def NVG_SOLID : Int := 1
/-- Modelled from the spec: `nanovg.h` is not under `src/`; the spec names the
winding `Hole` (the same enumerator value as `CW`), 2 in the header. -/
def NVG_HOLE : Int := 2
/-- Modelled from the spec: the line cap `Butt` of `nanovg.h`, the first
enumerator of the cap and join enumeration. -/
def NVG_BUTT : Int := 0
/-- Modelled from the spec: the line cap and line join `Round` of `nanovg.h`. -/
def NVG_ROUND : Int := 1
/-- Modelled from the spec: the line cap `Square` of `nanovg.h`. -/
def NVG_SQUARE : Int := 2
/-- Modelled from the spec: the line join `Bevel` of `nanovg.h`. -/
def NVG_BEVEL : Int := 3
/-- Modelled from the spec: the line join `Miter` of `nanovg.h`. -/
def NVG_MITER : Int := 4
/-- Modelled from the spec: the hit-test flag `TestFill` of `nanovg.h`, one bit. -/
def NVG_TEST_FILL : Nat := 1
/-- Modelled from the spec: the hit-test flag `TestStroke` of `nanovg.h`, another bit. -/
def NVG_TEST_STROKE : Nat := 2
/-- Modelled from the spec: the blend factor `NVG_ZERO` of `nanovg.h`. -/
def NVG_ZERO : Int := 1
/-- Modelled from the spec: the blend factor `NVG_ONE` of `nanovg.h`. -/
def NVG_ONE : Int := 2
/-- Modelled from the spec: the blend factor `NVG_SRC_ALPHA` of `nanovg.h`. -/
def NVG_SRC_ALPHA : Int := 64
/-- Modelled from the spec: the blend factor `NVG_ONE_MINUS_SRC_ALPHA` of `nanovg.h`. -/
def NVG_ONE_MINUS_SRC_ALPHA : Int := 128
/-- Modelled from the spec: the blend factor `NVG_DST_ALPHA` of `nanovg.h`. -/
def NVG_DST_ALPHA : Int := 256
/-- Modelled from the spec: the blend factor `NVG_ONE_MINUS_DST_ALPHA` of `nanovg.h`. -/
def NVG_ONE_MINUS_DST_ALPHA : Int := 512
/-- Modelled from the spec: the text alignment that `nvgReset` installs,
`NVG_ALIGN_LEFT | NVG_ALIGN_BASELINE` of `nanovg.h`. -/
def NVG_ALIGN_LEFT_BASELINE : Int := 65

/-! ## Scalar helpers -/

/-- The C cast `(int)f`: truncation toward zero. -/
def cInt (a : ℚ) : Int := if 0 ≤ a then ⌊a⌋ else -⌊-a⌋

/-- The C cast `(short)n`: wrap to the 16-bit two's complement range. -/
def cShort (n : Int) : Int := (n + 32768) % 65536 - 32768

/-- Source function `nvg__mini`. -/
def nvg__mini (a b : Int) : Int := if a < b then a else b
/-- Source function `nvg__maxi`. -/
def nvg__maxi (a b : Int) : Int := if a > b then a else b
/-- Source function `nvg__clampi`. -/
def nvg__clampi (a mn mx : Int) : Int := if a < mn then mn else (if a > mx then mx else a)
/-- Source function `nvg__minf`. -/
def nvg__minf (a b : ℚ) : ℚ := if a < b then a else b
/-- Source function `nvg__maxf`. -/
def nvg__maxf (a b : ℚ) : ℚ := if a > b then a else b
/-- Source function `nvg__absf`. -/
def nvg__absf (a : ℚ) : ℚ := if a ≥ 0 then a else -a
/-- Source function `nvg__signf`. -/
def nvg__signf (a : ℚ) : ℚ := if a ≥ 0 then 1 else -1
/-- Source function `nvg__clampf`. -/
def nvg__clampf (a mn mx : ℚ) : ℚ := if a < mn then mn else (if a > mx then mx else a)
/-- Source function `nvg__normalize`: returns the length and the scaled vector
(the C function scales `*x`, `*y` in place). `sqrtf` is libm's. -/
def nvg__normalize (sqrtf : ℚ → ℚ) (x y : ℚ) : ℚ × ℚ × ℚ :=
  let d := sqrtf (x * x + y * y)
  if d > 1 / 1000000 then
    let id := 1 / d
    (d, x * id, y * id)
  else (d, x, y)

/-- Newton iteration for the integer square root, `fuel` steps at most. -/
def isqrtAux : Nat → Nat → Nat → Nat
  | 0, _, x => x
  | fuel + 1, n, x =>
    let y := (x + n / x) / 2
    if y < x then isqrtAux fuel n y else x

/-- A model of libm's `sqrtf` for the scenario theorems: the rational square
root, exact when numerator and denominator of the argument are squares below
`2 ^ 256`, rounded down on each of them otherwise. -/
def sqrtfExact (a : ℚ) : ℚ :=
  if a ≤ 0 then 0
  else (isqrtAux 300 a.num.toNat a.num.toNat : ℚ) / (isqrtAux 300 a.den a.den : ℚ)

/-! ## Transforms -/

/-- A `float[6]` transform `t[0] .. t[5]`. -/
structure Xform where
  t0 : ℚ
  t1 : ℚ
  t2 : ℚ
  t3 : ℚ
  t4 : ℚ
  t5 : ℚ
  deriving DecidableEq

/-- Source function `nvgTransformIdentity`. -/
def nvgTransformIdentity : Xform := ⟨1, 0, 0, 1, 0, 0⟩

/-- Source function `nvgTransformTranslate`. -/
def nvgTransformTranslate (tx ty : ℚ) : Xform := ⟨1, 0, 0, 1, tx, ty⟩

/-- Source function `nvgTransformScale`. -/
def nvgTransformScale (sx sy : ℚ) : Xform := ⟨sx, 0, 0, sy, 0, 0⟩

/-- Source function `nvgTransformRotate`; `cosf`, `sinf` are libm's. -/
def nvgTransformRotate (cosf sinf : ℚ → ℚ) (a : ℚ) : Xform :=
  let cs := cosf a
  let sn := sinf a
  ⟨cs, sn, -sn, cs, 0, 0⟩

/-- Source function `nvgTransformSkewX`; `tanf` is libm's. -/
def nvgTransformSkewX (tanf : ℚ → ℚ) (a : ℚ) : Xform := ⟨1, 0, tanf a, 1, 0, 0⟩

/-- Source function `nvgTransformSkewY`; `tanf` is libm's. -/
def nvgTransformSkewY (tanf : ℚ → ℚ) (a : ℚ) : Xform := ⟨1, tanf a, 0, 1, 0, 0⟩

/-- Source function `nvgTransformMultiply`: the new value of `t`. -/
def nvgTransformMultiply (t s : Xform) : Xform :=
  let t0 := t.t0 * s.t0 + t.t1 * s.t2
  let t2 := t.t2 * s.t0 + t.t3 * s.t2
  let t4 := t.t4 * s.t0 + t.t5 * s.t2 + s.t4
  { t0 := t0
    t1 := t.t0 * s.t1 + t.t1 * s.t3
    t2 := t2
    t3 := t.t2 * s.t1 + t.t3 * s.t3
    t4 := t4
    t5 := t.t4 * s.t1 + t.t5 * s.t3 + s.t5 }

/-- Source function `nvgTransformPremultiply`: the new value of `t`. -/
def nvgTransformPremultiply (t s : Xform) : Xform := nvgTransformMultiply s t

/-- Source function `nvgTransformInverse`: the return value and the matrix written to `inv`. -/
def nvgTransformInverse (t : Xform) : Int × Xform :=
  let det := t.t0 * t.t3 - t.t2 * t.t1
  if det > -(1 / 1000000) ∧ det < 1 / 1000000 then (0, nvgTransformIdentity)
  else
    let invdet := 1 / det
    (1, { t0 := t.t3 * invdet
          t2 := -t.t2 * invdet
          t4 := (t.t2 * t.t5 - t.t3 * t.t4) * invdet
          t1 := -t.t1 * invdet
          t3 := t.t0 * invdet
          t5 := (t.t1 * t.t4 - t.t0 * t.t5) * invdet })

/-- Source function `nvgTransformPoint`: the pair written to `dx`, `dy`. -/
def nvgTransformPoint (t : Xform) (sx sy : ℚ) : ℚ × ℚ :=
  (sx * t.t0 + sy * t.t2 + t.t4, sx * t.t1 + sy * t.t3 + t.t5)

/-! ## Drawing state -/

/-- Modelled from the spec: the type `NVGcolor` of `nanovg.h` (four floats). -/
structure NVGcolor where
  r : ℚ
  g : ℚ
  b : ℚ
  a : ℚ
  deriving DecidableEq

/-- Modelled from the spec: the type `NVGpaint` of `nanovg.h`, "transform + extent
+ radius + feather + two colors (inner/outer) + optional image handle". -/
structure NVGpaint where
  xform : Xform
  extent0 : ℚ
  extent1 : ℚ
  radius : ℚ
  feather : ℚ
  innerColor : NVGcolor
  outerColor : NVGcolor
  image : Int
  deriving DecidableEq

/-- Modelled from the spec: the type `NVGscissor` of `nanovg.h`, "transform + 2D
half-extent". -/
structure NVGscissor where
  xform : Xform
  extent0 : ℚ
  extent1 : ℚ
  deriving DecidableEq

/-- Modelled from the spec: the type `NVGcompositeOperationState` of `nanovg.h`,
"separate src/dst factors for RGB and alpha". -/
structure NVGcompositeOperationState where
  srcRGB : Int
  dstRGB : Int
  srcAlpha : Int
  dstAlpha : Int
  deriving DecidableEq

/-- Source type `struct NVGstate`. -/
structure NVGstate where
  compositeOperation : NVGcompositeOperationState
  shapeAntiAlias : Int
  fill : NVGpaint
  stroke : NVGpaint
  strokeWidth : ℚ
  miterLimit : ℚ
  lineJoin : Int
  lineCap : Int
  alpha : ℚ
  xform : Xform
  scissor : NVGscissor
  fontSize : ℚ
  letterSpacing : ℚ
  lineHeight : ℚ
  fontBlur : ℚ
  textAlign : Int
  fontId : Int
  deriving DecidableEq

/-- The all-zero transform left by `memset`. -/
def zeroXform : Xform := ⟨0, 0, 0, 0, 0, 0⟩

/-- The all-zero color left by `memset`. -/
def zeroColor : NVGcolor := ⟨0, 0, 0, 0⟩

/-- The all-zero paint left by `memset`. -/
def zeroPaint : NVGpaint := ⟨zeroXform, 0, 0, 0, 0, zeroColor, zeroColor, 0⟩

/-- The all-zero state left by `memset`. -/
def zeroState : NVGstate :=
  { compositeOperation := ⟨0, 0, 0, 0⟩
    shapeAntiAlias := 0
    fill := zeroPaint
    stroke := zeroPaint
    strokeWidth := 0
    miterLimit := 0
    lineJoin := 0
    lineCap := 0
    alpha := 0
    xform := zeroXform
    scissor := ⟨zeroXform, 0, 0⟩
    fontSize := 0
    letterSpacing := 0
    lineHeight := 0
    fontBlur := 0
    textAlign := 0
    fontId := 0 }

/-- Source function `nvgRGBA`. -/
def nvgRGBA (r g b a : Nat) : NVGcolor :=
  ⟨(r : ℚ) / 255, (g : ℚ) / 255, (b : ℚ) / 255, (a : ℚ) / 255⟩

/-- Source function `nvg__setPaintColor`: the paint written to `p`. -/
def nvg__setPaintColor (color : NVGcolor) : NVGpaint :=
  { zeroPaint with
    xform := nvgTransformIdentity
    radius := 0
    feather := 1
    innerColor := color
    outerColor := color }

/-- Source function `nvg__compositeOperationState`, with the operation given by
its pair of blend factors in the order of the `if` chain (`NVG_SOURCE_OVER` is
operation 0, `NVG_XOR` operation 10, anything else falls to the last branch). -/
def nvg__compositeOperationState (op : Int) : NVGcompositeOperationState :=
  let f : Int × Int :=
    if op = 0 then (NVG_ONE, NVG_ONE_MINUS_SRC_ALPHA)
    else if op = 1 then (NVG_DST_ALPHA, NVG_ZERO)
    else if op = 2 then (NVG_ONE_MINUS_DST_ALPHA, NVG_ZERO)
    else if op = 3 then (NVG_DST_ALPHA, NVG_ONE_MINUS_SRC_ALPHA)
    else if op = 4 then (NVG_ONE_MINUS_DST_ALPHA, NVG_ONE)
    else if op = 5 then (NVG_ZERO, NVG_SRC_ALPHA)
    else if op = 6 then (NVG_ZERO, NVG_ONE_MINUS_SRC_ALPHA)
    else if op = 7 then (NVG_ONE_MINUS_DST_ALPHA, NVG_SRC_ALPHA)
    else if op = 8 then (NVG_ONE, NVG_ONE)
    else if op = 9 then (NVG_ONE, NVG_ZERO)
    else if op = 10 then (NVG_ONE_MINUS_DST_ALPHA, NVG_ONE_MINUS_SRC_ALPHA)
    else (NVG_ONE, NVG_ZERO)
  ⟨f.1, f.2, f.1, f.2⟩

/-! ## Pick scene records -/

/-- A `float bounds[4]`: min x, min y, max x, max y. -/
structure Bounds where
  b0 : ℚ
  b1 : ℚ
  b2 : ℚ
  b3 : ℚ
  deriving DecidableEq

/-- Source type `struct NVGsegment`. -/
structure NVGsegment where
  firstPoint : Int
  type : Int
  flags : Nat
  bounds : Bounds
  startDir : ℚ × ℚ
  endDir : ℚ × ℚ
  miterDir : ℚ × ℚ
  deriving DecidableEq

/-- Source type `struct NVGpickSubPath`; the `next` link is the position in the
list that holds the record. -/
structure NVGpickSubPath where
  winding : Int
  closed : Int
  firstSegment : Int
  nsegments : Int
  bounds : Bounds
  deriving DecidableEq

/-- Source type `struct NVGpickPath`. `subPaths` is the linked list of sub paths,
`next` and `cellnext` are pointers to other pick paths. -/
structure NVGpickPath where
  id : Int
  flags : Nat
  order : Int
  strokeWidth : ℚ
  miterLimit : ℚ
  lineCap : Int
  lineJoin : Int
  bounds : Bounds
  scissor : Int
  subPaths : List NVGpickSubPath
  next : Option Nat
  cellnext : Option Nat
  deriving DecidableEq

/-- The two growable pools of `struct NVGpickScene`, `points` (two floats per
point) and `segments`; `npoints` is half the length of `points`, `nsegments`
the length of `segments`. Path construction and the containment tests read and
write only these fields of the scene, so they take and return the pools. -/
structure NVGpickPools where
  points : List ℚ
  segments : List NVGsegment
  deriving DecidableEq

/-- Source type `struct NVGpickScene`. `paths` is the head of the list linked
through `next`; `store` holds the pick path records, a pointer being an index
into it; `levels` is the one block `levels[0]` of quadtree cells, level `l`
starting at `levelBase l`, and is empty while `ps->levels == NULL`. The free
lists, `lastPath` (written, never read) and the `picked` scratch array are not
part of the model. -/
structure NVGpickScene where
  npaths : Int
  paths : Option Nat
  store : List NVGpickPath
  width : Int
  height : Int
  pools : NVGpickPools
  xdim : ℚ
  ydim : ℚ
  ncells : Nat
  nlevels : Nat
  levels : List (Option Nat)

/-- Source type `struct NVGpoint`. -/
structure NVGpoint where
  x : ℚ
  y : ℚ
  dx : ℚ
  dy : ℚ
  len : ℚ
  dmx : ℚ
  dmy : ℚ
  flags : Nat
  deriving DecidableEq

/-- Modelled from the spec: the type `struct NVGvertex` of `nanovg.h`, which is
not under `src/`: the four floats `x`, `y`, `u`, `v` that `nvg__vset` writes. -/
structure NVGvertex where
  x : ℚ
  y : ℚ
  u : ℚ
  v : ℚ
  deriving DecidableEq

/-- Modelled from the spec: the type `struct NVGpath` of `nanovg.h`, which is not
under `src/`, with the fields that `nanovg.c` reads and writes. `first` is the
index of the first point of the sub path in the points of the cache; `fill` and
`stroke` are the `nfill` and `nstroke` vertices that the pointers of the same
names address in the vertex buffer of the cache. -/
structure NVGpath where
  first : Nat
  count : Nat
  closed : Nat
  nbevel : Nat
  fill : List NVGvertex
  stroke : List NVGvertex
  winding : Int
  convex : Nat
  deriving DecidableEq

/-- Source type `struct NVGpathCache`. `points` and `paths` hold the `npoints` and
`npaths` live elements; the vertex buffer `verts` is held by the paths, each with
its own strips. -/
structure NVGpathCache where
  points : List NVGpoint
  paths : List NVGpath
  bounds : Bounds
  deriving DecidableEq

/-- The counter `npoints` of the cache. -/
def NVGpathCache.npoints (cache : NVGpathCache) : Int := cache.points.length

/-- The counter `npaths` of the cache. -/
def NVGpathCache.npaths (cache : NVGpathCache) : Int := cache.paths.length

/-- Source type `struct NVGcontext`. `commands` holds the `ncommands` recorded
floats; `states` is the array of `NVG_MAX_STATES` entries. The renderer
callbacks of `params` and the font stash are outside the repository and are
left out. -/
structure NVGcontext where
  edgeAntiAlias : Int
  commands : List ℚ
  commandx : ℚ
  commandy : ℚ
  states : Nat → NVGstate
  nstates : Nat
  cache : NVGpathCache
  tessTol : ℚ
  distTol : ℚ
  fringeWidth : ℚ
  devicePxRatio : ℚ
  fontImageIdx : Int
  drawCallCount : Int
  fillTriCount : Int
  strokeTriCount : Int
  textTriCount : Int
  pickScene : Option NVGpickScene

/-! ## State stack -/

/-- Source function `nvg__getState`: `ctx->states[ctx->nstates-1]`. -/
def nvg__getState (ctx : NVGcontext) : NVGstate := ctx.states (ctx.nstates - 1)

/-- Assignment through the pointer that `nvg__getState` returns. -/
def setState (ctx : NVGcontext) (s : NVGstate) : NVGcontext :=
  { ctx with states := Function.update ctx.states (ctx.nstates - 1) s }

/-- Source function `nvgSave`. -/
def nvgSave (ctx : NVGcontext) : NVGcontext :=
  if ctx.nstates ≥ NVG_MAX_STATES then ctx
  else
    let states :=
      if ctx.nstates > 0 then
        Function.update ctx.states ctx.nstates (ctx.states (ctx.nstates - 1))
      else ctx.states
    { ctx with states := states, nstates := ctx.nstates + 1 }

/-- Source function `nvgRestore`. -/
def nvgRestore (ctx : NVGcontext) : NVGcontext :=
  if ctx.nstates ≤ 1 then ctx else { ctx with nstates := ctx.nstates - 1 }

/-- The state that `nvgReset` writes over the current one. -/
def resetState : NVGstate :=
  { zeroState with
    fill := nvg__setPaintColor (nvgRGBA 255 255 255 255)
    stroke := nvg__setPaintColor (nvgRGBA 0 0 0 255)
    compositeOperation := nvg__compositeOperationState 0
    shapeAntiAlias := 1
    strokeWidth := 1
    miterLimit := 10
    lineCap := NVG_BUTT
    lineJoin := NVG_MITER
    alpha := 1
    xform := nvgTransformIdentity
    scissor := { zeroState.scissor with extent0 := -1, extent1 := -1 }
    fontSize := 16
    letterSpacing := 0
    lineHeight := 1
    fontBlur := 0
    textAlign := NVG_ALIGN_LEFT_BASELINE
    fontId := 0 }

/-- Source function `nvgReset`. -/
def nvgReset (ctx : NVGcontext) : NVGcontext := setState ctx resetState

/-- Source function `nvg__setDevicePixelRatio`. -/
def nvg__setDevicePixelRatio (ctx : NVGcontext) (r : ℚ) : NVGcontext :=
  { ctx with tessTol := 1 / 4 / r, distTol := 1 / 100 / r, fringeWidth := 1 / r, devicePxRatio := r }

/-! ## State setters -/

/-- Source function `nvgShapeAntiAlias`. -/
def nvgShapeAntiAlias (ctx : NVGcontext) (enabled : Int) : NVGcontext :=
  setState ctx { nvg__getState ctx with shapeAntiAlias := enabled }

/-- Source function `nvgStrokeWidth`. -/
def nvgStrokeWidth (ctx : NVGcontext) (width : ℚ) : NVGcontext :=
  setState ctx { nvg__getState ctx with strokeWidth := width }

/-- Source function `nvgMiterLimit`. -/
def nvgMiterLimit (ctx : NVGcontext) (limit : ℚ) : NVGcontext :=
  setState ctx { nvg__getState ctx with miterLimit := limit }

/-- Source function `nvgLineCap`. -/
def nvgLineCap (ctx : NVGcontext) (cap : Int) : NVGcontext :=
  setState ctx { nvg__getState ctx with lineCap := cap }

/-- Source function `nvgLineJoin`. -/
def nvgLineJoin (ctx : NVGcontext) (join : Int) : NVGcontext :=
  setState ctx { nvg__getState ctx with lineJoin := join }

/-- Source function `nvgGlobalAlpha`. -/
def nvgGlobalAlpha (ctx : NVGcontext) (alpha : ℚ) : NVGcontext :=
  setState ctx { nvg__getState ctx with alpha := alpha }

/-- Source function `nvgTransform`. -/
def nvgTransform (ctx : NVGcontext) (a b c d e f : ℚ) : NVGcontext :=
  let state := nvg__getState ctx
  setState ctx { state with xform := nvgTransformPremultiply state.xform ⟨a, b, c, d, e, f⟩ }

/-- Source function `nvgResetTransform`. -/
def nvgResetTransform (ctx : NVGcontext) : NVGcontext :=
  setState ctx { nvg__getState ctx with xform := nvgTransformIdentity }

/-- Source function `nvgTranslate`. -/
def nvgTranslate (ctx : NVGcontext) (x y : ℚ) : NVGcontext :=
  let state := nvg__getState ctx
  setState ctx { state with xform := nvgTransformPremultiply state.xform (nvgTransformTranslate x y) }

/-- Source function `nvgRotate`. -/
def nvgRotate (cosf sinf : ℚ → ℚ) (ctx : NVGcontext) (angle : ℚ) : NVGcontext :=
  let state := nvg__getState ctx
  setState ctx
    { state with xform := nvgTransformPremultiply state.xform (nvgTransformRotate cosf sinf angle) }

/-- Source function `nvgSkewX`. -/
def nvgSkewX (tanf : ℚ → ℚ) (ctx : NVGcontext) (angle : ℚ) : NVGcontext :=
  let state := nvg__getState ctx
  setState ctx
    { state with xform := nvgTransformPremultiply state.xform (nvgTransformSkewX tanf angle) }

/-- Source function `nvgSkewY`. -/
def nvgSkewY (tanf : ℚ → ℚ) (ctx : NVGcontext) (angle : ℚ) : NVGcontext :=
  let state := nvg__getState ctx
  setState ctx
    { state with xform := nvgTransformPremultiply state.xform (nvgTransformSkewY tanf angle) }

/-- Source function `nvgScale`. -/
def nvgScale (ctx : NVGcontext) (x y : ℚ) : NVGcontext :=
  let state := nvg__getState ctx
  setState ctx { state with xform := nvgTransformPremultiply state.xform (nvgTransformScale x y) }

/-- Source function `nvgStrokeColor`. -/
def nvgStrokeColor (ctx : NVGcontext) (color : NVGcolor) : NVGcontext :=
  setState ctx { nvg__getState ctx with stroke := nvg__setPaintColor color }

/-- Source function `nvgStrokePaint`. -/
def nvgStrokePaint (ctx : NVGcontext) (paint : NVGpaint) : NVGcontext :=
  let state := nvg__getState ctx
  setState ctx
    { state with stroke := { paint with xform := nvgTransformMultiply paint.xform state.xform } }

/-- Source function `nvgFillColor`. -/
def nvgFillColor (ctx : NVGcontext) (color : NVGcolor) : NVGcontext :=
  setState ctx { nvg__getState ctx with fill := nvg__setPaintColor color }

/-- Source function `nvgFillPaint`. -/
def nvgFillPaint (ctx : NVGcontext) (paint : NVGpaint) : NVGcontext :=
  let state := nvg__getState ctx
  setState ctx
    { state with fill := { paint with xform := nvgTransformMultiply paint.xform state.xform } }

/-- Source function `nvgScissor`. -/
def nvgScissor (ctx : NVGcontext) (x y w h : ℚ) : NVGcontext :=
  let state := nvg__getState ctx
  let w := nvg__maxf 0 w
  let h := nvg__maxf 0 h
  let sx : Xform := { nvgTransformIdentity with t4 := x + w * (1 / 2), t5 := y + h * (1 / 2) }
  setState ctx
    { state with
      scissor :=
        { xform := nvgTransformMultiply sx state.xform
          extent0 := w * (1 / 2)
          extent1 := h * (1 / 2) } }

/-- Source function `nvg__isectRects`: the four floats written to `dst`. -/
def nvg__isectRects (ax ay aw ah bx by_ bw bh : ℚ) : ℚ × ℚ × ℚ × ℚ :=
  let minx := nvg__maxf ax bx
  let miny := nvg__maxf ay by_
  let maxx := nvg__minf (ax + aw) (bx + bw)
  let maxy := nvg__minf (ay + ah) (by_ + bh)
  (minx, miny, nvg__maxf 0 (maxx - minx), nvg__maxf 0 (maxy - miny))

/-- Source function `nvgIntersectScissor`. -/
def nvgIntersectScissor (ctx : NVGcontext) (x y w h : ℚ) : NVGcontext :=
  let state := nvg__getState ctx
  if state.scissor.extent0 < 0 then nvgScissor ctx x y w h
  else
    let ex := state.scissor.extent0
    let ey := state.scissor.extent1
    let invxorm := (nvgTransformInverse state.xform).2
    let pxform := nvgTransformMultiply state.scissor.xform invxorm
    let tex := ex * nvg__absf pxform.t0 + ey * nvg__absf pxform.t2
    let tey := ex * nvg__absf pxform.t1 + ey * nvg__absf pxform.t3
    let rect := nvg__isectRects (pxform.t4 - tex) (pxform.t5 - tey) (tex * 2) (tey * 2) x y w h
    nvgScissor ctx rect.1 rect.2.1 rect.2.2.1 rect.2.2.2

/-- Source function `nvgResetScissor`. -/
def nvgResetScissor (ctx : NVGcontext) : NVGcontext :=
  setState ctx
    { nvg__getState ctx with scissor := { xform := zeroXform, extent0 := -1, extent1 := -1 } }

/-- Source function `nvgGlobalCompositeOperation`. -/
def nvgGlobalCompositeOperation (ctx : NVGcontext) (op : Int) : NVGcontext :=
  setState ctx { nvg__getState ctx with compositeOperation := nvg__compositeOperationState op }

/-- Source function `nvgGlobalCompositeBlendFuncSeparate`. -/
def nvgGlobalCompositeBlendFuncSeparate (ctx : NVGcontext)
    (srcRGB dstRGB srcAlpha dstAlpha : Int) : NVGcontext :=
  setState ctx
    { nvg__getState ctx with compositeOperation := ⟨srcRGB, dstRGB, srcAlpha, dstAlpha⟩ }

/-- Source function `nvgGlobalCompositeBlendFunc`. -/
def nvgGlobalCompositeBlendFunc (ctx : NVGcontext) (sfactor dfactor : Int) : NVGcontext :=
  nvgGlobalCompositeBlendFuncSeparate ctx sfactor dfactor sfactor dfactor

/-- Source function `nvgFontSize`. -/
def nvgFontSize (ctx : NVGcontext) (size : ℚ) : NVGcontext :=
  setState ctx { nvg__getState ctx with fontSize := size }

/-- Source function `nvgFontBlur`. -/
def nvgFontBlur (ctx : NVGcontext) (blur : ℚ) : NVGcontext :=
  setState ctx { nvg__getState ctx with fontBlur := blur }

/-- Source function `nvgTextLetterSpacing`. -/
def nvgTextLetterSpacing (ctx : NVGcontext) (spacing : ℚ) : NVGcontext :=
  setState ctx { nvg__getState ctx with letterSpacing := spacing }

/-- Source function `nvgTextLineHeight`. -/
def nvgTextLineHeight (ctx : NVGcontext) (lineHeight : ℚ) : NVGcontext :=
  setState ctx { nvg__getState ctx with lineHeight := lineHeight }

/-- Source function `nvgTextAlign`. -/
def nvgTextAlign (ctx : NVGcontext) (align : Int) : NVGcontext :=
  setState ctx { nvg__getState ctx with textAlign := align }

/-- Source function `nvgFontFaceId`. -/
def nvgFontFaceId (ctx : NVGcontext) (font : Int) : NVGcontext :=
  setState ctx { nvg__getState ctx with fontId := font }

/-- Source function `nvgFontFace`; `fonsGetFontByName` is the font stash's lookup. -/
def nvgFontFace (fonsGetFontByName : String → Int) (ctx : NVGcontext) (font : String) :
    NVGcontext :=
  setState ctx { nvg__getState ctx with fontId := fonsGetFontByName font }

/-! ## Command recording -/

/-- The `while (i < nvals)` loop of `nvg__appendCommands`, which transforms the
points of `vals` in place; every round advances `i`, so `nvals` rounds suffice.
A read past the end of `vals` (a truncated record, undefined in C) yields 0. -/
def appendCommandsLoop (t : Xform) : Nat → Nat → List ℚ → List ℚ
  | 0, _, vals => vals
  | fuel + 1, i, vals =>
    if i < vals.length then
      let cmd := cInt (vals.getD i 0)
      if cmd = NVG_MOVETO ∨ cmd = NVG_LINETO then
        let p := nvgTransformPoint t (vals.getD (i + 1) 0) (vals.getD (i + 2) 0)
        appendCommandsLoop t fuel (i + 3) ((vals.set (i + 1) p.1).set (i + 2) p.2)
      else if cmd = NVG_BEZIERTO then
        let p1 := nvgTransformPoint t (vals.getD (i + 1) 0) (vals.getD (i + 2) 0)
        let p2 := nvgTransformPoint t (vals.getD (i + 3) 0) (vals.getD (i + 4) 0)
        let p3 := nvgTransformPoint t (vals.getD (i + 5) 0) (vals.getD (i + 6) 0)
        appendCommandsLoop t fuel (i + 7)
          ((((((vals.set (i + 1) p1.1).set (i + 2) p1.2).set (i + 3) p2.1).set (i + 4) p2.2).set
            (i + 5) p3.1).set (i + 6) p3.2)
      else if cmd = NVG_CLOSE then appendCommandsLoop t fuel (i + 1) vals
      else if cmd = NVG_WINDING then appendCommandsLoop t fuel (i + 2) vals
      else appendCommandsLoop t fuel (i + 1) vals
    else vals

/-- Source function `nvg__appendCommands` (`nvals` is the length of `vals`). -/
def nvg__appendCommands (ctx : NVGcontext) (vals : List ℚ) : NVGcontext :=
  let state := nvg__getState ctx
  let nvals := vals.length
  let moved := cInt (vals.getD 0 0) ≠ NVG_CLOSE ∧ cInt (vals.getD 0 0) ≠ NVG_WINDING
  let cx := if moved then vals.getD (nvals - 2) 0 else ctx.commandx
  let cy := if moved then vals.getD (nvals - 1) 0 else ctx.commandy
  { ctx with
    commandx := cx
    commandy := cy
    commands := ctx.commands ++ appendCommandsLoop state.xform nvals 0 vals }

/-- Source function `nvg__clearPathCache`. -/
def nvg__clearPathCache (ctx : NVGcontext) : NVGcontext :=
  { ctx with cache := { ctx.cache with points := [], paths := [] } }

/-- Source function `nvgBeginPath`. -/
def nvgBeginPath (ctx : NVGcontext) : NVGcontext :=
  nvg__clearPathCache { ctx with commands := [] }

/-- Source function `nvgMoveTo`. -/
def nvgMoveTo (ctx : NVGcontext) (x y : ℚ) : NVGcontext :=
  nvg__appendCommands ctx [(NVG_MOVETO : ℚ), x, y]

/-- Source function `nvgLineTo`. -/
def nvgLineTo (ctx : NVGcontext) (x y : ℚ) : NVGcontext :=
  nvg__appendCommands ctx [(NVG_LINETO : ℚ), x, y]

/-- Source function `nvgBezierTo`. -/
def nvgBezierTo (ctx : NVGcontext) (c1x c1y c2x c2y x y : ℚ) : NVGcontext :=
  nvg__appendCommands ctx [(NVG_BEZIERTO : ℚ), c1x, c1y, c2x, c2y, x, y]

/-- Source function `nvgQuadTo`. -/
def nvgQuadTo (ctx : NVGcontext) (cx cy x y : ℚ) : NVGcontext :=
  let x0 := ctx.commandx
  let y0 := ctx.commandy
  nvg__appendCommands ctx
    [(NVG_BEZIERTO : ℚ),
      x0 + 2 / 3 * (cx - x0), y0 + 2 / 3 * (cy - y0),
      x + 2 / 3 * (cx - x), y + 2 / 3 * (cy - y),
      x, y]

/-- Source function `nvgClosePath`. -/
def nvgClosePath (ctx : NVGcontext) : NVGcontext :=
  nvg__appendCommands ctx [(NVG_CLOSE : ℚ)]

/-- Source function `nvgPathWinding`. -/
def nvgPathWinding (ctx : NVGcontext) (dir : Int) : NVGcontext :=
  nvg__appendCommands ctx [(NVG_WINDING : ℚ), (dir : ℚ)]

/-- Source function `nvgRect`. -/
def nvgRect (ctx : NVGcontext) (x y w h : ℚ) : NVGcontext :=
  nvg__appendCommands ctx
    [(NVG_MOVETO : ℚ), x, y,
      (NVG_LINETO : ℚ), x, y + h,
      (NVG_LINETO : ℚ), x + w, y + h,
      (NVG_LINETO : ℚ), x + w, y,
      (NVG_CLOSE : ℚ)]

/-- Source function `nvgEllipse`. -/
def nvgEllipse (ctx : NVGcontext) (cx cy rx ry : ℚ) : NVGcontext :=
  nvg__appendCommands ctx
    [(NVG_MOVETO : ℚ), cx - rx, cy,
      (NVG_BEZIERTO : ℚ), cx - rx, cy + ry * NVG_KAPPA90, cx - rx * NVG_KAPPA90, cy + ry, cx, cy + ry,
      (NVG_BEZIERTO : ℚ), cx + rx * NVG_KAPPA90, cy + ry, cx + rx, cy + ry * NVG_KAPPA90, cx + rx, cy,
      (NVG_BEZIERTO : ℚ), cx + rx, cy - ry * NVG_KAPPA90, cx + rx * NVG_KAPPA90, cy - ry, cx, cy - ry,
      (NVG_BEZIERTO : ℚ), cx - rx * NVG_KAPPA90, cy - ry, cx - rx, cy - ry * NVG_KAPPA90, cx - rx, cy,
      (NVG_CLOSE : ℚ)]

/-- Source function `nvgCircle`. -/
def nvgCircle (ctx : NVGcontext) (cx cy r : ℚ) : NVGcontext :=
  nvgEllipse ctx cx cy r r

/-! ## Pick scene: bounds, pools, Bezier helpers -/

/-- Read of a float array at a C `int` index; an index outside the live
elements (undefined in C) reads 0. -/
def getQ (l : List ℚ) (i : Int) : ℚ := if i < 0 then 0 else l.getD i.toNat 0

/-- The all-zero bounds. -/
def zeroBounds : Bounds := ⟨0, 0, 0, 0⟩

/-- The all-zero segment. -/
def zeroSegment : NVGsegment := ⟨0, 0, 0, zeroBounds, (0, 0), (0, 0), (0, 0)⟩

/-- Read of the segment array at a C `int` index. -/
def getSeg (l : List NVGsegment) (i : Int) : NVGsegment :=
  if i < 0 then zeroSegment else l.getD i.toNat zeroSegment

/-- Write through a pointer to the segment at a C `int` index. -/
def modifySeg (l : List NVGsegment) (i : Int) (f : NVGsegment → NVGsegment) : List NVGsegment :=
  if i < 0 then l else l.set i.toNat (f (l.getD i.toNat zeroSegment))

/-- Source function `nvg__initBounds`. -/
def nvg__initBounds : Bounds := ⟨1000000, 1000000, -1000000, -1000000⟩

/-- Source function `nvg__expandBounds`, one point per round of its loop: `points`
holds the `2 * npoints` floats that the loop reads. -/
def nvg__expandBounds (bounds : Bounds) : List ℚ → Bounds
  | x :: y :: rest =>
    nvg__expandBounds
      ⟨nvg__minf bounds.b0 x, nvg__minf bounds.b1 y, nvg__maxf bounds.b2 x, nvg__maxf bounds.b3 y⟩
      rest
  | _ => bounds

/-- Source function `nvg__unionBounds`. -/
def nvg__unionBounds (bounds boundsB : Bounds) : Bounds :=
  ⟨nvg__minf bounds.b0 boundsB.b0, nvg__minf bounds.b1 boundsB.b1,
    nvg__maxf bounds.b2 boundsB.b2, nvg__maxf bounds.b3 boundsB.b3⟩

/-- Source function `nvg__pointInBounds`. -/
def nvg__pointInBounds (x y : ℚ) (bounds : Bounds) : Int :=
  if x ≥ bounds.b0 ∧ x ≤ bounds.b2 ∧ y ≥ bounds.b1 ∧ y ≤ bounds.b3 then 1 else 0

/-- The `n` points (`2 * n` floats) of a float array that start at float index `i`. -/
def floatsAt (l : List ℚ) (i : Int) (n : Nat) : List ℚ :=
  (List.range (2 * n)).map (fun k => getQ l (i + k))

/-- Source function `nvg__pickSceneAddPoints`: the pools and the returned index.
`xy` holds the `2 * n` floats copied (zeros stand for the uninitialised floats
of the call with `xy == NULL`). -/
def nvg__pickSceneAddPoints (pl : NVGpickPools) (xy : List ℚ) (n : Nat) : NVGpickPools × Int :=
  ({ pl with points := pl.points ++ xy.take (2 * n) }, ((pl.points.length / 2 : Nat) : Int))

/-- Source function `nvg__segmentDir`: the direction written to `d`, read from the
points of the segment (`points` is `ps->points`). -/
def nvg__segmentDir (sqrtf : ℚ → ℚ) (points : List ℚ) (firstPoint type : Int) (t : ℚ) : ℚ × ℚ :=
  let p := firstPoint * 2
  let x0 := getQ points (p + 0)
  let x1 := getQ points (p + 2)
  let y0 := getQ points (p + 1)
  let y1 := getQ points (p + 3)
  if type = NVG_LINETO then
    (nvg__normalize sqrtf (x1 - x0) (y1 - y0)).2
  else if type = NVG_BEZIERTO then
    let x2 := getQ points (p + 4)
    let y2 := getQ points (p + 5)
    let x3 := getQ points (p + 6)
    let y3 := getQ points (p + 7)
    let omt := 1 - t
    let omt2 := omt * omt
    let t2 := t * t
    let d0 := 3 * omt2 * (x1 - x0) + 6 * omt * t * (x2 - x1) + 3 * t2 * (x3 - x2)
    let d1 := 3 * omt2 * (y1 - y0) + 6 * omt * t * (y2 - y1) + 3 * t2 * (y3 - y2)
    (nvg__normalize sqrtf d0 d1).2
  else (0, 0)

/-- Source function `nvg__pickSubPathAddSegment`: the pools and the sub path
record after the call. -/
def nvg__pickSubPathAddSegment (sqrtf : ℚ → ℚ) (pl : NVGpickPools) (psp : NVGpickSubPath)
    (firstPoint type : Int) (flags : Nat) : NVGpickPools × NVGpickSubPath :=
  let psp1 :=
    if psp.firstSegment = -1 then { psp with firstSegment := (pl.segments.length : Int) } else psp
  let seg : NVGsegment :=
    { zeroSegment with
      firstPoint := firstPoint
      type := cShort type
      flags := flags
      startDir := nvg__segmentDir sqrtf pl.points firstPoint (cShort type) 0
      endDir := nvg__segmentDir sqrtf pl.points firstPoint (cShort type) 1 }
  ({ pl with segments := pl.segments ++ [seg] }, { psp1 with nsegments := psp1.nsegments + 1 })

/-- Source function `nvg__casteljau`: the arrays `lvl1` (6 floats), `lvl2` (4) and
`lvl3` (2). -/
def nvg__casteljau (points : List ℚ) (t : ℚ) : List ℚ × List ℚ × List ℚ :=
  let p := fun (k : Nat) => points.getD k 0
  let l1x0 := (p 2 - p 0) * t + p 0
  let l1y0 := (p 3 - p 1) * t + p 1
  let l1x1 := (p 4 - p 2) * t + p 2
  let l1y1 := (p 5 - p 3) * t + p 3
  let l1x2 := (p 6 - p 4) * t + p 4
  let l1y2 := (p 7 - p 5) * t + p 5
  let l2x0 := (l1x1 - l1x0) * t + l1x0
  let l2y0 := (l1y1 - l1y0) * t + l1y0
  let l2x1 := (l1x2 - l1x1) * t + l1x1
  let l2y1 := (l1y2 - l1y1) * t + l1y1
  let l3x0 := (l2x1 - l2x0) * t + l2x0
  let l3y0 := (l2y1 - l2y0) * t + l2y0
  ([l1x0, l1y0, l1x1, l1y1, l1x2, l1y2], [l2x0, l2y0, l2x1, l2y1], [l3x0, l3y0])

/-- Source function `nvg__bezierEval`: the point written to `tpoint`. -/
def nvg__bezierEval (points : List ℚ) (t : ℚ) : ℚ × ℚ :=
  let p := fun (k : Nat) => points.getD k 0
  let omt := 1 - t
  let omt3 := omt * omt * omt
  let omt2 := omt * omt
  let t3 := t * t * t
  let t2 := t * t
  (p 0 * omt3 + p 2 * 3 * omt2 * t + p 4 * 3 * omt * t2 + p 6 * t3,
    p 1 * omt3 + p 3 * 3 * omt2 * t + p 5 * 3 * omt * t2 + p 7 * t3)

/-- Source function `nvg__splitBezier`: the arrays `pointsA` and `pointsB`. -/
def nvg__splitBezier (points : List ℚ) (t : ℚ) : List ℚ × List ℚ :=
  let p := fun (k : Nat) => points.getD k 0
  let c := nvg__casteljau points t
  let lvl1 := fun (k : Nat) => c.1.getD k 0
  let lvl2 := fun (k : Nat) => c.2.1.getD k 0
  let lvl3 := fun (k : Nat) => c.2.2.getD k 0
  ([p 0, p 1, lvl1 0, lvl1 1, lvl2 0, lvl2 1, lvl3 0, lvl3 1],
    [lvl3 0, lvl3 1, lvl2 2, lvl2 3, lvl1 4, lvl1 5, p 6, p 7])

/-- Source function `nvg__bezierInflections`: the array `inflections` after the
call, `*ninflections` being its length. `sqrtf` is libm's. -/
def nvg__bezierInflections (sqrtf : ℚ → ℚ) (points : List ℚ) (coord : Nat)
    (inflections : List ℚ) : List ℚ :=
  let v0 := points.getD (0 * 2 + coord) 0
  let v1 := points.getD (1 * 2 + coord) 0
  let v2 := points.getD (2 * 2 + coord) 0
  let v3 := points.getD (3 * 2 + coord) 0
  let a := 3 * (-v0 + 3 * v1 - 3 * v2 + v3)
  let b := 6 * (v0 - 2 * v1 + v2)
  let c := 3 * (v1 - v0)
  let d := b * b - 4 * a * c
  if nvg__absf (d - 0) < NVG_PICK_EPS then
    let t0 := -b / 2 * a
    if t0 > NVG_PICK_EPS ∧ t0 < 1 - NVG_PICK_EPS then inflections ++ [t0] else inflections
  else if d > NVG_PICK_EPS then
    let d := sqrtf d
    let t0 := (-b + d) / (2 * a)
    let t1 := (-b - d) / (2 * a)
    let r0 := if t0 > NVG_PICK_EPS ∧ t0 < 1 - NVG_PICK_EPS then inflections ++ [t0] else inflections
    if t1 > NVG_PICK_EPS ∧ t1 < 1 - NVG_PICK_EPS then r0 ++ [t1] else r0
  else inflections

/-- The inner loop of `nvg__smallsort`: one pass of adjacent swaps over
`i = 0 .. n - 2`. -/
def smallsortPass : List ℚ → List ℚ
  | a :: b :: rest => if a > b then b :: smallsortPass (a :: rest) else a :: smallsortPass (b :: rest)
  | l => l

/-- The outer loop of `nvg__smallsort`, `for (j = 0; (j < n - 1) && bSwapped; ++j)`:
each round clears `bSwapped` and runs the inner loop, which never sets it. -/
def smallsortLoop : Nat → Int → Int → List ℚ → List ℚ
  | 0, _, _, values => values
  | fuel + 1, j, bSwapped, values =>
    if j < (values.length : Int) - 1 ∧ bSwapped ≠ 0 then
      smallsortLoop fuel (j + 1) 0 (smallsortPass values)
    else values

/-- Source function `nvg__smallsort` (`n` is the length of `values`). -/
def nvg__smallsort (values : List ℚ) : List ℚ :=
  smallsortLoop values.length 0 1 values

/-- Source function `nvg__bezierBounds`. -/
def nvg__bezierBounds (sqrtf : ℚ → ℚ) (points : List ℚ) : Bounds :=
  let b0 := nvg__expandBounds nvg__initBounds (points.take 2)
  let b1 := nvg__expandBounds b0 ((points.drop 6).take 2)
  let infl := nvg__bezierInflections sqrtf points 1 (nvg__bezierInflections sqrtf points 0 [])
  infl.foldl
    (fun b t => let tp := nvg__bezierEval points t; nvg__expandBounds b [tp.1, tp.2]) b1

/-! ## Pick scene: supports and path construction -/

/-- Source function `nvg__pickSubPathAddFillSupports`: the segment array after the
loop over the `psp->nsegments` segments of the sub path. -/
def nvg__pickSubPathAddFillSupports (sqrtf : ℚ → ℚ) (pl : NVGpickPools) (psp : NVGpickSubPath) :
    NVGpickPools :=
  let segs :=
    (List.range psp.nsegments.toNat).foldl
      (fun (segs : List NVGsegment) (s : Nat) =>
        let idx := psp.firstSegment + (s : Int)
        let seg := getSeg segs idx
        let bounds :=
          if seg.type = NVG_LINETO then
            nvg__expandBounds nvg__initBounds (floatsAt pl.points (seg.firstPoint * 2) 2)
          else nvg__bezierBounds sqrtf (floatsAt pl.points (seg.firstPoint * 2) 4)
        modifySeg segs idx (fun sg => { sg with bounds := bounds }))
      pl.segments
  { pl with segments := segs }

/-- One round of the loop of `nvg__pickSubPathAddStrokeSupports` for segment `s`:
the segment array and the new `prevseg` (a pointer into the array, here its
index). -/
def strokeSupportsStep (sqrtf : ℚ → ℚ) (points : List ℚ) (psp : NVGpickSubPath)
    (strokeWidth : ℚ) (lineCap lineJoin : Int) (miterLimit : ℚ)
    (acc : List NVGsegment × Option Int) (s : Nat) : List NVGsegment × Option Int :=
  let segs := acc.1
  let idx := psp.firstSegment + (s : Int)
  let seg := getSeg segs idx
  let firstPoint := seg.firstPoint * 2
  let lastPoint := firstPoint + (if seg.type = NVG_LINETO then 2 else 6)
  let sp0 : List ℚ :=
    [getQ points firstPoint - seg.startDir.2 * strokeWidth,
      getQ points (firstPoint + 1) + seg.startDir.1 * strokeWidth,
      getQ points firstPoint + seg.startDir.2 * strokeWidth,
      getQ points (firstPoint + 1) - seg.startDir.1 * strokeWidth,
      getQ points lastPoint - seg.endDir.2 * strokeWidth,
      getQ points (lastPoint + 1) + seg.endDir.1 * strokeWidth,
      getQ points lastPoint + seg.endDir.2 * strokeWidth,
      getQ points (lastPoint + 1) - seg.endDir.1 * strokeWidth]
  let corner : NVGsegment × List ℚ :=
    match acc.2 with
    | none => (seg, sp0)
    | some pidx =>
      if seg.flags &&& NVG_PICK_CORNER ≠ 0 then
        let prevseg := getSeg segs pidx
        let md0 := (1 / 2 : ℚ) * (-prevseg.endDir.2 - seg.startDir.2)
        let md1 := (1 / 2 : ℚ) * (prevseg.endDir.1 + seg.startDir.1)
        let M2 := md0 * md0 + md1 * md1
        let scale : ℚ := if 1 / M2 > 600 then 600 else 1 / M2
        let miterDir : ℚ × ℚ := if M2 > 1 / 1000000 then (md0 * scale, md1 * scale) else (md0, md1)
        let seg1 := { seg with miterDir := miterDir }
        let sp1 := sp0 ++
          [getQ points firstPoint - prevseg.endDir.2 * strokeWidth,
            getQ points (firstPoint + 1) + prevseg.endDir.1 * strokeWidth]
        if lineJoin = NVG_MITER ∨ lineJoin = NVG_BEVEL then
          if lineJoin = NVG_BEVEL ∨ M2 * miterLimit * miterLimit < 1 then
            ({ seg1 with flags := seg1.flags ||| NVG_PICK_BEVEL }, sp1)
          else
            (seg1, sp1 ++
              [getQ points firstPoint + miterDir.1 * strokeWidth,
                getQ points (firstPoint + 1) + miterDir.2 * strokeWidth])
        else if lineJoin = NVG_ROUND then
          let vertexN :=
            (nvg__normalize sqrtf (-seg.startDir.1 + prevseg.endDir.1)
              (-seg.startDir.2 + prevseg.endDir.2)).2
          (seg1, sp1 ++
            [getQ points firstPoint + vertexN.1 * strokeWidth,
              getQ points (firstPoint + 1) + vertexN.2 * strokeWidth])
        else (seg1, sp1)
      else (seg, sp0)
  let seg2 := corner.1
  let sp2 := corner.2
  let sp3 : List ℚ :=
    if seg2.flags &&& NVG_PICK_CAP ≠ 0 then
      if lineCap = NVG_SQUARE then
        sp2 ++
          [sp2.getD 0 0 - seg2.startDir.1 * strokeWidth, sp2.getD 1 0 - seg2.startDir.2 * strokeWidth,
            sp2.getD 2 0 - seg2.startDir.1 * strokeWidth, sp2.getD 3 0 - seg2.startDir.2 * strokeWidth]
      else if lineCap = NVG_ROUND then
        sp2 ++
          [getQ points firstPoint - seg2.startDir.1 * strokeWidth,
            getQ points (firstPoint + 1) - seg2.startDir.2 * strokeWidth]
      else sp2
    else sp2
  let sp4 : List ℚ :=
    if seg2.flags &&& NVG_PICK_ENDCAP ≠ 0 then
      if lineCap = NVG_SQUARE then
        sp3 ++
          [sp3.getD 4 0 + seg2.endDir.1 * strokeWidth, sp3.getD 5 0 + seg2.endDir.2 * strokeWidth,
            sp3.getD 6 0 + seg2.endDir.1 * strokeWidth, sp3.getD 7 0 + seg2.endDir.2 * strokeWidth]
      else if lineCap = NVG_ROUND then
        sp3 ++
          [getQ points lastPoint + seg2.endDir.1 * strokeWidth,
            getQ points (lastPoint + 1) + seg2.endDir.2 * strokeWidth]
      else sp3
    else sp3
  let seg3 := { seg2 with bounds := nvg__expandBounds nvg__initBounds sp4 }
  (modifySeg segs idx (fun _ => seg3), some idx)

/-- Source function `nvg__pickSubPathAddStrokeSupports`. -/
def nvg__pickSubPathAddStrokeSupports (sqrtf : ℚ → ℚ) (pl : NVGpickPools) (psp : NVGpickSubPath)
    (strokeWidth : ℚ) (lineCap lineJoin : Int) (miterLimit : ℚ) : NVGpickPools :=
  let nsegments := psp.nsegments
  let prevseg : Option Int :=
    if psp.closed ≠ 0 then some (psp.firstSegment + nsegments - 1) else none
  let segs0 :=
    if psp.closed = 0 then
      modifySeg
        (modifySeg pl.segments psp.firstSegment
          (fun sg => { sg with flags := sg.flags ||| NVG_PICK_CAP }))
        (psp.firstSegment + nsegments - 1)
        (fun sg => { sg with flags := sg.flags ||| NVG_PICK_ENDCAP })
    else pl.segments
  let r :=
    (List.range nsegments.toNat).foldl
      (strokeSupportsStep sqrtf pl.points psp strokeWidth lineCap lineJoin miterLimit)
      (segs0, prevseg)
  { pl with segments := r.1 }

/-- The local variables of `nvg__pickPathCreate` that its command loop updates:
the pools of the scene, the current sub path `psp` with the chain of its `next`
links (`subs`, head first, empty while `psp == NULL`), `start` and `hasHoles`. -/
structure PickCreateState where
  pools : NVGpickPools
  subs : List NVGpickSubPath
  start : ℚ × ℚ
  hasHoles : Int
  deriving DecidableEq

/-- The calls `firstPoint = nvg__pickSceneAddPoints(ps, xy, n);
nvg__pickSubPathAddSegment(ps, psp, firstPoint - 1, type, flags)` of
`nvg__pickPathCreate`. A write through `psp == NULL` (undefined in C) is skipped. -/
def addPointsAndSegment (sqrtf : ℚ → ℚ) (st : PickCreateState) (xy : List ℚ) (n : Nat)
    (type : Int) (flags : Nat) : PickCreateState :=
  let r := nvg__pickSceneAddPoints st.pools xy n
  match st.subs with
  | [] => { st with pools := r.1 }
  | psp :: rest =>
    let q := nvg__pickSubPathAddSegment sqrtf r.1 psp (r.2 - 1) type flags
    { st with pools := q.1, subs := q.2 :: rest }

/-- The `for (infl = 0; infl < ninflections; ++infl)` loop of the `NVG_BEZIERTO`
case of `nvg__pickPathCreate`, over the inflections still to visit: the state,
`points`, `pointsB` and `previnfl`. -/
def bezierSplitLoop (sqrtf : ℚ → ℚ) (cmd : Int) :
    List ℚ → Nat → PickCreateState → List ℚ → List ℚ → ℚ →
      PickCreateState × List ℚ × List ℚ × ℚ
  | [], _, st, points, pointsB, previnfl => (st, points, pointsB, previnfl)
  | ti :: rest, infl, st, points, pointsB, previnfl =>
    if nvg__absf (ti - previnfl) < NVG_PICK_EPS then
      bezierSplitLoop sqrtf cmd rest (infl + 1) st points pointsB previnfl
    else
      let t := (ti - previnfl) * (1 / (1 - previnfl))
      let ab := nvg__splitBezier points t
      let st1 :=
        addPointsAndSegment sqrtf st (ab.1.drop 2) 3 cmd (if infl = 0 then NVG_PICK_CORNER else 0)
      bezierSplitLoop sqrtf cmd rest (infl + 1) st1 ab.2 ab.2 ti

/-- The `while (i < ncommands)` loop of `nvg__pickPathCreate`; every round
advances `i`, so `ncommands` rounds suffice. -/
def pickPathCreateLoop (sqrtf : ℚ → ℚ) (commands : List ℚ) :
    Nat → Nat → PickCreateState → PickCreateState
  | 0, _, st => st
  | fuel + 1, i, st =>
    if i < commands.length then
      let cmd := cInt (commands.getD i 0)
      if cmd = NVG_MOVETO then
        let psp : NVGpickSubPath :=
          { winding := NVG_SOLID, closed := 0, firstSegment := -1, nsegments := 0,
            bounds := zeroBounds }
        let r := nvg__pickSceneAddPoints st.pools ((commands.drop (i + 1)).take 2) 1
        pickPathCreateLoop sqrtf commands fuel (i + 3)
          { st with
            start := (commands.getD (i + 1) 0, commands.getD (i + 2) 0)
            subs := psp :: st.subs
            pools := r.1 }
      else if cmd = NVG_LINETO then
        pickPathCreateLoop sqrtf commands fuel (i + 3)
          (addPointsAndSegment sqrtf st ((commands.drop (i + 1)).take 2) 1 cmd NVG_PICK_CORNER)
      else if cmd = NVG_BEZIERTO then
        let npoints : Int := ((st.pools.points.length / 2 : Nat) : Int)
        let points :=
          floatsAt st.pools.points ((npoints - 1) * 2) 1 ++ (commands.drop (i + 1)).take 6
        let inflections :=
          nvg__bezierInflections sqrtf points 0 (nvg__bezierInflections sqrtf points 1 [])
        if inflections.length ≠ 0 then
          let r :=
            bezierSplitLoop sqrtf cmd (nvg__smallsort inflections) 0 st points
              (List.replicate 8 0) 0
          pickPathCreateLoop sqrtf commands fuel (i + 7)
            (addPointsAndSegment sqrtf r.1 (r.2.2.1.drop 2) 3 cmd 0)
        else
          pickPathCreateLoop sqrtf commands fuel (i + 7)
            (addPointsAndSegment sqrtf st ((commands.drop (i + 1)).take 6) 3 cmd NVG_PICK_CORNER)
      else if cmd = NVG_CLOSE then
        let npoints : Int := ((st.pools.points.length / 2 : Nat) : Int)
        let st1 :=
          if getQ st.pools.points ((npoints - 1) * 2) ≠ st.start.1 ∨
              getQ st.pools.points ((npoints - 1) * 2 + 1) ≠ st.start.2 then
            addPointsAndSegment sqrtf st [st.start.1, st.start.2] 1 NVG_LINETO NVG_PICK_CORNER
          else st
        let subs :=
          match st1.subs with
          | [] => []
          | psp :: rest => { psp with closed := 1 } :: rest
        pickPathCreateLoop sqrtf commands fuel (i + 1) { st1 with subs := subs }
      else if cmd = NVG_WINDING then
        let w := cShort (cInt (commands.getD (i + 1) 0))
        let subs :=
          match st.subs with
          | [] => []
          | psp :: rest => { psp with winding := w } :: rest
        pickPathCreateLoop sqrtf commands fuel (i + 2)
          { st with subs := subs, hasHoles := if w = NVG_HOLE then 1 else st.hasHoles }
      else pickPathCreateLoop sqrtf commands fuel (i + 1) st
    else st

/-- The `for (curpsp = psp; curpsp; curpsp = curpsp->next)` loop of
`nvg__pickPathCreate` over the sub paths still to visit: the pools, the sub
paths with their bounds set, and `totalBounds`. -/
def pickPathSupportsLoop (sqrtf : ℚ → ℚ) (forStroke : Bool) (strokeWidth : ℚ)
    (lineCap lineJoin : Int) (miterLimit : ℚ) :
    List NVGpickSubPath → NVGpickPools → Bounds → NVGpickPools × List NVGpickSubPath × Bounds
  | [], pl, total => (pl, [], total)
  | curpsp :: rest, pl, total =>
    let pl1 :=
      if forStroke then
        nvg__pickSubPathAddStrokeSupports sqrtf pl curpsp strokeWidth lineCap lineJoin miterLimit
      else nvg__pickSubPathAddFillSupports sqrtf pl curpsp
    let b :=
      (List.range curpsp.nsegments.toNat).foldl
        (fun (b : Bounds) (s : Nat) =>
          nvg__unionBounds b (getSeg pl1.segments (curpsp.firstSegment + (s : Int))).bounds)
        nvg__initBounds
    let r :=
      pickPathSupportsLoop sqrtf forStroke strokeWidth lineCap lineJoin miterLimit rest pl1
        (nvg__unionBounds total b)
    (r.1, { curpsp with bounds := b } :: r.2.1, r.2.2)

/-- Source function `nvg__pickPathCreate`: the pools after the call and the pick
path it returns. `commands` and `state` are the command buffer and the current
state of the context. -/
def nvg__pickPathCreate (sqrtf : ℚ → ℚ) (pl : NVGpickPools) (commands : List ℚ)
    (state : NVGstate) (id : Int) (forStroke : Bool) : NVGpickPools × NVGpickPath :=
  let st :=
    pickPathCreateLoop sqrtf commands commands.length 0
      { pools := pl, subs := [], start := (0, 0), hasHoles := 0 }
  let flags : Nat := if forStroke then NVG_PICK_STROKE else NVG_PICK_FILL
  let strokeWidth := state.strokeWidth * (1 / 2)
  let miterLimit := state.miterLimit
  let lineCap := cShort state.lineCap
  let lineJoin := cShort state.lineJoin
  let r := pickPathSupportsLoop sqrtf forStroke strokeWidth lineCap lineJoin miterLimit st.subs
    st.pools nvg__initBounds
  let sc : NVGpickPools × Int × Nat :=
    if state.scissor.extent0 ≠ -1 then
      let a :=
        nvg__pickSceneAddPoints r.1
          [state.scissor.xform.t0, state.scissor.xform.t1, state.scissor.xform.t2,
            state.scissor.xform.t3, state.scissor.xform.t4, state.scissor.xform.t5,
            state.scissor.extent0, state.scissor.extent1] 4
      (a.1, a.2, flags ||| NVG_PICK_SCISSOR)
    else (r.1, 0, flags)
  (sc.1,
    { id := id
      flags := sc.2.2
      order := 0
      strokeWidth := strokeWidth
      miterLimit := miterLimit
      lineCap := lineCap
      lineJoin := lineJoin
      bounds := r.2.2
      scissor := sc.2.1
      subPaths := r.2.1
      next := none
      cellnext := none })

/-! ## Pick scene: containment tests -/

/-- Source function `nvg__intersectLine`. -/
def nvg__intersectLine (points : List ℚ) (x y : ℚ) : Int :=
  let x1 := points.getD 0 0
  let y1 := points.getD 1 0
  let x2 := points.getD 2 0
  let y2 := points.getD 3 0
  let d := y2 - y1
  if d > NVG_PICK_EPS ∨ d < -NVG_PICK_EPS then
    let s := (x2 - x1) / d
    let lineX := x1 + (y - y1) * s
    if lineX > x then 1 else 0
  else 0

/-- The Newton loop of `nvg__intersectBezier` on the y coordinates, `n` rounds. -/
def intersectBezierNewton (y0 y1 y2 y3 y : ℚ) : Nat → ℚ → ℚ
  | 0, t => t
  | n + 1, t =>
    let omt := 1 - t
    let omt2 := omt * omt
    let t2 := t * t
    let omt3 := omt2 * omt
    let t3 := t2 * t
    let ty := y0 * omt3 + y1 * 3 * omt2 * t + y2 * 3 * omt * t2 + y3 * t3
    let dty := 3 * omt2 * (y1 - y0) + 6 * omt * t * (y2 - y1) + 3 * t2 * (y3 - y2)
    intersectBezierNewton y0 y1 y2 y3 y n (t - (ty - y) / dty)

/-- Source function `nvg__intersectBezier`. -/
def nvg__intersectBezier (points : List ℚ) (x y : ℚ) : Int :=
  let x0 := points.getD 0 0
  let x1 := points.getD 2 0
  let x2 := points.getD 4 0
  let x3 := points.getD 6 0
  let y0 := points.getD 1 0
  let y1 := points.getD 3 0
  let y2 := points.getD 5 0
  let y3 := points.getD 7 0
  if y0 = y1 ∧ y1 = y2 ∧ y2 = y3 then 0
  else
    let tinit : ℚ :=
      if y3 ≠ y0 then (y - y0) / (y3 - y0)
      else if x3 ≠ x0 then (x - x0) / (x3 - x0)
      else 1 / 2
    let t := intersectBezierNewton y0 y1 y2 y3 y 6 tinit
    let omt := 1 - t
    let omt2 := omt * omt
    let t2 := t * t
    let omt3 := omt2 * omt
    let t3 := t2 * t
    let tx := x0 * omt3 + x1 * 3 * omt2 * t + x2 * 3 * omt * t2 + x3 * t3
    if tx > x then 1 else 0

/-- Source function `nvg__closestLine`: the point `closest` and the parameter `*ot`. -/
def nvg__closestLine (points : List ℚ) (x y : ℚ) : (ℚ × ℚ) × ℚ :=
  let x1 := points.getD 0 0
  let y1 := points.getD 1 0
  let x2 := points.getD 2 0
  let y2 := points.getD 3 0
  let pqx := x2 - x1
  let pqz := y2 - y1
  let dx := x - x1
  let dz := y - y1
  let d := pqx * pqx + pqz * pqz
  let t0 := pqx * dx + pqz * dz
  let t1 := if d > 0 then t0 / d else t0
  let t := if t1 < 0 then 0 else if t1 > 1 then 1 else t1
  ((x1 + t * pqx, y1 + t * pqz), t)

/-- The Newton loop of `nvg__closestBezier`, `n` rounds at most, with its two
`break`s. -/
def closestBezierNewton (x0 y0 x1 y1 x2 y2 x3 y3 x y : ℚ) : Nat → ℚ → ℚ
  | 0, t => t
  | n + 1, t =>
    let omt := 1 - t
    let omt2 := omt * omt
    let t2 := t * t
    let omt3 := omt2 * omt
    let t3 := t2 * t
    let ty := y0 * omt3 + y1 * 3 * omt2 * t + y2 * 3 * omt * t2 + y3 * t3
    let tx := x0 * omt3 + x1 * 3 * omt2 * t + x2 * 3 * omt * t2 + x3 * t3
    let dty := 3 * omt2 * (y1 - y0) + 6 * omt * t * (y2 - y1) + 3 * t2 * (y3 - y2)
    let ddty := 6 * omt * (y2 - 2 * y1 + y0) + 6 * t * (y3 - 2 * y2 + y1)
    let dtx := 3 * omt2 * (x1 - x0) + 6 * omt * t * (x2 - x1) + 3 * t2 * (x3 - x2)
    let ddtx := 6 * omt * (x2 - 2 * x1 + x0) + 6 * t * (x3 - 2 * x2 + x1)
    let errorx := tx - x
    let errory := ty - y
    let nn := errorx * dtx + errory * dty
    if nn = 0 then t
    else
      let d := dtx * dtx + dty * dty + errorx * ddtx + errory * ddty
      if d ≠ 0 then closestBezierNewton x0 y0 x1 y1 x2 y2 x3 y3 x y n (t - nn / d) else t

/-- Source function `nvg__closestBezier`: the point `closest` and the parameter `*ot`. -/
def nvg__closestBezier (points : List ℚ) (x y : ℚ) : (ℚ × ℚ) × ℚ :=
  let x0 := points.getD 0 0
  let x1 := points.getD 2 0
  let x2 := points.getD 4 0
  let x3 := points.getD 6 0
  let y0 := points.getD 1 0
  let y1 := points.getD 3 0
  let y2 := points.getD 5 0
  let y3 := points.getD 7 0
  let t := nvg__maxf 0 (nvg__minf 1 (closestBezierNewton x0 y0 x1 y1 x2 y2 x3 y3 x y 6 (1 / 2)))
  let omt := 1 - t
  let omt2 := omt * omt
  let t2 := t * t
  let omt3 := omt2 * omt
  let t3 := t2 * t
  let ty := y0 * omt3 + y1 * 3 * omt2 * t + y2 * 3 * omt * t2 + y3 * t3
  let tx := x0 * omt3 + x1 * 3 * omt2 * t + x2 * 3 * omt * t2 + x3 * t3
  ((tx, ty), t)

/-- The body of the segment loop of `nvg__pickSubPathStroke` for segment `s` once
its bounds contain the point: whether the function returns 1 there. `prevseg` is
the pointer kept by the loop (a read through `NULL` reads zeros). -/
def strokeSegmentHit (pl : NVGpickPools) (psp : NVGpickSubPath) (x y strokeWidth : ℚ)
    (lineCap lineJoin : Int) (s : Int) (seg : NVGsegment) (prevseg : Option NVGsegment) : Bool :=
  let strokeWidthSqd := strokeWidth * strokeWidth
  let ct : Option ((ℚ × ℚ) × ℚ) :=
    if seg.type = NVG_LINETO then
      some (nvg__closestLine (floatsAt pl.points (seg.firstPoint * 2) 2) x y)
    else if seg.type = NVG_BEZIERTO then
      some (nvg__closestBezier (floatsAt pl.points (seg.firstPoint * 2) 4) x y)
    else none
  match ct with
  | none => false
  | some (closest, t) =>
    let d0 := x - closest.1
    let d1 := y - closest.2
    if (t ≥ NVG_PICK_EPS ∧ t ≤ 1 - NVG_PICK_EPS) ∨
        seg.flags &&& (NVG_PICK_CORNER ||| NVG_PICK_CAP ||| NVG_PICK_ENDCAP) = 0 ∨
        lineJoin = NVG_ROUND then
      decide (d0 * d0 + d1 * d1 < strokeWidthSqd)
    else if (t > 1 - NVG_PICK_EPS ∧ seg.flags &&& NVG_PICK_ENDCAP ≠ 0) ∨
        (t < NVG_PICK_EPS ∧ seg.flags &&& NVG_PICK_CAP ≠ 0) then
      if lineCap = NVG_BUTT then
        let distSqd := d0 * d0 + d1 * d1
        let dirD :=
          if t < NVG_PICK_EPS then -(d0 * seg.startDir.1 + d1 * seg.startDir.2)
          else d0 * seg.endDir.1 + d1 * seg.endDir.2
        decide (dirD < -NVG_PICK_EPS ∧ distSqd < strokeWidthSqd)
      else if lineCap = NVG_SQUARE then
        decide (nvg__absf d0 < strokeWidth ∧ nvg__absf d1 < strokeWidth)
      else if lineCap = NVG_ROUND then
        decide (d0 * d0 + d1 * d1 < strokeWidthSqd)
      else false
    else if seg.flags &&& NVG_PICK_CORNER ≠ 0 then
      let seg0 : NVGsegment := if t < NVG_PICK_EPS then prevseg.getD zeroSegment else seg
      let seg1 : NVGsegment :=
        if t < NVG_PICK_EPS then seg
        else if s = psp.nsegments - 1 then getSeg pl.segments psp.firstSegment
        else getSeg pl.segments (psp.firstSegment + s + 1)
      if seg1.flags &&& NVG_PICK_BEVEL = 0 then
        let prevNDist := -seg0.endDir.2 * d0 + seg0.endDir.1 * d1
        let curNDist := seg1.startDir.2 * d0 - seg1.startDir.1 * d1
        decide (nvg__absf prevNDist < strokeWidth ∧ nvg__absf curNDist < strokeWidth)
      else
        let e0 := d0 - -seg1.startDir.2 * strokeWidth
        let e1 := d1 - seg1.startDir.1 * strokeWidth
        decide (seg1.miterDir.1 * e0 + seg1.miterDir.2 * e1 < 0)
    else false

/-- The `for (s = 0; s < nsegments; ++s, prevseg=seg, ++seg)` loop of
`nvg__pickSubPathStroke` over the segments still to visit. -/
def pickSubPathStrokeLoop (pl : NVGpickPools) (psp : NVGpickSubPath) (x y strokeWidth : ℚ)
    (lineCap lineJoin : Int) : Nat → Int → Option NVGsegment → Int
  | 0, _, _ => 0
  | n + 1, s, prevseg =>
    let seg := getSeg pl.segments (psp.firstSegment + s)
    if nvg__pointInBounds x y seg.bounds ≠ 0 ∧
        strokeSegmentHit pl psp x y strokeWidth lineCap lineJoin s seg prevseg = true then 1
    else pickSubPathStrokeLoop pl psp x y strokeWidth lineCap lineJoin n (s + 1) (some seg)

/-- Source function `nvg__pickSubPathStroke`. -/
def nvg__pickSubPathStroke (pl : NVGpickPools) (psp : NVGpickSubPath) (x y strokeWidth : ℚ)
    (lineCap lineJoin : Int) : Int :=
  if nvg__pointInBounds x y psp.bounds = 0 then 0
  else
    let prevseg : Option NVGsegment :=
      if psp.closed ≠ 0 then some (getSeg pl.segments (psp.firstSegment + psp.nsegments - 1))
      else none
    pickSubPathStrokeLoop pl psp x y strokeWidth lineCap lineJoin psp.nsegments.toNat 0 prevseg

/-- The segment loop of `nvg__pickSubPath` over the segments still to visit:
the count `nintersections`. -/
def pickSubPathLoop (pl : NVGpickPools) (psp : NVGpickSubPath) (x y : ℚ) :
    Nat → Int → Int → Int
  | 0, _, nintersections => nintersections
  | n + 1, s, nintersections =>
    let seg := getSeg pl.segments (psp.firstSegment + s)
    let add : Int :=
      if seg.bounds.b1 - NVG_PICK_EPS < y ∧ seg.bounds.b3 - NVG_PICK_EPS > y ∧ seg.bounds.b2 > x then
        if seg.type = NVG_LINETO then
          if seg.bounds.b0 > x then 1
          else nvg__intersectLine (floatsAt pl.points (seg.firstPoint * 2) 2) x y
        else if seg.type = NVG_BEZIERTO then
          if seg.bounds.b0 > x then 1
          else nvg__intersectBezier (floatsAt pl.points (seg.firstPoint * 2) 4) x y
        else 0
      else 0
    pickSubPathLoop pl psp x y n (s + 1) (nintersections + add)

/-- Source function `nvg__pickSubPath`. -/
def nvg__pickSubPath (pl : NVGpickPools) (psp : NVGpickSubPath) (x y : ℚ) : Int :=
  if nvg__pointInBounds x y psp.bounds = 0 then 0
  else
    let nintersections := pickSubPathLoop pl psp x y psp.nsegments.toNat 0 0
    if nintersections % 2 = 1 then (if psp.winding = NVG_SOLID then 1 else -1) else 0

/-- Source function `nvg__pickPath`. -/
def nvg__pickPath (pl : NVGpickPools) (pp : NVGpickPath) (x y : ℚ) : Int :=
  let pickCount := pp.subPaths.foldl (fun (c : Int) psp => c + nvg__pickSubPath pl psp x y) 0
  if pickCount ≠ 0 then 1 else 0

/-- The `while (psp)` loop of `nvg__pickPathStroke`. -/
def pickPathStrokeLoop (pl : NVGpickPools) (pp : NVGpickPath) (x y : ℚ) :
    List NVGpickSubPath → Int
  | [] => 0
  | psp :: rest =>
    if nvg__pickSubPathStroke pl psp x y pp.strokeWidth pp.lineCap pp.lineJoin ≠ 0 then 1
    else pickPathStrokeLoop pl pp x y rest

/-- Source function `nvg__pickPathStroke`. -/
def nvg__pickPathStroke (pl : NVGpickPools) (pp : NVGpickPath) (x y : ℚ) : Int :=
  pickPathStrokeLoop pl pp x y pp.subPaths

/-- Source function `nvg__pickPathTestBounds`. -/
def nvg__pickPathTestBounds (pl : NVGpickPools) (pp : NVGpickPath) (x y : ℚ) : Int :=
  if nvg__pointInBounds x y pp.bounds ≠ 0 then
    if pp.flags &&& NVG_PICK_SCISSOR ≠ 0 then
      let sc := fun (k : Int) => getQ pl.points (pp.scissor * 2 + k)
      let rx := x - sc 4
      let ry := y - sc 5
      if nvg__absf (sc 0 * rx + sc 1 * ry) > sc 6 ∨ nvg__absf (sc 2 * rx + sc 3 * ry) > sc 7 then 0
      else 1
    else 1
  else 0

/-! ## Pick scene: quadtree, registration and queries -/

/-- Number of significant bits of a value below `2 ^ fuel`. -/
def bitLength : Nat → Nat → Nat
  | 0, _ => 0
  | fuel + 1, v => if v = 0 then 0 else bitLength fuel (v / 2) + 1

/-- The builtin `__builtin_clz` on the 32-bit pattern `u` (not zero). -/
def clz32 (u : Nat) : Nat := 32 - bitLength 32 u

/-- Source function `nvg__countBitsUsed`, the branch for clang and GCC: the
argument is read as its 32-bit two's complement pattern. -/
def nvg__countBitsUsed (v : Int) : Int :=
  if v = 0 then 0 else 32 - (clz32 (v % 4294967296).toNat : Int)

/-- Offset of `ps->levels[l]` in the block `ps->levels[0]`, as `nvg__pickBeginFrame`
lays the levels out. -/
def levelBase : Nat → Nat
  | 0 => 0
  | l + 1 => levelBase l + (1 <<< l) * (1 <<< l)

/-- Read of `ps->levels[lvl][idx]`; a read outside the block (undefined in C)
reads `NULL`. -/
def cellAt (ps : NVGpickScene) (lvl : Nat) (idx : Int) : Option Nat :=
  if idx < 0 then none else (ps.levels.getD (levelBase lvl + idx.toNat) none)

/-- Source function `nvg__pickSceneInsert`. The record `pp` is placed in `store`,
its index being the pointer that the cell and `ps->paths` receive. -/
def nvg__pickSceneInsert (ps : NVGpickScene) (pp : NVGpickPath) : NVGpickScene :=
  let base : Int := (ps.nlevels : Int) - 1
  let c0 := cInt (pp.bounds.b0 / ps.xdim)
  let c1 := cInt (pp.bounds.b1 / ps.ydim)
  let c2 := cInt (pp.bounds.b2 / ps.xdim)
  let c3 := cInt (pp.bounds.b3 / ps.ydim)
  let x0 := Int.xor c0 c2
  let x1 := Int.xor c1 c3
  let level0 := nvg__mini (base - nvg__countBitsUsed x0) (base - nvg__countBitsUsed x1)
  let level := if level0 < 0 then 0 else level0
  let levelwidth : Int := ((1 <<< level.toNat : Nat) : Int)
  let levelshift := ((ps.nlevels : Int) - level) - 1
  let levelx := nvg__clampi (c2 >>> (levelshift.toNat : Nat)) 0 (levelwidth - 1)
  let levely := nvg__clampi (c3 >>> (levelshift.toNat : Nat)) 0 (levelwidth - 1)
  let idx := levely * levelwidth + levelx
  let ptr := ps.store.length
  let rec1 : NVGpickPath :=
    { pp with
      cellnext := cellAt ps level.toNat idx
      next := ps.paths
      order := cShort ps.npaths }
  { ps with
    levels := ps.levels.set (levelBase level.toNat + idx.toNat) (some ptr)
    store := ps.store ++ [rec1]
    paths := some ptr
    npaths := ps.npaths + 1 }

/-- Source function `nvg__allocPickScene`. -/
def nvg__allocPickScene : NVGpickScene :=
  { npaths := 0, paths := none, store := [], width := 0, height := 0,
    pools := ⟨[], []⟩, xdim := 0, ydim := 0, ncells := 0, nlevels := 5, levels := [] }

/-- Source function `nvg__pickSceneGet`: the scene that `ctx->pickScene` points to
after the call. -/
def nvg__pickSceneGet (ctx : NVGcontext) : NVGpickScene :=
  match ctx.pickScene with
  | none => nvg__allocPickScene
  | some ps => ps

/-- Source function `nvg__pickBeginFrame`. -/
def nvg__pickBeginFrame (ctx : NVGcontext) (width height : Int) : NVGcontext :=
  let ps := nvg__pickSceneGet ctx
  let lowestSubDiv : ℚ := ((1 <<< (ps.nlevels - 1) : Nat) : ℚ)
  let ncells : Nat :=
    if ps.levels = [] then
      (List.range ps.nlevels).foldl (fun n l => n + (1 <<< l) * (1 <<< l)) 1
    else ps.ncells
  { ctx with
    pickScene := some
      { ps with
        paths := none
        store := []
        npaths := 0
        width := width
        height := height
        xdim := (width : ℚ) / lowestSubDiv
        ydim := (height : ℚ) / lowestSubDiv
        ncells := ncells
        levels := List.replicate ncells none
        pools := ⟨[], []⟩ } }

/-- Source function `nvgFillHitRegion`. -/
def nvgFillHitRegion (sqrtf : ℚ → ℚ) (ctx : NVGcontext) (id : Int) : NVGcontext :=
  let ps := nvg__pickSceneGet ctx
  let r := nvg__pickPathCreate sqrtf ps.pools ctx.commands (nvg__getState ctx) id false
  { ctx with pickScene := some (nvg__pickSceneInsert { ps with pools := r.1 } r.2) }

/-- Source function `nvgStrokeHitRegion`. -/
def nvgStrokeHitRegion (sqrtf : ℚ → ℚ) (ctx : NVGcontext) (id : Int) : NVGcontext :=
  let ps := nvg__pickSceneGet ctx
  let r := nvg__pickPathCreate sqrtf ps.pools ctx.commands (nvg__getState ctx) id true
  { ctx with pickScene := some (nvg__pickSceneInsert { ps with pools := r.1 } r.2) }

/-- The variables `bestOrder`, `bestID` and `hit` of `nvgHitTest`. -/
structure HitTestVars where
  bestOrder : Int
  bestID : Int
  hit : Int
  deriving DecidableEq

/-- The body of the `while (pp)` loop of `nvgHitTest` for the path `pp`, up to
the step `pp = pp->next`. -/
def hitTestVisit (pl : NVGpickPools) (x y : ℚ) (flags : Nat) (pp : NVGpickPath)
    (v : HitTestVars) : HitTestVars :=
  if nvg__pickPathTestBounds pl pp x y ≠ 0 then
    let hit1 :=
      if flags &&& NVG_TEST_STROKE ≠ 0 ∧ pp.flags &&& NVG_PICK_STROKE ≠ 0 then
        nvg__pickPathStroke pl pp x y
      else v.hit
    let hit2 :=
      if hit1 = 0 ∧ flags &&& NVG_TEST_FILL ≠ 0 ∧ pp.flags &&& NVG_PICK_FILL ≠ 0 then
        nvg__pickPath pl pp x y
      else hit1
    if hit2 ≠ 0 ∧ pp.order > v.bestOrder then
      { bestOrder := pp.order, bestID := pp.id, hit := hit2 }
    else { v with hit := hit2 }
  else v

/-- The `while (pp)` loop of `nvgHitTest`, which follows `pp->next`. The result
is `none` when the walk does not end within `fuel` paths or meets a pointer
outside `store`. -/
def hitTestWalk (ps : NVGpickScene) (x y : ℚ) (flags : Nat) :
    Nat → Option Nat → HitTestVars → Option HitTestVars
  | _, none, v => some v
  | 0, some _, _ => none
  | fuel + 1, some p, v =>
    match ps.store.get? p with
    | none => none
    | some pp => hitTestWalk ps x y flags fuel pp.next (hitTestVisit ps.pools x y flags pp v)

/-- The `for (lvl = ps->nlevels - 1; lvl >= 0; --lvl)` loop of `nvgHitTest`, with
`n = lvl + 1` levels still to visit. -/
def hitTestLevels (ps : NVGpickScene) (x y : ℚ) (flags : Nat) :
    Nat → Int → Int → Int → HitTestVars → Option HitTestVars
  | 0, _, _, _, v => some v
  | lvl + 1, cellx, celly, levelwidth, v =>
    match hitTestWalk ps x y flags ps.store.length (cellAt ps lvl (celly * levelwidth + cellx)) v with
    | none => none
    | some v1 => hitTestLevels ps x y flags lvl (cellx >>> (1 : Nat)) (celly >>> (1 : Nat))
        (levelwidth >>> (1 : Nat)) v1

/-- Source function `nvgHitTest`. The result is `none` when a walk over the path
list does not end (see `hitTestWalk`). -/
def nvgHitTest (ctx : NVGcontext) (x y : ℚ) (flags : Nat) : Option Int :=
  match ctx.pickScene with
  | none => some (-1)
  | some ps =>
    let levelwidth : Int := ((1 <<< (ps.nlevels - 1) : Nat) : Int)
    let cellx := nvg__clampi (cInt (x / ps.xdim)) 0 (levelwidth - 1)
    let celly := nvg__clampi (cInt (y / ps.ydim)) 0 (levelwidth - 1)
    (hitTestLevels ps x y flags ps.nlevels cellx celly levelwidth
      { bestOrder := -1, bestID := -1, hit := 0 }).map (fun v => v.bestID)

/-- The test that `nvgHitTestAll` makes of one path, `hit` starting from 0:
whether the path is picked. -/
def hitTestAllHit (pl : NVGpickPools) (x y : ℚ) (flags : Nat) (pp : NVGpickPath) : Bool :=
  if nvg__pickPathTestBounds pl pp x y ≠ 0 then
    let hit1 :=
      if flags &&& NVG_TEST_STROKE ≠ 0 ∧ pp.flags &&& NVG_PICK_STROKE ≠ 0 then
        nvg__pickPathStroke pl pp x y
      else 0
    let hit2 :=
      if hit1 = 0 ∧ flags &&& NVG_TEST_FILL ≠ 0 ∧ pp.flags &&& NVG_PICK_FILL ≠ 0 then
        nvg__pickPath pl pp x y
      else hit1
    decide (hit2 ≠ 0)
  else false

/-- The `while (pp)` loop of `nvgHitTestAll`, which follows `pp->next`: the array
`picked` (of pointers) after the walk. -/
def hitTestAllWalk (ps : NVGpickScene) (x y : ℚ) (flags : Nat) :
    Nat → Option Nat → List Nat → Option (List Nat)
  | _, none, picked => some picked
  | 0, some _, _ => none
  | fuel + 1, some p, picked =>
    match ps.store.get? p with
    | none => none
    | some pp =>
      hitTestAllWalk ps x y flags fuel pp.next
        (if hitTestAllHit ps.pools x y flags pp then picked ++ [p] else picked)

/-- The loop over the levels of `nvgHitTestAll`, with `n = lvl + 1` levels still to
visit. -/
def hitTestAllLevels (ps : NVGpickScene) (x y : ℚ) (flags : Nat) :
    Nat → Int → Int → Int → List Nat → Option (List Nat)
  | 0, _, _, _, picked => some picked
  | lvl + 1, cellx, celly, levelwidth, picked =>
    match
      hitTestAllWalk ps x y flags ps.store.length (cellAt ps lvl (celly * levelwidth + cellx))
        picked with
    | none => none
    | some picked1 =>
      hitTestAllLevels ps x y flags lvl (cellx >>> (1 : Nat)) (celly >>> (1 : Nat))
        (levelwidth >>> (1 : Nat)) picked1

/-- Insertion of a pointer into an array sorted by `nvg__comparePaths`, that is
by descending `order`. -/
def insertByOrder (ps : NVGpickScene) (p : Nat) : List Nat → List Nat
  | [] => [p]
  | q :: rest =>
    if ((ps.store.get? q).map (fun r => r.order)).getD 0 <
        ((ps.store.get? p).map (fun r => r.order)).getD 0 then p :: q :: rest
    else q :: insertByOrder ps p rest

/-- The call `qsort(ps->picked, npicked, ..., nvg__comparePaths)`: the pointers
sorted by descending `order` (the order `qsort` gives to entries that compare
equal is unspecified; here they keep their relative order). -/
def sortPicked (ps : NVGpickScene) (picked : List Nat) : List Nat :=
  picked.foldr (insertByOrder ps) []

/-- Source function `nvgHitTestAll`: the return value and the ids written to
`ids[0 .. ]`. The result is `none` when a walk over the path list does not end. -/
def nvgHitTestAll (ctx : NVGcontext) (x y : ℚ) (flags : Nat) (maxids : Int) :
    Option (Int × List Int) :=
  match ctx.pickScene with
  | none => some (0, [])
  | some ps =>
    let levelwidth : Int := ((1 <<< (ps.nlevels - 1) : Nat) : Int)
    let cellx := nvg__clampi (cInt (x / ps.xdim)) 0 levelwidth
    let celly := nvg__clampi (cInt (y / ps.ydim)) 0 levelwidth
    match hitTestAllLevels ps x y flags ps.nlevels cellx celly levelwidth [] with
    | none => none
    | some picked =>
      let sorted := sortPicked ps picked
      let n := nvg__mini maxids (picked.length : Int)
      some (n, (sorted.take n.toNat).map
        (fun p => ((ps.store.get? p).map (fun r => r.id)).getD 0))

/-- Source function `nvgInFill`: the context after the call and the return value. -/
def nvgInFill (sqrtf : ℚ → ℚ) (ctx : NVGcontext) (x y : ℚ) : NVGcontext × Int :=
  let ps := nvg__pickSceneGet ctx
  let r := nvg__pickPathCreate sqrtf ps.pools ctx.commands (nvg__getState ctx) 1 false
  if nvg__pointInBounds x y r.2.bounds = 0 then
    ({ ctx with pickScene := some { ps with pools := r.1 } }, 0)
  else
    let hit := nvg__pickPath r.1 r.2 x y
    ({ ctx with
       pickScene := some
        { ps with
          pools :=
            { points := r.1.points.take ps.pools.points.length
              segments := r.1.segments.take ps.pools.segments.length } } },
      hit)

/-- Source function `nvgInStroke`: the context after the call and the return value. -/
def nvgInStroke (sqrtf : ℚ → ℚ) (ctx : NVGcontext) (x y : ℚ) : NVGcontext × Int :=
  let ps := nvg__pickSceneGet ctx
  let r := nvg__pickPathCreate sqrtf ps.pools ctx.commands (nvg__getState ctx) 1 true
  if nvg__pointInBounds x y r.2.bounds = 0 then
    ({ ctx with pickScene := some { ps with pools := r.1 } }, 0)
  else
    let hit := nvg__pickPathStroke r.1 r.2 x y
    ({ ctx with
       pickScene := some
        { ps with
          pools :=
            { points := r.1.points.take ps.pools.points.length
              segments := r.1.segments.take ps.pools.segments.length } } },
      hit)

/-! ## Context creation and frames -/

/-- Source function `nvgCreateInternal`, the path on which every allocation and
the renderer succeed: the context after `memset`, `nvgSave`, `nvgReset` and
`nvg__setDevicePixelRatio(ctx, 1.0f)`. `edgeAntiAlias` is the field of `params`. -/
def nvgCreateInternal (edgeAntiAlias : Int) : NVGcontext :=
  nvg__setDevicePixelRatio
    (nvgReset
      (nvgSave
        { edgeAntiAlias := edgeAntiAlias
          commands := []
          commandx := 0
          commandy := 0
          states := fun _ => zeroState
          nstates := 0
          cache := ⟨[], [], ⟨0, 0, 0, 0⟩⟩
          tessTol := 0
          distTol := 0
          fringeWidth := 0
          devicePxRatio := 0
          fontImageIdx := 0
          drawCallCount := 0
          fillTriCount := 0
          strokeTriCount := 0
          textTriCount := 0
          pickScene := none }))
    1

/-- Source function `nvgBeginFrame`; the window size reaches `nvg__pickBeginFrame`
through its `int` parameters. -/
def nvgBeginFrame (ctx : NVGcontext) (windowWidth windowHeight devicePixelRatio : ℚ) :
    NVGcontext :=
  let c1 := nvgReset (nvgSave { ctx with nstates := 0 })
  let c2 := nvg__setDevicePixelRatio c1 devicePixelRatio
  let c3 := { c2 with drawCallCount := 0, fillTriCount := 0, strokeTriCount := 0, textTriCount := 0 }
  nvg__pickBeginFrame c3 (cInt windowWidth) (cInt windowHeight)

/-! ## Sequences of state-setting calls -/

/-- A call of one of the functions of the source that set a field of the current
state (`nvgReset` and the setters of the sections "State setting", "Scissoring"
and "Global composite operation"), with its arguments. -/
inductive StateCall where
  | reset
  | shapeAntiAlias (enabled : Int)
  | strokeWidth (width : ℚ)
  | miterLimit (limit : ℚ)
  | lineCap (cap : Int)
  | lineJoin (join : Int)
  | globalAlpha (alpha : ℚ)
  | transform (a b c d e f : ℚ)
  | resetTransform
  | translate (x y : ℚ)
  | rotate (angle : ℚ)
  | skewX (angle : ℚ)
  | skewY (angle : ℚ)
  | scale (x y : ℚ)
  | strokeColor (color : NVGcolor)
  | strokePaint (paint : NVGpaint)
  | fillColor (color : NVGcolor)
  | fillPaint (paint : NVGpaint)
  | scissor (x y w h : ℚ)
  | intersectScissor (x y w h : ℚ)
  | resetScissor
  | globalCompositeOperation (op : Int)
  | globalCompositeBlendFunc (sfactor dfactor : Int)
  | globalCompositeBlendFuncSeparate (srcRGB dstRGB srcAlpha dstAlpha : Int)
  | fontSize (size : ℚ)
  | fontBlur (blur : ℚ)
  | textLetterSpacing (spacing : ℚ)
  | textLineHeight (lineHeight : ℚ)
  | textAlign (align : Int)
  | fontFaceId (font : Int)
  | fontFace (font : String)

/-- The functions outside the repository that the state setters call: libm's
`cosf`, `sinf`, `tanf` and the font stash's `fonsGetFontByName`. -/
structure Externals where
  cosf : ℚ → ℚ
  sinf : ℚ → ℚ
  tanf : ℚ → ℚ
  fonsGetFontByName : String → Int

/-- Runs one state-setting call on the context. -/
def StateCall.run (ex : Externals) : StateCall → NVGcontext → NVGcontext
  | .reset, ctx => nvgReset ctx
  | .shapeAntiAlias enabled, ctx => nvgShapeAntiAlias ctx enabled
  | .strokeWidth width, ctx => nvgStrokeWidth ctx width
  | .miterLimit limit, ctx => nvgMiterLimit ctx limit
  | .lineCap cap, ctx => nvgLineCap ctx cap
  | .lineJoin join, ctx => nvgLineJoin ctx join
  | .globalAlpha alpha, ctx => nvgGlobalAlpha ctx alpha
  | .transform a b c d e f, ctx => nvgTransform ctx a b c d e f
  | .resetTransform, ctx => nvgResetTransform ctx
  | .translate x y, ctx => nvgTranslate ctx x y
  | .rotate angle, ctx => nvgRotate ex.cosf ex.sinf ctx angle
  | .skewX angle, ctx => nvgSkewX ex.tanf ctx angle
  | .skewY angle, ctx => nvgSkewY ex.tanf ctx angle
  | .scale x y, ctx => nvgScale ctx x y
  | .strokeColor color, ctx => nvgStrokeColor ctx color
  | .strokePaint paint, ctx => nvgStrokePaint ctx paint
  | .fillColor color, ctx => nvgFillColor ctx color
  | .fillPaint paint, ctx => nvgFillPaint ctx paint
  | .scissor x y w h, ctx => nvgScissor ctx x y w h
  | .intersectScissor x y w h, ctx => nvgIntersectScissor ctx x y w h
  | .resetScissor, ctx => nvgResetScissor ctx
  | .globalCompositeOperation op, ctx => nvgGlobalCompositeOperation ctx op
  | .globalCompositeBlendFunc s d, ctx => nvgGlobalCompositeBlendFunc ctx s d
  | .globalCompositeBlendFuncSeparate a b c d, ctx =>
    nvgGlobalCompositeBlendFuncSeparate ctx a b c d
  | .fontSize size, ctx => nvgFontSize ctx size
  | .fontBlur blur, ctx => nvgFontBlur ctx blur
  | .textLetterSpacing spacing, ctx => nvgTextLetterSpacing ctx spacing
  | .textLineHeight lineHeight, ctx => nvgTextLineHeight ctx lineHeight
  | .textAlign align, ctx => nvgTextAlign ctx align
  | .fontFaceId font, ctx => nvgFontFaceId ctx font
  | .fontFace font, ctx => nvgFontFace ex.fonsGetFontByName ctx font

/-- Runs a sequence of state-setting calls, first call first. -/
def runStateCalls (ex : Externals) (calls : List StateCall) (ctx : NVGcontext) : NVGcontext :=
  calls.foldl (fun c call => call.run ex c) ctx

/-! ## Definitions for the statements of the pick scene theorems -/

/-- A scene that holds one pick path: it is record 0 of the store, its `next` is
`NULL`, and every quadtree cell is `NULL` or points to it. -/
def SingleScene (ps : NVGpickScene) (pp : NVGpickPath) : Prop :=
  ps.store = [pp] ∧ pp.next = none ∧ ∀ lvl idx, cellAt ps lvl idx = none ∨ cellAt ps lvl idx = some 0

/-- A pick scene as `nvg__pickBeginFrame` leaves it: five levels, every cell
`NULL`, no path. -/
def EmptyScene (ps : NVGpickScene) : Prop :=
  ps.nlevels = 5 ∧ ps.levels = List.replicate 342 none ∧ ps.store = [] ∧ ps.paths = none ∧
    ps.npaths = 0

/-- The record that `nvg__pickSceneInsert` stores for the first path of a frame. -/
def firstRecord (pp : NVGpickPath) : NVGpickPath :=
  { pp with cellnext := none, next := none, order := 0 }

/-- The variables of `nvgHitTest` before its loop. -/
def hitTestStart : HitTestVars := { bestOrder := -1, bestID := -1, hit := 0 }

/-- The pick scene of a context, if it has one, has five levels and, once its
cells are allocated, 342 of them: what `nvg__allocPickScene` and
`nvg__pickBeginFrame` establish. -/
def PickSceneOk (ctx : NVGcontext) : Prop :=
  ∀ ps, ctx.pickScene = some ps → ps.nlevels = 5 ∧ (ps.levels ≠ [] → ps.ncells = 342)

/-- The floats that `nvgRect(ctx, 0, 0, 10, 10)` records under the identity transform. -/
def rectCommands : List ℚ := [0, 0, 0, 1, 0, 10, 1, 10, 10, 1, 10, 0, 3]

/-- The pools and the pick path that `nvg__pickPathCreate` builds for the fill of
`rectCommands` under the state that `nvgReset` leaves. -/
def rectFill : NVGpickPools × NVGpickPath :=
  nvg__pickPathCreate sqrtfExact ⟨[], []⟩ rectCommands resetState 7 false

/-- The state of scenario S5: the state that `nvgReset` leaves, with stroke width 4
and round line caps. -/
def roundCapState : NVGstate := { { resetState with strokeWidth := 4 } with lineCap := NVG_ROUND }

/-- The floats that `nvgMoveTo(ctx, 0, 0); nvgLineTo(ctx, 100, 0)` record under the
identity transform. -/
def lineCommands : List ℚ := [0, 0, 0, 1, 100, 0]

/-- The pools and the pick path that `nvg__pickPathCreate` builds for the stroke of
`lineCommands` under `roundCapState`. -/
def lineStroke : NVGpickPools × NVGpickPath :=
  nvg__pickPathCreate sqrtfExact ⟨[], []⟩ lineCommands roundCapState 3 true

/-- Two contexts agree on what path construction reads: the command buffer, the
current state, and the pools of the pick scene. -/
def SameView (a b : NVGcontext) : Prop :=
  a.commands = b.commands ∧ nvg__getState a = nvg__getState b ∧
    (nvg__pickSceneGet a).pools = (nvg__pickSceneGet b).pools

/-- A frame on a fresh context, the closed representative of the frames of the
scenarios. -/
def refFrame : NVGcontext := nvgBeginFrame (nvgCreateInternal 0) 0 0 1

/-- The path of scenario S6 recorded on the context `c`. -/
def holePath (c : NVGcontext) : NVGcontext :=
  nvgPathWinding
    (nvgClosePath
      (nvgLineTo (nvgLineTo (nvgLineTo (nvgMoveTo (nvgRect (nvgBeginPath c) 0 0 10 10) 2 2) 8 2) 8 8)
        2 8))
    NVG_HOLE

/-- The ids of the registered paths that contain the point `(x, y)` for the flag
set `flags`, in the order of registration: the paths that pass the test
`nvgHitTestAll` makes of a path (bounds, scissor, then stroke or fill). -/
def containingIds (ctx : NVGcontext) (x y : ℚ) (flags : Nat) : List Int :=
  match ctx.pickScene with
  | none => []
  | some ps =>
    (ps.store.filter (fun pp => hitTestAllHit ps.pools x y flags pp)).map (fun pp => pp.id)

/-- A frame of 160 by 160 on a fresh context with the fill of `nvgRect(1, 1, 8, 8)`
registered under id 1. -/
def squareScene : NVGcontext :=
  nvgFillHitRegion sqrtfExact
    (nvgRect (nvgBeginPath (nvgBeginFrame (nvgCreateInternal 1) 160 160 1)) 1 1 8 8) 1

/-- The scene `squareScene` with a second fill registered under id 2: the triangle
(40, 0), (40, 40), (0, 40), whose bounds contain the square and whose interior
does not meet it. -/
def triangleScene : NVGcontext :=
  nvgFillHitRegion sqrtfExact
    (nvgClosePath
      (nvgLineTo (nvgLineTo (nvgMoveTo (nvgBeginPath squareScene) 40 0) 40 40) 0 40))
    2

/-- The scene `squareScene` with a second fill registered under id 2: the fill of
`nvgRect(0, 0, 15, 15)`, which contains the square. -/
def nestedScene : NVGcontext :=
  nvgFillHitRegion sqrtfExact (nvgRect (nvgBeginPath squareScene) 0 0 15 15) 2

/-! ## Arcs and rounded rectangles -/

/-- Source function `nvg__ptEquals`. -/
def nvg__ptEquals (x1 y1 x2 y2 tol : ℚ) : Int :=
  let dx := x2 - x1
  let dy := y2 - y1
  if dx * dx + dy * dy < tol * tol then 1 else 0

/-- Source function `nvg__distPtSeg`. -/
def nvg__distPtSeg (x y px py qx qy : ℚ) : ℚ :=
  let pqx := qx - px
  let pqy := qy - py
  let dx := x - px
  let dy := y - py
  let d := pqx * pqx + pqy * pqy
  let t := pqx * dx + pqy * dy
  let t := if d > 0 then t / d else t
  let t := if t < 0 then 0 else if t > 1 then 1 else t
  let dx := px + t * pqx - x
  let dy := py + t * pqy - y
  dx * dx + dy * dy

/-- The loop `while (da < 0.0f) da += NVG_PI*2` of `nvgArc`, `fuel` rounds at most. -/
def arcWrapUp : Nat → ℚ → ℚ
  | 0, da => da
  | fuel + 1, da => if da < 0 then arcWrapUp fuel (da + NVG_PI * 2) else da

/-- The loop `while (da > 0.0f) da -= NVG_PI*2` of `nvgArc`, `fuel` rounds at most. -/
def arcWrapDown : Nat → ℚ → ℚ
  | 0, da => da
  | fuel + 1, da => if da > 0 then arcWrapDown fuel (da - NVG_PI * 2) else da

/-- The part "Clamp angles" of `nvgArc`: the sweep `da`. The loops run when
`|da| < NVG_PI*2`, so one round brings `da` to the other side of 0. -/
def arcSweep (a0 a1 : ℚ) (dir : Int) : ℚ :=
  let da := a1 - a0
  if dir = NVG_CW then
    if nvg__absf da ≥ NVG_PI * 2 then NVG_PI * 2 else arcWrapUp 2 da
  else
    if nvg__absf da ≥ NVG_PI * 2 then -(NVG_PI * 2) else arcWrapDown 2 da

/-- The number `ndivs` of cubic segments that `nvgArc` computes for the sweep `da`. -/
def arcDivs (da : ℚ) : Int :=
  nvg__maxi 1 (nvg__mini (cInt (nvg__absf da / (NVG_PI * (1 / 2)) + 1 / 2)) 5)

/-- The variables that the loop of `nvgArc` carries from one round to the next;
`vals` holds the `nvals` floats written so far. -/
structure ArcVars where
  px : ℚ
  py : ℚ
  ptanx : ℚ
  ptany : ℚ
  vals : List ℚ

/-- One round of the loop `for (i = 0; i <= ndivs; i++)` of `nvgArc`. -/
def arcStep (cosf sinf : ℚ → ℚ) (cx cy r a0 da kappa : ℚ) (move ndivs : Int) (s : ArcVars)
    (i : Nat) : ArcVars :=
  let a := a0 + da * ((i : ℚ) / (ndivs : ℚ))
  let dx := cosf a
  let dy := sinf a
  let x := cx + dx * r
  let y := cy + dy * r
  let tanx := -dy * r * kappa
  let tany := dx * r * kappa
  let vals :=
    if i = 0 then s.vals ++ [(move : ℚ), x, y]
    else s.vals ++ [(NVG_BEZIERTO : ℚ), s.px + s.ptanx, s.py + s.ptany, x - tanx, y - tany, x, y]
  { px := x, py := y, ptanx := tanx, ptany := tany, vals := vals }

/-- The floats `vals` that `nvgArc` hands to `nvg__appendCommands`; `ncommands` is
the number of floats recorded before the call. `cosf` and `sinf` are libm's. -/
def arcVals (cosf sinf : ℚ → ℚ) (ncommands : Nat) (cx cy r a0 a1 : ℚ) (dir : Int) : List ℚ :=
  let move := if ncommands > 0 then NVG_LINETO else NVG_MOVETO
  let da := arcSweep a0 a1 dir
  let ndivs := arcDivs da
  let hda := (da / (ndivs : ℚ)) / 2
  let kappa := nvg__absf (4 / 3 * (1 - cosf hda) / sinf hda)
  let kappa := if dir = NVG_CCW then -kappa else kappa
  ((List.range (ndivs.toNat + 1)).foldl (arcStep cosf sinf cx cy r a0 da kappa move ndivs)
    { px := 0, py := 0, ptanx := 0, ptany := 0, vals := [] }).vals

/-- The functions of libm that `nvgArcTo` and `nvgArc` call. -/
structure ArcExternals where
  sqrtf : ℚ → ℚ
  cosf : ℚ → ℚ
  sinf : ℚ → ℚ
  tanf : ℚ → ℚ
  acosf : ℚ → ℚ
  atan2f : ℚ → ℚ → ℚ

/-- Source function `nvgRoundedRectVarying`. -/
def nvgRoundedRectVarying (ctx : NVGcontext)
    (x y w h radTopLeft radTopRight radBottomRight radBottomLeft : ℚ) : NVGcontext :=
  if radTopLeft < 1 / 10 ∧ radTopRight < 1 / 10 ∧ radBottomRight < 1 / 10 ∧
      radBottomLeft < 1 / 10 then
    nvgRect ctx x y w h
  else
    let halfw := nvg__absf w * (1 / 2)
    let halfh := nvg__absf h * (1 / 2)
    let rxBL := nvg__minf radBottomLeft halfw * nvg__signf w
    let ryBL := nvg__minf radBottomLeft halfh * nvg__signf h
    let rxBR := nvg__minf radBottomRight halfw * nvg__signf w
    let ryBR := nvg__minf radBottomRight halfh * nvg__signf h
    let rxTR := nvg__minf radTopRight halfw * nvg__signf w
    let ryTR := nvg__minf radTopRight halfh * nvg__signf h
    let rxTL := nvg__minf radTopLeft halfw * nvg__signf w
    let ryTL := nvg__minf radTopLeft halfh * nvg__signf h
    nvg__appendCommands ctx
      [(NVG_MOVETO : ℚ), x, y + ryTL,
        (NVG_LINETO : ℚ), x, y + h - ryBL,
        (NVG_BEZIERTO : ℚ), x, y + h - ryBL * (1 - NVG_KAPPA90), x + rxBL * (1 - NVG_KAPPA90), y + h,
          x + rxBL, y + h,
        (NVG_LINETO : ℚ), x + w - rxBR, y + h,
        (NVG_BEZIERTO : ℚ), x + w - rxBR * (1 - NVG_KAPPA90), y + h, x + w,
          y + h - ryBR * (1 - NVG_KAPPA90), x + w, y + h - ryBR,
        (NVG_LINETO : ℚ), x + w, y + ryTR,
        (NVG_BEZIERTO : ℚ), x + w, y + ryTR * (1 - NVG_KAPPA90), x + w - rxTR * (1 - NVG_KAPPA90), y,
          x + w - rxTR, y,
        (NVG_LINETO : ℚ), x + rxTL, y,
        (NVG_BEZIERTO : ℚ), x + rxTL * (1 - NVG_KAPPA90), y, x, y + ryTL * (1 - NVG_KAPPA90), x,
          y + ryTL,
        (NVG_CLOSE : ℚ)]

/-- Source function `nvgRoundedRect`. -/
def nvgRoundedRect (ctx : NVGcontext) (x y w h r : ℚ) : NVGcontext :=
  nvgRoundedRectVarying ctx x y w h r r r r

/-! ## Path cache and flattening -/

/-- The point that `memset` leaves: every field 0. -/
def zeroPoint : NVGpoint := ⟨0, 0, 0, 0, 0, 0, 0, 0⟩

/-- The element `pts[i]` of a point array; a read outside the live elements
(undefined in C) yields the zero point. -/
def getPt (pts : List NVGpoint) (i : Nat) : NVGpoint := pts.getD i zeroPoint

/-- Source function `nvg__lastPath`: the last path of the cache, `none` for `NULL`. -/
def nvg__lastPath (cache : NVGpathCache) : Option NVGpath := cache.paths.getLast?

/-- Assignment through the pointer that `nvg__lastPath` returns. -/
def setLastPath (cache : NVGpathCache) (path : NVGpath) : NVGpathCache :=
  { cache with paths := cache.paths.set (cache.paths.length - 1) path }

/-- Source function `nvg__addPath`. -/
def nvg__addPath (cache : NVGpathCache) : NVGpathCache :=
  { cache with
    paths :=
      cache.paths ++
        [{ first := cache.points.length, count := 0, closed := 0, nbevel := 0, fill := [],
           stroke := [], winding := NVG_CCW, convex := 0 }] }

/-- Source function `nvg__lastPoint`: the last point of the cache, `none` for `NULL`. -/
def nvg__lastPoint (cache : NVGpathCache) : Option NVGpoint := cache.points.getLast?

/-- Source function `nvg__addPoint`; `distTol` is the field of the context. The
flags are stored in an `unsigned char`. -/
def nvg__addPoint (distTol : ℚ) (cache : NVGpathCache) (x y : ℚ) (flags : Nat) : NVGpathCache :=
  match nvg__lastPath cache with
  | none => cache
  | some path =>
    match (if path.count > 0 then nvg__lastPoint cache else none) with
    | some pt =>
      if nvg__ptEquals pt.x pt.y x y distTol ≠ 0 then
        { cache with
          points :=
            cache.points.set (cache.points.length - 1)
              { pt with flags := (pt.flags ||| flags) % 256 } }
      else
        setLastPath
          { cache with
            points := cache.points ++ [{ zeroPoint with x := x, y := y, flags := flags % 256 }] }
          { path with count := path.count + 1 }
    | none =>
      setLastPath
        { cache with
          points := cache.points ++ [{ zeroPoint with x := x, y := y, flags := flags % 256 }] }
        { path with count := path.count + 1 }

/-- Source function `nvg__closePath`. -/
def nvg__closePath (cache : NVGpathCache) : NVGpathCache :=
  match nvg__lastPath cache with
  | none => cache
  | some path => setLastPath cache { path with closed := 1 }

/-- Source function `nvg__pathWinding`. -/
def nvg__pathWinding (cache : NVGpathCache) (winding : Int) : NVGpathCache :=
  match nvg__lastPath cache with
  | none => cache
  | some path => setLastPath cache { path with winding := winding }

/-- Source function `nvg__getAverageScale`; `sqrtf` is libm's. -/
def nvg__getAverageScale (sqrtf : ℚ → ℚ) (t : Xform) : ℚ :=
  let sx := sqrtf (t.t0 * t.t0 + t.t2 * t.t2)
  let sy := sqrtf (t.t1 * t.t1 + t.t3 * t.t3)
  (sx + sy) * (1 / 2)

/-- Source function `nvg__triarea2`. -/
def nvg__triarea2 (ax ay bx by_ cx cy : ℚ) : ℚ :=
  let abx := bx - ax
  let aby := by_ - ay
  let acx := cx - ax
  let acy := cy - ay
  acx * aby - abx * acy

/-- Source function `nvg__polyArea` on the `npts` points that start at `pts[0]`. -/
def nvg__polyArea (pts : List NVGpoint) (npts : Nat) : ℚ :=
  ((List.range (npts - 2)).foldl
      (fun area k =>
        let a := getPt pts 0
        let b := getPt pts (k + 2 - 1)
        let c := getPt pts (k + 2)
        area + nvg__triarea2 a.x a.y b.x b.y c.x c.y)
      0) *
    (1 / 2)

/-- The loop `while (i < j)` of `nvg__polyReverse`, which swaps `pts[i]` and
`pts[j]`; `fuel` rounds at most. -/
def polyReverseLoop : Nat → List NVGpoint → Nat → Nat → List NVGpoint
  | 0, pts, _, _ => pts
  | fuel + 1, pts, i, j =>
    if i < j then
      polyReverseLoop fuel ((pts.set i (getPt pts j)).set j (getPt pts i)) (i + 1) (j - 1)
    else pts

/-- Source function `nvg__polyReverse` on the `npts` points that start at index
`first` of `points` (the C function receives `&points[first]`); for `npts = 0`
there is nothing to swap. -/
def nvg__polyReverse (points : List NVGpoint) (first npts : Nat) : List NVGpoint :=
  if npts = 0 then points else polyReverseLoop npts points first (first + npts - 1)

/-- Source function `nvg__tesselateBezier`, by recursion on `11 - level`: at
`levels = 0` the level is above 10 and the function returns. `tessTol` and
`distTol` are the fields of the context. -/
def nvg__tesselateBezier (tessTol distTol : ℚ) :
    Nat → NVGpathCache → ℚ → ℚ → ℚ → ℚ → ℚ → ℚ → ℚ → ℚ → Nat → NVGpathCache
  | 0, cache, _, _, _, _, _, _, _, _, _ => cache
  | levels + 1, cache, x1, y1, x2, y2, x3, y3, x4, y4, type =>
    let x12 := (x1 + x2) * (1 / 2)
    let y12 := (y1 + y2) * (1 / 2)
    let x23 := (x2 + x3) * (1 / 2)
    let y23 := (y2 + y3) * (1 / 2)
    let x34 := (x3 + x4) * (1 / 2)
    let y34 := (y3 + y4) * (1 / 2)
    let x123 := (x12 + x23) * (1 / 2)
    let y123 := (y12 + y23) * (1 / 2)
    let dx := x4 - x1
    let dy := y4 - y1
    let d2 := nvg__absf ((x2 - x4) * dy - (y2 - y4) * dx)
    let d3 := nvg__absf ((x3 - x4) * dy - (y3 - y4) * dx)
    if (d2 + d3) * (d2 + d3) < tessTol * (dx * dx + dy * dy) then
      nvg__addPoint distTol cache x4 y4 type
    else
      let x234 := (x23 + x34) * (1 / 2)
      let y234 := (y23 + y34) * (1 / 2)
      let x1234 := (x123 + x234) * (1 / 2)
      let y1234 := (y123 + y234) * (1 / 2)
      let cache1 :=
        nvg__tesselateBezier tessTol distTol levels cache x1 y1 x12 y12 x123 y123 x1234 y1234 0
      nvg__tesselateBezier tessTol distTol levels cache1 x1234 y1234 x234 y234 x34 y34 x4 y4 type

/-- One round of the loop `while (i < ctx->ncommands)` of `nvg__flattenPaths`:
the cache after the command at float index `i` and the index of the next one. A
read past the end of `commands` (a truncated record, undefined in C) yields 0. -/
def flattenCommand (tessTol distTol : ℚ) (commands : List ℚ) (i : Nat) (cache : NVGpathCache) :
    NVGpathCache × Nat :=
  let cmd := cInt (commands.getD i 0)
  if cmd = NVG_MOVETO then
    (nvg__addPoint distTol (nvg__addPath cache) (commands.getD (i + 1) 0) (commands.getD (i + 2) 0)
      NVG_PT_CORNER, i + 3)
  else if cmd = NVG_LINETO then
    (nvg__addPoint distTol cache (commands.getD (i + 1) 0) (commands.getD (i + 2) 0) NVG_PT_CORNER,
      i + 3)
  else if cmd = NVG_BEZIERTO then
    match nvg__lastPoint cache with
    | some last =>
      (nvg__tesselateBezier tessTol distTol 11 cache last.x last.y (commands.getD (i + 1) 0)
        (commands.getD (i + 2) 0) (commands.getD (i + 3) 0) (commands.getD (i + 4) 0)
        (commands.getD (i + 5) 0) (commands.getD (i + 6) 0) NVG_PT_CORNER, i + 7)
    | none => (cache, i + 7)
  else if cmd = NVG_CLOSE then (nvg__closePath cache, i + 1)
  else if cmd = NVG_WINDING then (nvg__pathWinding cache (cInt (commands.getD (i + 1) 0)), i + 2)
  else (cache, i + 1)

/-- The loop `while (i < ctx->ncommands)` of `nvg__flattenPaths`; every round
advances `i`, so `ncommands` rounds suffice. -/
def flattenCommandsLoop (tessTol distTol : ℚ) (commands : List ℚ) :
    Nat → Nat → NVGpathCache → NVGpathCache
  | 0, _, cache => cache
  | fuel + 1, i, cache =>
    if i < commands.length then
      let r := flattenCommand tessTol distTol commands i cache
      flattenCommandsLoop tessTol distTol commands fuel r.2 r.1
    else cache

/-- The variables of the loop `for(i = 0; i < path->count; i++)` of
`nvg__flattenPaths`: the points and bounds of the cache and the indices of `p0`
and `p1` in the points. -/
structure FlattenDirVars where
  points : List NVGpoint
  bounds : Bounds
  p0 : Nat
  p1 : Nat

/-- One round of the loop `for(i = 0; i < path->count; i++)` of
`nvg__flattenPaths`: direction and length of the segment from `p0` to `p1`, and
the bounds. `sqrtf` is libm's. -/
def flattenDirStep (sqrtf : ℚ → ℚ) (s : FlattenDirVars) : FlattenDirVars :=
  let p0 := getPt s.points s.p0
  let p1 := getPt s.points s.p1
  let n := nvg__normalize sqrtf (p1.x - p0.x) (p1.y - p0.y)
  { points := s.points.set s.p0 { p0 with dx := n.2.1, dy := n.2.2, len := n.1 }
    bounds :=
      ⟨nvg__minf s.bounds.b0 p0.x, nvg__minf s.bounds.b1 p0.y, nvg__maxf s.bounds.b2 p0.x,
        nvg__maxf s.bounds.b3 p0.y⟩
    p0 := s.p1
    p1 := s.p1 + 1 }

/-- The part "If the first and last points are the same, remove the last, mark
as closed path" of `nvg__flattenPaths`: the path after it. A path has a point
when the loop reaches it (its `NVG_MOVETO` added one), so `count - 1` is not
negative. -/
def flattenPathClose (distTol : ℚ) (points : List NVGpoint) (path : NVGpath) : NVGpath :=
  let p0 := getPt points (path.first + (path.count - 1))
  let p1 := getPt points path.first
  if nvg__ptEquals p0.x p0.y p1.x p1.y distTol ≠ 0 then
    { path with count := path.count - 1, closed := 1 }
  else path

/-- The part "Enforce winding" of `nvg__flattenPaths`: the points of the cache
after it. -/
def flattenPathWinding (points : List NVGpoint) (path : NVGpath) : List NVGpoint :=
  if path.count > 2 then
    let area := nvg__polyArea (points.drop path.first) path.count
    let pts1 :=
      if path.winding = NVG_CCW ∧ area < 0 then nvg__polyReverse points path.first path.count
      else points
    if path.winding = NVG_CW ∧ area > 0 then nvg__polyReverse pts1 path.first path.count
    else pts1
  else points

/-- The body of the loop `for (j = 0; j < cache->npaths; j++)` of
`nvg__flattenPaths` for the path of index `j`. -/
def flattenPath (sqrtf : ℚ → ℚ) (distTol : ℚ) (cache : NVGpathCache) (j : Nat) : NVGpathCache :=
  match cache.paths.get? j with
  | none => cache
  | some path =>
    let path1 := flattenPathClose distTol cache.points path
    let points1 := flattenPathWinding cache.points path1
    let s :=
      Nat.iterate (flattenDirStep sqrtf) path1.count
        { points := points1, bounds := cache.bounds, p0 := path1.first + (path1.count - 1),
          p1 := path1.first }
    { points := s.points, paths := cache.paths.set j path1, bounds := s.bounds }

/-- Source function `nvg__flattenPaths`; `commands`, `tessTol` and `distTol` are
the fields of the context, `cache` is `ctx->cache`. `sqrtf` is libm's. -/
def nvg__flattenPaths (sqrtf : ℚ → ℚ) (commands : List ℚ) (tessTol distTol : ℚ)
    (cache : NVGpathCache) : NVGpathCache :=
  if cache.npaths > 0 then cache
  else
    let cache1 := flattenCommandsLoop tessTol distTol commands commands.length 0 cache
    let cache2 := { cache1 with bounds := ⟨1000000, 1000000, -1000000, -1000000⟩ }
    (List.range cache2.paths.length).foldl (flattenPath sqrtf distTol) cache2

/-! ## Joins and fill expansion -/

/-- Source function `nvg__vset`: the vertex written. -/
def nvg__vset (x y u v : ℚ) : NVGvertex := ⟨x, y, u, v⟩

/-- Source function `nvg__chooseBevel`: the values written to `x0`, `y0`, `x1`, `y1`. -/
def nvg__chooseBevel (bevel : Nat) (p0 p1 : NVGpoint) (w : ℚ) : ℚ × ℚ × ℚ × ℚ :=
  if bevel ≠ 0 then
    (p1.x + p0.dy * w, p1.y - p0.dx * w, p1.x + p1.dy * w, p1.y - p1.dx * w)
  else
    (p1.x + p1.dmx * w, p1.y + p1.dmy * w, p1.x + p1.dmx * w, p1.y + p1.dmy * w)

/-- Source function `nvg__bevelJoin`: the vertices written from `dst` on. -/
def nvg__bevelJoin (p0 p1 : NVGpoint) (lw rw lu ru : ℚ) : List NVGvertex :=
  let dlx0 := p0.dy
  let dly0 := -p0.dx
  let dlx1 := p1.dy
  let dly1 := -p1.dx
  if p1.flags &&& NVG_PT_LEFT ≠ 0 then
    let l := nvg__chooseBevel (p1.flags &&& NVG_PR_INNERBEVEL) p0 p1 lw
    let lx0 := l.1
    let ly0 := l.2.1
    let lx1 := l.2.2.1
    let ly1 := l.2.2.2
    [nvg__vset lx0 ly0 lu 1, nvg__vset (p1.x - dlx0 * rw) (p1.y - dly0 * rw) ru 1] ++
      (if p1.flags &&& NVG_PT_BEVEL ≠ 0 then
        [nvg__vset lx0 ly0 lu 1, nvg__vset (p1.x - dlx0 * rw) (p1.y - dly0 * rw) ru 1,
          nvg__vset lx1 ly1 lu 1, nvg__vset (p1.x - dlx1 * rw) (p1.y - dly1 * rw) ru 1]
      else
        let rx0 := p1.x - p1.dmx * rw
        let ry0 := p1.y - p1.dmy * rw
        [nvg__vset p1.x p1.y (1 / 2) 1, nvg__vset (p1.x - dlx0 * rw) (p1.y - dly0 * rw) ru 1,
          nvg__vset rx0 ry0 ru 1, nvg__vset rx0 ry0 ru 1,
          nvg__vset p1.x p1.y (1 / 2) 1, nvg__vset (p1.x - dlx1 * rw) (p1.y - dly1 * rw) ru 1]) ++
      [nvg__vset lx1 ly1 lu 1, nvg__vset (p1.x - dlx1 * rw) (p1.y - dly1 * rw) ru 1]
  else
    let r := nvg__chooseBevel (p1.flags &&& NVG_PR_INNERBEVEL) p0 p1 (-rw)
    let rx0 := r.1
    let ry0 := r.2.1
    let rx1 := r.2.2.1
    let ry1 := r.2.2.2
    [nvg__vset (p1.x + dlx0 * lw) (p1.y + dly0 * lw) lu 1, nvg__vset rx0 ry0 ru 1] ++
      (if p1.flags &&& NVG_PT_BEVEL ≠ 0 then
        [nvg__vset (p1.x + dlx0 * lw) (p1.y + dly0 * lw) lu 1, nvg__vset rx0 ry0 ru 1,
          nvg__vset (p1.x + dlx1 * lw) (p1.y + dly1 * lw) lu 1, nvg__vset rx1 ry1 ru 1]
      else
        let lx0 := p1.x + p1.dmx * lw
        let ly0 := p1.y + p1.dmy * lw
        [nvg__vset (p1.x + dlx0 * lw) (p1.y + dly0 * lw) lu 1, nvg__vset p1.x p1.y (1 / 2) 1,
          nvg__vset lx0 ly0 lu 1, nvg__vset lx0 ly0 lu 1,
          nvg__vset (p1.x + dlx1 * lw) (p1.y + dly1 * lw) lu 1, nvg__vset p1.x p1.y (1 / 2) 1]) ++
      [nvg__vset (p1.x + dlx1 * lw) (p1.y + dly1 * lw) lu 1, nvg__vset rx1 ry1 ru 1]

/-- The variables of the loop `for (j = 0; j < path->count; j++)` of
`nvg__calculateJoins`: the points of the cache, the indices of `p0` and `p1` in
them, `nleft` and `path->nbevel`. -/
structure JoinVars where
  points : List NVGpoint
  p0 : Nat
  p1 : Nat
  nleft : Nat
  nbevel : Nat

/-- One round of the loop `for (j = 0; j < path->count; j++)` of
`nvg__calculateJoins`. -/
def calculateJoinStep (iw : ℚ) (lineJoin : Int) (miterLimit : ℚ) (s : JoinVars) : JoinVars :=
  let p0 := getPt s.points s.p0
  let p1 := getPt s.points s.p1
  let dlx0 := p0.dy
  let dly0 := -p0.dx
  let dlx1 := p1.dy
  let dly1 := -p1.dx
  let dmx := (dlx0 + dlx1) * (1 / 2)
  let dmy := (dly0 + dly1) * (1 / 2)
  let dmr2 := dmx * dmx + dmy * dmy
  let scale := if 1 / dmr2 > 600 then 600 else 1 / dmr2
  let dmx1 := if dmr2 > 1 / 1000000 then dmx * scale else dmx
  let dmy1 := if dmr2 > 1 / 1000000 then dmy * scale else dmy
  let flags0 := if p1.flags &&& NVG_PT_CORNER ≠ 0 then NVG_PT_CORNER else 0
  let cross := p1.dx * p0.dy - p0.dx * p1.dy
  let nleft := if cross > 0 then s.nleft + 1 else s.nleft
  let flags1 := if cross > 0 then flags0 ||| NVG_PT_LEFT else flags0
  let limit := nvg__maxf (101 / 100) (nvg__minf p0.len p1.len * iw)
  let flags2 := if dmr2 * limit * limit < 1 then flags1 ||| NVG_PR_INNERBEVEL else flags1
  let flags3 :=
    if flags2 &&& NVG_PT_CORNER ≠ 0 ∧
        (dmr2 * miterLimit * miterLimit < 1 ∨ lineJoin = NVG_BEVEL ∨ lineJoin = NVG_ROUND) then
      flags2 ||| NVG_PT_BEVEL
    else flags2
  let nbevel :=
    if flags3 &&& (NVG_PT_BEVEL ||| NVG_PR_INNERBEVEL) ≠ 0 then s.nbevel + 1 else s.nbevel
  { points := s.points.set s.p1 { p1 with dmx := dmx1, dmy := dmy1, flags := flags3 }
    p0 := s.p1
    p1 := s.p1 + 1
    nleft := nleft
    nbevel := nbevel }

/-- The body of the loop `for (i = 0; i < cache->npaths; i++)` of
`nvg__calculateJoins` for the path of index `i`. -/
def calculateJoinsPath (iw : ℚ) (lineJoin : Int) (miterLimit : ℚ) (cache : NVGpathCache)
    (i : Nat) : NVGpathCache :=
  match cache.paths.get? i with
  | none => cache
  | some path =>
    let s :=
      Nat.iterate (calculateJoinStep iw lineJoin miterLimit) path.count
        { points := cache.points, p0 := path.first + (path.count - 1), p1 := path.first,
          nleft := 0, nbevel := 0 }
    { cache with
      points := s.points
      paths :=
        cache.paths.set i
          { path with nbevel := s.nbevel, convex := if s.nleft = path.count then 1 else 0 } }

/-- Source function `nvg__calculateJoins` on the cache of the context. -/
def nvg__calculateJoins (cache : NVGpathCache) (w : ℚ) (lineJoin : Int) (miterLimit : ℚ) :
    NVGpathCache :=
  let iw := if w > 0 then 1 / w else 0
  (List.range cache.paths.length).foldl (calculateJoinsPath iw lineJoin miterLimit) cache

/-- The vertices that one round of the first loop of `nvg__expandFill` ("Calculate
shape vertices", with fringe) writes for the points `p0` and `p1`. -/
def expandFillShape (woff : ℚ) (p0 p1 : NVGpoint) : List NVGvertex :=
  if p1.flags &&& NVG_PT_BEVEL ≠ 0 then
    let dlx0 := p0.dy
    let dly0 := -p0.dx
    let dlx1 := p1.dy
    let dly1 := -p1.dx
    if p1.flags &&& NVG_PT_LEFT ≠ 0 then
      [nvg__vset (p1.x + p1.dmx * woff) (p1.y + p1.dmy * woff) (1 / 2) 1]
    else
      [nvg__vset (p1.x + dlx0 * woff) (p1.y + dly0 * woff) (1 / 2) 1,
        nvg__vset (p1.x + dlx1 * woff) (p1.y + dly1 * woff) (1 / 2) 1]
  else [nvg__vset (p1.x + p1.dmx * woff) (p1.y + p1.dmy * woff) (1 / 2) 1]

/-- The vertices that one round of the second loop of `nvg__expandFill`
("Calculate fringe") writes for the points `p0` and `p1`. -/
def expandFillFringe (lw rw lu ru : ℚ) (p0 p1 : NVGpoint) : List NVGvertex :=
  if p1.flags &&& (NVG_PT_BEVEL ||| NVG_PR_INNERBEVEL) ≠ 0 then nvg__bevelJoin p0 p1 lw rw lu ru
  else
    [nvg__vset (p1.x + p1.dmx * lw) (p1.y + p1.dmy * lw) lu 1,
      nvg__vset (p1.x - p1.dmx * rw) (p1.y - p1.dmy * rw) ru 1]

/-- The pairs `(p0, p1)` that the "Looping" rounds of `nvg__expandFill` visit for a
path: `p0` starts at `pts[count-1]` and `p1` at `pts[0]`, then `p0 = p1++`. -/
def loopPairs (points : List NVGpoint) (path : NVGpath) : List (NVGpoint × NVGpoint) :=
  (List.range path.count).map
    (fun j =>
      (getPt points (path.first + (if j = 0 then path.count - 1 else j - 1)),
        getPt points (path.first + j)))

/-- The body of the loop `for (i = 0; i < cache->npaths; i++)` of
`nvg__expandFill` for one path: the path with its fill and fringe strips. The
reads `verts[0]` and `verts[1]` of "Loop it" are the first two vertices of the
fringe strip. -/
def expandFillPath (points : List NVGpoint) (aa w : ℚ) (fringe convex : Bool) (path : NVGpath) :
    NVGpath :=
  let woff := (1 / 2) * aa
  let fill :=
    if fringe then ((loopPairs points path).map (fun p => expandFillShape woff p.1 p.2)).flatten
    else
      (List.range path.count).map
        (fun j => nvg__vset (getPt points (path.first + j)).x (getPt points (path.first + j)).y
          (1 / 2) 1)
  if fringe then
    let lw := if convex then woff else w + woff
    let rw := w - woff
    let lu := if convex then 1 / 2 else 0
    let ru := 1
    let strip := ((loopPairs points path).map (fun p => expandFillFringe lw rw lu ru p.1 p.2)).flatten
    let v0 := strip.getD 0 ⟨0, 0, 0, 0⟩
    let v1 := strip.getD 1 ⟨0, 0, 0, 0⟩
    { path with fill := fill, stroke := strip ++ [nvg__vset v0.x v0.y lu 1, nvg__vset v1.x v1.y ru 1] }
  else { path with fill := fill, stroke := [] }

/-- Source function `nvg__expandFill` on the cache of the context; `aa` is
`ctx->fringeWidth`. The vertex buffer is large enough by the count the function
makes (`cverts`), and its allocation succeeds. -/
def nvg__expandFill (cache : NVGpathCache) (aa w : ℚ) (lineJoin : Int) (miterLimit : ℚ) :
    NVGpathCache :=
  let fringe := decide (w > 0)
  let cache1 := nvg__calculateJoins cache w lineJoin miterLimit
  let convex := decide (cache1.npaths = 1 ∧ (cache1.paths.getD 0 ⟨0, 0, 0, 0, [], [], 0, 0⟩).convex ≠ 0)
  { cache1 with paths := cache1.paths.map (expandFillPath cache1.points aa w fringe convex) }

/-- The arguments of the call `ctx->params.renderFill(...)` that `nvgFill` makes:
the renderer is outside the repository. -/
structure RenderFillCall where
  paint : NVGpaint
  compositeOperation : NVGcompositeOperationState
  scissor : NVGscissor
  fringe : ℚ
  bounds : Bounds
  paths : List NVGpath

/-- Source function `nvgFill`: the context after the call and the arguments of
its call of `renderFill`. `sqrtf` is libm's. -/
def nvgFill (sqrtf : ℚ → ℚ) (ctx : NVGcontext) : NVGcontext × RenderFillCall :=
  let state := nvg__getState ctx
  let cache1 := nvg__flattenPaths sqrtf ctx.commands ctx.tessTol ctx.distTol ctx.cache
  let cache2 :=
    if ctx.edgeAntiAlias ≠ 0 ∧ state.shapeAntiAlias ≠ 0 then
      nvg__expandFill cache1 ctx.fringeWidth ctx.fringeWidth NVG_MITER (24 / 10)
    else nvg__expandFill cache1 ctx.fringeWidth 0 NVG_MITER (24 / 10)
  let fillPaint :=
    { state.fill with
      innerColor := { state.fill.innerColor with a := state.fill.innerColor.a * state.alpha }
      outerColor := { state.fill.outerColor with a := state.fill.outerColor.a * state.alpha } }
  ({ ctx with
      cache := cache2
      fillTriCount :=
        cache2.paths.foldl
          (fun n path => n + ((path.fill.length : Int) - 2) + ((path.stroke.length : Int) - 2))
          ctx.fillTriCount
      drawCallCount := cache2.paths.foldl (fun n _ => n + 2) ctx.drawCallCount },
    { paint := fillPaint
      compositeOperation := state.compositeOperation
      scissor := state.scissor
      fringe := ctx.fringeWidth
      bounds := cache2.bounds
      paths := cache2.paths })

/-! ## Stroke expansion -/

/-- Source function `nvg__curveDivs`; `acosf` is libm's, and `ceilf` is exact. -/
def nvg__curveDivs (acosf : ℚ → ℚ) (r arc tol : ℚ) : Int :=
  let da := acosf (r / (r + tol)) * 2
  nvg__maxi 2 (cInt ((⌈arc / da⌉ : Int) : ℚ))

/-- Source function `nvg__roundJoin`: the vertices written from `dst` on. `cosf`,
`sinf` and `atan2f` are libm's; the parameter `fringe` of the source is unused. -/
def nvg__roundJoin (cosf sinf : ℚ → ℚ) (atan2f : ℚ → ℚ → ℚ) (p0 p1 : NVGpoint)
    (lw rw lu ru : ℚ) (ncap : Int) : List NVGvertex :=
  let dlx0 := p0.dy
  let dly0 := -p0.dx
  let dlx1 := p1.dy
  let dly1 := -p1.dx
  if p1.flags &&& NVG_PT_LEFT ≠ 0 then
    let l := nvg__chooseBevel (p1.flags &&& NVG_PR_INNERBEVEL) p0 p1 lw
    let lx0 := l.1
    let ly0 := l.2.1
    let lx1 := l.2.2.1
    let ly1 := l.2.2.2
    let a0 := atan2f (-dly0) (-dlx0)
    let a1 := atan2f (-dly1) (-dlx1)
    let a1 := if a1 > a0 then a1 - NVG_PI * 2 else a1
    let n := nvg__clampi (cInt ((⌈((a0 - a1) / NVG_PI) * (ncap : ℚ)⌉ : Int) : ℚ)) 2 ncap
    [nvg__vset lx0 ly0 lu 1, nvg__vset (p1.x - dlx0 * rw) (p1.y - dly0 * rw) ru 1] ++
      ((List.range n.toNat).map
        (fun (i : Nat) =>
          let u := (i : ℚ) / ((n - 1 : Int) : ℚ)
          let a := a0 + u * (a1 - a0)
          let rx := p1.x + cosf a * rw
          let ry := p1.y + sinf a * rw
          [nvg__vset p1.x p1.y (1 / 2) 1, nvg__vset rx ry ru 1])).flatten ++
      [nvg__vset lx1 ly1 lu 1, nvg__vset (p1.x - dlx1 * rw) (p1.y - dly1 * rw) ru 1]
  else
    let r := nvg__chooseBevel (p1.flags &&& NVG_PR_INNERBEVEL) p0 p1 (-rw)
    let rx0 := r.1
    let ry0 := r.2.1
    let rx1 := r.2.2.1
    let ry1 := r.2.2.2
    let a0 := atan2f dly0 dlx0
    let a1 := atan2f dly1 dlx1
    let a1 := if a1 < a0 then a1 + NVG_PI * 2 else a1
    let n := nvg__clampi (cInt ((⌈((a1 - a0) / NVG_PI) * (ncap : ℚ)⌉ : Int) : ℚ)) 2 ncap
    [nvg__vset (p1.x + dlx0 * rw) (p1.y + dly0 * rw) lu 1, nvg__vset rx0 ry0 ru 1] ++
      ((List.range n.toNat).map
        (fun (i : Nat) =>
          let u := (i : ℚ) / ((n - 1 : Int) : ℚ)
          let a := a0 + u * (a1 - a0)
          let lx := p1.x + cosf a * lw
          let ly := p1.y + sinf a * lw
          [nvg__vset lx ly lu 1, nvg__vset p1.x p1.y (1 / 2) 1])).flatten ++
      [nvg__vset (p1.x + dlx1 * rw) (p1.y + dly1 * rw) lu 1, nvg__vset rx1 ry1 ru 1]

/-- Source function `nvg__buttCapStart`: the vertices written from `dst` on. -/
def nvg__buttCapStart (p : NVGpoint) (dx dy w d aa u0 u1 : ℚ) : List NVGvertex :=
  let px := p.x - dx * d
  let py := p.y - dy * d
  let dlx := dy
  let dly := -dx
  [nvg__vset (px + dlx * w - dx * aa) (py + dly * w - dy * aa) u0 0,
    nvg__vset (px - dlx * w - dx * aa) (py - dly * w - dy * aa) u1 0,
    nvg__vset (px + dlx * w) (py + dly * w) u0 1,
    nvg__vset (px - dlx * w) (py - dly * w) u1 1]

/-- Source function `nvg__buttCapEnd`: the vertices written from `dst` on. -/
def nvg__buttCapEnd (p : NVGpoint) (dx dy w d aa u0 u1 : ℚ) : List NVGvertex :=
  let px := p.x + dx * d
  let py := p.y + dy * d
  let dlx := dy
  let dly := -dx
  [nvg__vset (px + dlx * w) (py + dly * w) u0 1,
    nvg__vset (px - dlx * w) (py - dly * w) u1 1,
    nvg__vset (px + dlx * w + dx * aa) (py + dly * w + dy * aa) u0 0,
    nvg__vset (px - dlx * w + dx * aa) (py - dly * w + dy * aa) u1 0]

/-- Source function `nvg__roundCapStart`: the vertices written from `dst` on.
`cosf` and `sinf` are libm's; the parameter `aa` of the source is unused. -/
def nvg__roundCapStart (cosf sinf : ℚ → ℚ) (p : NVGpoint) (dx dy w : ℚ) (ncap : Int)
    (u0 u1 : ℚ) : List NVGvertex :=
  let px := p.x
  let py := p.y
  let dlx := dy
  let dly := -dx
  ((List.range ncap.toNat).map
      (fun (i : Nat) =>
        let a := (i : ℚ) / ((ncap - 1 : Int) : ℚ) * NVG_PI
        let ax := cosf a * w
        let ay := sinf a * w
        [nvg__vset (px - dlx * ax - dx * ay) (py - dly * ax - dy * ay) u0 1,
          nvg__vset px py (1 / 2) 1])).flatten ++
    [nvg__vset (px + dlx * w) (py + dly * w) u0 1, nvg__vset (px - dlx * w) (py - dly * w) u1 1]

/-- Source function `nvg__roundCapEnd`: the vertices written from `dst` on. `cosf`
and `sinf` are libm's; the parameter `aa` of the source is unused. -/
def nvg__roundCapEnd (cosf sinf : ℚ → ℚ) (p : NVGpoint) (dx dy w : ℚ) (ncap : Int)
    (u0 u1 : ℚ) : List NVGvertex :=
  let px := p.x
  let py := p.y
  let dlx := dy
  let dly := -dx
  [nvg__vset (px + dlx * w) (py + dly * w) u0 1, nvg__vset (px - dlx * w) (py - dly * w) u1 1] ++
    ((List.range ncap.toNat).map
      (fun (i : Nat) =>
        let a := (i : ℚ) / ((ncap - 1 : Int) : ℚ) * NVG_PI
        let ax := cosf a * w
        let ay := sinf a * w
        [nvg__vset px py (1 / 2) 1,
          nvg__vset (px - dlx * ax + dx * ay) (py - dly * ax + dy * ay) u0 1])).flatten

/-- The vertices that one round of the loop `for (j = s; j < e; ++j)` of
`nvg__expandStroke` writes for the points `p0` and `p1`. -/
def expandStrokeJoin (ex : ArcExternals) (w u0 u1 : ℚ) (lineJoin ncap : Int) (p0 p1 : NVGpoint) :
    List NVGvertex :=
  if p1.flags &&& (NVG_PT_BEVEL ||| NVG_PR_INNERBEVEL) ≠ 0 then
    if lineJoin = NVG_ROUND then
      nvg__roundJoin ex.cosf ex.sinf ex.atan2f p0 p1 w w u0 u1 ncap
    else nvg__bevelJoin p0 p1 w w u0 u1
  else
    [nvg__vset (p1.x + p1.dmx * w) (p1.y + p1.dmy * w) u0 1,
      nvg__vset (p1.x - p1.dmx * w) (p1.y - p1.dmy * w) u1 1]

/-- The first part "Add cap" of `nvg__expandStroke` for an open path: the vertices
of the start cap at `p0`, in the direction from `p0` to `p1`. -/
def expandStrokeCapStart (ex : ArcExternals) (w aa u0 u1 : ℚ) (lineCap ncap : Int)
    (p0 p1 : NVGpoint) : List NVGvertex :=
  let n := nvg__normalize ex.sqrtf (p1.x - p0.x) (p1.y - p0.y)
  let dx := n.2.1
  let dy := n.2.2
  if lineCap = NVG_BUTT then nvg__buttCapStart p0 dx dy w (-aa * (1 / 2)) aa u0 u1
  else if lineCap = NVG_BUTT ∨ lineCap = NVG_SQUARE then
    nvg__buttCapStart p0 dx dy w (w - aa) aa u0 u1
  else if lineCap = NVG_ROUND then nvg__roundCapStart ex.cosf ex.sinf p0 dx dy w ncap u0 u1
  else []

/-- The last part "Add cap" of `nvg__expandStroke` for an open path: the vertices
of the end cap at `p1`, in the direction from `p0` to `p1`. -/
def expandStrokeCapEnd (ex : ArcExternals) (w aa u0 u1 : ℚ) (lineCap ncap : Int)
    (p0 p1 : NVGpoint) : List NVGvertex :=
  let n := nvg__normalize ex.sqrtf (p1.x - p0.x) (p1.y - p0.y)
  let dx := n.2.1
  let dy := n.2.2
  if lineCap = NVG_BUTT then nvg__buttCapEnd p1 dx dy w (-aa * (1 / 2)) aa u0 u1
  else if lineCap = NVG_BUTT ∨ lineCap = NVG_SQUARE then
    nvg__buttCapEnd p1 dx dy w (w - aa) aa u0 u1
  else if lineCap = NVG_ROUND then nvg__roundCapEnd ex.cosf ex.sinf p1 dx dy w ncap u0 u1
  else []

/-- The body of the second loop `for (i = 0; i < cache->npaths; i++)` of
`nvg__expandStroke` for one path: the path with its stroke strip. A closed path
takes the rounds `j = 0 .. count - 1` from `p0 = pts[count-1]`, `p1 = pts[0]`,
and "Loop it" reads the first two vertices of the strip (zeros stand for the
floats the buffer held before, which a path without points reads). An open
path takes the rounds `j = 1 .. count - 2` from `p0 = pts[0]`, `p1 = pts[1]`,
so round `k` of them joins `pts[k]` and `pts[k+1]`, and the end cap sees
`p0 = pts[n]`, `p1 = pts[n+1]` after the `n` rounds. -/
def expandStrokePath (ex : ArcExternals) (points : List NVGpoint) (w aa u0 u1 : ℚ)
    (lineCap lineJoin ncap : Int) (path : NVGpath) : NVGpath :=
  if path.closed ≠ 0 then
    let strip :=
      ((loopPairs points path).map
        (fun p => expandStrokeJoin ex w u0 u1 lineJoin ncap p.1 p.2)).flatten
    let v0 := strip.getD 0 ⟨0, 0, 0, 0⟩
    let v1 := strip.getD 1 ⟨0, 0, 0, 0⟩
    { path with fill := [], stroke := strip ++ [nvg__vset v0.x v0.y u0 1, nvg__vset v1.x v1.y u1 1] }
  else
    let pts := fun (k : Nat) => getPt points (path.first + k)
    let n := path.count - 1 - 1
    let joins :=
      ((List.range n).map
        (fun k => expandStrokeJoin ex w u0 u1 lineJoin ncap (pts k) (pts (k + 1)))).flatten
    { path with
      fill := []
      stroke :=
        expandStrokeCapStart ex w aa u0 u1 lineCap ncap (pts 0) (pts 1) ++ joins ++
          expandStrokeCapEnd ex w aa u0 u1 lineCap ncap (pts n) (pts (n + 1)) }

/-- The loop "Calculate max vertex usage" of `nvg__expandStroke`: the count
`cverts` that the function passes to `nvg__allocTempVerts`, for the paths that
`nvg__calculateJoins` left (`int` arithmetic without overflow). -/
def expandStrokeCverts (paths : List NVGpath) (lineCap lineJoin ncap : Int) : Int :=
  paths.foldl
    (fun (cverts : Int) (path : NVGpath) =>
      let c1 :=
        if lineJoin = NVG_ROUND then
          cverts + ((path.count : Int) + (path.nbevel : Int) * (ncap + 2) + 1) * 2
        else cverts + ((path.count : Int) + (path.nbevel : Int) * 5 + 1) * 2
      if path.closed = 0 then
        if lineCap = NVG_ROUND then c1 + (ncap * 2 + 2) * 2 else c1 + (3 + 3) * 2
      else c1)
    0

/-- Source function `nvg__expandStroke` on the cache of the context; `tessTol` is
the field of the context. The vertex buffer holds the `cverts` vertices that
`expandStrokeCverts` counts, and its allocation succeeds. -/
def nvg__expandStroke (ex : ArcExternals) (cache : NVGpathCache) (tessTol w fringe : ℚ)
    (lineCap lineJoin : Int) (miterLimit : ℚ) : NVGpathCache :=
  let aa := fringe
  let ncap := nvg__curveDivs ex.acosf w NVG_PI tessTol
  let w1 := w + aa * (1 / 2)
  let u0 : ℚ := if aa = 0 then 1 / 2 else 0
  let u1 : ℚ := if aa = 0 then 1 / 2 else 1
  let cache1 := nvg__calculateJoins cache w1 lineJoin miterLimit
  { cache1 with
    paths := cache1.paths.map (expandStrokePath ex cache1.points w1 aa u0 u1 lineCap lineJoin ncap) }

/-- The loop "Calculate max vertex usage" of `nvg__expandFill`: the count `cverts`
that the function passes to `nvg__allocTempVerts`, for the paths that
`nvg__calculateJoins` left (`int` arithmetic without overflow). -/
def expandFillCverts (paths : List NVGpath) (fringe : Bool) : Int :=
  paths.foldl
    (fun (cverts : Int) (path : NVGpath) =>
      let c1 := cverts + ((path.count : Int) + (path.nbevel : Int) + 1)
      if fringe then c1 + ((path.count : Int) + (path.nbevel : Int) * 5 + 1) * 2 else c1)
    0

/-- The arguments of the call `ctx->params.renderStroke(...)` that `nvgStroke`
makes: the renderer is outside the repository. -/
structure RenderStrokeCall where
  paint : NVGpaint
  compositeOperation : NVGcompositeOperationState
  scissor : NVGscissor
  fringe : ℚ
  strokeWidth : ℚ
  paths : List NVGpath

/-- Source function `nvgStroke`: the context after the call and the arguments of
its call of `renderStroke`. The functions of `ex` are libm's. -/
def nvgStroke (ex : ArcExternals) (ctx : NVGcontext) : NVGcontext × RenderStrokeCall :=
  let state := nvg__getState ctx
  let scale := nvg__getAverageScale ex.sqrtf state.xform
  let strokeWidth0 := nvg__clampf (state.strokeWidth * scale) 0 200
  let alpha := nvg__clampf (strokeWidth0 / ctx.fringeWidth) 0 1
  let paint1 : NVGpaint :=
    if strokeWidth0 < ctx.fringeWidth then
      { state.stroke with
        innerColor := { state.stroke.innerColor with a := state.stroke.innerColor.a * (alpha * alpha) }
        outerColor := { state.stroke.outerColor with a := state.stroke.outerColor.a * (alpha * alpha) } }
    else state.stroke
  let strokeWidth := if strokeWidth0 < ctx.fringeWidth then ctx.fringeWidth else strokeWidth0
  let strokePaint : NVGpaint :=
    { paint1 with
      innerColor := { paint1.innerColor with a := paint1.innerColor.a * state.alpha }
      outerColor := { paint1.outerColor with a := paint1.outerColor.a * state.alpha } }
  let cache1 := nvg__flattenPaths ex.sqrtf ctx.commands ctx.tessTol ctx.distTol ctx.cache
  let cache2 :=
    if ctx.edgeAntiAlias ≠ 0 ∧ state.shapeAntiAlias ≠ 0 then
      nvg__expandStroke ex cache1 ctx.tessTol (strokeWidth * (1 / 2)) ctx.fringeWidth state.lineCap
        state.lineJoin state.miterLimit
    else
      nvg__expandStroke ex cache1 ctx.tessTol (strokeWidth * (1 / 2)) 0 state.lineCap
        state.lineJoin state.miterLimit
  ({ ctx with
      cache := cache2
      strokeTriCount :=
        cache2.paths.foldl (fun n path => n + ((path.stroke.length : Int) - 2)) ctx.strokeTriCount
      drawCallCount := cache2.paths.foldl (fun n _ => n + 1) ctx.drawCallCount },
    { paint := strokePaint
      compositeOperation := state.compositeOperation
      scissor := state.scissor
      fringe := ctx.fringeWidth
      strokeWidth := strokeWidth
      paths := cache2.paths })

/-! ## Definitions for the statements of the path theorems -/

/-- The context after `nvgBeginPath`, `nvgRect(10, 10, 100, 50)` and `nvgFill` in
a frame of 320 by 240 on a fresh context. -/
def filledFrame : NVGcontext :=
  (nvgFill sqrtfExact
    (nvgRect (nvgBeginPath (nvgBeginFrame (nvgCreateInternal 1) 320 240 1)) 10 10 100 50)).1

/-- The floats that `nvgRect(ctx, 10, 10, 100, 50)` records under the identity
transform. -/
def s1Commands : List ℚ := [0, 10, 10, 1, 10, 60, 1, 110, 60, 1, 110, 10, 3]

/-- The path cache after `nvg__flattenPaths` and `nvg__expandFill` on `s1Commands`
from an empty cache, with the tolerances and the fringe width of a device pixel
ratio of 1 and a fringe of the width `fringeWidth`. -/
def s1Cache : NVGpathCache :=
  nvg__expandFill
    (nvg__flattenPaths sqrtfExact s1Commands (1 / 4) (1 / 100) ⟨[], [], ⟨0, 0, 0, 0⟩⟩) 1 1
    NVG_MITER (24 / 10)

/-- The rectangle `(x, y, w, h)` of the current scissor in the current user space,
as `nvgIntersectScissor` computes it in its part "Transform the current scissor
rect into current transform space": centre minus extent, and twice the extent. -/
def scissorUserRect (ctx : NVGcontext) : ℚ × ℚ × ℚ × ℚ :=
  let state := nvg__getState ctx
  let ex := state.scissor.extent0
  let ey := state.scissor.extent1
  let invxorm := (nvgTransformInverse state.xform).2
  let pxform := nvgTransformMultiply state.scissor.xform invxorm
  let tex := ex * nvg__absf pxform.t0 + ey * nvg__absf pxform.t2
  let tey := ex * nvg__absf pxform.t1 + ey * nvg__absf pxform.t3
  (pxform.t4 - tex, pxform.t5 - tey, tex * 2, tey * 2)

/-- The rectangle `r` is contained in the rectangle `a`; both are given as
`(x, y, w, h)` and stand for the points from `(x, y)` to `(x + w, y + h)`. -/
def RectInside (r a : ℚ × ℚ × ℚ × ℚ) : Prop :=
  a.1 ≤ r.1 ∧ a.2.1 ≤ r.2.1 ∧ r.1 + r.2.2.1 ≤ a.1 + a.2.2.1 ∧ r.2.1 + r.2.2.2 ≤ a.2.1 + a.2.2.2

/-- A context in a frame of 320 by 240 whose current transform scales by 1/10000
and then translates by (1000, 1000): its determinant is 1/100000000. -/
def tinyScaleFrame : NVGcontext :=
  nvgScale (nvgTranslate (nvgBeginFrame (nvgCreateInternal 1) 320 240 1) 1000 1000) (1 / 10000)
    (1 / 10000)

/-- The coordinates of the point `pts[first + k]`. -/
def xyAt (pts : List NVGpoint) (first k : Nat) : ℚ × ℚ :=
  ((getPt pts (first + k)).x, (getPt pts (first + k)).y)

/-- The cross product `b.x * a.y - a.x * b.y` of two points of the plane. -/
def cross2 (a b : ℚ × ℚ) : ℚ := b.1 * a.2 - a.1 * b.2

/-- The sum of the cross products of the consecutive points `f 0`, ..., `f (n - 1)`,
`f 0` of a closed polygon (twice its signed area by the shoelace formula). -/
def shoelace (f : Nat → ℚ × ℚ) (n : Nat) : ℚ :=
  (Finset.range (n - 1)).sum (fun i => cross2 (f i) (f (i + 1))) + cross2 (f (n - 1)) (f 0)

/-- The winding of a flattened path agrees with the sign of its area: with more
than two points, `nvg__polyArea` over the stored points of the path is not
negative for the winding `NVG_CCW` and not positive for the winding `NVG_CW`. -/
def WindingOk (points : List NVGpoint) (path : NVGpath) : Prop :=
  path.count > 2 →
    (path.winding = NVG_CCW → 0 ≤ nvg__polyArea (points.drop path.first) path.count) ∧
      (path.winding = NVG_CW → nvg__polyArea (points.drop path.first) path.count ≤ 0)

/-- The paths lie one after the other in the `npoints` points of a cache: the
points of a path end before those of every later path begin, and within the
points of the cache. -/
def PathsTiled (paths : List NVGpath) (npoints : Nat) : Prop :=
  (∀ (i j : Nat) (p q : NVGpath), i < j → paths[i]? = some p → paths[j]? = some q → p.first + p.count ≤ q.first) ∧
    ∀ (i : Nat) (p : NVGpath), paths[i]? = some p → p.first + p.count ≤ npoints

/-- The floats that `nvgMoveTo(10, 10)`, `nvgLineTo(110, 10)`, `nvgLineTo(110, 60)`,
`nvgLineTo(10, 60)` and `nvgClosePath` record under the identity transform: a
rectangle whose points run against the winding `NVG_CCW`. -/
def clockwiseCommands : List ℚ := [0, 10, 10, 1, 110, 10, 1, 110, 60, 1, 10, 60, 3]

/-! ## Definitions for the statements of the stroke, order and tessellator theorems -/

/-- The functions of libm with `sqrtf` exact and the others absent (constant 0):
the strokes with butt caps and miter joins do not call them. -/
def sqrtOnly : ArcExternals :=
  { sqrtf := sqrtfExact, cosf := fun _ => 0, sinf := fun _ => 0, tanf := fun _ => 0,
    acosf := fun _ => 0, atan2f := fun _ _ => 0 }

/-- The floats that `nvgMoveTo(ctx, 0, 0); nvgLineTo(ctx, 100, 0)` record under the
identity transform (the buffer `lineCommands`), flattened from an empty cache
and expanded to a stroke of half width 5 with the fringe 1, butt caps and miter
joins of limit 10, with the tolerances of a device pixel ratio of 1. -/
def s2Cache : NVGpathCache :=
  nvg__expandStroke sqrtOnly
    (nvg__flattenPaths sqrtfExact lineCommands (1 / 4) (1 / 100) ⟨[], [], ⟨0, 0, 0, 0⟩⟩) (1 / 4) 5 1
    NVG_BUTT NVG_MITER 10

/-- The calls of scenario S2 before the stroke, on the context `c`:
`nvgStrokeWidth(10)`, `nvgLineCap(NVG_BUTT)`, `nvgBeginPath`, `nvgMoveTo(0, 0)` and
`nvgLineTo(100, 0)`. -/
def s2Path (c : NVGcontext) : NVGcontext :=
  nvgLineTo (nvgMoveTo (nvgBeginPath (nvgLineCap (nvgStrokeWidth c 10) NVG_BUTT)) 0 0) 100 0

/-- The state of scenario S2: the state that `nvgReset` leaves, with stroke
width 10 and butt line caps. -/
def s2State : NVGstate := { { resetState with strokeWidth := 10 } with lineCap := NVG_BUTT }

/-- The width `s` of `nvgStroke`: `nvg__clampf(state->strokeWidth * scale, 0, 200)`
with `scale = nvg__getAverageScale(state->xform)`. -/
def scaledStrokeWidth (sqrtf : ℚ → ℚ) (ctx : NVGcontext) : ℚ :=
  nvg__clampf ((nvg__getState ctx).strokeWidth * nvg__getAverageScale sqrtf (nvg__getState ctx).xform)
    0 200

/-- A frame of 320 by 240 with device pixel ratio 1 on a fresh context with edge
anti-aliasing on, with the stroke width 1/2. -/
def thinFrame : NVGcontext :=
  nvgStrokeWidth (nvgBeginFrame (nvgCreateInternal 1) 320 240 1) (1 / 2)

/-- One registration of a hit region: what `nvgFillHitRegion` or
`nvgStrokeHitRegion` reads from the context at the call (the command buffer and
the current state), the id, and which of the two functions is called. -/
structure HitRegionCall where
  commands : List ℚ
  state : NVGstate
  id : Int
  forStroke : Bool

/-- The body that `nvgFillHitRegion` and `nvgStrokeHitRegion` share, on the pick
scene: `nvg__pickPathCreate` and `nvg__pickSceneInsert`. -/
def registerHitRegion (sqrtf : ℚ → ℚ) (ps : NVGpickScene) (r : HitRegionCall) : NVGpickScene :=
  nvg__pickSceneInsert
    { ps with pools := (nvg__pickPathCreate sqrtf ps.pools r.commands r.state r.id r.forStroke).1 }
    (nvg__pickPathCreate sqrtf ps.pools r.commands r.state r.id r.forStroke).2

/-- The `order` fields of the paths that the registrations `rs` record, one after
the other, in the frame that `nvg__pickBeginFrame` begins on `ctx`, in the order
of the registrations. -/
def frameOrders (sqrtf : ℚ → ℚ) (ctx : NVGcontext) (width height : Int)
    (rs : List HitRegionCall) : List Int :=
  (rs.foldl (registerHitRegion sqrtf)
    (nvg__pickSceneGet (nvg__pickBeginFrame ctx width height))).store.map (fun pp => pp.order)

/-- The calls `nvg__addPoint(ctx, x, y, flags)` that `nvg__tesselateBezier` makes,
in the order in which it makes them: the recursion of the source with each call
recorded as `(x, y, flags)` instead of made. `levels` is `11 - level`. -/
def tesselateCalls (tessTol : ℚ) : Nat → ℚ → ℚ → ℚ → ℚ → ℚ → ℚ → ℚ → ℚ → Nat → List (ℚ × ℚ × Nat)
  | 0, _, _, _, _, _, _, _, _, _ => []
  | levels + 1, x1, y1, x2, y2, x3, y3, x4, y4, type =>
    let x12 := (x1 + x2) * (1 / 2)
    let y12 := (y1 + y2) * (1 / 2)
    let x23 := (x2 + x3) * (1 / 2)
    let y23 := (y2 + y3) * (1 / 2)
    let x34 := (x3 + x4) * (1 / 2)
    let y34 := (y3 + y4) * (1 / 2)
    let x123 := (x12 + x23) * (1 / 2)
    let y123 := (y12 + y23) * (1 / 2)
    let dx := x4 - x1
    let dy := y4 - y1
    let d2 := nvg__absf ((x2 - x4) * dy - (y2 - y4) * dx)
    let d3 := nvg__absf ((x3 - x4) * dy - (y3 - y4) * dx)
    if (d2 + d3) * (d2 + d3) < tessTol * (dx * dx + dy * dy) then [(x4, y4, type)]
    else
      let x234 := (x23 + x34) * (1 / 2)
      let y234 := (y23 + y34) * (1 / 2)
      let x1234 := (x123 + x234) * (1 / 2)
      let y1234 := (y123 + y234) * (1 / 2)
      tesselateCalls tessTol levels x1 y1 x12 y12 x123 y123 x1234 y1234 0 ++
        tesselateCalls tessTol levels x1234 y1234 x234 y234 x34 y34 x4 y4 type

/-- The cubic of a call of `nvg__tesselateBezier` passes or one of the cubics of
the chain of its second recursive calls (the last halves, which keep the far
endpoint and the type) passes the flatness test `(d2 + d3)^2 < tessTol * (dx^2 +
dy^2)` before the level exceeds 10. `levels` is `11 - level`. -/
def lastHalfFlat (tessTol : ℚ) : Nat → ℚ → ℚ → ℚ → ℚ → ℚ → ℚ → ℚ → ℚ → Bool
  | 0, _, _, _, _, _, _, _, _ => false
  | levels + 1, x1, y1, x2, y2, x3, y3, x4, y4 =>
    let x12 := (x1 + x2) * (1 / 2)
    let y12 := (y1 + y2) * (1 / 2)
    let x23 := (x2 + x3) * (1 / 2)
    let y23 := (y2 + y3) * (1 / 2)
    let x34 := (x3 + x4) * (1 / 2)
    let y34 := (y3 + y4) * (1 / 2)
    let x123 := (x12 + x23) * (1 / 2)
    let y123 := (y12 + y23) * (1 / 2)
    let dx := x4 - x1
    let dy := y4 - y1
    let d2 := nvg__absf ((x2 - x4) * dy - (y2 - y4) * dx)
    let d3 := nvg__absf ((x3 - x4) * dy - (y3 - y4) * dx)
    if (d2 + d3) * (d2 + d3) < tessTol * (dx * dx + dy * dy) then true
    else
      let x234 := (x23 + x34) * (1 / 2)
      let y234 := (y23 + y34) * (1 / 2)
      let x1234 := (x123 + x234) * (1 / 2)
      let y1234 := (y123 + y234) * (1 / 2)
      lastHalfFlat tessTol levels x1234 y1234 x234 y234 x34 y34 x4 y4

/-- The cache after `nvgBeginPath` and `nvgMoveTo(5, 5)` have been flattened: one
path with the point (5, 5). -/
def penCache : NVGpathCache :=
  nvg__addPoint (1 / 100) (nvg__addPath ⟨[], [], ⟨0, 0, 0, 0⟩⟩) 5 5 NVG_PT_CORNER

/-- The control points (0, 0), (1, 2), (2, 2), (3, 0) of a cubic: the cubic that
`nvgQuadTo(ctx, 1.5, 3, 3, 0)` records from the pen (0, 0). -/
def archCubic : List ℚ := [0, 0, 1, 2, 2, 2, 3, 0]

/-- The path `nvgBeginPath; nvgMoveTo(0, 0); nvgBezierTo(1, 2, 2, 2, 3, 0)` recorded
on the context `c`. -/
def archPath (c : NVGcontext) : NVGcontext :=
  nvgBezierTo (nvgMoveTo (nvgBeginPath c) 0 0) 1 2 2 2 3 0

/-- The squared distance of two stored points: the number that `nvg__ptEquals`
compares with `tol * tol`. -/
def dist2 (a b : NVGpoint) : ℚ := (b.x - a.x) * (b.x - a.x) + (b.y - a.y) * (b.y - a.y)

/-- Any two points stored consecutively in the path, at the indices `first + k`
and `first + k + 1` with `k + 1 < count`, are at squared distance at least
`distTol^2`. -/
def Separated (distTol : ℚ) (points : List NVGpoint) (path : NVGpath) : Prop :=
  ∀ k : Nat, k + 1 < path.count →
    distTol * distTol ≤ dist2 (getPt points (path.first + k)) (getPt points (path.first + k + 1))

/-- The state of the cache between two commands of the loop of
`nvg__flattenPaths`: the points of the last path end the points of the cache,
and every path is separated. -/
def SepInv (distTol : ℚ) (c : NVGpathCache) : Prop :=
  (∀ p : NVGpath, c.paths.getLast? = some p → p.first + p.count = c.points.length) ∧
    ∀ (i : Nat) (p : NVGpath), c.paths[i]? = some p → Separated distTol c.points p

/-- The test `(p1->flags & (NVG_PT_BEVEL | NVG_PR_INNERBEVEL)) != 0` of
`nvg__calculateJoins`, `nvg__expandStroke` and `nvg__expandFill` on a point. -/
def bevelFlagged (p : NVGpoint) : Bool :=
  decide (p.flags &&& (NVG_PT_BEVEL ||| NVG_PR_INNERBEVEL) ≠ 0)

/-- The number of the points `pts[0]`, ..., `pts[count - 1]` of a path (from the
index `first` of the points of the cache) on which that test holds. -/
def bevelCount (points : List NVGpoint) (first count : Nat) : Nat :=
  (List.range count).countP (fun j => bevelFlagged (getPt points (first + j)))

/-- The number of vertices that one round of the loop "Calculate max vertex
usage" of `nvg__expandStroke` adds to `cverts` for a path. -/
def strokePathCverts (lineCap lineJoin ncap : Int) (path : NVGpath) : Int :=
  (if lineJoin = NVG_ROUND then ((path.count : Int) + (path.nbevel : Int) * (ncap + 2) + 1) * 2
    else ((path.count : Int) + (path.nbevel : Int) * 5 + 1) * 2) +
    (if path.closed = 0 then (if lineCap = NVG_ROUND then (ncap * 2 + 2) * 2 else (3 + 3) * 2)
      else 0)

/-- The number of vertices that one round of the loop "Calculate max vertex
usage" of `nvg__expandFill` adds to `cverts` for a path. -/
def fillPathCverts (fringe : Bool) (path : NVGpath) : Int :=
  ((path.count : Int) + (path.nbevel : Int) + 1) +
    (if fringe then ((path.count : Int) + (path.nbevel : Int) * 5 + 1) * 2 else 0)

/-- The number of vertices that the paths hold in their fill and stroke strips:
what `nvg__expandStroke` or `nvg__expandFill` wrote to the vertex buffer. -/
def vertsWritten (paths : List NVGpath) : Int :=
  (paths.map (fun p => ((p.fill.length : Int) + (p.stroke.length : Int)))).sum

/-! ## Text scale -/

/-- Source function `nvg__quantize`. -/
def nvg__quantize (a d : ℚ) : ℚ := (cInt (a / d + 1 / 2) : ℚ) * d

/-- Source function `nvg__getFontScale`; `sqrtf` is libm's. -/
def nvg__getFontScale (sqrtf : ℚ → ℚ) (state : NVGstate) : ℚ :=
  nvg__minf (nvg__quantize (nvg__getAverageScale sqrtf state.xform) (1 / 100)) 4

/-- The local `scale` of `nvgText`, `nvgTextGlyphPositions`, `nvgTextBreakLines`,
`nvgTextBounds`, `nvgTextBoxBounds` and `nvgTextMetrics`:
`nvg__getFontScale(state) * ctx->devicePxRatio`. -/
def textScale (sqrtf : ℚ → ℚ) (ctx : NVGcontext) : ℚ :=
  nvg__getFontScale sqrtf (nvg__getState ctx) * ctx.devicePxRatio

/-! ## Definitions for the statements of the join, text scale and pick query theorems -/

/-- The left normal `(dlx, dly) = (dy, -dx)` that `nvg__calculateJoins` reads off
the direction of the edge leaving the point `p`. -/
def leftNormal (p : NVGpoint) : ℚ × ℚ := (p.dy, -p.dx)

/-- The dot product of two vectors. -/
def dot2 (a b : ℚ × ℚ) : ℚ := a.1 * b.1 + a.2 * b.2

/-- The value `dmr2` of `nvg__calculateJoins` for the edges leaving `p0` and `p1`:
the squared length of half the sum of their left normals. -/
def halfNormalSq (p0 p1 : NVGpoint) : ℚ :=
  dot2 (((leftNormal p0).1 + (leftNormal p1).1) * (1 / 2),
      ((leftNormal p0).2 + (leftNormal p1).2) * (1 / 2))
    (((leftNormal p0).1 + (leftNormal p1).1) * (1 / 2),
      ((leftNormal p0).2 + (leftNormal p1).2) * (1 / 2))

/-- A point array of two points, the first leaving along `(1, 0)` and the second
along `(0, 1)`. -/
def cornerPoints : List NVGpoint :=
  [⟨0, 0, 1, 0, 1, 0, 0, 0⟩, ⟨1, 0, 0, 1, 1, 0, 0, 0⟩]

/-- A frame begun with device pixel ratio 2 and then scaled by 4 on both axes. -/
def scaledFrame : NVGcontext := nvgScale (nvgBeginFrame (nvgCreateInternal 0) 100 100 2) 4 4

/-- A frame of 160 by 160 pixels begun on a fresh context. -/
def frame160 : NVGcontext := nvgBeginFrame (nvgCreateInternal 1) 160 160 1

/-- The frame `frame160` with the current path `nvgRect(ctx, 1, 1, 8, 8)`. -/
def rectPathFrame : NVGcontext := nvgRect (nvgBeginPath frame160) 1 1 8 8

/-- The frame `frame160` with stroke width 10, butt caps, the line join `join`
and the current path `nvgMoveTo(ctx, 0, 0); nvgLineTo(ctx, 30, 40)`, an open
path of one line segment of length 50 along the direction `(3/5, 4/5)`. -/
def slantedLineFrame (join : Int) : NVGcontext :=
  nvgLineTo
    (nvgMoveTo
      (nvgBeginPath (nvgLineJoin (nvgLineCap (nvgStrokeWidth frame160 10) NVG_BUTT) join)) 0 0)
    30 40

/-- The values of `levelwidth`, `cellx` and `celly` with which `nvgHitTestAll`
enters its loop over the levels. -/
def hitTestAllCells (ps : NVGpickScene) (x y : ℚ) : Int × Int × Int :=
  let levelwidth : Int := ((1 <<< (ps.nlevels - 1) : Nat) : Int)
  (levelwidth, nvg__clampi (cInt (x / ps.xdim)) 0 levelwidth,
    nvg__clampi (cInt (y / ps.ydim)) 0 levelwidth)

/-- The values of `levelwidth`, `cellx` and `celly` with which `nvgHitTest` enters
its loop over the levels. -/
def hitTestCells (ps : NVGpickScene) (x y : ℚ) : Int × Int × Int :=
  let levelwidth : Int := ((1 <<< (ps.nlevels - 1) : Nat) : Int)
  (levelwidth, nvg__clampi (cInt (x / ps.xdim)) 0 (levelwidth - 1),
    nvg__clampi (cInt (y / ps.ydim)) 0 (levelwidth - 1))

/-- The value of `level` in `nvg__pickSceneInsert` for the path `pp`, after the
test `if (level < 0) level = 0`. -/
def insertLevel (ps : NVGpickScene) (pp : NVGpickPath) : Int :=
  let base : Int := (ps.nlevels : Int) - 1
  let x0 := Int.xor (cInt (pp.bounds.b0 / ps.xdim)) (cInt (pp.bounds.b2 / ps.xdim))
  let x1 := Int.xor (cInt (pp.bounds.b1 / ps.ydim)) (cInt (pp.bounds.b3 / ps.ydim))
  let level0 := nvg__mini (base - nvg__countBitsUsed x0) (base - nvg__countBitsUsed x1)
  if level0 < 0 then 0 else level0

/-- The value of `levelshift` in `nvg__pickSceneInsert` for the path `pp`. -/
def insertShift (ps : NVGpickScene) (pp : NVGpickPath) : Nat :=
  (((ps.nlevels : Int) - insertLevel ps pp) - 1).toNat

/-- The values of `levelx` and `levely` in `nvg__pickSceneInsert` for the path `pp`. -/
def insertCell (ps : NVGpickScene) (pp : NVGpickPath) : Int × Int :=
  let levelwidth : Int := ((1 <<< (insertLevel ps pp).toNat : Nat) : Int)
  (nvg__clampi (cInt (pp.bounds.b2 / ps.xdim) >>> insertShift ps pp) 0 (levelwidth - 1),
    nvg__clampi (cInt (pp.bounds.b3 / ps.ydim) >>> insertShift ps pp) 0 (levelwidth - 1))

/-- The position in the block `ps->levels[0]` of the cell
`ps->levels[level][levely * levelwidth + levelx]` that `nvg__pickSceneInsert`
writes for the path `pp`. -/
def insertPos (ps : NVGpickScene) (pp : NVGpickPath) : Nat :=
  levelBase (insertLevel ps pp).toNat +
    ((insertCell ps pp).2 * ((1 <<< (insertLevel ps pp).toNat : Nat) : Int) +
      (insertCell ps pp).1).toNat

/-- The pick scene after the registrations `rs`, one after the other, in the
frame that `nvgBeginFrame` begins on `ctx`. -/
def frameScene (sqrtf : ℚ → ℚ) (ctx : NVGcontext) (w h r : ℚ) (rs : List HitRegionCall) :
    NVGpickScene :=
  rs.foldl (registerHitRegion sqrtf) (nvg__pickSceneGet (nvgBeginFrame ctx w h r))

/-- The pointers of the paths that the `while (pp)` loop of `nvgHitTest` examines
from the head `p`, in the order of the visits: the loop of `hitTestWalk` with
each examined path recorded. -/
def hitTestWalkVisits (ps : NVGpickScene) : Nat → Option Nat → List Nat
  | _, none => []
  | 0, some _ => []
  | fuel + 1, some p =>
    match ps.store.get? p with
    | none => []
    | some pp => p :: hitTestWalkVisits ps fuel pp.next

/-- The pointers of the paths that the loop over the levels of `nvgHitTest`
examines, in the order of the visits: the loop of `hitTestLevels` with each
examined path recorded. -/
def hitTestLevelsVisits (ps : NVGpickScene) : Nat → Int → Int → Int → List Nat
  | 0, _, _, _ => []
  | lvl + 1, cellx, celly, levelwidth =>
    hitTestWalkVisits ps ps.store.length (cellAt ps lvl (celly * levelwidth + cellx)) ++
      hitTestLevelsVisits ps lvl (cellx >>> (1 : Nat)) (celly >>> (1 : Nat))
        (levelwidth >>> (1 : Nat))

/-- The pointers of the paths that `nvgHitTest` examines for the query point
`(x, y)` on the scene `ps`, in the order of the visits. -/
def hitTestVisits (ps : NVGpickScene) (x y : ℚ) : List Nat :=
  hitTestLevelsVisits ps ps.nlevels (hitTestCells ps x y).2.1 (hitTestCells ps x y).2.2
    (hitTestCells ps x y).1

/-- The variables of `nvgHitTest` after the body of its `while (pp)` loop has run
on the paths of the pointers `l`, one after the other, from the variables `v`. -/
def visitAll (ps : NVGpickScene) (x y : ℚ) (flags : Nat) (l : List Nat) (v : HitTestVars) :
    HitTestVars :=
  l.foldl
    (fun v q =>
      match ps.store.get? q with
      | some pp => hitTestVisit ps.pools x y flags pp v
      | none => v)
    v

/-- The four cell coordinates `(int)(pp->bounds[i] / ps->xdim)` and
`(int)(pp->bounds[i] / ps->ydim)` that `nvg__pickSceneInsert` computes for the
path `pp` are values of the type `int`, so that the four casts are defined. -/
def CellsAreInts (ps : NVGpickScene) (pp : NVGpickPath) : Prop :=
  (-2147483648 ≤ cInt (pp.bounds.b0 / ps.xdim) ∧ cInt (pp.bounds.b0 / ps.xdim) < 2147483648) ∧
    (-2147483648 ≤ cInt (pp.bounds.b1 / ps.ydim) ∧ cInt (pp.bounds.b1 / ps.ydim) < 2147483648) ∧
    (-2147483648 ≤ cInt (pp.bounds.b2 / ps.xdim) ∧ cInt (pp.bounds.b2 / ps.xdim) < 2147483648) ∧
    (-2147483648 ≤ cInt (pp.bounds.b3 / ps.ydim) ∧ cInt (pp.bounds.b3 / ps.ydim) < 2147483648)

/-- The shape of the pick scene during a frame: five levels in a block of 342
cells; `paths` is the last path stored; the `next` link of each stored path is
the path stored just before it; every cell holds `NULL` or a stored path; and the
cell that `nvg__pickSceneInsert` chose for a stored path holds that path or one
stored after it. -/
def SceneLinked (ps : NVGpickScene) : Prop :=
  ps.nlevels = 5 ∧ ps.levels.length = 342 ∧
    ps.paths = (if ps.store.length = 0 then none else some (ps.store.length - 1)) ∧
    (∀ k r, ps.store.get? k = some r → r.next = if k = 0 then none else some (k - 1)) ∧
    (∀ i h, ps.levels.getD i none = some h → h < ps.store.length) ∧
    (∀ k r, ps.store.get? k = some r →
      ∃ h, ps.levels.getD (insertPos ps r) none = some h ∧ k ≤ h)

/-! ## Rounding of floating-point operations

The definitions above compute in exact rational arithmetic. The definitions with
the suffix `_fl` below embed the same source functions with every operation on
`float` operands rounded once by a parameter `fl` (and with `fd` where the source
computes in `double`): each C operation yields a value of its type, without
contraction of a product and a sum into one fused operation and without excess
precision. A theorem about them for every `fl` holds for the rounding of the
machine. `f32` and `f64` are the roundings to nearest of IEEE 754, ties to even.
The values are rationals: a run in which an operation overflows or produces a
NaN has no counterpart here. Constants that are `float` values (`0.5f`, `3.0f`,
`1e6f`) stand unrounded. -/

/-- The power `2 ^ e` for an integer exponent. -/
def pow2 (e : Int) : ℚ :=
  if 0 ≤ e then ((2 ^ e.toNat : Nat) : ℚ) else 1 / ((2 ^ (-e).toNat : Nat) : ℚ)

/-- The exponent of a positive number: the integer `e` with `2 ^ e ≤ q < 2 ^ (e + 1)`. -/
def floorLog2 (q : ℚ) : Int :=
  let e0 : Int := (bitLength 4096 q.num.toNat : Int) - (bitLength 4096 q.den : Int)
  if pow2 e0 ≤ q then e0 else e0 - 1

/-- The multiple of `quantum` nearest to `q ≥ 0`, the even one of the two in a tie. -/
def roundToQuantum (q quantum : ℚ) : ℚ :=
  let n : Int := ⌊q / quantum⌋
  let r : ℚ := q / quantum - n
  if r < 1 / 2 then n * quantum
  else if r > 1 / 2 then (n + 1) * quantum
  else if n % 2 = 0 then n * quantum
  else (n + 1) * quantum

/-- Rounding to the nearest value of an IEEE 754 binary format with a significand
of `p` bits and least normal exponent `emin`, ties to even, with gradual
underflow. Overflow is not represented: a result beyond the largest finite value
stays finite; infinities and NaN have no counterpart. -/
def roundBinary (p : Nat) (emin : Int) (q : ℚ) : ℚ :=
  if q = 0 then 0
  else if q < 0 then
    -(roundToQuantum (-q) (pow2 (max (floorLog2 (-q)) emin - ((p : Int) - 1))))
  else roundToQuantum q (pow2 (max (floorLog2 q) emin - ((p : Int) - 1)))

/-- Rounding to the type `float` (IEEE 754 binary32). -/
def f32 (q : ℚ) : ℚ := roundBinary 24 (-126) q

/-- Rounding to the type `double` (IEEE 754 binary64). -/
def f64 (q : ℚ) : ℚ := roundBinary 53 (-1022) q

/-- The values of the list are left as they are by the rounding `fl`: none of
the operations whose exact results the list holds rounds. -/
def NoRounding (fl : ℚ → ℚ) (vals : List ℚ) : Prop := ∀ v ∈ vals, fl v = v

/-- Source function `nvgTransformPoint` with every `float` operation rounded by
`fl`: the pair written to `dx`, `dy`. -/
def nvgTransformPoint_fl (fl : ℚ → ℚ) (t : Xform) (sx sy : ℚ) : ℚ × ℚ :=
  (fl (fl (fl (sx * t.t0) + fl (sy * t.t2)) + t.t4),
    fl (fl (fl (sx * t.t1) + fl (sy * t.t3)) + t.t5))

/-- Source function `nvgTransformMultiply` with every `float` operation rounded
by `fl`: the new value of `t`. -/
def nvgTransformMultiply_fl (fl : ℚ → ℚ) (t s : Xform) : Xform :=
  let t0 := fl (fl (t.t0 * s.t0) + fl (t.t1 * s.t2))
  let t2 := fl (fl (t.t2 * s.t0) + fl (t.t3 * s.t2))
  let t4 := fl (fl (fl (t.t4 * s.t0) + fl (t.t5 * s.t2)) + s.t4)
  { t0 := t0
    t1 := fl (fl (t.t0 * s.t1) + fl (t.t1 * s.t3))
    t2 := t2
    t3 := fl (fl (t.t2 * s.t1) + fl (t.t3 * s.t3))
    t4 := t4
    t5 := fl (fl (fl (t.t4 * s.t1) + fl (t.t5 * s.t3)) + s.t5) }

/-- Source function `nvgTransformPremultiply` with every `float` operation
rounded by `fl`: the new value of `t`. -/
def nvgTransformPremultiply_fl (fl : ℚ → ℚ) (t s : Xform) : Xform :=
  nvgTransformMultiply_fl fl s t

/-- Source function `nvgTransform` with every `float` operation rounded by `fl`. -/
def nvgTransform_fl (fl : ℚ → ℚ) (ctx : NVGcontext) (a b c d e f : ℚ) : NVGcontext :=
  let state := nvg__getState ctx
  setState ctx { state with xform := nvgTransformPremultiply_fl fl state.xform ⟨a, b, c, d, e, f⟩ }

/-- Source function `nvgTranslate` with every `float` operation rounded by `fl`. -/
def nvgTranslate_fl (fl : ℚ → ℚ) (ctx : NVGcontext) (x y : ℚ) : NVGcontext :=
  let state := nvg__getState ctx
  setState ctx
    { state with xform := nvgTransformPremultiply_fl fl state.xform (nvgTransformTranslate x y) }

/-- Source function `nvgRotate` with every `float` operation rounded by `fl`;
`cosf` and `sinf` are libm's. -/
def nvgRotate_fl (fl : ℚ → ℚ) (cosf sinf : ℚ → ℚ) (ctx : NVGcontext) (angle : ℚ) : NVGcontext :=
  let state := nvg__getState ctx
  setState ctx
    { state with
      xform := nvgTransformPremultiply_fl fl state.xform (nvgTransformRotate cosf sinf angle) }

/-- Source function `nvgSkewX` with every `float` operation rounded by `fl`;
`tanf` is libm's. -/
def nvgSkewX_fl (fl : ℚ → ℚ) (tanf : ℚ → ℚ) (ctx : NVGcontext) (angle : ℚ) : NVGcontext :=
  let state := nvg__getState ctx
  setState ctx
    { state with xform := nvgTransformPremultiply_fl fl state.xform (nvgTransformSkewX tanf angle) }

/-- Source function `nvgSkewY` with every `float` operation rounded by `fl`;
`tanf` is libm's. -/
def nvgSkewY_fl (fl : ℚ → ℚ) (tanf : ℚ → ℚ) (ctx : NVGcontext) (angle : ℚ) : NVGcontext :=
  let state := nvg__getState ctx
  setState ctx
    { state with xform := nvgTransformPremultiply_fl fl state.xform (nvgTransformSkewY tanf angle) }

/-- Source function `nvgScale` with every `float` operation rounded by `fl`. -/
def nvgScale_fl (fl : ℚ → ℚ) (ctx : NVGcontext) (x y : ℚ) : NVGcontext :=
  let state := nvg__getState ctx
  setState ctx
    { state with xform := nvgTransformPremultiply_fl fl state.xform (nvgTransformScale x y) }

/-- The exact results of the operations of `nvgTransformMultiply(t, s)`, in the
order of the source. -/
def transformMultiplyOps (t s : Xform) : List ℚ :=
  [t.t0 * s.t0, t.t1 * s.t2, t.t0 * s.t0 + t.t1 * s.t2,
    t.t2 * s.t0, t.t3 * s.t2, t.t2 * s.t0 + t.t3 * s.t2,
    t.t4 * s.t0, t.t5 * s.t2, t.t4 * s.t0 + t.t5 * s.t2, t.t4 * s.t0 + t.t5 * s.t2 + s.t4,
    t.t0 * s.t1, t.t1 * s.t3, t.t0 * s.t1 + t.t1 * s.t3,
    t.t2 * s.t1, t.t3 * s.t3, t.t2 * s.t1 + t.t3 * s.t3,
    t.t4 * s.t1, t.t5 * s.t3, t.t4 * s.t1 + t.t5 * s.t3, t.t4 * s.t1 + t.t5 * s.t3 + s.t5]

/-- The exact results of the operations of `nvgTransformPoint(dx, dy, t, sx, sy)`. -/
def transformPointOps (t : Xform) (sx sy : ℚ) : List ℚ :=
  [sx * t.t0, sy * t.t2, sx * t.t0 + sy * t.t2, sx * t.t0 + sy * t.t2 + t.t4,
    sx * t.t1, sy * t.t3, sx * t.t1 + sy * t.t3, sx * t.t1 + sy * t.t3 + t.t5]

/-- The exact results of the operations on the two sides of `T'(p) = T(M(p))`:
those of the product that `nvgTransformPremultiply(T, M)` computes, of the
product applied to `p`, of `M` applied to `p` and of `T` applied to `M(p)`. -/
def composeOps (t m : Xform) (px py : ℚ) : List ℚ :=
  transformMultiplyOps m t ++ transformPointOps (nvgTransformMultiply m t) px py ++
    transformPointOps m px py ++
    transformPointOps t (nvgTransformPoint m px py).1 (nvgTransformPoint m px py).2

/-- The transform `(0.3f, 0, 0, 0.3f, 0.1f, 0.1f)`. -/
def xformT : Xform := ⟨f32 (3 / 10), 0, 0, f32 (3 / 10), f32 (1 / 10), f32 (1 / 10)⟩

/-- The transform `(0.7f, 0, 0, 0.7f, 0.2f, 0.2f)`. -/
def xformM : Xform := ⟨f32 (7 / 10), 0, 0, f32 (7 / 10), f32 (2 / 10), f32 (2 / 10)⟩

/-- Source function `nvgTransformInverse` with every operation rounded: the
determinant, its inverse and the six products are computed in `double` (rounding
`fd`, the constant `1e-6` included) and each entry is then converted to `float`
(rounding `ff`). The return value and the matrix written to `inv`. -/
def nvgTransformInverse_fl (ff fd : ℚ → ℚ) (t : Xform) : Int × Xform :=
  let det := fd (fd (t.t0 * t.t3) - fd (t.t2 * t.t1))
  if det > -fd (1 / 1000000) ∧ det < fd (1 / 1000000) then (0, nvgTransformIdentity)
  else
    let invdet := fd (1 / det)
    (1, { t0 := ff (fd (t.t3 * invdet))
          t2 := ff (fd (-t.t2 * invdet))
          t4 := ff (fd (fd (fd (t.t2 * t.t5) - fd (t.t3 * t.t4)) * invdet))
          t1 := ff (fd (-t.t1 * invdet))
          t3 := ff (fd (t.t0 * invdet))
          t5 := ff (fd (fd (fd (t.t1 * t.t4) - fd (t.t0 * t.t5)) * invdet)) })

/-- The matrix of the exact values of the six entries that `nvgTransformInverse`
computes when it returns 1. -/
def transformInverseMatrix (t : Xform) : Xform :=
  { t0 := t.t3 * (1 / (t.t0 * t.t3 - t.t2 * t.t1))
    t2 := -t.t2 * (1 / (t.t0 * t.t3 - t.t2 * t.t1))
    t4 := (t.t2 * t.t5 - t.t3 * t.t4) * (1 / (t.t0 * t.t3 - t.t2 * t.t1))
    t1 := -t.t1 * (1 / (t.t0 * t.t3 - t.t2 * t.t1))
    t3 := t.t0 * (1 / (t.t0 * t.t3 - t.t2 * t.t1))
    t5 := (t.t1 * t.t4 - t.t0 * t.t5) * (1 / (t.t0 * t.t3 - t.t2 * t.t1)) }

/-- The exact results of the `double` operations of `nvgTransformInverse`, in the
order of the source. -/
def transformInverseOps (t : Xform) : List ℚ :=
  [t.t0 * t.t3, t.t2 * t.t1, t.t0 * t.t3 - t.t2 * t.t1, 1 / (t.t0 * t.t3 - t.t2 * t.t1),
    (transformInverseMatrix t).t0, (transformInverseMatrix t).t2,
    t.t2 * t.t5, t.t3 * t.t4, t.t2 * t.t5 - t.t3 * t.t4, (transformInverseMatrix t).t4,
    (transformInverseMatrix t).t1, (transformInverseMatrix t).t3,
    t.t1 * t.t4, t.t0 * t.t5, t.t1 * t.t4 - t.t0 * t.t5, (transformInverseMatrix t).t5]

/-- Source function `nvgScissor` with every `float` operation rounded by `fl`. -/
def nvgScissor_fl (fl : ℚ → ℚ) (ctx : NVGcontext) (x y w h : ℚ) : NVGcontext :=
  let state := nvg__getState ctx
  let w := nvg__maxf 0 w
  let h := nvg__maxf 0 h
  let sx : Xform :=
    { nvgTransformIdentity with t4 := fl (x + fl (w * (1 / 2))), t5 := fl (y + fl (h * (1 / 2))) }
  setState ctx
    { state with
      scissor :=
        { xform := nvgTransformMultiply_fl fl sx state.xform
          extent0 := fl (w * (1 / 2))
          extent1 := fl (h * (1 / 2)) } }

/-- Source function `nvg__isectRects` with every `float` operation rounded by
`fl`: the four floats written to `dst`. -/
def nvg__isectRects_fl (fl : ℚ → ℚ) (ax ay aw ah bx by_ bw bh : ℚ) : ℚ × ℚ × ℚ × ℚ :=
  let minx := nvg__maxf ax bx
  let miny := nvg__maxf ay by_
  let maxx := nvg__minf (fl (ax + aw)) (fl (bx + bw))
  let maxy := nvg__minf (fl (ay + ah)) (fl (by_ + bh))
  (minx, miny, nvg__maxf 0 (fl (maxx - minx)), nvg__maxf 0 (fl (maxy - miny)))

/-- Source function `nvgIntersectScissor` with every operation rounded: `ff`
rounds to `float`, `fd` to `double` (inside `nvgTransformInverse`). -/
def nvgIntersectScissor_fl (ff fd : ℚ → ℚ) (ctx : NVGcontext) (x y w h : ℚ) : NVGcontext :=
  let state := nvg__getState ctx
  if state.scissor.extent0 < 0 then nvgScissor_fl ff ctx x y w h
  else
    let ex := state.scissor.extent0
    let ey := state.scissor.extent1
    let invxorm := (nvgTransformInverse_fl ff fd state.xform).2
    let pxform := nvgTransformMultiply_fl ff state.scissor.xform invxorm
    let tex := ff (ff (ex * nvg__absf pxform.t0) + ff (ey * nvg__absf pxform.t2))
    let tey := ff (ff (ex * nvg__absf pxform.t1) + ff (ey * nvg__absf pxform.t3))
    let rect :=
      nvg__isectRects_fl ff (ff (pxform.t4 - tex)) (ff (pxform.t5 - tey)) (ff (tex * 2))
        (ff (tey * 2)) x y w h
    nvgScissor_fl ff ctx rect.1 rect.2.1 rect.2.2.1 rect.2.2.2

/-- The exact results of the `float` operations of `nvgScissor(ctx, x, y, w, h)`
under the current transform `t`. -/
def scissorOps (t : Xform) (x y w h : ℚ) : List ℚ :=
  [nvg__maxf 0 w * (1 / 2), x + nvg__maxf 0 w * (1 / 2), nvg__maxf 0 h * (1 / 2),
      y + nvg__maxf 0 h * (1 / 2)] ++
    transformMultiplyOps
      { nvgTransformIdentity with
        t4 := x + nvg__maxf 0 w * (1 / 2), t5 := y + nvg__maxf 0 h * (1 / 2) } t

/-- The exact results of the `float` operations of `nvg__isectRects`. -/
def isectRectsOps (ax ay aw ah bx by_ bw bh : ℚ) : List ℚ :=
  [ax + aw, bx + bw, ay + ah, by_ + bh,
    nvg__minf (ax + aw) (bx + bw) - nvg__maxf ax bx,
    nvg__minf (ay + ah) (by_ + bh) - nvg__maxf ay by_]

/-- The exact results of the `float` operations of
`nvgIntersectScissor(ctx, x, y, w, h)` on a context that has a scissor: the
conversions of the six entries of the inverse to `float`, the product of the
scissor transform with the inverse, the extents and the corner of the scissor in
user space, the intersection, and the call of `nvgScissor`. -/
def intersectScissorOps (ctx : NVGcontext) (x y w h : ℚ) : List ℚ :=
  let state := nvg__getState ctx
  let inv := transformInverseMatrix state.xform
  let p := nvgTransformMultiply state.scissor.xform inv
  let r := scissorUserRect ctx
  [inv.t0, inv.t1, inv.t2, inv.t3, inv.t4, inv.t5] ++
    transformMultiplyOps state.scissor.xform inv ++
    [state.scissor.extent0 * nvg__absf p.t0, state.scissor.extent1 * nvg__absf p.t2,
      state.scissor.extent0 * nvg__absf p.t0 + state.scissor.extent1 * nvg__absf p.t2,
      state.scissor.extent0 * nvg__absf p.t1, state.scissor.extent1 * nvg__absf p.t3,
      state.scissor.extent0 * nvg__absf p.t1 + state.scissor.extent1 * nvg__absf p.t3,
      r.1, r.2.1, r.2.2.1, r.2.2.2] ++
    isectRectsOps r.1 r.2.1 r.2.2.1 r.2.2.2 x y w h ++
    scissorOps state.xform (nvg__isectRects r.1 r.2.1 r.2.2.1 r.2.2.2 x y w h).1
      (nvg__isectRects r.1 r.2.1 r.2.2.1 r.2.2.2 x y w h).2.1
      (nvg__isectRects r.1 r.2.1 r.2.2.1 r.2.2.2 x y w h).2.2.1
      (nvg__isectRects r.1 r.2.1 r.2.2.1 r.2.2.2 x y w h).2.2.2

/-! ## Flattening with rounded operations

The functions of `nvg__flattenPaths` with every `float` operation rounded once
by `fl`. The constants `0.5f` and `1e6f` are floats and stand unrounded; `1e-6f`
is `fl (1 / 1000000)`. The functions that compute no float (`nvg__addPath`,
`nvg__closePath`, `nvg__pathWinding`, `nvg__polyReverse`) are those above. -/

/-- Source function `nvg__ptEquals` with every `float` operation rounded by `fl`. -/
def nvg__ptEquals_fl (fl : ℚ → ℚ) (x1 y1 x2 y2 tol : ℚ) : Int :=
  let dx := fl (x2 - x1)
  let dy := fl (y2 - y1)
  if fl (fl (dx * dx) + fl (dy * dy)) < fl (tol * tol) then 1 else 0

/-- Source function `nvg__normalize` with every `float` operation rounded by
`fl`; `sqrtf` is libm's and returns a float. -/
def nvg__normalize_fl (fl : ℚ → ℚ) (sqrtf : ℚ → ℚ) (x y : ℚ) : ℚ × ℚ × ℚ :=
  let d := sqrtf (fl (fl (x * x) + fl (y * y)))
  if d > fl (1 / 1000000) then
    let id := fl (1 / d)
    (d, fl (x * id), fl (y * id))
  else (d, x, y)

/-- Source function `nvg__addPoint` with the test of `nvg__ptEquals` rounded by
`fl`. -/
def nvg__addPoint_fl (fl : ℚ → ℚ) (distTol : ℚ) (cache : NVGpathCache) (x y : ℚ) (flags : Nat) :
    NVGpathCache :=
  match nvg__lastPath cache with
  | none => cache
  | some path =>
    match (if path.count > 0 then nvg__lastPoint cache else none) with
    | some pt =>
      if nvg__ptEquals_fl fl pt.x pt.y x y distTol ≠ 0 then
        { cache with
          points :=
            cache.points.set (cache.points.length - 1)
              { pt with flags := (pt.flags ||| flags) % 256 } }
      else
        setLastPath
          { cache with
            points := cache.points ++ [{ zeroPoint with x := x, y := y, flags := flags % 256 }] }
          { path with count := path.count + 1 }
    | none =>
      setLastPath
        { cache with
          points := cache.points ++ [{ zeroPoint with x := x, y := y, flags := flags % 256 }] }
        { path with count := path.count + 1 }

/-- Source function `nvg__triarea2` with every `float` operation rounded by `fl`. -/
def nvg__triarea2_fl (fl : ℚ → ℚ) (ax ay bx by_ cx cy : ℚ) : ℚ :=
  let abx := fl (bx - ax)
  let aby := fl (by_ - ay)
  let acx := fl (cx - ax)
  let acy := fl (cy - ay)
  fl (fl (acx * aby) - fl (abx * acy))

/-- Source function `nvg__polyArea` on the `npts` points that start at `pts[0]`,
with every `float` operation rounded by `fl`. -/
def nvg__polyArea_fl (fl : ℚ → ℚ) (pts : List NVGpoint) (npts : Nat) : ℚ :=
  fl
    (((List.range (npts - 2)).foldl
        (fun area k =>
          let a := getPt pts 0
          let b := getPt pts (k + 2 - 1)
          let c := getPt pts (k + 2)
          fl (area + nvg__triarea2_fl fl a.x a.y b.x b.y c.x c.y))
        0) *
      (1 / 2))

/-- Source function `nvg__tesselateBezier` with every `float` operation rounded
by `fl`, by recursion on `11 - level`. -/
def nvg__tesselateBezier_fl (fl : ℚ → ℚ) (tessTol distTol : ℚ) :
    Nat → NVGpathCache → ℚ → ℚ → ℚ → ℚ → ℚ → ℚ → ℚ → ℚ → Nat → NVGpathCache
  | 0, cache, _, _, _, _, _, _, _, _, _ => cache
  | levels + 1, cache, x1, y1, x2, y2, x3, y3, x4, y4, type =>
    let x12 := fl (fl (x1 + x2) * (1 / 2))
    let y12 := fl (fl (y1 + y2) * (1 / 2))
    let x23 := fl (fl (x2 + x3) * (1 / 2))
    let y23 := fl (fl (y2 + y3) * (1 / 2))
    let x34 := fl (fl (x3 + x4) * (1 / 2))
    let y34 := fl (fl (y3 + y4) * (1 / 2))
    let x123 := fl (fl (x12 + x23) * (1 / 2))
    let y123 := fl (fl (y12 + y23) * (1 / 2))
    let dx := fl (x4 - x1)
    let dy := fl (y4 - y1)
    let d2 := nvg__absf (fl (fl (fl (x2 - x4) * dy) - fl (fl (y2 - y4) * dx)))
    let d3 := nvg__absf (fl (fl (fl (x3 - x4) * dy) - fl (fl (y3 - y4) * dx)))
    if fl (fl (d2 + d3) * fl (d2 + d3)) < fl (tessTol * fl (fl (dx * dx) + fl (dy * dy))) then
      nvg__addPoint_fl fl distTol cache x4 y4 type
    else
      let x234 := fl (fl (x23 + x34) * (1 / 2))
      let y234 := fl (fl (y23 + y34) * (1 / 2))
      let x1234 := fl (fl (x123 + x234) * (1 / 2))
      let y1234 := fl (fl (y123 + y234) * (1 / 2))
      let cache1 :=
        nvg__tesselateBezier_fl fl tessTol distTol levels cache x1 y1 x12 y12 x123 y123 x1234
          y1234 0
      nvg__tesselateBezier_fl fl tessTol distTol levels cache1 x1234 y1234 x234 y234 x34 y34 x4
        y4 type

/-- One round of the loop `while (i < ctx->ncommands)` of `nvg__flattenPaths`
with the rounded `nvg__addPoint` and `nvg__tesselateBezier`. -/
def flattenCommand_fl (fl : ℚ → ℚ) (tessTol distTol : ℚ) (commands : List ℚ) (i : Nat)
    (cache : NVGpathCache) : NVGpathCache × Nat :=
  let cmd := cInt (commands.getD i 0)
  if cmd = NVG_MOVETO then
    (nvg__addPoint_fl fl distTol (nvg__addPath cache) (commands.getD (i + 1) 0)
      (commands.getD (i + 2) 0) NVG_PT_CORNER, i + 3)
  else if cmd = NVG_LINETO then
    (nvg__addPoint_fl fl distTol cache (commands.getD (i + 1) 0) (commands.getD (i + 2) 0)
      NVG_PT_CORNER, i + 3)
  else if cmd = NVG_BEZIERTO then
    match nvg__lastPoint cache with
    | some last =>
      (nvg__tesselateBezier_fl fl tessTol distTol 11 cache last.x last.y (commands.getD (i + 1) 0)
        (commands.getD (i + 2) 0) (commands.getD (i + 3) 0) (commands.getD (i + 4) 0)
        (commands.getD (i + 5) 0) (commands.getD (i + 6) 0) NVG_PT_CORNER, i + 7)
    | none => (cache, i + 7)
  else if cmd = NVG_CLOSE then (nvg__closePath cache, i + 1)
  else if cmd = NVG_WINDING then (nvg__pathWinding cache (cInt (commands.getD (i + 1) 0)), i + 2)
  else (cache, i + 1)

/-- The loop `while (i < ctx->ncommands)` of `nvg__flattenPaths` with the
rounded operations; every round advances `i`, so `ncommands` rounds suffice. -/
def flattenCommandsLoop_fl (fl : ℚ → ℚ) (tessTol distTol : ℚ) (commands : List ℚ) :
    Nat → Nat → NVGpathCache → NVGpathCache
  | 0, _, cache => cache
  | fuel + 1, i, cache =>
    if i < commands.length then
      let r := flattenCommand_fl fl tessTol distTol commands i cache
      flattenCommandsLoop_fl fl tessTol distTol commands fuel r.2 r.1
    else cache

/-- One round of the loop `for(i = 0; i < path->count; i++)` of
`nvg__flattenPaths` with every `float` operation rounded by `fl`. -/
def flattenDirStep_fl (fl : ℚ → ℚ) (sqrtf : ℚ → ℚ) (s : FlattenDirVars) : FlattenDirVars :=
  let p0 := getPt s.points s.p0
  let p1 := getPt s.points s.p1
  let n := nvg__normalize_fl fl sqrtf (fl (p1.x - p0.x)) (fl (p1.y - p0.y))
  { points := s.points.set s.p0 { p0 with dx := n.2.1, dy := n.2.2, len := n.1 }
    bounds :=
      ⟨nvg__minf s.bounds.b0 p0.x, nvg__minf s.bounds.b1 p0.y, nvg__maxf s.bounds.b2 p0.x,
        nvg__maxf s.bounds.b3 p0.y⟩
    p0 := s.p1
    p1 := s.p1 + 1 }

/-- The part "If the first and last points are the same, remove the last, mark
as closed path" of `nvg__flattenPaths` with the test of `nvg__ptEquals` rounded
by `fl`: the path after it. -/
def flattenPathClose_fl (fl : ℚ → ℚ) (distTol : ℚ) (points : List NVGpoint) (path : NVGpath) :
    NVGpath :=
  let p0 := getPt points (path.first + (path.count - 1))
  let p1 := getPt points path.first
  if nvg__ptEquals_fl fl p0.x p0.y p1.x p1.y distTol ≠ 0 then
    { path with count := path.count - 1, closed := 1 }
  else path

/-- The part "Enforce winding" of `nvg__flattenPaths` with the area of
`nvg__polyArea` rounded by `fl`: the points of the cache after it. -/
def flattenPathWinding_fl (fl : ℚ → ℚ) (points : List NVGpoint) (path : NVGpath) :
    List NVGpoint :=
  if path.count > 2 then
    let area := nvg__polyArea_fl fl (points.drop path.first) path.count
    let pts1 :=
      if path.winding = NVG_CCW ∧ area < 0 then nvg__polyReverse points path.first path.count
      else points
    if path.winding = NVG_CW ∧ area > 0 then nvg__polyReverse pts1 path.first path.count
    else pts1
  else points

/-- The body of the loop `for (j = 0; j < cache->npaths; j++)` of
`nvg__flattenPaths` for the path of index `j`, with the rounded operations. -/
def flattenPath_fl (fl : ℚ → ℚ) (sqrtf : ℚ → ℚ) (distTol : ℚ) (cache : NVGpathCache) (j : Nat) :
    NVGpathCache :=
  match cache.paths.get? j with
  | none => cache
  | some path =>
    let path1 := flattenPathClose_fl fl distTol cache.points path
    let points1 := flattenPathWinding_fl fl cache.points path1
    let s :=
      Nat.iterate (flattenDirStep_fl fl sqrtf) path1.count
        { points := points1, bounds := cache.bounds, p0 := path1.first + (path1.count - 1),
          p1 := path1.first }
    { points := s.points, paths := cache.paths.set j path1, bounds := s.bounds }

/-- Source function `nvg__flattenPaths` with every `float` operation rounded by
`fl`; `commands`, `tessTol` and `distTol` are the fields of the context, `cache`
is `ctx->cache`. `sqrtf` is libm's. -/
def nvg__flattenPaths_fl (fl : ℚ → ℚ) (sqrtf : ℚ → ℚ) (commands : List ℚ) (tessTol distTol : ℚ)
    (cache : NVGpathCache) : NVGpathCache :=
  if cache.npaths > 0 then cache
  else
    let cache1 := flattenCommandsLoop_fl fl tessTol distTol commands commands.length 0 cache
    let cache2 := { cache1 with bounds := ⟨1000000, 1000000, -1000000, -1000000⟩ }
    (List.range cache2.paths.length).foldl (flattenPath_fl fl sqrtf distTol) cache2

/-! ## Definitions for the statements about the rounded flattening -/

/-- Any two points stored consecutively in the path, at the indices `first + k`
and `first + k + 1` with `k + 1 < count`, fail the test of `nvg__ptEquals` as the
code computes it, with the operations rounded by `fl`. -/
def Separated_fl (fl : ℚ → ℚ) (distTol : ℚ) (points : List NVGpoint) (path : NVGpath) : Prop :=
  ∀ k : Nat, k + 1 < path.count →
    nvg__ptEquals_fl fl (getPt points (path.first + k)).x (getPt points (path.first + k)).y
      (getPt points (path.first + k + 1)).x (getPt points (path.first + k + 1)).y distTol = 0

/-- The state of the cache between two commands of the loop of the rounded
`nvg__flattenPaths`: the points of the last path end the points of the cache,
and every path is separated. -/
def SepInv_fl (fl : ℚ → ℚ) (distTol : ℚ) (c : NVGpathCache) : Prop :=
  (∀ p : NVGpath, c.paths.getLast? = some p → p.first + p.count = c.points.length) ∧
    ∀ (i : Nat) (p : NVGpath), c.paths[i]? = some p → Separated_fl fl distTol c.points p

/-- The winding of a path of more than two points agrees with the rounded area
of its stored order, or disagrees with that of the reverse of its stored order:
for `NVG_CCW` the area that `nvg__polyArea` computes over the stored points is
not negative or the area it computes over their reverse is negative, and the same
with the signs exchanged for `NVG_CW`. -/
def WindingOk_fl (fl : ℚ → ℚ) (points : List NVGpoint) (path : NVGpath) : Prop :=
  path.count > 2 →
    (path.winding = NVG_CCW →
      0 ≤ nvg__polyArea_fl fl (points.drop path.first) path.count ∨
        nvg__polyArea_fl fl ((nvg__polyReverse points path.first path.count).drop path.first)
          path.count < 0) ∧
      (path.winding = NVG_CW →
        nvg__polyArea_fl fl (points.drop path.first) path.count ≤ 0 ∨
          0 < nvg__polyArea_fl fl ((nvg__polyReverse points path.first path.count).drop path.first)
            path.count)

/-- The exact results of the operations of `nvg__ptEquals`, in the order of the
source. -/
def ptEqualsOps (x1 y1 x2 y2 tol : ℚ) : List ℚ :=
  [x2 - x1, y2 - y1, (x2 - x1) * (x2 - x1), (y2 - y1) * (y2 - y1),
    (x2 - x1) * (x2 - x1) + (y2 - y1) * (y2 - y1), tol * tol]

/-- The `float` 0.01f, the tolerance `distTol` at a device pixel ratio of 1. -/
def distTol1 : ℚ := 5368709 / 536870912

/-- The `float` 1e-27f, the tolerance `distTol` at a device pixel ratio of 1e25;
its square is below the smallest positive `float`. -/
def distTolTiny : ℚ := 5192297 / 5192296858534827628530496329220096

/-- The floats that `nvgMoveTo(0, 0)` and `nvgLineTo(x, y)` record under the
identity transform, for the floats `x = 2419751/268435456` (about 0.009014) and
`y = 4648551/1073741824` (about 0.004329): the squared distance of the two points
is below `distTol1^2`. -/
def nearCommands : List ℚ := [0, 0, 0, 1, 2419751 / 268435456, 4648551 / 1073741824]

/-- The floats that `nvgMoveTo(5, 5)` and `nvgLineTo(5, 5)` record under the
identity transform. -/
def samePointCommands : List ℚ := [0, 5, 5, 1, 5, 5]

theorem setState_nstates (ctx : NVGcontext) (s : NVGstate) :
    (setState ctx s).nstates = ctx.nstates := rfl

theorem setState_states_of_ne (ctx : NVGcontext) (s : NVGstate) (i : Nat)
    (h : i ≠ ctx.nstates - 1) : (setState ctx s).states i = ctx.states i := by
  simp [setState, Function.update, h]

theorem nvgScissor_eq_setState (ctx : NVGcontext) (x y w h : ℚ) :
    ∃ s, nvgScissor ctx x y w h = setState ctx s := ⟨_, rfl⟩

/-- Every state-setting call is an assignment to the current stack entry. -/
theorem StateCall.run_eq_setState (ex : Externals) (call : StateCall) (ctx : NVGcontext) :
    ∃ s, call.run ex ctx = setState ctx s := by
  cases call <;> first
    | exact ⟨_, rfl⟩
    | (simp only [StateCall.run, nvgIntersectScissor]
       split
       · exact ⟨_, rfl⟩
       · exact ⟨_, rfl⟩)

/-- A sequence of state-setting calls keeps the depth and every stack entry
other than the current one. -/
theorem runStateCalls_frame (ex : Externals) (calls : List StateCall) (ctx : NVGcontext) :
    (runStateCalls ex calls ctx).nstates = ctx.nstates ∧
      ∀ i, i ≠ ctx.nstates - 1 → (runStateCalls ex calls ctx).states i = ctx.states i := by
  induction calls generalizing ctx with
  | nil => exact ⟨rfl, fun _ _ => rfl⟩
  | cons call rest ih =>
    obtain ⟨s, hs⟩ := StateCall.run_eq_setState ex call ctx
    have h := ih (call.run ex ctx)
    simp only [runStateCalls, List.foldl_cons] at h ⊢
    rw [hs] at h ⊢
    refine ⟨h.1, fun i hi => ?_⟩
    rw [h.2 i (by simpa [setState_nstates] using hi)]
    exact setState_states_of_ne ctx s i hi

/-- C7: for a context of depth at least 1 and below 32 and any sequence of
state-setting calls, `nvgSave`, the calls, `nvgRestore` leave the current state
equal to the state that was current before `nvgSave`, leave the depth unchanged,
and leave every stack entry below the depth unchanged. -/
theorem save_calls_restore (ex : Externals) (ctx : NVGcontext) (calls : List StateCall)
    (h1 : 1 ≤ ctx.nstates) (h2 : ctx.nstates < NVG_MAX_STATES) :
    nvg__getState (nvgRestore (runStateCalls ex calls (nvgSave ctx))) = nvg__getState ctx ∧
      (nvgRestore (runStateCalls ex calls (nvgSave ctx))).nstates = ctx.nstates ∧
      ∀ i, i < ctx.nstates →
        (nvgRestore (runStateCalls ex calls (nvgSave ctx))).states i = ctx.states i := by
  have hsave_n : (nvgSave ctx).nstates = ctx.nstates + 1 := by
    simp [nvgSave, Nat.not_le.mpr h2]
  have hsave_s : ∀ i, i < ctx.nstates → (nvgSave ctx).states i = ctx.states i := by
    intro i hi
    have hne : i ≠ ctx.nstates := Nat.ne_of_lt hi
    have hpos : ctx.nstates > 0 := h1
    simp only [nvgSave, if_neg (Nat.not_le.mpr h2), if_pos hpos]
    exact Function.update_noteq hne _ _
  obtain ⟨hn, hs⟩ := runStateCalls_frame ex calls (nvgSave ctx)
  have hrest_n : (runStateCalls ex calls (nvgSave ctx)).nstates = ctx.nstates + 1 := by
    rw [hn, hsave_n]
  have hkeep : ∀ i, i < ctx.nstates →
      (nvgRestore (runStateCalls ex calls (nvgSave ctx))).states i = ctx.states i := by
    intro i hi
    have h3 : (nvgRestore (runStateCalls ex calls (nvgSave ctx))).states i =
        (runStateCalls ex calls (nvgSave ctx)).states i := by
      unfold nvgRestore
      split <;> rfl
    rw [h3, hs i (by rw [hsave_n]; omega), hsave_s i hi]
  have hdepth : (nvgRestore (runStateCalls ex calls (nvgSave ctx))).nstates = ctx.nstates := by
    unfold nvgRestore
    rw [if_neg (by rw [hrest_n]; omega)]
    simp [hrest_n]
  refine ⟨?_, hdepth, hkeep⟩
  unfold nvg__getState
  rw [hdepth]
  exact hkeep (ctx.nstates - 1) (by omega)

/-- C7, at the context that `nvgCreateInternal` returns, for the calls
`nvgStrokeWidth(ctx, 3)`, `nvgTranslate(ctx, 1, 2)`, `nvgScissor(ctx, 0, 0, 5, 5)`. -/
theorem save_calls_restore_witness :
    1 ≤ (nvgCreateInternal 1).nstates ∧ (nvgCreateInternal 1).nstates < NVG_MAX_STATES ∧
      nvg__getState
          (nvgRestore
            (runStateCalls ⟨fun _ => 1, fun _ => 0, fun _ => 0, fun _ => 0⟩
              [.strokeWidth 3, .translate 1 2, .scissor 0 0 5 5] (nvgSave (nvgCreateInternal 1)))) =
        nvg__getState (nvgCreateInternal 1) :=
  ⟨by decide, by decide,
    (save_calls_restore ⟨fun _ => 1, fun _ => 0, fun _ => 0, fun _ => 0⟩ (nvgCreateInternal 1)
      [.strokeWidth 3, .translate 1 2, .scissor 0 0 5 5] (by decide) (by decide)).1⟩

/-- C8: the depth is between 1 and 32 after `nvgCreateInternal` and after
`nvgBeginFrame`; `nvgSave`, `nvgRestore` and `nvgReset` keep it there; `nvgSave` at
depth 32 and `nvgRestore` at depth 1 return the context unchanged. -/
theorem nstates_bounds :
    (∀ e, 1 ≤ (nvgCreateInternal e).nstates ∧ (nvgCreateInternal e).nstates ≤ NVG_MAX_STATES) ∧
      (∀ ctx w h r, 1 ≤ (nvgBeginFrame ctx w h r).nstates ∧
        (nvgBeginFrame ctx w h r).nstates ≤ NVG_MAX_STATES) ∧
      (∀ ctx : NVGcontext, 1 ≤ ctx.nstates ∧ ctx.nstates ≤ NVG_MAX_STATES →
        (1 ≤ (nvgSave ctx).nstates ∧ (nvgSave ctx).nstates ≤ NVG_MAX_STATES) ∧
        (1 ≤ (nvgRestore ctx).nstates ∧ (nvgRestore ctx).nstates ≤ NVG_MAX_STATES) ∧
        (1 ≤ (nvgReset ctx).nstates ∧ (nvgReset ctx).nstates ≤ NVG_MAX_STATES)) ∧
      (∀ ctx : NVGcontext, ctx.nstates = NVG_MAX_STATES → nvgSave ctx = ctx) ∧
      (∀ ctx : NVGcontext, ctx.nstates = 1 → nvgRestore ctx = ctx) := by
  refine ⟨fun e => ?_, fun ctx w h r => ?_, fun ctx hb => ⟨?_, ?_, ?_⟩, fun ctx h => ?_,
    fun ctx h => ?_⟩
  · have : (nvgCreateInternal e).nstates = 1 := rfl
    rw [this]
    exact ⟨le_refl _, by decide⟩
  · have : (nvgBeginFrame ctx w h r).nstates = 1 := by
      simp [nvgBeginFrame, nvg__pickBeginFrame, nvg__setDevicePixelRatio, nvgReset, setState,
        nvgSave, NVG_MAX_STATES]
    rw [this]
    exact ⟨le_refl _, by decide⟩
  · unfold nvgSave
    split
    · exact hb
    · rename_i hlt
      simp only [NVG_MAX_STATES] at hlt hb ⊢
      constructor <;> omega
  · unfold nvgRestore
    split
    · exact hb
    · rename_i hgt
      simp only [NVG_MAX_STATES] at hb ⊢
      constructor <;> omega
  · exact hb
  · simp [nvgSave, h]
  · simp [nvgRestore, h]

/-- C8, at the context that `nvgCreateInternal` returns (depth 1): `nvgRestore`
returns it unchanged, and `nvgSave` leaves depth 2. -/
theorem nstates_bounds_witness :
    nvgRestore (nvgCreateInternal 1) = nvgCreateInternal 1 ∧
      (nvgSave (nvgCreateInternal 1)).nstates ≤ NVG_MAX_STATES :=
  ⟨nstates_bounds.2.2.2.2 (nvgCreateInternal 1) (by decide),
    ((nstates_bounds.2.2.1 (nvgCreateInternal 1) ⟨by decide, by decide⟩).1).2⟩

/-! ## Theorems: transforms and command recording -/

theorem cInt_intCast (n : Int) : cInt (n : ℚ) = n := by
  unfold cInt
  split
  · exact Int.floor_intCast n
  · rw [← Int.cast_neg, Int.floor_intCast]
    ring

theorem cInt_zero : cInt 0 = 0 := by simpa using cInt_intCast 0

theorem cInt_one : cInt 1 = 1 := by simpa using cInt_intCast 1

theorem cInt_two : cInt 2 = 2 := by simpa using cInt_intCast 2

/-- C10: with `t` the current transform, `nvgMoveTo`, `nvgLineTo` and `nvgBezierTo`
append to the command buffer exactly one record, of 3, 3 and 7 floats: the verb
tag followed by each given point `(x, y)` mapped to
`(x*t0 + y*t2 + t4, x*t1 + y*t3 + t5)`; the floats recorded before stay in place. -/
theorem path_commands_append (ctx : NVGcontext) :
    (∀ x y : ℚ,
        (nvgMoveTo ctx x y).commands =
          ctx.commands ++
            [(NVG_MOVETO : ℚ),
              x * (nvg__getState ctx).xform.t0 + y * (nvg__getState ctx).xform.t2 +
                (nvg__getState ctx).xform.t4,
              x * (nvg__getState ctx).xform.t1 + y * (nvg__getState ctx).xform.t3 +
                (nvg__getState ctx).xform.t5]) ∧
      (∀ x y : ℚ,
        (nvgLineTo ctx x y).commands =
          ctx.commands ++
            [(NVG_LINETO : ℚ),
              x * (nvg__getState ctx).xform.t0 + y * (nvg__getState ctx).xform.t2 +
                (nvg__getState ctx).xform.t4,
              x * (nvg__getState ctx).xform.t1 + y * (nvg__getState ctx).xform.t3 +
                (nvg__getState ctx).xform.t5]) ∧
      (∀ c1x c1y c2x c2y x y : ℚ,
        (nvgBezierTo ctx c1x c1y c2x c2y x y).commands =
          ctx.commands ++
            [(NVG_BEZIERTO : ℚ),
              c1x * (nvg__getState ctx).xform.t0 + c1y * (nvg__getState ctx).xform.t2 +
                (nvg__getState ctx).xform.t4,
              c1x * (nvg__getState ctx).xform.t1 + c1y * (nvg__getState ctx).xform.t3 +
                (nvg__getState ctx).xform.t5,
              c2x * (nvg__getState ctx).xform.t0 + c2y * (nvg__getState ctx).xform.t2 +
                (nvg__getState ctx).xform.t4,
              c2x * (nvg__getState ctx).xform.t1 + c2y * (nvg__getState ctx).xform.t3 +
                (nvg__getState ctx).xform.t5,
              x * (nvg__getState ctx).xform.t0 + y * (nvg__getState ctx).xform.t2 +
                (nvg__getState ctx).xform.t4,
              x * (nvg__getState ctx).xform.t1 + y * (nvg__getState ctx).xform.t3 +
                (nvg__getState ctx).xform.t5]) := by
  refine ⟨fun x y => ?_, fun x y => ?_, fun c1x c1y c2x c2y x y => ?_⟩
  · simp [nvgMoveTo, nvg__appendCommands, appendCommandsLoop, cInt_zero, nvgTransformPoint,
      NVG_MOVETO]
  · simp [nvgLineTo, nvg__appendCommands, appendCommandsLoop, cInt_one, nvgTransformPoint,
      NVG_LINETO, NVG_MOVETO]
  · simp [nvgBezierTo, nvg__appendCommands, appendCommandsLoop, cInt_two, nvgTransformPoint,
      NVG_LINETO, NVG_MOVETO, NVG_BEZIERTO]

/-! ## Theorems: pick scene -/

theorem int_shiftRight_zero (a : Int) : a >>> (0 : Nat) = a := by
  simp [Int.shiftRight_eq_div_pow]

theorem hitTestWalk_single (ps : NVGpickScene) (pp : NVGpickPath) (h : SingleScene ps pp)
    (x y : ℚ) (flags : Nat) (lvl : Nat) (idx : Int) (v : HitTestVars) :
    hitTestWalk ps x y flags ps.store.length (cellAt ps lvl idx) v = some v ∨
      hitTestWalk ps x y flags ps.store.length (cellAt ps lvl idx) v =
        some (hitTestVisit ps.pools x y flags pp v) := by
  obtain ⟨hs, hn, hc⟩ := h
  rcases hc lvl idx with h0 | h0
  · left
    rw [h0]
    cases ps.store.length <;> rfl
  · right
    rw [h0]
    simp [hitTestWalk, hs, hn]

theorem hitTestWalk_single_some (ps : NVGpickScene) (pp : NVGpickPath) (h : SingleScene ps pp)
    (x y : ℚ) (flags : Nat) (lvl : Nat) (idx : Int) (v : HitTestVars)
    (hcell : cellAt ps lvl idx = some 0) :
    hitTestWalk ps x y flags ps.store.length (cellAt ps lvl idx) v =
        some (hitTestVisit ps.pools x y flags pp v) := by
  obtain ⟨hs, hn, _⟩ := h
  rw [hcell]
  simp [hitTestWalk, hs, hn]

/-- In a scene with one path, a state of the variables that a visit of the path
leaves unchanged is the result of the loop over the levels. -/
theorem hitTestLevels_fixed (ps : NVGpickScene) (pp : NVGpickPath) (h : SingleScene ps pp)
    (x y : ℚ) (flags : Nat) (v : HitTestVars) (hv : hitTestVisit ps.pools x y flags pp v = v)
    (n : Nat) (cx cy lw : Int) :
    hitTestLevels ps x y flags n cx cy lw v = some v := by
  induction n generalizing cx cy lw with
  | zero => rfl
  | succ k ih =>
    simp only [hitTestLevels]
    rcases hitTestWalk_single ps pp h x y flags k (cy * lw + cx) v with hw | hw
    · rw [hw]; exact ih _ _ _
    · rw [hw, hv]; exact ih _ _ _

/-- In a scene with one path, when the chain of cells visited for the query
holds the path at one level, the loop over the levels ends in the state that a
visit of the path gives, provided a second visit leaves that state unchanged. -/
theorem hitTestLevels_found (ps : NVGpickScene) (pp : NVGpickPath) (h : SingleScene ps pp)
    (x y : ℚ) (flags : Nat) (v0 v1 : HitTestVars)
    (h01 : hitTestVisit ps.pools x y flags pp v0 = v1)
    (h11 : hitTestVisit ps.pools x y flags pp v1 = v1)
    (n : Nat) (cx cy lw : Int) (j : Nat) (hj : j < n)
    (hcell : cellAt ps (n - 1 - j) ((cy >>> (j : Nat)) * (lw >>> (j : Nat)) + (cx >>> (j : Nat))) = some 0) :
    hitTestLevels ps x y flags n cx cy lw v0 = some v1 := by
  induction n generalizing cx cy lw j with
  | zero => omega
  | succ k ih =>
    simp only [hitTestLevels]
    cases j with
    | zero =>
      have hc : cellAt ps k (cy * lw + cx) = some 0 := by
        simpa [int_shiftRight_zero] using hcell
      rw [hitTestWalk_single_some ps pp h x y flags k _ v0 hc, h01]
      exact hitTestLevels_fixed ps pp h x y flags v1 h11 k _ _ _
    | succ i =>
      rcases hitTestWalk_single ps pp h x y flags k (cy * lw + cx) v0 with hw | hw
      · rw [hw]
        apply ih (cx >>> (1 : Nat)) (cy >>> (1 : Nat)) (lw >>> (1 : Nat)) i (by omega)
        have e : k + 1 - 1 - (i + 1) = k - 1 - i := by omega
        rw [e, show i + 1 = 1 + i from Nat.add_comm i 1] at hcell
        simpa only [Int.shiftRight_add] using hcell
      · rw [hw, h01]
        exact hitTestLevels_fixed ps pp h x y flags v1 h11 k _ _ _
/-! ### Bit counting -/

theorem bitLength_le (fuel v : Nat) : bitLength fuel v ≤ fuel := by
  induction fuel generalizing v with
  | zero => simp [bitLength]
  | succ k ih =>
    simp only [bitLength]
    split
    · omega
    · have := ih (v / 2)
      omega

theorem lt_two_pow_bitLength (fuel v : Nat) (h : v < 2 ^ fuel) : v < 2 ^ bitLength fuel v := by
  induction fuel generalizing v with
  | zero => simpa [bitLength] using h
  | succ k ih =>
    simp only [bitLength]
    split
    · rename_i h0
      simp [h0]
    · have h2 : v / 2 < 2 ^ k := by
        rw [Nat.div_lt_iff_lt_mul (by norm_num)]
        rw [pow_succ] at h
        exact h
      have := ih (v / 2) h2
      rw [pow_succ]
      omega

theorem bitLength_of_ge (fuel v : Nat) (h : 2 ^ fuel ≤ v) : bitLength (fuel + 1) v = fuel + 1 := by
  induction fuel generalizing v with
  | zero =>
    have : v ≠ 0 := by
      intro h0
      simp [h0] at h
    simp [bitLength, this]
  | succ k ih =>
    have hv : v ≠ 0 := by
      intro h0
      simp [h0] at h
    have h2 : 2 ^ k ≤ v / 2 := by
      rw [Nat.le_div_iff_mul_le (by norm_num)]
      rw [pow_succ] at h
      exact h
    have := ih (v / 2) h2
    rw [bitLength, if_neg hv, this]

theorem countBitsUsed_eq (v : Int) :
    nvg__countBitsUsed v = (bitLength 32 (v % 4294967296).toNat : Int) := by
  unfold nvg__countBitsUsed clz32
  have hb := bitLength_le 32 (v % 4294967296).toNat
  split
  · rename_i h0
    simp [h0, bitLength]
  · omega

theorem countBitsUsed_neg (v : Int) (h1 : -2147483648 ≤ v) (h2 : v < 0) :
    nvg__countBitsUsed v = 32 := by
  rw [countBitsUsed_eq]
  have h3 : 2 ^ 31 ≤ (v % 4294967296).toNat := by
    norm_num
    omega
  have := bitLength_of_ge 31 _ h3
  simp only [Nat.reduceAdd] at this
  rw [this]
  rfl

theorem shiftRight_eq_zero_of_countBits (v : Int) (k : Nat) (h0 : 0 ≤ v) (h1 : v < 4294967296)
    (hk : nvg__countBitsUsed v ≤ k) : v >>> k = 0 := by
  rw [countBitsUsed_eq] at hk
  have e : (v % 4294967296).toNat = v.toNat := by omega
  rw [e] at hk
  have hlt := lt_two_pow_bitLength 32 v.toNat (by norm_num; omega)
  have hle : 2 ^ bitLength 32 v.toNat ≤ 2 ^ k :=
    Nat.pow_le_pow_right (by norm_num) (by exact_mod_cast hk)
  have hv : v.toNat < 2 ^ k := lt_of_lt_of_le hlt hle
  rw [Int.shiftRight_eq_div_pow]
  apply Int.ediv_eq_zero_of_lt h0
  have : (v.toNat : Int) = v := Int.toNat_of_nonneg h0
  rw [← this]
  exact_mod_cast hv

theorem shiftRight_eq_zero_of_le (q c : Int) (k : Nat) (h0 : 0 ≤ q) (hqc : q ≤ c)
    (hc : c >>> k = 0) : q >>> k = 0 := by
  rw [Int.shiftRight_eq_div_pow] at hc ⊢
  have hpos : (0 : Int) < ((2 ^ k : Nat) : Int) := by positivity
  have hc0 : 0 ≤ c := le_trans h0 hqc
  have hlt : c < ((2 ^ k : Nat) : Int) := by
    by_contra hge
    push_neg at hge
    have : 1 ≤ c / ((2 ^ k : Nat) : Int) := by
      rw [Int.le_ediv_iff_mul_le hpos]
      simpa using hge
    omega
  exact Int.ediv_eq_zero_of_lt h0 (lt_of_le_of_lt hqc hlt)

theorem xor_zero_left_of_nonneg (c : Int) (h : 0 ≤ c) : Int.xor 0 c = c := by
  obtain ⟨n, rfl⟩ := Int.eq_ofNat_of_zero_le h
  show Int.xor ((0 : Nat) : Int) (n : Int) = n
  simp [Int.xor]

theorem xor_neg_nonneg (a c : Int) (ha : a < 0) (ha2 : -2147483648 ≤ a) (hc : 0 ≤ c)
    (hc2 : c < 2147483648) : Int.xor a c < 0 ∧ -2147483648 ≤ Int.xor a c := by
  obtain ⟨n, rfl⟩ := Int.eq_ofNat_of_zero_le hc
  obtain ⟨m, rfl⟩ := Int.eq_negSucc_of_lt_zero ha
  have hm : m < 2 ^ 31 := by
    have : Int.negSucc m = -((m : Int) + 1) := rfl
    norm_num
    omega
  have hn : n < 2 ^ 31 := by
    norm_num
    omega
  have hx := Nat.xor_lt_two_pow hm hn
  have e : Int.xor (Int.negSucc m) (n : Int) = Int.negSucc (m ^^^ n) := rfl
  rw [e]
  have : Int.negSucc (m ^^^ n) = -(((m ^^^ n : Nat) : Int) + 1) := rfl
  rw [this]
  norm_num at hx
  constructor <;> omega

/-! ### The quadtree cell of a path whose bounds straddle the origin -/

theorem clampi_zero_zero (a : Int) : nvg__clampi a 0 0 = 0 := by
  unfold nvg__clampi
  split
  · rfl
  · split
    · rfl
    · omega

theorem clampi_of_zero (mx : Int) (h : 0 ≤ mx) : nvg__clampi 0 0 mx = 0 := by
  unfold nvg__clampi
  simp
  omega

theorem countBitsUsed_nonneg (v : Int) : 0 ≤ nvg__countBitsUsed v := by
  rw [countBitsUsed_eq]
  exact Int.natCast_nonneg _

/-- The level and cell that `nvg__pickSceneInsert` computes from the cell
coordinates `c0 ≤ 0 ≤ c2`, `c1 ≤ 0 ≤ c3` of the bounds: the level is between 0 and
4, the cell is cell (0, 0) of that level, and every deepest-level cell `(qx, qy)`
with `0 ≤ qx ≤ min 15 c2` and `0 ≤ qy ≤ min 15 c3` lies under it. -/
theorem quadtree_cell (c0 c1 c2 c3 qx qy : Int)
    (h0 : c0 ≤ 0) (h0b : -2147483648 ≤ c0) (h2 : 0 ≤ c2) (h2b : c2 < 2147483648)
    (h1 : c1 ≤ 0) (h1b : -2147483648 ≤ c1) (h3 : 0 ≤ c3) (h3b : c3 < 2147483648)
    (hqx : 0 ≤ qx) (hqx2 : qx ≤ 15) (hqxc : qx ≤ c2)
    (hqy : 0 ≤ qy) (hqy2 : qy ≤ 15) (hqyc : qy ≤ c3) :
    ∃ L : Nat, L ≤ 4 ∧
      (if nvg__mini (((5 : Nat) : Int) - 1 - nvg__countBitsUsed (Int.xor c0 c2))
            (((5 : Nat) : Int) - 1 - nvg__countBitsUsed (Int.xor c1 c3)) < 0 then 0
        else nvg__mini (((5 : Nat) : Int) - 1 - nvg__countBitsUsed (Int.xor c0 c2))
            (((5 : Nat) : Int) - 1 - nvg__countBitsUsed (Int.xor c1 c3))) = (L : Int) ∧
      nvg__clampi (c2 >>> (4 - L)) 0 (((1 <<< L : Nat) : Int) - 1) = 0 ∧
      nvg__clampi (c3 >>> (4 - L)) 0 (((1 <<< L : Nat) : Int) - 1) = 0 ∧
      qx >>> (4 - L) = 0 ∧ qy >>> (4 - L) = 0 := by
  have hbx := countBitsUsed_nonneg (Int.xor c0 c2)
  have hby := countBitsUsed_nonneg (Int.xor c1 c3)
  have hq4 : ∀ q : Int, 0 ≤ q → q ≤ 15 → q >>> (4 : Nat) = 0 := by
    intro q hq hq2
    rw [Int.shiftRight_eq_div_pow]
    exact Int.ediv_eq_zero_of_lt hq (by norm_num; omega)
  have hpow : ∀ L : Nat, (0 : Int) ≤ ((1 <<< L : Nat) : Int) - 1 := by
    intro L
    have : 1 ≤ 1 <<< L := by
      rw [Nat.shiftLeft_eq, one_mul]
      exact Nat.one_le_two_pow
    omega
  by_cases hneg : nvg__mini (((5 : Nat) : Int) - 1 - nvg__countBitsUsed (Int.xor c0 c2))
      (((5 : Nat) : Int) - 1 - nvg__countBitsUsed (Int.xor c1 c3)) < 0
  · refine ⟨0, by omega, by rw [if_pos hneg]; rfl, ?_, ?_, hq4 qx hqx hqx2, hq4 qy hqy hqy2⟩
    · exact clampi_zero_zero _
    · exact clampi_zero_zero _
  · rw [if_neg hneg]
    have hx : nvg__countBitsUsed (Int.xor c0 c2) ≤ 4 ∧ nvg__countBitsUsed (Int.xor c1 c3) ≤ 4 ∧
        0 ≤ nvg__mini (((5 : Nat) : Int) - 1 - nvg__countBitsUsed (Int.xor c0 c2))
          (((5 : Nat) : Int) - 1 - nvg__countBitsUsed (Int.xor c1 c3)) ∧
        nvg__mini (((5 : Nat) : Int) - 1 - nvg__countBitsUsed (Int.xor c0 c2))
          (((5 : Nat) : Int) - 1 - nvg__countBitsUsed (Int.xor c1 c3)) ≤
            4 - nvg__countBitsUsed (Int.xor c0 c2) ∧
        nvg__mini (((5 : Nat) : Int) - 1 - nvg__countBitsUsed (Int.xor c0 c2))
          (((5 : Nat) : Int) - 1 - nvg__countBitsUsed (Int.xor c1 c3)) ≤
            4 - nvg__countBitsUsed (Int.xor c1 c3) := by
      unfold nvg__mini at hneg ⊢
      split at hneg <;> split <;> omega
    obtain ⟨hx4, hy4, hm0, hmx, hmy⟩ := hx
    obtain ⟨L, hL⟩ := Int.eq_ofNat_of_zero_le hm0
    have hL4 : L ≤ 4 := by omega
    have hc0 : c0 = 0 := by
      by_contra hne
      have hlt : c0 < 0 := lt_of_le_of_ne h0 hne
      have := xor_neg_nonneg c0 c2 hlt h0b h2 h2b
      have := countBitsUsed_neg _ this.2 this.1
      omega
    have hc1 : c1 = 0 := by
      by_contra hne
      have hlt : c1 < 0 := lt_of_le_of_ne h1 hne
      have := xor_neg_nonneg c1 c3 hlt h1b h3 h3b
      have := countBitsUsed_neg _ this.2 this.1
      omega
    have e2 : nvg__countBitsUsed (Int.xor c0 c2) = nvg__countBitsUsed c2 := by
      rw [hc0, xor_zero_left_of_nonneg c2 h2]
    have e3 : nvg__countBitsUsed (Int.xor c1 c3) = nvg__countBitsUsed c3 := by
      rw [hc1, xor_zero_left_of_nonneg c3 h3]
    have hs2 : c2 >>> (4 - L) = 0 :=
      shiftRight_eq_zero_of_countBits c2 (4 - L) h2 (by omega) (by omega)
    have hs3 : c3 >>> (4 - L) = 0 :=
      shiftRight_eq_zero_of_countBits c3 (4 - L) h3 (by omega) (by omega)
    refine ⟨L, hL4, hL, ?_, ?_, ?_, ?_⟩
    · rw [hs2]; exact clampi_of_zero _ (hpow L)
    · rw [hs3]; exact clampi_of_zero _ (hpow L)
    · exact shiftRight_eq_zero_of_le qx c2 _ hqx hqxc hs2
    · exact shiftRight_eq_zero_of_le qy c3 _ hqy hqyc hs3

/-! ### The cast to `int` -/

theorem cInt_mono {a b : ℚ} (h : a ≤ b) : cInt a ≤ cInt b := by
  unfold cInt
  split
  · rename_i ha
    rw [if_pos (le_trans ha h)]
    exact Int.floor_mono h
  · rename_i ha
    push_neg at ha
    split
    · rename_i hb
      have h1 : 0 ≤ ⌊-a⌋ := Int.floor_nonneg.mpr (by linarith)
      have h2 : 0 ≤ ⌊b⌋ := Int.floor_nonneg.mpr hb
      omega
    · have : ⌊-b⌋ ≤ ⌊-a⌋ := Int.floor_mono (by linarith)
      omega

theorem cInt_le_of_le_natCast {a : ℚ} {n : Nat} (h : a ≤ n) : cInt a ≤ n := by
  have := cInt_mono h
  rwa [show cInt ((n : ℚ)) = (n : Int) from by simpa using cInt_intCast (n : Int)] at this

theorem cInt_ge_of_ge_neg_natCast {a : ℚ} {n : Nat} (h : -(n : ℚ) ≤ a) : -(n : Int) ≤ cInt a := by
  have := cInt_mono h
  rwa [show cInt (-(n : ℚ)) = -(n : Int) from by simpa using cInt_intCast (-(n : Int))] at this

/-- A coordinate `b` of magnitude at most `n`, divided by a cell size `W / 16`
with `W` a natural number, lies in the cell range `-16 n .. 16 n`, on the side
of its sign. -/
theorem cell_coord_bounds (b : ℚ) (W : Int) (hW : 0 ≤ W) (n : Nat) (hb : |b| ≤ n) :
    -(16 * n : Int) ≤ cInt (b / ((W : ℚ) / 16)) ∧ cInt (b / ((W : ℚ) / 16)) ≤ (16 * n : Int) ∧
      (0 ≤ b → 0 ≤ cInt (b / ((W : ℚ) / 16))) ∧ (b ≤ 0 → cInt (b / ((W : ℚ) / 16)) ≤ 0) := by
  have hWq : (0 : ℚ) ≤ (W : ℚ) / 16 := by
    have : (0 : ℚ) ≤ (W : ℚ) := by exact_mod_cast hW
    positivity
  have habs : |b / ((W : ℚ) / 16)| ≤ 16 * n := by
    rcases eq_or_lt_of_le hW with h0 | hpos
    · rw [← h0]
      simp
    · have h1 : (1 : ℚ) ≤ (W : ℚ) := by exact_mod_cast hpos
      rw [abs_div, abs_of_nonneg hWq, div_div_eq_mul_div, div_le_iff₀ (by linarith)]
      have hb0 : 0 ≤ |b| := abs_nonneg b
      nlinarith
  have h16 : ((16 * n : Nat) : ℚ) = 16 * n := by push_cast; ring
  obtain ⟨hlo, hhi⟩ := abs_le.mp habs
  refine ⟨?_, ?_, fun h0 => ?_, fun h0 => ?_⟩
  · have := cInt_ge_of_ge_neg_natCast (n := 16 * n) (a := b / ((W : ℚ) / 16)) (by rw [h16]; exact hlo)
    simpa using this
  · have := cInt_le_of_le_natCast (n := 16 * n) (a := b / ((W : ℚ) / 16)) (by rw [h16]; exact hhi)
    simpa using this
  · have := cInt_mono (div_nonneg h0 hWq)
    rwa [cInt_zero] at this
  · have := cInt_mono (div_nonpos_of_nonpos_of_nonneg h0 hWq)
    rwa [cInt_zero] at this

theorem clampi_bounds (a mx : Int) (h : 0 ≤ mx) : 0 ≤ nvg__clampi a 0 mx ∧ nvg__clampi a 0 mx ≤ mx := by
  unfold nvg__clampi
  split
  · omega
  · split <;> omega

theorem clampi_le_of_le (a c mx : Int) (hc : 0 ≤ c) (h : a ≤ c) : nvg__clampi a 0 mx ≤ c := by
  unfold nvg__clampi
  split
  · omega
  · split <;> omega

/-! ### Registration of the first path of a frame -/

theorem cellAt_empty (ps : NVGpickScene) (h : EmptyScene ps) (lvl : Nat) (idx : Int) :
    cellAt ps lvl idx = none := by
  unfold cellAt
  split
  · rfl
  · rw [h.2.1, List.getD_eq_getElem?_getD, List.getElem?_replicate]
    split <;> rfl

theorem getD_set_replicate (n i k : Nat) :
    ((List.replicate n (none : Option Nat)).set i (some 0)).getD k none = none ∨
      ((List.replicate n (none : Option Nat)).set i (some 0)).getD k none = some 0 := by
  rw [List.getD_eq_getElem?_getD, List.getElem?_set]
  split
  · split
    · right; rfl
    · left; rfl
  · left
    rw [List.getElem?_replicate]
    split <;> rfl

theorem getD_set_replicate_self (n i : Nat) (h : i < n) :
    ((List.replicate n (none : Option Nat)).set i (some 0)).getD i none = some 0 := by
  rw [List.getD_eq_getElem?_getD, List.getElem?_set]
  simp [h]

theorem levelBase_lt (L : Nat) (h : L ≤ 4) : levelBase L < 342 := by
  interval_cases L <;> decide

theorem pickSceneInsert_single (ps : NVGpickScene) (pp : NVGpickPath) (h : EmptyScene ps) :
    SingleScene (nvg__pickSceneInsert ps pp) (firstRecord pp) ∧
      (nvg__pickSceneInsert ps pp).pools = ps.pools ∧
      (nvg__pickSceneInsert ps pp).nlevels = 5 ∧
      (nvg__pickSceneInsert ps pp).xdim = ps.xdim ∧
      (nvg__pickSceneInsert ps pp).ydim = ps.ydim := by
  obtain ⟨hl, hlev, hst, hp, hn⟩ := h
  refine ⟨⟨?_, rfl, ?_⟩, rfl, hl, rfl, rfl⟩
  · simp only [nvg__pickSceneInsert, hst, hp, hn, List.nil_append, firstRecord,
      cellAt_empty ps ⟨hl, hlev, hst, hp, hn⟩]
    rfl
  · intro lvl idx
    simp only [nvg__pickSceneInsert, cellAt, hlev, hst, List.length_nil]
    split
    · left; rfl
    · exact getD_set_replicate _ _ _

/-- The cell that receives the first path of a frame lies on the chain of cells
that `nvgHitTest` visits for a query point `(x, y)` with `x ≤ bounds[2]` and
`y ≤ bounds[3]`, when the bounds of the path contain the origin and the cell
sizes are `W / 16` and `H / 16` for natural numbers `W`, `H`. -/
theorem pickSceneInsert_cell (ps : NVGpickScene) (pp : NVGpickPath) (h : EmptyScene ps)
    (W H : Int) (hW : 0 ≤ W) (hH : 0 ≤ H) (hx : ps.xdim = (W : ℚ) / 16)
    (hy : ps.ydim = (H : ℚ) / 16)
    (hb0 : pp.bounds.b0 ≤ 0) (hb1 : pp.bounds.b1 ≤ 0) (hb2 : 0 ≤ pp.bounds.b2)
    (hb3 : 0 ≤ pp.bounds.b3)
    (hm0 : |pp.bounds.b0| ≤ (1000000 : Nat)) (hm1 : |pp.bounds.b1| ≤ (1000000 : Nat))
    (hm2 : |pp.bounds.b2| ≤ (1000000 : Nat)) (hm3 : |pp.bounds.b3| ≤ (1000000 : Nat))
    (x y : ℚ) (hqx : x ≤ pp.bounds.b2) (hqy : y ≤ pp.bounds.b3) :
    ∃ j, j < 5 ∧
      cellAt (nvg__pickSceneInsert ps pp) (5 - 1 - j)
        ((nvg__clampi (cInt (y / ps.ydim)) 0 (((1 <<< (5 - 1) : Nat) : Int) - 1) >>> j) *
            ((((1 <<< (5 - 1) : Nat) : Int)) >>> j) +
          (nvg__clampi (cInt (x / ps.xdim)) 0 (((1 <<< (5 - 1) : Nat) : Int) - 1) >>> j)) =
        some 0 := by
  obtain ⟨hl, hlev, hst, hp, hn⟩ := h
  have hWq : (0 : ℚ) ≤ (W : ℚ) / 16 := by
    have : (0 : ℚ) ≤ (W : ℚ) := by exact_mod_cast hW
    positivity
  have hHq : (0 : ℚ) ≤ (H : ℚ) / 16 := by
    have : (0 : ℚ) ≤ (H : ℚ) := by exact_mod_cast hH
    positivity
  have c0 := cell_coord_bounds pp.bounds.b0 W hW 1000000 hm0
  have c1 := cell_coord_bounds pp.bounds.b1 H hH 1000000 hm1
  have c2 := cell_coord_bounds pp.bounds.b2 W hW 1000000 hm2
  have c3 := cell_coord_bounds pp.bounds.b3 H hH 1000000 hm3
  have h15 : ((1 <<< (5 - 1) : Nat) : Int) - 1 = 15 := by decide
  have qxb := clampi_bounds (cInt (x / ((W : ℚ) / 16))) 15 (by norm_num)
  have qyb := clampi_bounds (cInt (y / ((H : ℚ) / 16))) 15 (by norm_num)
  have qxc : nvg__clampi (cInt (x / ((W : ℚ) / 16))) 0 15 ≤ cInt (pp.bounds.b2 / ((W : ℚ) / 16)) :=
    clampi_le_of_le _ _ _ (c2.2.2.1 hb2) (cInt_mono (div_le_div_of_nonneg_right hqx hWq))
  have qyc : nvg__clampi (cInt (y / ((H : ℚ) / 16))) 0 15 ≤ cInt (pp.bounds.b3 / ((H : ℚ) / 16)) :=
    clampi_le_of_le _ _ _ (c3.2.2.1 hb3) (cInt_mono (div_le_div_of_nonneg_right hqy hHq))
  obtain ⟨L, hL4, hLeq, hlx, hly, hsx, hsy⟩ :=
    quadtree_cell (cInt (pp.bounds.b0 / ((W : ℚ) / 16))) (cInt (pp.bounds.b1 / ((H : ℚ) / 16)))
      (cInt (pp.bounds.b2 / ((W : ℚ) / 16))) (cInt (pp.bounds.b3 / ((H : ℚ) / 16)))
      (nvg__clampi (cInt (x / ((W : ℚ) / 16))) 0 15) (nvg__clampi (cInt (y / ((H : ℚ) / 16))) 0 15)
      (c0.2.2.2 hb0) (by have := c0.1; omega) (c2.2.2.1 hb2) (by have := c2.2.1; omega)
      (c1.2.2.2 hb1) (by have := c1.1; omega) (c3.2.2.1 hb3) (by have := c3.2.1; omega)
      qxb.1 qxb.2 qxc qyb.1 qyb.2 qyc
  refine ⟨4 - L, by omega, ?_⟩
  have e1 : 5 - 1 - (4 - L) = L := by omega
  rw [e1, h15, hx, hy, hsx, hsy]
  simp only [nvg__pickSceneInsert, cellAt, hl, hx, hy, hlev, hst, List.length_nil]
  rw [hLeq]
  have e2 : ((5 : Nat) : Int) - (L : Int) - 1 = ((4 - L : Nat) : Int) := by omega
  simp only [Int.toNat_ofNat, e2, hlx, hly]
  simp only [zero_mul, add_zero, Int.toNat_zero, lt_self_iff_false, if_false]
  exact getD_set_replicate_self _ _ (levelBase_lt L hL4)

/-! ### Hit test of the first path of a frame -/

/-- When a visit of the only registered path leaves the start state unchanged
(the path does not contain the point), `nvgHitTest` returns -1. -/
theorem hitTest_first_miss (ctx : NVGcontext) (ps : NVGpickScene) (pp : NVGpickPath)
    (hctx : ctx.pickScene = some (nvg__pickSceneInsert ps pp)) (he : EmptyScene ps)
    (x y : ℚ) (flags : Nat)
    (h00 : hitTestVisit ps.pools x y flags (firstRecord pp) hitTestStart = hitTestStart) :
    nvgHitTest ctx x y flags = some (-1) := by
  obtain ⟨hs, hpools, _, _, _⟩ := pickSceneInsert_single ps pp he
  unfold nvgHitTest
  rw [hctx]
  simp only
  have hfix := fun n cx cy lw =>
    hitTestLevels_fixed _ _ hs x y flags hitTestStart (by rw [hpools]; exact h00) n cx cy lw
  unfold hitTestStart at hfix
  rw [hfix]
  rfl

/-- When the bounds of the only registered path contain the origin and the
query point satisfies `x ≤ bounds[2]`, `y ≤ bounds[3]`, `nvgHitTest` returns the
`bestID` that one visit of the path leaves. -/
theorem hitTest_first_hit (ctx : NVGcontext) (ps : NVGpickScene) (pp : NVGpickPath)
    (hctx : ctx.pickScene = some (nvg__pickSceneInsert ps pp)) (he : EmptyScene ps)
    (W H : Int) (hW : 0 ≤ W) (hH : 0 ≤ H) (hx : ps.xdim = (W : ℚ) / 16)
    (hy : ps.ydim = (H : ℚ) / 16)
    (hb0 : pp.bounds.b0 ≤ 0) (hb1 : pp.bounds.b1 ≤ 0) (hb2 : 0 ≤ pp.bounds.b2)
    (hb3 : 0 ≤ pp.bounds.b3)
    (hm0 : |pp.bounds.b0| ≤ (1000000 : Nat)) (hm1 : |pp.bounds.b1| ≤ (1000000 : Nat))
    (hm2 : |pp.bounds.b2| ≤ (1000000 : Nat)) (hm3 : |pp.bounds.b3| ≤ (1000000 : Nat))
    (x y : ℚ) (hqx : x ≤ pp.bounds.b2) (hqy : y ≤ pp.bounds.b3) (flags : Nat)
    (v1 : HitTestVars)
    (h01 : hitTestVisit ps.pools x y flags (firstRecord pp) hitTestStart = v1)
    (h11 : hitTestVisit ps.pools x y flags (firstRecord pp) v1 = v1) :
    nvgHitTest ctx x y flags = some v1.bestID := by
  obtain ⟨hs, hpools, hnl, hxd, hyd⟩ := pickSceneInsert_single ps pp he
  obtain ⟨j, hj, hcell⟩ :=
    pickSceneInsert_cell ps pp he W H hW hH hx hy hb0 hb1 hb2 hb3 hm0 hm1 hm2 hm3 x y hqx hqy
  unfold nvgHitTest
  rw [hctx]
  simp only [hnl, hxd, hyd]
  have hfound :=
    hitTestLevels_found _ _ hs x y flags hitTestStart v1 (by rw [hpools]; exact h01)
      (by rw [hpools]; exact h11) 5 _ _ _ j hj hcell
  unfold hitTestStart at hfound
  rw [hfound]
  rfl

/-! ### Frames -/

theorem pickSceneOk_create (e : Int) : PickSceneOk (nvgCreateInternal e) := by
  intro ps h
  have hnone : (nvgCreateInternal e).pickScene = none := rfl
  rw [hnone] at h
  exact absurd h (by simp)

theorem getState_setState (ctx : NVGcontext) (s : NVGstate) :
    nvg__getState (setState ctx s) = s := by
  simp [nvg__getState, setState]

theorem beginFrame_getState (ctx : NVGcontext) (w h r : ℚ) :
    nvg__getState (nvgBeginFrame ctx w h r) = resetState := by
  simp [nvgBeginFrame, nvg__pickBeginFrame, nvg__setDevicePixelRatio, nvgReset, nvg__getState,
    setState, nvgSave, NVG_MAX_STATES]

theorem beginFrame_pickScene (ctx : NVGcontext) (hok : PickSceneOk ctx) (w h r : ℚ) :
    ∃ ps, (nvgBeginFrame ctx w h r).pickScene = some ps ∧ EmptyScene ps ∧ ps.pools = ⟨[], []⟩ ∧
      ps.xdim = (cInt w : ℚ) / 16 ∧ ps.ydim = (cInt h : ℚ) / 16 := by
  have hget : (nvg__pickSceneGet ctx).nlevels = 5 ∧
      ((nvg__pickSceneGet ctx).levels ≠ [] → (nvg__pickSceneGet ctx).ncells = 342) := by
    unfold nvg__pickSceneGet
    cases hps : ctx.pickScene with
    | none => exact ⟨rfl, fun h => absurd rfl h⟩
    | some ps => exact hok ps hps
  have hpg : nvg__pickSceneGet
      { nvg__setDevicePixelRatio (nvgReset (nvgSave { ctx with nstates := 0 })) r with
        drawCallCount := 0, fillTriCount := 0, strokeTriCount := 0, textTriCount := 0 } =
      nvg__pickSceneGet ctx := rfl
  refine ⟨_, rfl, ⟨?_, ?_, rfl, rfl, rfl⟩, rfl, ?_, ?_⟩
  · simp only [hpg]; exact hget.1
  · simp only [hpg]
    split
    · rw [hget.1]; rfl
    · rename_i hne
      rw [hget.2 hne]
  · simp only [hpg, hget.1]
    norm_num [Nat.shiftLeft_eq]
  · simp only [hpg, hget.1]
    norm_num [Nat.shiftLeft_eq]

theorem cInt_nonneg_of_pos {w : ℚ} (h : 0 < w) : 0 ≤ cInt w := by
  have := cInt_mono (le_of_lt h)
  rwa [cInt_zero] at this

/-! ### Projections of the recording functions -/

theorem getState_appendCommands (ctx : NVGcontext) (vals : List ℚ) :
    nvg__getState (nvg__appendCommands ctx vals) = nvg__getState ctx := rfl

theorem pickSceneGet_appendCommands (ctx : NVGcontext) (vals : List ℚ) :
    nvg__pickSceneGet (nvg__appendCommands ctx vals) = nvg__pickSceneGet ctx := rfl

theorem commands_appendCommands (ctx : NVGcontext) (vals : List ℚ) :
    (nvg__appendCommands ctx vals).commands =
      ctx.commands ++ appendCommandsLoop (nvg__getState ctx).xform vals.length 0 vals := rfl

theorem getState_beginPath (ctx : NVGcontext) :
    nvg__getState (nvgBeginPath ctx) = nvg__getState ctx := rfl

theorem pickSceneGet_beginPath (ctx : NVGcontext) :
    nvg__pickSceneGet (nvgBeginPath ctx) = nvg__pickSceneGet ctx := rfl

theorem commands_beginPath (ctx : NVGcontext) : (nvgBeginPath ctx).commands = [] := rfl

theorem pickSceneGet_of_some (ctx : NVGcontext) (ps : NVGpickScene) (h : ctx.pickScene = some ps) :
    nvg__pickSceneGet ctx = ps := by
  unfold nvg__pickSceneGet
  rw [h]

theorem pickScene_fillHitRegion (sqrtf : ℚ → ℚ) (ctx : NVGcontext) (id : Int) :
    (nvgFillHitRegion sqrtf ctx id).pickScene =
      some (nvg__pickSceneInsert
        { nvg__pickSceneGet ctx with
          pools := (nvg__pickPathCreate sqrtf (nvg__pickSceneGet ctx).pools ctx.commands
            (nvg__getState ctx) id false).1 }
        (nvg__pickPathCreate sqrtf (nvg__pickSceneGet ctx).pools ctx.commands
            (nvg__getState ctx) id false).2) := rfl

/-! ### Scenario S4 -/

theorem rect_commands :
    appendCommandsLoop resetState.xform
        [(NVG_MOVETO : ℚ), 0, 0, (NVG_LINETO : ℚ), 0, 0 + 10, (NVG_LINETO : ℚ), 0 + 10, 0 + 10,
          (NVG_LINETO : ℚ), 0 + 10, 0, (NVG_CLOSE : ℚ)].length 0
        [(NVG_MOVETO : ℚ), 0, 0, (NVG_LINETO : ℚ), 0, 0 + 10, (NVG_LINETO : ℚ), 0 + 10, 0 + 10,
          (NVG_LINETO : ℚ), 0 + 10, 0, (NVG_CLOSE : ℚ)] = rectCommands := by decide!

theorem rectFill_bounds : rectFill.2.bounds = ⟨0, 0, 10, 10⟩ := by decide!

theorem rectFill_visit_inside :
    hitTestVisit rectFill.1 5 5 NVG_TEST_FILL (firstRecord rectFill.2) hitTestStart = ⟨0, 7, 1⟩ ∧
      hitTestVisit rectFill.1 5 5 NVG_TEST_FILL (firstRecord rectFill.2) ⟨0, 7, 1⟩ = ⟨0, 7, 1⟩ := by
  decide!

theorem rectFill_visit_outside :
    hitTestVisit rectFill.1 15 5 NVG_TEST_FILL (firstRecord rectFill.2) hitTestStart =
      hitTestStart := by
  decide!

/-- C2 (scenario S4): in a frame begun with a positive window size, on any
context whose pick scene is well formed, after `nvgBeginPath`,
`nvgRect(0, 0, 10, 10)` and `nvgFillHitRegion(7)`, `nvgHitTest(5, 5, TestFill)`
returns 7 and `nvgHitTest(15, 5, TestFill)` returns -1. -/
theorem scenario_S4 (ctx0 : NVGcontext) (hok : PickSceneOk ctx0) (w h r : ℚ) (hw : 0 < w)
    (hh : 0 < h) :
    nvgHitTest
        (nvgFillHitRegion sqrtfExact
          (nvgRect (nvgBeginPath (nvgBeginFrame ctx0 w h r)) 0 0 10 10) 7)
        5 5 NVG_TEST_FILL = some 7 ∧
      nvgHitTest
        (nvgFillHitRegion sqrtfExact
          (nvgRect (nvgBeginPath (nvgBeginFrame ctx0 w h r)) 0 0 10 10) 7)
        15 5 NVG_TEST_FILL = some (-1) := by
  obtain ⟨ps, hps, hempty, hpools, hxd, hyd⟩ := beginFrame_pickScene ctx0 hok w h r
  have hstate := beginFrame_getState ctx0 w h r
  generalize nvgBeginFrame ctx0 w h r = c1 at hps hstate ⊢
  have hctx : (nvgFillHitRegion sqrtfExact (nvgRect (nvgBeginPath c1) 0 0 10 10) 7).pickScene =
      some (nvg__pickSceneInsert { ps with pools := rectFill.1 } rectFill.2) := by
    rw [pickScene_fillHitRegion]
    simp only [nvgRect, pickSceneGet_appendCommands, pickSceneGet_beginPath,
      getState_appendCommands, getState_beginPath, commands_appendCommands, commands_beginPath,
      pickSceneGet_of_some c1 ps hps, hstate, hpools, rect_commands, List.nil_append, rectFill]
  have hempty2 : EmptyScene { ps with pools := rectFill.1 } := hempty
  have hb := rectFill_bounds
  constructor
  · exact hitTest_first_hit _ _ _ hctx hempty2 (cInt w) (cInt h) (cInt_nonneg_of_pos hw)
      (cInt_nonneg_of_pos hh) hxd hyd (by rw [hb]) (by rw [hb]) (by rw [hb]; norm_num)
      (by rw [hb]; norm_num) (by rw [hb]; norm_num) (by rw [hb]; norm_num)
      (by rw [hb]; norm_num) (by rw [hb]; norm_num) 5 5 (by rw [hb]; norm_num)
      (by rw [hb]; norm_num) NVG_TEST_FILL ⟨0, 7, 1⟩ rectFill_visit_inside.1
      rectFill_visit_inside.2
  · exact hitTest_first_miss _ _ _ hctx hempty2 15 5 NVG_TEST_FILL rectFill_visit_outside

/-! ### Scenario S5 -/

theorem pickSceneGet_setState (ctx : NVGcontext) (s : NVGstate) :
    nvg__pickSceneGet (setState ctx s) = nvg__pickSceneGet ctx := rfl

theorem commands_setState (ctx : NVGcontext) (s : NVGstate) :
    (setState ctx s).commands = ctx.commands := rfl

theorem pickScene_strokeHitRegion (sqrtf : ℚ → ℚ) (ctx : NVGcontext) (id : Int) :
    (nvgStrokeHitRegion sqrtf ctx id).pickScene =
      some (nvg__pickSceneInsert
        { nvg__pickSceneGet ctx with
          pools := (nvg__pickPathCreate sqrtf (nvg__pickSceneGet ctx).pools ctx.commands
            (nvg__getState ctx) id true).1 }
        (nvg__pickPathCreate sqrtf (nvg__pickSceneGet ctx).pools ctx.commands
            (nvg__getState ctx) id true).2) := rfl

theorem line_commands :
    appendCommandsLoop resetState.xform [(NVG_MOVETO : ℚ), 0, 0].length 0
          [(NVG_MOVETO : ℚ), 0, 0] ++
        appendCommandsLoop resetState.xform [(NVG_LINETO : ℚ), 100, 0].length 0
          [(NVG_LINETO : ℚ), 100, 0] = lineCommands := by decide!

theorem lineStroke_bounds : lineStroke.2.bounds = ⟨-2, -2, 102, 2⟩ := by decide!

theorem lineStroke_visit_cap :
    hitTestVisit lineStroke.1 (-1) 0 NVG_TEST_STROKE (firstRecord lineStroke.2) hitTestStart =
        ⟨0, 3, 1⟩ ∧
      hitTestVisit lineStroke.1 (-1) 0 NVG_TEST_STROKE (firstRecord lineStroke.2) ⟨0, 3, 1⟩ =
        ⟨0, 3, 1⟩ := by
  decide!

theorem lineStroke_visit_outside :
    hitTestVisit lineStroke.1 (-3) 0 NVG_TEST_STROKE (firstRecord lineStroke.2) hitTestStart =
      hitTestStart := by
  decide!

/-- C4 (scenario S5): in a frame begun with a positive window size, with stroke
width 4, round line caps and the default line join, after `nvgBeginPath`,
`nvgMoveTo(0, 0)`, `nvgLineTo(100, 0)` and `nvgStrokeHitRegion(3)`,
`nvgHitTest(-1, 0, TestStroke)` returns 3 and `nvgHitTest(-3, 0, TestStroke)`
returns -1. -/
theorem scenario_S5 (ctx0 : NVGcontext) (hok : PickSceneOk ctx0) (w h r : ℚ) (hw : 0 < w)
    (hh : 0 < h) :
    nvgHitTest
        (nvgStrokeHitRegion sqrtfExact
          (nvgLineTo
            (nvgMoveTo
              (nvgBeginPath (nvgLineCap (nvgStrokeWidth (nvgBeginFrame ctx0 w h r) 4) NVG_ROUND))
              0 0)
            100 0)
          3)
        (-1) 0 NVG_TEST_STROKE = some 3 ∧
      nvgHitTest
        (nvgStrokeHitRegion sqrtfExact
          (nvgLineTo
            (nvgMoveTo
              (nvgBeginPath (nvgLineCap (nvgStrokeWidth (nvgBeginFrame ctx0 w h r) 4) NVG_ROUND))
              0 0)
            100 0)
          3)
        (-3) 0 NVG_TEST_STROKE = some (-1) := by
  obtain ⟨ps, hps, hempty, hpools, hxd, hyd⟩ := beginFrame_pickScene ctx0 hok w h r
  have hstate := beginFrame_getState ctx0 w h r
  generalize nvgBeginFrame ctx0 w h r = c1 at hps hstate ⊢
  have hctx : (nvgStrokeHitRegion sqrtfExact
      (nvgLineTo (nvgMoveTo (nvgBeginPath (nvgLineCap (nvgStrokeWidth c1 4) NVG_ROUND)) 0 0) 100 0)
      3).pickScene = some (nvg__pickSceneInsert { ps with pools := lineStroke.1 } lineStroke.2) := by
    rw [pickScene_strokeHitRegion]
    simp only [nvgLineTo, nvgMoveTo, nvgLineCap, nvgStrokeWidth, pickSceneGet_appendCommands,
      pickSceneGet_beginPath, getState_appendCommands, getState_beginPath,
      commands_appendCommands, commands_beginPath, pickSceneGet_setState, getState_setState,
      pickSceneGet_of_some c1 ps hps, hstate, hpools, List.nil_append]
    rw [line_commands]
    rfl
  have hempty2 : EmptyScene { ps with pools := lineStroke.1 } := hempty
  have hb := lineStroke_bounds
  constructor
  · exact hitTest_first_hit _ _ _ hctx hempty2 (cInt w) (cInt h) (cInt_nonneg_of_pos hw)
      (cInt_nonneg_of_pos hh) hxd hyd (by rw [hb]; norm_num) (by rw [hb]; norm_num)
      (by rw [hb]; norm_num) (by rw [hb]; norm_num) (by rw [hb]; norm_num)
      (by rw [hb]; norm_num) (by rw [hb]; norm_num) (by rw [hb]; norm_num) (-1) 0
      (by rw [hb]; norm_num) (by rw [hb]; norm_num) NVG_TEST_STROKE ⟨0, 3, 1⟩
      lineStroke_visit_cap.1 lineStroke_visit_cap.2
  · exact hitTest_first_miss _ _ _ hctx hempty2 (-3) 0 NVG_TEST_STROKE lineStroke_visit_outside

/-! ### What `nvgInFill` reads of the context -/

theorem sameView_appendCommands {a b : NVGcontext} (h : SameView a b) (vals : List ℚ) :
    SameView (nvg__appendCommands a vals) (nvg__appendCommands b vals) := by
  obtain ⟨hc, hs, hp⟩ := h
  refine ⟨?_, hs, hp⟩
  rw [commands_appendCommands, commands_appendCommands, hc, hs]

theorem sameView_beginPath {a b : NVGcontext} (hs : nvg__getState a = nvg__getState b)
    (hp : (nvg__pickSceneGet a).pools = (nvg__pickSceneGet b).pools) :
    SameView (nvgBeginPath a) (nvgBeginPath b) := ⟨rfl, hs, hp⟩

theorem sameView_beginFrame (a b : NVGcontext) (ha : PickSceneOk a) (hb : PickSceneOk b)
    (w h r w2 h2 r2 : ℚ) :
    nvg__getState (nvgBeginFrame a w h r) = nvg__getState (nvgBeginFrame b w2 h2 r2) ∧
      (nvg__pickSceneGet (nvgBeginFrame a w h r)).pools =
        (nvg__pickSceneGet (nvgBeginFrame b w2 h2 r2)).pools := by
  obtain ⟨ps, hps, _, hpools, _, _⟩ := beginFrame_pickScene a ha w h r
  obtain ⟨ps2, hps2, _, hpools2, _, _⟩ := beginFrame_pickScene b hb w2 h2 r2
  refine ⟨by rw [beginFrame_getState, beginFrame_getState], ?_⟩
  rw [pickSceneGet_of_some _ ps hps, pickSceneGet_of_some _ ps2 hps2, hpools, hpools2]

theorem sameView_inFill (sqrtf : ℚ → ℚ) {a b : NVGcontext} (h : SameView a b) (x y : ℚ) :
    (nvgInFill sqrtf a x y).2 = (nvgInFill sqrtf b x y).2 ∧
      SameView (nvgInFill sqrtf a x y).1 (nvgInFill sqrtf b x y).1 := by
  obtain ⟨hc, hs, hp⟩ := h
  unfold nvgInFill
  simp only [hc, hs, hp]
  split
  · exact ⟨rfl, rfl, hs, rfl⟩
  · exact ⟨rfl, rfl, hs, rfl⟩

/-! ### Scenario S6 and the unit circle -/

theorem sameView_holePath {a b : NVGcontext} (hs : nvg__getState a = nvg__getState b)
    (hp : (nvg__pickSceneGet a).pools = (nvg__pickSceneGet b).pools) :
    SameView (holePath a) (holePath b) := by
  unfold holePath nvgPathWinding nvgClosePath nvgLineTo nvgMoveTo nvgRect
  repeat apply sameView_appendCommands
  exact sameView_beginPath hs hp

theorem holePath_refFrame :
    (nvgInFill sqrtfExact (holePath refFrame) 5 5).2 = 0 ∧
      (nvgInFill sqrtfExact (nvgInFill sqrtfExact (holePath refFrame) 5 5).1 1 1).2 = 1 ∧
      (nvgInFill sqrtfExact (holePath refFrame) 1 1).2 = 1 := by
  decide!

theorem sameView_circle {a b : NVGcontext} (hs : nvg__getState a = nvg__getState b)
    (hp : (nvg__pickSceneGet a).pools = (nvg__pickSceneGet b).pools) :
    SameView (nvgCircle (nvgBeginPath a) 0 0 1) (nvgCircle (nvgBeginPath b) 0 0 1) := by
  unfold nvgCircle nvgEllipse
  apply sameView_appendCommands
  exact sameView_beginPath hs hp

theorem circle_refFrame :
    (nvgInFill sqrtfExact (nvgCircle (nvgBeginPath refFrame) 0 0 1) 0 0).2 = 1 ∧
      (nvgInFill sqrtfExact
        (nvgInFill sqrtfExact (nvgCircle (nvgBeginPath refFrame) 0 0 1) 0 0).1 2 0).2 = 0 ∧
      (nvgInFill sqrtfExact (nvgCircle (nvgBeginPath refFrame) 0 0 1) 2 0).2 = 0 := by
  decide!

theorem holePath_inFill (ctx0 : NVGcontext) (hok : PickSceneOk ctx0) (w h r : ℚ) :
    (nvgInFill sqrtfExact (holePath (nvgBeginFrame ctx0 w h r)) 5 5).2 = 0 ∧
      (nvgInFill sqrtfExact
        (nvgInFill sqrtfExact (holePath (nvgBeginFrame ctx0 w h r)) 5 5).1 1 1).2 = 1 ∧
      (nvgInFill sqrtfExact (holePath (nvgBeginFrame ctx0 w h r)) 1 1).2 = 1 := by
  obtain ⟨hs, hp⟩ := sameView_beginFrame ctx0 (nvgCreateInternal 0) hok (pickSceneOk_create 0)
    w h r 0 0 1
  have hv : SameView (holePath (nvgBeginFrame ctx0 w h r)) (holePath refFrame) :=
    sameView_holePath hs hp
  obtain ⟨h1, hv1⟩ := sameView_inFill sqrtfExact hv 5 5
  obtain ⟨h2, _⟩ := sameView_inFill sqrtfExact hv1 1 1
  obtain ⟨h3, _⟩ := sameView_inFill sqrtfExact hv 1 1
  rw [h1, h2, h3]
  exact holePath_refFrame

/-- C5: for the path `nvgCircle(0, 0, 1)` recorded under the identity transform at
the start of a frame, `nvgInFill(0, 0)` returns 1 and `nvgInFill(2, 0)` returns 0,
whether the second query follows the first or is made on its own. -/
theorem unit_circle (ctx0 : NVGcontext) (hok : PickSceneOk ctx0) (w h r : ℚ) :
    (nvgInFill sqrtfExact (nvgCircle (nvgBeginPath (nvgBeginFrame ctx0 w h r)) 0 0 1) 0 0).2 = 1 ∧
      (nvgInFill sqrtfExact
        (nvgInFill sqrtfExact (nvgCircle (nvgBeginPath (nvgBeginFrame ctx0 w h r)) 0 0 1) 0 0).1
          2 0).2 = 0 ∧
      (nvgInFill sqrtfExact (nvgCircle (nvgBeginPath (nvgBeginFrame ctx0 w h r)) 0 0 1) 2 0).2 = 0 := by
  obtain ⟨hs, hp⟩ := sameView_beginFrame ctx0 (nvgCreateInternal 0) hok (pickSceneOk_create 0)
    w h r 0 0 1
  have hv : SameView (nvgCircle (nvgBeginPath (nvgBeginFrame ctx0 w h r)) 0 0 1)
      (nvgCircle (nvgBeginPath refFrame) 0 0 1) := sameView_circle hs hp
  obtain ⟨h1, hv1⟩ := sameView_inFill sqrtfExact hv 0 0
  obtain ⟨h2, _⟩ := sameView_inFill sqrtfExact hv1 2 0
  obtain ⟨h3, _⟩ := sameView_inFill sqrtfExact hv 2 0
  rw [h1, h2, h3]
  exact circle_refFrame

/-! ### The well-formedness of the pick scene is kept -/

theorem pickSceneOk_beginFrame (ctx : NVGcontext) (hok : PickSceneOk ctx) (w h r : ℚ) :
    PickSceneOk (nvgBeginFrame ctx w h r) := by
  obtain ⟨ps, hps, ⟨hl, hlev, _⟩, _⟩ := beginFrame_pickScene ctx hok w h r
  intro ps2 h2
  rw [hps] at h2
  cases h2
  refine ⟨hl, fun _ => ?_⟩
  have hget : (nvg__pickSceneGet ctx).nlevels = 5 ∧
      ((nvg__pickSceneGet ctx).levels ≠ [] → (nvg__pickSceneGet ctx).ncells = 342) := by
    unfold nvg__pickSceneGet
    cases hps0 : ctx.pickScene with
    | none => exact ⟨rfl, fun h => absurd rfl h⟩
    | some ps0 => exact hok ps0 hps0
  have hpg : nvg__pickSceneGet
      { nvg__setDevicePixelRatio (nvgReset (nvgSave { ctx with nstates := 0 })) r with
        drawCallCount := 0, fillTriCount := 0, strokeTriCount := 0, textTriCount := 0 } =
      nvg__pickSceneGet ctx := rfl
  simp only [nvgBeginFrame, nvg__pickBeginFrame, Option.some.injEq] at hps
  rw [← hps]
  simp only [hpg]
  split
  · rw [hget.1]; rfl
  · rename_i hne
    exact hget.2 hne

/-! ### Hit tests at inputs where the code departs from its contract -/

/-- C1, evaluated at a failing input. In a frame of 160 by 160 the fill of
`nvgRect(1, 1, 8, 8)` is registered under id 1, then the fill of the triangle
(40, 0), (40, 40), (0, 40) under id 2. The only registered path that contains
(5, 5) is path 1, and `nvgHitTest(5, 5, TestFill)` returns 2: `hit`, set by path 1
in the deepest cell, is still set when the loop reaches path 2 at level 1. -/
theorem hitTest_keeps_hit_of_earlier_path :
    nvgHitTest triangleScene 5 5 NVG_TEST_FILL = some 2 ∧
      containingIds triangleScene 5 5 NVG_TEST_FILL = [1] := by
  decide!

/-- C6, evaluated at a failing input. In a frame of 160 by 160 the fill of
`nvgRect(1, 1, 8, 8)` is registered under id 1, then the fill of
`nvgRect(0, 0, 15, 15)` under id 2. Both contain (5, 5), and
`nvgHitTestAll(5, 5, TestFill, ids, 8)` returns 3 and writes the ids 2, 1, 1: the
walk from the cell of path 2 follows `next` to path 1, which the deepest cell
already gave. -/
theorem hitTestAll_lists_path_twice :
    nvgHitTestAll nestedScene 5 5 NVG_TEST_FILL 8 = some (3, [2, 1, 1]) ∧
      containingIds nestedScene 5 5 NVG_TEST_FILL = [1, 2] := by
  decide!

/-! ### Contributions of the sub paths to the fill test -/

theorem pickSubPath_values (pl : NVGpickPools) (psp : NVGpickSubPath) (x y : ℚ) :
    (psp.winding = NVG_SOLID → nvg__pickSubPath pl psp x y = 0 ∨ nvg__pickSubPath pl psp x y = 1) ∧
      (psp.winding = NVG_HOLE →
        nvg__pickSubPath pl psp x y = 0 ∨ nvg__pickSubPath pl psp x y = -1) := by
  have hne : ¬ (NVG_HOLE = NVG_SOLID) := by decide
  constructor
  · intro hw
    unfold nvg__pickSubPath
    by_cases h1 : nvg__pointInBounds x y psp.bounds = 0
    · left; simp [h1]
    · by_cases h2 : pickSubPathLoop pl psp x y psp.nsegments.toNat 0 0 % 2 = 1
      · right; simp [h1, h2, hw]
      · left; simp [h1, h2]
  · intro hw
    unfold nvg__pickSubPath
    by_cases h1 : nvg__pointInBounds x y psp.bounds = 0
    · left; simp [h1]
    · by_cases h2 : pickSubPathLoop pl psp x y psp.nsegments.toNat 0 0 % 2 = 1
      · right; simp [h1, h2, hw, hne]
      · left; simp [h1, h2]

theorem pickPath_eq_sum (pl : NVGpickPools) (pp : NVGpickPath) (x y : ℚ) :
    nvg__pickPath pl pp x y =
      if (pp.subPaths.map (fun psp => nvg__pickSubPath pl psp x y)).sum ≠ 0 then 1 else 0 := by
  unfold nvg__pickPath
  have : ∀ (l : List NVGpickSubPath) (c : Int),
      l.foldl (fun (c : Int) psp => c + nvg__pickSubPath pl psp x y) c =
        c + (l.map (fun psp => nvg__pickSubPath pl psp x y)).sum := by
    intro l
    induction l with
    | nil => intro c; simp
    | cons a rest ih =>
      intro c
      simp only [List.foldl_cons, List.map_cons, List.sum_cons]
      rw [ih]
      ring
  rw [this]
  simp

/-! ### Scenario S6 with the contributions of the sub paths -/

/-- C3 (scenario S6): for the path `nvgRect(0, 0, 10, 10)`, `nvgMoveTo(2, 2)`,
`nvgLineTo(8, 2)`, `nvgLineTo(8, 8)`, `nvgLineTo(2, 8)`, `nvgClosePath`,
`nvgPathWinding(Hole)` recorded under the identity transform at the start of a
frame, `nvgInFill(5, 5)` returns 0 and `nvgInFill(1, 1)` returns 1 (after the first
query or on its own); a sub path with winding Solid contributes 0 or 1, one with
winding Hole 0 or -1, and `nvg__pickPath` returns 1 exactly when the
contributions do not sum to zero. -/
theorem scenario_S6 (ctx0 : NVGcontext) (hok : PickSceneOk ctx0) (w h r : ℚ) :
    ((nvgInFill sqrtfExact (holePath (nvgBeginFrame ctx0 w h r)) 5 5).2 = 0 ∧
        (nvgInFill sqrtfExact
          (nvgInFill sqrtfExact (holePath (nvgBeginFrame ctx0 w h r)) 5 5).1 1 1).2 = 1 ∧
        (nvgInFill sqrtfExact (holePath (nvgBeginFrame ctx0 w h r)) 1 1).2 = 1) ∧
      (∀ (pl : NVGpickPools) (psp : NVGpickSubPath) (x y : ℚ),
        (psp.winding = NVG_SOLID →
          nvg__pickSubPath pl psp x y = 0 ∨ nvg__pickSubPath pl psp x y = 1) ∧
        (psp.winding = NVG_HOLE →
          nvg__pickSubPath pl psp x y = 0 ∨ nvg__pickSubPath pl psp x y = -1)) ∧
      ∀ (pl : NVGpickPools) (pp : NVGpickPath) (x y : ℚ),
        nvg__pickPath pl pp x y =
          if (pp.subPaths.map (fun psp => nvg__pickSubPath pl psp x y)).sum ≠ 0 then 1 else 0 :=
  ⟨holePath_inFill ctx0 hok w h r, pickSubPath_values, pickPath_eq_sum⟩

/-! ### The scenario theorems at a frame of 320 by 240 on a fresh context -/

/-- C2 at a frame of 320 by 240 on the context that `nvgCreateInternal` returns. -/
theorem scenario_S4_witness :
    PickSceneOk (nvgCreateInternal 1) ∧ (0 : ℚ) < 320 ∧ (0 : ℚ) < 240 ∧
      nvgHitTest
          (nvgFillHitRegion sqrtfExact
            (nvgRect (nvgBeginPath (nvgBeginFrame (nvgCreateInternal 1) 320 240 1)) 0 0 10 10) 7)
          5 5 NVG_TEST_FILL = some 7 ∧
      nvgHitTest
          (nvgFillHitRegion sqrtfExact
            (nvgRect (nvgBeginPath (nvgBeginFrame (nvgCreateInternal 1) 320 240 1)) 0 0 10 10) 7)
          15 5 NVG_TEST_FILL = some (-1) :=
  ⟨pickSceneOk_create 1, by norm_num, by norm_num,
    scenario_S4 (nvgCreateInternal 1) (pickSceneOk_create 1) 320 240 1 (by norm_num)
      (by norm_num)⟩

/-- C4 at a frame of 320 by 240 on the context that `nvgCreateInternal` returns. -/
theorem scenario_S5_witness :
    PickSceneOk (nvgCreateInternal 1) ∧ (0 : ℚ) < 320 ∧ (0 : ℚ) < 240 ∧
      nvgHitTest
          (nvgStrokeHitRegion sqrtfExact
            (nvgLineTo
              (nvgMoveTo
                (nvgBeginPath
                  (nvgLineCap (nvgStrokeWidth (nvgBeginFrame (nvgCreateInternal 1) 320 240 1) 4)
                    NVG_ROUND))
                0 0)
              100 0)
            3)
          (-1) 0 NVG_TEST_STROKE = some 3 :=
  ⟨pickSceneOk_create 1, by norm_num, by norm_num,
    (scenario_S5 (nvgCreateInternal 1) (pickSceneOk_create 1) 320 240 1 (by norm_num)
      (by norm_num)).1⟩

/-- C3 at a frame of 320 by 240 on the context that `nvgCreateInternal` returns. -/
theorem scenario_S6_witness :
    PickSceneOk (nvgCreateInternal 1) ∧
      (nvgInFill sqrtfExact (holePath (nvgBeginFrame (nvgCreateInternal 1) 320 240 1)) 5 5).2 = 0 ∧
      (nvgInFill sqrtfExact (holePath (nvgBeginFrame (nvgCreateInternal 1) 320 240 1)) 1 1).2 = 1 :=
  ⟨pickSceneOk_create 1,
    (scenario_S6 (nvgCreateInternal 1) (pickSceneOk_create 1) 320 240 1).1.1,
    (scenario_S6 (nvgCreateInternal 1) (pickSceneOk_create 1) 320 240 1).1.2.2⟩

/-- C5 at a frame of 320 by 240 on the context that `nvgCreateInternal` returns. -/
theorem unit_circle_witness :
    PickSceneOk (nvgCreateInternal 1) ∧
      (nvgInFill sqrtfExact
        (nvgCircle (nvgBeginPath (nvgBeginFrame (nvgCreateInternal 1) 320 240 1)) 0 0 1) 0 0).2 = 1 ∧
      (nvgInFill sqrtfExact
        (nvgCircle (nvgBeginPath (nvgBeginFrame (nvgCreateInternal 1) 320 240 1)) 0 0 1) 2 0).2 = 0 :=
  ⟨pickSceneOk_create 1,
    (unit_circle (nvgCreateInternal 1) (pickSceneOk_create 1) 320 240 1).1,
    (unit_circle (nvgCreateInternal 1) (pickSceneOk_create 1) 320 240 1).2.2⟩

/-! ## Theorems: the pen -/

theorem pen_after_simple_commands (ctx : NVGcontext) (c1x c1y c2x c2y x y : ℚ) :
    ((nvgMoveTo ctx x y).commandx = x ∧ (nvgMoveTo ctx x y).commandy = y) ∧
      ((nvgLineTo ctx x y).commandx = x ∧ (nvgLineTo ctx x y).commandy = y) ∧
      ((nvgBezierTo ctx c1x c1y c2x c2y x y).commandx = x ∧
        (nvgBezierTo ctx c1x c1y c2x c2y x y).commandy = y) ∧
      ((nvgQuadTo ctx c1x c1y x y).commandx = x ∧ (nvgQuadTo ctx c1x c1y x y).commandy = y) := by
  simp [nvgMoveTo, nvgLineTo, nvgBezierTo, nvgQuadTo, nvg__appendCommands, cInt_zero, cInt_one,
    cInt_two, NVG_MOVETO, NVG_LINETO, NVG_BEZIERTO, NVG_CLOSE, NVG_WINDING]

theorem rect_pen (ctx : NVGcontext) (x y w h : ℚ) :
    (nvgRect ctx x y w h).commandx = y ∧ (nvgRect ctx x y w h).commandy = (NVG_CLOSE : ℚ) := by
  simp [nvgRect, nvg__appendCommands, cInt_zero, NVG_MOVETO, NVG_CLOSE, NVG_WINDING]

theorem ellipse_pen (ctx : NVGcontext) (cx cy rx ry : ℚ) :
    (nvgEllipse ctx cx cy rx ry).commandx = cy ∧
      (nvgEllipse ctx cx cy rx ry).commandy = (NVG_CLOSE : ℚ) := by
  simp [nvgEllipse, nvg__appendCommands, cInt_zero, NVG_MOVETO, NVG_CLOSE, NVG_WINDING]

/-- C11, evaluated at a failing input. After `nvgRect(1, 2, 10, 20)` the pen is
`(2, 3)`: `nvg__appendCommands` takes the last two floats of the record, which
for the record of `nvgRect` are the `y` of its last `NVG_LINETO` and the tag
`NVG_CLOSE`, not the last anchor `(11, 2)`. The same holds after
`nvgRoundedRect(1, 2, 10, 20, 3)` and after `nvgEllipse(5, 6, 1, 1)`, whose
records end with `NVG_CLOSE` too. -/
theorem pen_after_rect_is_not_last_anchor :
    ((nvgRect (nvgBeginPath (nvgCreateInternal 1)) 1 2 10 20).commandx = 2 ∧
        (nvgRect (nvgBeginPath (nvgCreateInternal 1)) 1 2 10 20).commandy = 3) ∧
      ((nvgRoundedRect (nvgBeginPath (nvgCreateInternal 1)) 1 2 10 20 3).commandx = 5 ∧
        (nvgRoundedRect (nvgBeginPath (nvgCreateInternal 1)) 1 2 10 20 3).commandy = 3) ∧
      ((nvgEllipse (nvgBeginPath (nvgCreateInternal 1)) 5 6 1 1).commandx = 6 ∧
        (nvgEllipse (nvgBeginPath (nvgCreateInternal 1)) 5 6 1 1).commandy = 3) := by
  decide!

/-! ## Theorems: order of composition of transforms -/

theorem transformMultiply_point (t s : Xform) (px py : ℚ) :
    nvgTransformPoint (nvgTransformMultiply t s) px py =
      nvgTransformPoint s (nvgTransformPoint t px py).1 (nvgTransformPoint t px py).2 := by
  simp only [nvgTransformPoint, nvgTransformMultiply, Prod.mk.injEq]
  constructor <;> ring

theorem transformPremultiply_point (t s : Xform) (px py : ℚ) :
    nvgTransformPoint (nvgTransformPremultiply t s) px py =
      nvgTransformPoint t (nvgTransformPoint s px py).1 (nvgTransformPoint s px py).2 := by
  unfold nvgTransformPremultiply
  exact transformMultiply_point s t px py

/-! ## Theorems: arcs -/

/-- The value of `nvg__distPtSeg` is the squared distance from `(x, y)` to a point
of the segment from `(px, py)` to `(qx, qy)`, and no point of the segment is
nearer. -/
theorem distPtSeg_is_least (x y px py qx qy : ℚ) :
    (∃ t : ℚ, 0 ≤ t ∧ t ≤ 1 ∧
        nvg__distPtSeg x y px py qx qy =
          (px + t * (qx - px) - x) * (px + t * (qx - px) - x) +
            (py + t * (qy - py) - y) * (py + t * (qy - py) - y)) ∧
      ∀ s : ℚ, 0 ≤ s → s ≤ 1 →
        nvg__distPtSeg x y px py qx qy ≤
          (px + s * (qx - px) - x) * (px + s * (qx - px) - x) +
            (py + s * (qy - py) - y) * (py + s * (qy - py) - y) := by
  unfold nvg__distPtSeg
  simp only
  set d := (qx - px) * (qx - px) + (qy - py) * (qy - py) with hd
  set T := (qx - px) * (x - px) + (qy - py) * (y - py) with hT
  have hd0 : 0 ≤ d := by rw [hd]; nlinarith [mul_self_nonneg (qx - px), mul_self_nonneg (qy - py)]
  have key : ∀ s t : ℚ,
      ((px + s * (qx - px) - x) * (px + s * (qx - px) - x) +
          (py + s * (qy - py) - y) * (py + s * (qy - py) - y)) -
        ((px + t * (qx - px) - x) * (px + t * (qx - px) - x) +
          (py + t * (qy - py) - y) * (py + t * (qy - py) - y)) =
        (s - t) * (d * (s + t) - 2 * T) := by
    intro s t
    rw [hd, hT]
    ring
  have hzero : d = 0 → qx - px = 0 ∧ qy - py = 0 ∧ T = 0 := by
    intro hdz
    have hqx : qx - px = 0 := by
      have : (qx - px) * (qx - px) = 0 := by
        rw [hd] at hdz
        nlinarith [mul_self_nonneg (qx - px), mul_self_nonneg (qy - py)]
      exact mul_self_eq_zero.mp this
    have hqy : qy - py = 0 := by
      have : (qy - py) * (qy - py) = 0 := by
        rw [hd] at hdz
        nlinarith [mul_self_nonneg (qx - px), mul_self_nonneg (qy - py)]
      exact mul_self_eq_zero.mp this
    exact ⟨hqx, hqy, by rw [hT, hqx, hqy]; ring⟩
  clear_value d T
  by_cases hpos : d > 0
  · rw [if_pos hpos]
    have hTd : T / d * d = T := div_mul_cancel₀ T (ne_of_gt hpos)
    by_cases h0 : T / d < 0
    · rw [if_pos h0]
      have hTneg : T < 0 := by
        by_contra hge
        exact absurd (div_nonneg (not_lt.mp hge) hd0) (not_le.mpr h0)
      refine ⟨⟨0, le_refl _, zero_le_one, rfl⟩, fun s hs0 hs1 => ?_⟩
      have hk := key s 0
      have hfac : 0 ≤ s * (d * (s + 0) - 2 * T) := by
        apply mul_nonneg hs0
        have := mul_nonneg hd0 hs0
        linarith
      rw [sub_zero] at hk
      linarith
    · rw [if_neg h0]
      by_cases h1 : T / d > 1
      · rw [if_pos h1]
        have hTgt : d < T := by
          have := mul_lt_mul_of_pos_right h1 hpos
          rw [hTd, one_mul] at this
          exact this
        refine ⟨⟨1, zero_le_one, le_refl _, rfl⟩, fun s hs0 hs1 => ?_⟩
        have hk := key s 1
        have hfac : 0 ≤ (s - 1) * (d * (s + 1) - 2 * T) := by
          apply mul_nonneg_of_nonpos_of_nonpos (by linarith)
          have := mul_le_mul_of_nonneg_left hs1 hd0
          linarith
        linarith
      · rw [if_neg h1]
        refine ⟨⟨T / d, not_lt.mp h0, not_lt.mp h1, rfl⟩, fun s _ _ => ?_⟩
        have hk := key s (T / d)
        have e : d * (s + T / d) - 2 * T = d * (s - T / d) := by
          have : d * (T / d) = T := by rw [mul_comm]; exact hTd
          linear_combination (2 : ℚ) * this
        rw [e] at hk
        have hsq := mul_nonneg hd0 (mul_self_nonneg (s - T / d))
        have e2 : (s - T / d) * (d * (s - T / d)) = d * ((s - T / d) * (s - T / d)) := by ring
        rw [e2] at hk
        linarith
  · rw [if_neg hpos]
    have hdz : d = 0 := le_antisymm (not_lt.mp hpos) hd0
    obtain ⟨hqx, hqy, hTz⟩ := hzero hdz
    rw [hTz, if_neg (lt_irrefl 0), if_neg (by norm_num)]
    refine ⟨⟨0, le_refl _, zero_le_one, rfl⟩, fun s _ _ => ?_⟩
    rw [hqx, hqy]
    simp

/-! ## Theorems: arcs, the number of cubic segments -/

theorem arcDivs_bounds (da : ℚ) : 1 ≤ arcDivs da ∧ arcDivs da ≤ 5 := by
  unfold arcDivs nvg__maxi nvg__mini
  constructor <;> split_ifs <;> omega

theorem arcStep_vals_length (cosf sinf : ℚ → ℚ) (cx cy r a0 da kappa : ℚ) (move ndivs : Int)
    (l : List Nat) (s : ArcVars) :
    (l.foldl (arcStep cosf sinf cx cy r a0 da kappa move ndivs) s).vals.length =
      s.vals.length + (l.map (fun i => if i = 0 then 3 else 7)).sum := by
  induction l generalizing s with
  | nil => simp
  | cons i l ih =>
    rw [List.foldl_cons, ih]
    by_cases hi : i = 0
    · simp [arcStep, hi, Nat.add_assoc]
    · simp [arcStep, hi, Nat.add_assoc]

theorem range_succ_weights (n : Nat) :
    ((List.range (n + 1)).map (fun i => if i = 0 then 3 else 7)).sum = 3 + 7 * n := by
  induction n with
  | zero => rfl
  | succ k ih =>
    rw [List.range_succ, List.map_append, List.sum_append, ih]
    simp
    omega

/-- The record that `nvgArc` hands to `nvg__appendCommands` has 3 floats for the
first vertex and 7 for each of the `ndivs` cubic segments. -/
theorem arcVals_length (cosf sinf : ℚ → ℚ) (ncommands : Nat) (cx cy r a0 a1 : ℚ) (dir : Int) :
    (arcVals cosf sinf ncommands cx cy r a0 a1 dir).length =
      3 + 7 * (arcDivs (arcSweep a0 a1 dir)).toNat := by
  unfold arcVals
  simp only [arcStep_vals_length, range_succ_weights, List.length_nil, Nat.zero_add]

/-- C15, evaluated at a failing input. For `nvgArc(cx, cy, r, 0, 2, NVG_CW)` the
clamped sweep is `da = 2` radians, `ndivs` is `(int)(2 / (NVG_PI*0.5f) + 0.5f) = 1`,
and the record has the first vertex and one cubic segment (10 floats), which
spans the whole sweep of 2 radians, more than `NVG_PI / 2`. -/
theorem arc_cubic_spans_more_than_quarter_turn :
    arcSweep 0 2 NVG_CW = 2 ∧ arcDivs 2 = 1 ∧ NVG_PI / 2 < nvg__absf 2 / 1 ∧
      ∀ (cosf sinf : ℚ → ℚ) (cx cy r : ℚ),
        (arcVals cosf sinf 0 cx cy r 0 2 NVG_CW).length = 3 + 7 * 1 := by
  have h1 : arcSweep 0 2 NVG_CW = 2 := by decide!
  have h2 : arcDivs 2 = 1 := by decide!
  refine ⟨h1, h2, by decide!, ?_⟩
  intro cosf sinf cx cy r
  rw [arcVals_length, h1, h2]
  rfl

theorem NVG_PI_pos : 0 < NVG_PI := by unfold NVG_PI; norm_num

/-- The loops of "Clamp angles" end within their fuel: for `NVG_CW` the sweep is
between 0 and `NVG_PI*2`, for any other direction between `-NVG_PI*2` and 0. -/
theorem arcSweep_settled (a0 a1 : ℚ) (dir : Int) :
    (dir = NVG_CW → 0 ≤ arcSweep a0 a1 dir ∧ arcSweep a0 a1 dir ≤ NVG_PI * 2) ∧
      (dir ≠ NVG_CW → -(NVG_PI * 2) ≤ arcSweep a0 a1 dir ∧ arcSweep a0 a1 dir ≤ 0) := by
  have hpi := NVG_PI_pos
  constructor
  · intro hd
    simp only [arcSweep, hd, if_true, arcWrapUp, nvg__absf]
    split_ifs <;> constructor <;> linarith
  · intro hd
    simp only [arcSweep, if_neg hd, arcWrapDown, nvg__absf]
    split_ifs <;> constructor <;> linarith

/-! ## Theorems: the path cache across frames -/

/-- C16, the claim as stated fails: after a rectangle was filled, the path cache
holds one path and four points, and it still does after `nvgBeginFrame`. -/
theorem beginFrame_keeps_flattened_path :
    filledFrame.cache.npaths = 1 ∧ filledFrame.cache.npoints = 4 ∧
      (nvgBeginFrame filledFrame 320 240 1).cache.npaths = 1 ∧
      (nvgBeginFrame filledFrame 320 240 1).cache.npoints = 4 := by
  decide!

/-- C16, amended: `nvgBeginFrame` leaves the path cache as it was (paths, points
and bounds), and it is `nvgBeginPath` that empties it (`npaths = 0` and
`npoints = 0`). -/
theorem beginFrame_leaves_path_cache (ctx : NVGcontext) (w h r : ℚ) :
    (nvgBeginFrame ctx w h r).cache = ctx.cache ∧
      (nvgBeginPath ctx).cache.npaths = 0 ∧ (nvgBeginPath ctx).cache.npoints = 0 :=
  ⟨rfl, rfl, rfl⟩

/-! ## Theorems: flattening does not read the bounds of the cache -/

theorem addPath_bounds (p : List NVGpoint) (q : List NVGpath) (b b' : Bounds) :
    nvg__addPath ⟨p, q, b⟩ = ⟨(nvg__addPath ⟨p, q, b'⟩).points, (nvg__addPath ⟨p, q, b'⟩).paths, b⟩ :=
  rfl

theorem addPoint_bounds (d : ℚ) (p : List NVGpoint) (q : List NVGpath) (b b' : Bounds) (x y : ℚ)
    (f : Nat) :
    nvg__addPoint d ⟨p, q, b⟩ x y f =
      ⟨(nvg__addPoint d ⟨p, q, b'⟩ x y f).points, (nvg__addPoint d ⟨p, q, b'⟩ x y f).paths, b⟩ := by
  unfold nvg__addPoint nvg__lastPath nvg__lastPoint
  cases h : q.getLast? with
  | none => simp [h]
  | some path =>
    simp only [h]
    by_cases hc : path.count > 0
    · simp only [if_pos hc]
      cases h2 : p.getLast? with
      | none => rfl
      | some pt =>
        simp only [h2]
        split_ifs <;> rfl
    · simp only [if_neg hc]
      rfl

theorem closePath_bounds (p : List NVGpoint) (q : List NVGpath) (b b' : Bounds) :
    nvg__closePath ⟨p, q, b⟩ =
      ⟨(nvg__closePath ⟨p, q, b'⟩).points, (nvg__closePath ⟨p, q, b'⟩).paths, b⟩ := by
  unfold nvg__closePath nvg__lastPath
  cases h : q.getLast? with
  | none => simp [h]
  | some path => simp only [h]; rfl

theorem pathWinding_bounds (p : List NVGpoint) (q : List NVGpath) (b b' : Bounds) (w : Int) :
    nvg__pathWinding ⟨p, q, b⟩ w =
      ⟨(nvg__pathWinding ⟨p, q, b'⟩ w).points, (nvg__pathWinding ⟨p, q, b'⟩ w).paths, b⟩ := by
  unfold nvg__pathWinding nvg__lastPath
  cases h : q.getLast? with
  | none => simp [h]
  | some path => simp only [h]; rfl

theorem tesselateBezier_bounds (tessTol distTol : ℚ) (levels : Nat) :
    ∀ (p : List NVGpoint) (q : List NVGpath) (b b' : Bounds) (x1 y1 x2 y2 x3 y3 x4 y4 : ℚ)
      (type : Nat),
      nvg__tesselateBezier tessTol distTol levels ⟨p, q, b⟩ x1 y1 x2 y2 x3 y3 x4 y4 type =
        ⟨(nvg__tesselateBezier tessTol distTol levels ⟨p, q, b'⟩ x1 y1 x2 y2 x3 y3 x4 y4 type).points,
          (nvg__tesselateBezier tessTol distTol levels ⟨p, q, b'⟩ x1 y1 x2 y2 x3 y3 x4 y4 type).paths,
          b⟩ := by
  induction levels with
  | zero => intros; rfl
  | succ n ih =>
    intro p q b b' x1 y1 x2 y2 x3 y3 x4 y4 type
    simp only [nvg__tesselateBezier]
    split_ifs
    · exact addPoint_bounds _ _ _ _ _ _ _ _
    · rw [ih p q b b']
      generalize nvg__tesselateBezier tessTol distTol n ⟨p, q, b'⟩ x1 y1 _ _ _ _ _ _ 0 = c1
      obtain ⟨p1, q1, b1⟩ := c1
      exact ih p1 q1 b b1 _ _ _ _ _ _ _ _ _

theorem flattenCommand_bounds (tessTol distTol : ℚ) (commands : List ℚ) (i : Nat)
    (p : List NVGpoint) (q : List NVGpath) (b b' : Bounds) :
    flattenCommand tessTol distTol commands i ⟨p, q, b⟩ =
      (⟨(flattenCommand tessTol distTol commands i ⟨p, q, b'⟩).1.points,
          (flattenCommand tessTol distTol commands i ⟨p, q, b'⟩).1.paths, b⟩,
        (flattenCommand tessTol distTol commands i ⟨p, q, b'⟩).2) := by
  unfold flattenCommand
  simp only
  split_ifs
  · rw [addPath_bounds p q b b']
    generalize nvg__addPath ⟨p, q, b'⟩ = c1
    obtain ⟨p1, q1, b1⟩ := c1
    rw [addPoint_bounds distTol p1 q1 b b1]
  · rw [addPoint_bounds distTol p q b b']
  · unfold nvg__lastPoint
    cases h : p.getLast? with
    | none => simp [h]
    | some last => simp only [h]; rw [tesselateBezier_bounds tessTol distTol 11 p q b b']
  · rw [closePath_bounds p q b b']
  · rw [pathWinding_bounds p q b b']
  · rfl

theorem flattenCommandsLoop_bounds (tessTol distTol : ℚ) (commands : List ℚ) (fuel : Nat) :
    ∀ (i : Nat) (p : List NVGpoint) (q : List NVGpath) (b b' : Bounds),
      flattenCommandsLoop tessTol distTol commands fuel i ⟨p, q, b⟩ =
        ⟨(flattenCommandsLoop tessTol distTol commands fuel i ⟨p, q, b'⟩).points,
          (flattenCommandsLoop tessTol distTol commands fuel i ⟨p, q, b'⟩).paths, b⟩ := by
  induction fuel with
  | zero => intros; rfl
  | succ n ih =>
    intro i p q b b'
    simp only [flattenCommandsLoop]
    split_ifs
    · rw [flattenCommand_bounds tessTol distTol commands i p q b b']
      simp only
      generalize flattenCommand tessTol distTol commands i ⟨p, q, b'⟩ = r
      obtain ⟨⟨p1, q1, b1⟩, i1⟩ := r
      exact ih i1 p1 q1 b b1
    · rfl

/-- The cache that `nvg__flattenPaths` returns for a cache without paths does not
depend on the bounds the cache held. -/
theorem flattenPaths_bounds (sqrtf : ℚ → ℚ) (commands : List ℚ) (tessTol distTol : ℚ)
    (p : List NVGpoint) (b b' : Bounds) :
    nvg__flattenPaths sqrtf commands tessTol distTol ⟨p, [], b⟩ =
      nvg__flattenPaths sqrtf commands tessTol distTol ⟨p, [], b'⟩ := by
  unfold nvg__flattenPaths
  have h1 : ∀ b0 : Bounds, ¬ (⟨p, [], b0⟩ : NVGpathCache).npaths > 0 := by
    intro b0
    simp [NVGpathCache.npaths]
  simp only [if_neg (h1 b), if_neg (h1 b')]
  rw [flattenCommandsLoop_bounds tessTol distTol commands commands.length 0 p [] b b']

/-! ## Theorems: scenario S1 -/

theorem s1_commands :
    appendCommandsLoop resetState.xform
        [(NVG_MOVETO : ℚ), 10, 10, (NVG_LINETO : ℚ), 10, 10 + 50, (NVG_LINETO : ℚ), 10 + 100, 10 + 50,
          (NVG_LINETO : ℚ), 10 + 100, 10, (NVG_CLOSE : ℚ)].length 0
        [(NVG_MOVETO : ℚ), 10, 10, (NVG_LINETO : ℚ), 10, 10 + 50, (NVG_LINETO : ℚ), 10 + 100, 10 + 50,
          (NVG_LINETO : ℚ), 10 + 100, 10, (NVG_CLOSE : ℚ)] = s1Commands := by decide!

theorem s1Cache_value :
    s1Cache.paths =
        [{ first := 0, count := 4, closed := 1, nbevel := 0,
           fill := [⟨21 / 2, 21 / 2, 1 / 2, 1⟩, ⟨21 / 2, 119 / 2, 1 / 2, 1⟩,
             ⟨219 / 2, 119 / 2, 1 / 2, 1⟩, ⟨219 / 2, 21 / 2, 1 / 2, 1⟩],
           stroke := [⟨21 / 2, 21 / 2, 1 / 2, 1⟩, ⟨19 / 2, 19 / 2, 1, 1⟩,
             ⟨21 / 2, 119 / 2, 1 / 2, 1⟩, ⟨19 / 2, 121 / 2, 1, 1⟩,
             ⟨219 / 2, 119 / 2, 1 / 2, 1⟩, ⟨221 / 2, 121 / 2, 1, 1⟩,
             ⟨219 / 2, 21 / 2, 1 / 2, 1⟩, ⟨221 / 2, 19 / 2, 1, 1⟩,
             ⟨21 / 2, 21 / 2, 1 / 2, 1⟩, ⟨19 / 2, 19 / 2, 1, 1⟩],
           winding := NVG_CCW, convex := 1 }] ∧
      s1Cache.bounds = ⟨10, 10, 110, 60⟩ := by
  decide!

theorem fill_cache (sqrtf : ℚ → ℚ) (ctx : NVGcontext)
    (haa : ctx.edgeAntiAlias ≠ 0 ∧ (nvg__getState ctx).shapeAntiAlias ≠ 0) :
    (nvgFill sqrtf ctx).2.paths =
        (nvg__expandFill (nvg__flattenPaths sqrtf ctx.commands ctx.tessTol ctx.distTol ctx.cache)
          ctx.fringeWidth ctx.fringeWidth NVG_MITER (24 / 10)).paths ∧
      (nvgFill sqrtf ctx).2.bounds =
        (nvg__expandFill (nvg__flattenPaths sqrtf ctx.commands ctx.tessTol ctx.distTol ctx.cache)
          ctx.fringeWidth ctx.fringeWidth NVG_MITER (24 / 10)).bounds := by
  simp only [nvgFill, if_pos haa, and_self]

/-- C20 (scenario S1): in a frame begun with device pixel ratio 1 on a context
with edge anti-aliasing on, `nvgBeginPath`, `nvgRect(10, 10, 100, 50)` and
`nvgFill` hand `renderFill` exactly one path, closed and convex, with the 4 fill
vertices (10.5, 10.5), (10.5, 59.5), (109.5, 59.5), (109.5, 10.5), each with
`u = 0.5` and `v = 1`, a fringe strip of 10 vertices, and the bounds
[10, 10, 110, 60]. -/
theorem scenario_S1 (ctx0 : NVGcontext) (w h : ℚ) (haa : ctx0.edgeAntiAlias ≠ 0) :
    (nvgFill sqrtfExact
          (nvgRect (nvgBeginPath (nvgBeginFrame ctx0 w h 1)) 10 10 100 50)).2.paths =
        [{ first := 0, count := 4, closed := 1, nbevel := 0,
           fill := [⟨21 / 2, 21 / 2, 1 / 2, 1⟩, ⟨21 / 2, 119 / 2, 1 / 2, 1⟩,
             ⟨219 / 2, 119 / 2, 1 / 2, 1⟩, ⟨219 / 2, 21 / 2, 1 / 2, 1⟩],
           stroke := [⟨21 / 2, 21 / 2, 1 / 2, 1⟩, ⟨19 / 2, 19 / 2, 1, 1⟩,
             ⟨21 / 2, 119 / 2, 1 / 2, 1⟩, ⟨19 / 2, 121 / 2, 1, 1⟩,
             ⟨219 / 2, 119 / 2, 1 / 2, 1⟩, ⟨221 / 2, 121 / 2, 1, 1⟩,
             ⟨219 / 2, 21 / 2, 1 / 2, 1⟩, ⟨221 / 2, 19 / 2, 1, 1⟩,
             ⟨21 / 2, 21 / 2, 1 / 2, 1⟩, ⟨19 / 2, 19 / 2, 1, 1⟩],
           winding := NVG_CCW, convex := 1 }] ∧
      (nvgFill sqrtfExact
          (nvgRect (nvgBeginPath (nvgBeginFrame ctx0 w h 1)) 10 10 100 50)).2.bounds =
        ⟨10, 10, 110, 60⟩ := by
  have hstate : nvg__getState (nvgRect (nvgBeginPath (nvgBeginFrame ctx0 w h 1)) 10 10 100 50) =
      resetState := by
    unfold nvgRect
    rw [getState_appendCommands, getState_beginPath, beginFrame_getState]
  have hcmd : (nvgRect (nvgBeginPath (nvgBeginFrame ctx0 w h 1)) 10 10 100 50).commands =
      s1Commands := by
    unfold nvgRect
    rw [commands_appendCommands, commands_beginPath, getState_beginPath, beginFrame_getState,
      s1_commands]
    rfl
  have htess : (nvgRect (nvgBeginPath (nvgBeginFrame ctx0 w h 1)) 10 10 100 50).tessTol = 1 / 4 := by
    show (1 : ℚ) / 4 / 1 = 1 / 4
    norm_num
  have hdist : (nvgRect (nvgBeginPath (nvgBeginFrame ctx0 w h 1)) 10 10 100 50).distTol =
      1 / 100 := by
    show (1 : ℚ) / 100 / 1 = 1 / 100
    norm_num
  have hfringe : (nvgRect (nvgBeginPath (nvgBeginFrame ctx0 w h 1)) 10 10 100 50).fringeWidth =
      1 := by
    show (1 : ℚ) / 1 = 1
    norm_num
  have hcache : (nvgRect (nvgBeginPath (nvgBeginFrame ctx0 w h 1)) 10 10 100 50).cache =
      ⟨[], [], ctx0.cache.bounds⟩ := rfl
  have hedge : (nvgRect (nvgBeginPath (nvgBeginFrame ctx0 w h 1)) 10 10 100 50).edgeAntiAlias =
      ctx0.edgeAntiAlias := rfl
  have hfill := fill_cache sqrtfExact (nvgRect (nvgBeginPath (nvgBeginFrame ctx0 w h 1)) 10 10 100 50)
    ⟨by rw [hedge]; exact haa, by rw [hstate]; decide⟩
  rw [hcmd, htess, hdist, hfringe, hcache,
    flattenPaths_bounds sqrtfExact s1Commands (1 / 4) (1 / 100) [] ctx0.cache.bounds
      ⟨0, 0, 0, 0⟩] at hfill
  rw [hfill.1, hfill.2]
  exact s1Cache_value

/-- C20 in a frame of 320 by 240 on the context that `nvgCreateInternal` returns
with edge anti-aliasing on. -/
theorem scenario_S1_witness :
    (nvgCreateInternal 1).edgeAntiAlias ≠ 0 ∧
      (nvgFill sqrtfExact
          (nvgRect (nvgBeginPath (nvgBeginFrame (nvgCreateInternal 1) 320 240 1)) 10 10 100
            50)).2.bounds =
        ⟨10, 10, 110, 60⟩ :=
  ⟨by decide, (scenario_S1 (nvgCreateInternal 1) 320 240 (by decide)).2⟩

/-! ## Theorems: flattening twice -/

theorem setLastPath_paths_length (c : NVGpathCache) (path : NVGpath) :
    (setLastPath c path).paths.length = c.paths.length := by
  simp [setLastPath]

theorem addPoint_paths_length (d : ℚ) (c : NVGpathCache) (x y : ℚ) (f : Nat) :
    (nvg__addPoint d c x y f).paths.length = c.paths.length := by
  unfold nvg__addPoint
  split
  · rfl
  · split
    · split_ifs
      · rfl
      · simp [setLastPath]
    · simp [setLastPath]

theorem closePath_paths_length (c : NVGpathCache) :
    (nvg__closePath c).paths.length = c.paths.length := by
  unfold nvg__closePath
  split
  · rfl
  · simp [setLastPath]

theorem pathWinding_paths_length (c : NVGpathCache) (w : Int) :
    (nvg__pathWinding c w).paths.length = c.paths.length := by
  unfold nvg__pathWinding
  split
  · rfl
  · simp [setLastPath]

theorem tesselateBezier_paths_length (tessTol distTol : ℚ) (levels : Nat) :
    ∀ (c : NVGpathCache) (x1 y1 x2 y2 x3 y3 x4 y4 : ℚ) (type : Nat),
      (nvg__tesselateBezier tessTol distTol levels c x1 y1 x2 y2 x3 y3 x4 y4 type).paths.length =
        c.paths.length := by
  induction levels with
  | zero => intros; rfl
  | succ n ih =>
    intro c x1 y1 x2 y2 x3 y3 x4 y4 type
    simp only [nvg__tesselateBezier]
    split_ifs
    · exact addPoint_paths_length _ _ _ _ _
    · rw [ih, ih]

theorem flattenCommand_paths_length (tessTol distTol : ℚ) (commands : List ℚ) (i : Nat)
    (c : NVGpathCache) :
    c.paths.length ≤ (flattenCommand tessTol distTol commands i c).1.paths.length := by
  unfold flattenCommand
  simp only
  split_ifs
  · rw [addPoint_paths_length]
    simp [nvg__addPath]
  · rw [addPoint_paths_length]
  · split
    · rw [tesselateBezier_paths_length]
    · exact le_refl _
  · rw [closePath_paths_length]
  · rw [pathWinding_paths_length]
  · exact le_refl _

theorem flattenCommandsLoop_paths_length (tessTol distTol : ℚ) (commands : List ℚ) (fuel : Nat) :
    ∀ (i : Nat) (c : NVGpathCache),
      c.paths.length ≤ (flattenCommandsLoop tessTol distTol commands fuel i c).paths.length := by
  induction fuel with
  | zero => intros; exact le_refl _
  | succ n ih =>
    intro i c
    simp only [flattenCommandsLoop]
    split_ifs
    · exact le_trans (flattenCommand_paths_length tessTol distTol commands i c) (ih _ _)
    · exact le_refl _

theorem addPoint_of_no_path (d : ℚ) (c : NVGpathCache) (x y : ℚ) (f : Nat) (h : c.paths = []) :
    nvg__addPoint d c x y f = c := by
  simp [nvg__addPoint, nvg__lastPath, h]

theorem tesselateBezier_of_no_path (tessTol distTol : ℚ) (levels : Nat) :
    ∀ (c : NVGpathCache) (x1 y1 x2 y2 x3 y3 x4 y4 : ℚ) (type : Nat), c.paths = [] →
      nvg__tesselateBezier tessTol distTol levels c x1 y1 x2 y2 x3 y3 x4 y4 type = c := by
  induction levels with
  | zero => intros; rfl
  | succ n ih =>
    intro c x1 y1 x2 y2 x3 y3 x4 y4 type h
    simp only [nvg__tesselateBezier]
    split_ifs
    · exact addPoint_of_no_path _ _ _ _ _ h
    · rw [ih c _ _ _ _ _ _ _ _ _ h, ih c _ _ _ _ _ _ _ _ _ h]

/-- A command other than `NVG_MOVETO` leaves a cache without paths as it is; the
index of the next command does not depend on the cache. -/
theorem flattenCommand_of_no_path (tessTol distTol : ℚ) (commands : List ℚ) (i : Nat)
    (c c' : NVGpathCache) (h' : c'.paths = [])
    (hr : (flattenCommand tessTol distTol commands i c).1.paths = []) :
    flattenCommand tessTol distTol commands i c' =
      (c', (flattenCommand tessTol distTol commands i c).2) := by
  unfold flattenCommand at hr ⊢
  simp only at hr ⊢
  split_ifs at hr ⊢
  · exfalso
    have := addPoint_paths_length distTol (nvg__addPath c) (commands.getD (i + 1) 0)
      (commands.getD (i + 2) 0) NVG_PT_CORNER
    rw [hr] at this
    simp [nvg__addPath] at this
  · rw [addPoint_of_no_path _ _ _ _ _ h']
  · split <;> split <;> first
      | rfl
      | (rw [tesselateBezier_of_no_path _ _ _ _ _ _ _ _ _ _ _ _ _ h'])
  · simp [nvg__closePath, nvg__lastPath, h']
  · simp [nvg__pathWinding, nvg__lastPath, h']
  · rfl

theorem flattenCommandsLoop_of_no_path (tessTol distTol : ℚ) (commands : List ℚ) (fuel : Nat) :
    ∀ (i : Nat) (c c' : NVGpathCache), c.paths = [] → c'.paths = [] →
      (flattenCommandsLoop tessTol distTol commands fuel i c).paths = [] →
      flattenCommandsLoop tessTol distTol commands fuel i c' = c' := by
  induction fuel with
  | zero => intros; rfl
  | succ n ih =>
    intro i c c' h h' hr
    simp only [flattenCommandsLoop] at hr ⊢
    split_ifs at hr ⊢ with hi
    · have hstep : (flattenCommand tessTol distTol commands i c).1.paths = [] := by
        have := flattenCommandsLoop_paths_length tessTol distTol commands n
          (flattenCommand tessTol distTol commands i c).2
          (flattenCommand tessTol distTol commands i c).1
        rw [hr] at this
        exact List.length_eq_zero.mp (Nat.le_zero.mp this)
      rw [flattenCommand_of_no_path tessTol distTol commands i c c' h' hstep]
      have hc := flattenCommand_of_no_path tessTol distTol commands i c c h hstep
      rw [hc] at hr
      exact ih _ c c' h h' hr
    · rfl

theorem flattenPath_paths_length (sqrtf : ℚ → ℚ) (distTol : ℚ) (c : NVGpathCache) (j : Nat) :
    (flattenPath sqrtf distTol c j).paths.length = c.paths.length := by
  unfold flattenPath
  split
  · rfl
  · simp

theorem flattenPath_foldl_paths_length (sqrtf : ℚ → ℚ) (distTol : ℚ) (l : List Nat) :
    ∀ c : NVGpathCache, (l.foldl (flattenPath sqrtf distTol) c).paths.length = c.paths.length := by
  induction l with
  | nil => intro c; rfl
  | cons j l ih =>
    intro c
    rw [List.foldl_cons, ih, flattenPath_paths_length]

theorem flattenPaths_of_no_path (sqrtf : ℚ → ℚ) (commands : List ℚ) (tessTol distTol : ℚ)
    (c : NVGpathCache) (h : c.paths = []) :
    nvg__flattenPaths sqrtf commands tessTol distTol c =
      (List.range (flattenCommandsLoop tessTol distTol commands commands.length 0 c).paths.length).foldl
        (flattenPath sqrtf distTol)
        { flattenCommandsLoop tessTol distTol commands commands.length 0 c with
          bounds := ⟨1000000, 1000000, -1000000, -1000000⟩ } := by
  have h0 : ¬ c.npaths > 0 := by simp [NVGpathCache.npaths, h]
  simp only [nvg__flattenPaths, if_neg h0]

/-- C17: `nvg__flattenPaths` is idempotent: for every command buffer, all
tolerances and every path cache, a second call in a row returns the cache that
the first call returned, with the same paths, points (flags and directions
included) and bounds. -/
theorem flattenPaths_idempotent (sqrtf : ℚ → ℚ) (commands : List ℚ) (tessTol distTol : ℚ)
    (cache : NVGpathCache) :
    nvg__flattenPaths sqrtf commands tessTol distTol
        (nvg__flattenPaths sqrtf commands tessTol distTol cache) =
      nvg__flattenPaths sqrtf commands tessTol distTol cache := by
  by_cases h0 : cache.npaths > 0
  · have h1 : nvg__flattenPaths sqrtf commands tessTol distTol cache = cache := by
      simp only [nvg__flattenPaths, if_pos h0]
    rw [h1, h1]
  · have hnil : cache.paths = [] := by
      simp only [NVGpathCache.npaths, gt_iff_lt, Nat.cast_pos, not_lt, Nat.le_zero,
        List.length_eq_zero] at h0
      exact h0
    by_cases hr : (flattenCommandsLoop tessTol distTol commands commands.length 0 cache).paths = []
    · have hloop := flattenCommandsLoop_of_no_path tessTol distTol commands commands.length 0
        cache cache hnil hnil hr
      have h1 : nvg__flattenPaths sqrtf commands tessTol distTol cache =
          ⟨cache.points, [], ⟨1000000, 1000000, -1000000, -1000000⟩⟩ := by
        rw [flattenPaths_of_no_path sqrtf commands tessTol distTol cache hnil, hloop]
        simp [hnil]
      have hloop2 := flattenCommandsLoop_of_no_path tessTol distTol commands commands.length 0
        cache ⟨cache.points, [], ⟨1000000, 1000000, -1000000, -1000000⟩⟩ hnil rfl hr
      rw [h1, flattenPaths_of_no_path sqrtf commands tessTol distTol _ rfl, hloop2]
      rfl
    · have hpos : (nvg__flattenPaths sqrtf commands tessTol distTol cache).npaths > 0 := by
        rw [flattenPaths_of_no_path sqrtf commands tessTol distTol cache hnil]
        simp only [NVGpathCache.npaths, flattenPath_foldl_paths_length, gt_iff_lt, Nat.cast_pos]
        exact List.length_pos.mpr hr
      generalize nvg__flattenPaths sqrtf commands tessTol distTol cache = c1 at hpos
      simp only [nvg__flattenPaths, if_pos hpos]

/-! ## Theorems: intersection of scissors -/

theorem intersectScissor_of_none (ctx : NVGcontext) (x y w h : ℚ)
    (hnone : (nvg__getState ctx).scissor.extent0 < 0) :
    nvgIntersectScissor ctx x y w h = nvgScissor ctx x y w h := by
  simp only [nvgIntersectScissor, if_pos hnone]

theorem intersectScissor_of_some (ctx : NVGcontext) (x y w h : ℚ)
    (hsome : ¬ (nvg__getState ctx).scissor.extent0 < 0) :
    nvgIntersectScissor ctx x y w h =
      nvgScissor ctx
        (nvg__isectRects (scissorUserRect ctx).1 (scissorUserRect ctx).2.1
          (scissorUserRect ctx).2.2.1 (scissorUserRect ctx).2.2.2 x y w h).1
        (nvg__isectRects (scissorUserRect ctx).1 (scissorUserRect ctx).2.1
          (scissorUserRect ctx).2.2.1 (scissorUserRect ctx).2.2.2 x y w h).2.1
        (nvg__isectRects (scissorUserRect ctx).1 (scissorUserRect ctx).2.1
          (scissorUserRect ctx).2.2.1 (scissorUserRect ctx).2.2.2 x y w h).2.2.1
        (nvg__isectRects (scissorUserRect ctx).1 (scissorUserRect ctx).2.1
          (scissorUserRect ctx).2.2.1 (scissorUserRect ctx).2.2.2 x y w h).2.2.2 := by
  simp only [nvgIntersectScissor, if_neg hsome, scissorUserRect]

theorem getState_scissor (ctx : NVGcontext) (x y w h : ℚ) :
    (nvg__getState (nvgScissor ctx x y w h)).xform = (nvg__getState ctx).xform ∧
      (nvg__getState (nvgScissor ctx x y w h)).scissor.extent0 = nvg__maxf 0 w * (1 / 2) := by
  simp only [nvgScissor, getState_setState, and_self]

theorem maxf_zero_of_nonneg (w : ℚ) (hw : 0 ≤ w) : nvg__maxf 0 w = w := by
  unfold nvg__maxf
  split_ifs with h
  · linarith
  · rfl

theorem translate_through_inverse (t0 t3 t4 t5 cx cy : ℚ)
    (hdet : t0 * t3 ≤ -(1 / 1000000) ∨ 1 / 1000000 ≤ t0 * t3) :
    nvgTransformMultiply (nvgTransformMultiply ⟨1, 0, 0, 1, cx, cy⟩ ⟨t0, 0, 0, t3, t4, t5⟩)
        (nvgTransformInverse ⟨t0, 0, 0, t3, t4, t5⟩).2 =
      ⟨1, 0, 0, 1, cx, cy⟩ := by
  have hne : t0 * t3 ≠ 0 := by
    rcases hdet with h | h
    · intro h0; rw [h0] at h; norm_num at h
    · intro h0; rw [h0] at h; norm_num at h
  have ht0 : t0 ≠ 0 := fun h => hne (by rw [h, zero_mul])
  have ht3 : t3 ≠ 0 := fun h => hne (by rw [h, mul_zero])
  have hnot : ¬ (t0 * t3 - 0 * 0 > -(1 / 1000000) ∧ t0 * t3 - 0 * 0 < 1 / 1000000) := by
    rintro ⟨ha, hb⟩
    rcases hdet with h | h <;> linarith
  simp only [nvgTransformInverse, if_neg hnot, nvgTransformMultiply, Xform.mk.injEq]
  refine ⟨?_, ?_, ?_, ?_, ?_, ?_⟩ <;> field_simp <;> ring

/-- Under a pure translate and scale with a determinant that `nvgTransformInverse`
accepts, the scissor that `nvgScissor(x, y, w, h)` installs is the rectangle
`(x, y, w, h)` in user space. -/
theorem scissorUserRect_scissor (ctx : NVGcontext) (x y w h : ℚ)
    (h1 : (nvg__getState ctx).xform.t1 = 0) (h2 : (nvg__getState ctx).xform.t2 = 0)
    (hdet : (nvg__getState ctx).xform.t0 * (nvg__getState ctx).xform.t3 ≤ -(1 / 1000000) ∨
      1 / 1000000 ≤ (nvg__getState ctx).xform.t0 * (nvg__getState ctx).xform.t3)
    (hw : 0 ≤ w) (hh : 0 ≤ h) :
    scissorUserRect (nvgScissor ctx x y w h) = (x, y, w, h) := by
  rcases hX : (nvg__getState ctx).xform with ⟨t0, t1, t2, t3, t4, t5⟩
  rw [hX] at h1 h2 hdet
  simp only at h1 h2 hdet
  subst h1 h2
  have hsx : ∀ a b : ℚ, ({ nvgTransformIdentity with t4 := a, t5 := b } : Xform) =
      ⟨1, 0, 0, 1, a, b⟩ := fun _ _ => rfl
  simp only [scissorUserRect, nvgScissor, getState_setState, hX, hsx,
    translate_through_inverse t0 t3 t4 t5 _ _ hdet, maxf_zero_of_nonneg w hw,
    maxf_zero_of_nonneg h hh]
  simp only [nvg__absf, Prod.mk.injEq]
  norm_num
  constructor <;> ring

/-- C19, the claim as stated fails. Under the identity transform and with no
scissor set, `nvgIntersectScissor(0, 0, 10, 10)` followed by
`nvgIntersectScissor(20, 20, 5, 5)` leaves the scissor with centre (20, 20) and
extent (0, 0), which is not contained in the first rectangle. Under a scale by
1/10000 (determinant 1/100000000, for which `nvgTransformInverse` writes the
identity) after a translation by (1000, 1000), `nvgIntersectScissor(0, 0, 100, 100)`
followed by `nvgIntersectScissor(999, 999, 10, 10)` leaves a scissor of extent
(1/200, 1/200) around the user-space point (1000.005, 1000.005), which is not
contained in the first rectangle either. -/
theorem intersectScissor_not_inside :
    ((nvg__getState
            (nvgIntersectScissor (nvgIntersectScissor (nvgCreateInternal 1) 0 0 10 10) 20 20 5
              5)).scissor = ⟨⟨1, 0, 0, 1, 20, 20⟩, 0, 0⟩ ∧
        ¬ RectInside
            (scissorUserRect
              (nvgIntersectScissor (nvgIntersectScissor (nvgCreateInternal 1) 0 0 10 10) 20 20 5 5))
            (0, 0, 10, 10)) ∧
      (nvg__getState
            (nvgIntersectScissor (nvgIntersectScissor tinyScaleFrame 0 0 100 100) 999 999 10
              10)).scissor =
          ⟨nvgTransformMultiply ⟨1, 0, 0, 1, 1000 + 1 / 200, 1000 + 1 / 200⟩
            (nvg__getState tinyScaleFrame).xform, 1 / 200, 1 / 200⟩ ∧
        ¬ RectInside
            (scissorUserRect
              (nvgIntersectScissor (nvgIntersectScissor tinyScaleFrame 0 0 100 100) 999 999 10 10))
            (0, 0, 100, 100) := by
  unfold RectInside
  decide!

/-- In exact arithmetic, for every current transform that is a pure translate and scale
(`t1 = t2 = 0`) with determinant `t0 * t3` outside the open interval
(-1e-6, 1e-6), and all rectangles `a` and `b` that meet (in each axis the larger
of the two minima is at most the smaller of the two maxima), starting from a state with no scissor,
`nvgIntersectScissor(a)` followed by `nvgIntersectScissor(b)` leaves a scissor
whose rectangle in that user space is the intersection of `a` and `b`, and so is
contained in both. -/
theorem intersectScissor_exact (ctx : NVGcontext) (ax ay aw ah bx by_ bw bh : ℚ)
    (h1 : (nvg__getState ctx).xform.t1 = 0) (h2 : (nvg__getState ctx).xform.t2 = 0)
    (hdet : (nvg__getState ctx).xform.t0 * (nvg__getState ctx).xform.t3 ≤ -(1 / 1000000) ∨
      1 / 1000000 ≤ (nvg__getState ctx).xform.t0 * (nvg__getState ctx).xform.t3)
    (hnone : (nvg__getState ctx).scissor.extent0 < 0)
    (hx : nvg__maxf ax bx ≤ nvg__minf (ax + aw) (bx + bw))
    (hy : nvg__maxf ay by_ ≤ nvg__minf (ay + ah) (by_ + bh)) :
    scissorUserRect (nvgIntersectScissor (nvgIntersectScissor ctx ax ay aw ah) bx by_ bw bh) =
        (nvg__maxf ax bx, nvg__maxf ay by_,
          nvg__minf (ax + aw) (bx + bw) - nvg__maxf ax bx,
          nvg__minf (ay + ah) (by_ + bh) - nvg__maxf ay by_) ∧
      RectInside
        (scissorUserRect (nvgIntersectScissor (nvgIntersectScissor ctx ax ay aw ah) bx by_ bw bh))
        (ax, ay, aw, ah) ∧
      RectInside
        (scissorUserRect (nvgIntersectScissor (nvgIntersectScissor ctx ax ay aw ah) bx by_ bw bh))
        (bx, by_, bw, bh) := by
  have haw : 0 ≤ aw := by
    have := hx
    unfold nvg__maxf nvg__minf at this
    split_ifs at this <;> linarith
  have hah : 0 ≤ ah := by
    have := hy
    unfold nvg__maxf nvg__minf at this
    split_ifs at this <;> linarith
  have hs := getState_scissor ctx ax ay aw ah
  have hsome : ¬ (nvg__getState (nvgScissor ctx ax ay aw ah)).scissor.extent0 < 0 := by
    rw [hs.2, maxf_zero_of_nonneg aw haw]
    linarith
  have hrect : scissorUserRect
      (nvgIntersectScissor (nvgIntersectScissor ctx ax ay aw ah) bx by_ bw bh) =
      (nvg__maxf ax bx, nvg__maxf ay by_,
        nvg__minf (ax + aw) (bx + bw) - nvg__maxf ax bx,
        nvg__minf (ay + ah) (by_ + bh) - nvg__maxf ay by_) := by
    rw [intersectScissor_of_none ctx ax ay aw ah hnone,
      intersectScissor_of_some _ bx by_ bw bh hsome,
      scissorUserRect_scissor ctx ax ay aw ah h1 h2 hdet haw hah]
    simp only [nvg__isectRects]
    rw [maxf_zero_of_nonneg _ (sub_nonneg.mpr hx), maxf_zero_of_nonneg _ (sub_nonneg.mpr hy)]
    apply scissorUserRect_scissor
    · rw [hs.1]; exact h1
    · rw [hs.1]; exact h2
    · rw [hs.1]; exact hdet
    · exact sub_nonneg.mpr hx
    · exact sub_nonneg.mpr hy
  rw [hrect]
  refine ⟨rfl, ?_, ?_⟩
  · unfold RectInside nvg__maxf nvg__minf
    simp only
    refine ⟨?_, ?_, ?_, ?_⟩ <;> split_ifs <;> linarith
  · unfold RectInside nvg__maxf nvg__minf
    simp only
    refine ⟨?_, ?_, ?_, ?_⟩ <;> split_ifs <;> linarith

/-! ## Theorems: signed area and winding -/

theorem foldl_range_add (g : Nat → ℚ) (m : Nat) :
    (List.range m).foldl (fun a k => a + g k) 0 = (Finset.range m).sum g := by
  induction m with
  | zero => rfl
  | succ k ih => rw [List.range_succ, List.foldl_append, ih, Finset.sum_range_succ]; rfl

theorem getPt_drop (pts : List NVGpoint) (first k : Nat) :
    getPt (pts.drop first) k = getPt pts (first + k) := by
  simp [getPt, List.getD_eq_getElem?_getD, List.getElem?_drop]

theorem fan_sum (f : Nat → ℚ × ℚ) (m : Nat) :
    (Finset.range m).sum
        (fun k => nvg__triarea2 (f 0).1 (f 0).2 (f (k + 1)).1 (f (k + 1)).2 (f (k + 2)).1
          (f (k + 2)).2) =
      (Finset.range (m + 1)).sum (fun i => cross2 (f i) (f (i + 1))) + cross2 (f (m + 1)) (f 0) := by
  induction m with
  | zero => simp [cross2]
  | succ k ih =>
    rw [Finset.sum_range_succ, ih, Finset.sum_range_succ (fun i => cross2 (f i) (f (i + 1))) (k + 1)]
    simp only [nvg__triarea2, cross2]
    ring

/-- The fan sum of `nvg__polyArea` is half the shoelace sum of the points. -/
theorem polyArea_eq_shoelace (pts : List NVGpoint) (first n : Nat) (hn : 2 ≤ n) :
    nvg__polyArea (pts.drop first) n = shoelace (xyAt pts first) n * (1 / 2) := by
  obtain ⟨m, rfl⟩ : ∃ m, n = m + 2 := ⟨n - 2, by omega⟩
  have key : nvg__polyArea (pts.drop first) (m + 2) =
      (List.range m).foldl
          (fun a k =>
            a + nvg__triarea2 (xyAt pts first 0).1 (xyAt pts first 0).2 (xyAt pts first (k + 1)).1
              (xyAt pts first (k + 1)).2 (xyAt pts first (k + 2)).1 (xyAt pts first (k + 2)).2)
          0 *
        (1 / 2) := by
    unfold nvg__polyArea
    simp only [getPt_drop]
    rfl
  rw [key, foldl_range_add, fan_sum]
  rfl

theorem cross2_antisymm (a b : ℚ × ℚ) : cross2 a b = -cross2 b a := by
  unfold cross2; ring

/-- Reversing the order of the points negates the shoelace sum. -/
theorem shoelace_reflect (f g : Nat → ℚ × ℚ) (n : Nat) (hn : 1 ≤ n)
    (h : ∀ k, k < n → g k = f (n - 1 - k)) : shoelace g n = -shoelace f n := by
  unfold shoelace
  have h0 : g 0 = f (n - 1) := by rw [h 0 (by omega)]; rfl
  have hl : g (n - 1) = f 0 := by rw [h (n - 1) (by omega)]; congr 1; omega
  rw [h0, hl, cross2_antisymm (f 0) (f (n - 1))]
  have hs : (Finset.range (n - 1)).sum (fun i => cross2 (g i) (g (i + 1))) =
      (Finset.range (n - 1)).sum (fun j => cross2 (f (n - 1 - 1 - j + 1)) (f (n - 1 - 1 - j))) := by
    apply Finset.sum_congr rfl
    intro i hi
    rw [Finset.mem_range] at hi
    rw [h i (by omega), h (i + 1) (by omega)]
    congr 2 <;> omega
  rw [hs, Finset.sum_range_reflect (fun j => cross2 (f (j + 1)) (f j)) (n - 1)]
  have hneg : (Finset.range (n - 1)).sum (fun j => cross2 (f (j + 1)) (f j)) =
      -(Finset.range (n - 1)).sum (fun i => cross2 (f i) (f (i + 1))) := by
    rw [← Finset.sum_neg_distrib]
    apply Finset.sum_congr rfl
    intro i _
    exact cross2_antisymm _ _
  rw [hneg]
  ring

theorem getPt_set (l : List NVGpoint) (i k : Nat) (a : NVGpoint) (hi : i < l.length) :
    getPt (l.set i a) k = if k = i then a else getPt l k := by
  unfold getPt
  by_cases hk : k = i
  · subst hk
    simp [List.getD_eq_getElem?_getD, hi]
  · simp [List.getD_eq_getElem?_getD, hk, List.getElem?_set_ne (Ne.symm hk)]

theorem getPt_set_of_le (l : List NVGpoint) (i k : Nat) (a : NVGpoint) (hi : l.length ≤ i) :
    getPt (l.set i a) k = getPt l k := by
  rw [List.set_eq_of_length_le hi]

/-- The loop of `nvg__polyReverse` reverses the points from index `i` to index `j`
and leaves the others, when its fuel covers the swaps. -/
theorem polyReverseLoop_spec (fuel : Nat) :
    ∀ (pts : List NVGpoint) (i j : Nat), j < pts.length → j + 1 ≤ i + 2 * fuel →
      (polyReverseLoop fuel pts i j).length = pts.length ∧
        ∀ k, getPt (polyReverseLoop fuel pts i j) k =
          if i ≤ k ∧ k ≤ j then getPt pts (i + j - k) else getPt pts k := by
  induction fuel with
  | zero =>
    intro pts i j _ hf
    refine ⟨rfl, fun k => ?_⟩
    have : ¬ (i ≤ k ∧ k ≤ j) := by omega
    simp [polyReverseLoop, this]
  | succ n ih =>
    intro pts i j hj hf
    simp only [polyReverseLoop]
    by_cases hij : i < j
    · rw [if_pos hij]
      have hi : i < pts.length := by omega
      have hlen : ((pts.set i (getPt pts j)).set j (getPt pts i)).length = pts.length := by simp
      have hget : ∀ m, getPt ((pts.set i (getPt pts j)).set j (getPt pts i)) m =
          if m = j then getPt pts i else if m = i then getPt pts j else getPt pts m := by
        intro m
        rw [getPt_set _ j m _ (by simpa using hj), getPt_set _ i m _ hi]
      obtain ⟨h1, h2⟩ := ih ((pts.set i (getPt pts j)).set j (getPt pts i)) (i + 1) (j - 1)
        (by rw [hlen]; omega) (by omega)
      refine ⟨by rw [h1, hlen], fun k => ?_⟩
      rw [h2 k]
      by_cases hk : i + 1 ≤ k ∧ k ≤ j - 1
      · rw [if_pos hk, if_pos (by omega), hget]
        have e1 : ¬ (i + 1 + (j - 1) - k = j) := by omega
        have e2 : ¬ (i + 1 + (j - 1) - k = i) := by omega
        rw [if_neg e1, if_neg e2]
        congr 1
        omega
      · rw [if_neg hk, hget]
        by_cases hkj : k = j
        · rw [if_pos hkj, if_pos (by omega)]
          congr 1
          omega
        · rw [if_neg hkj]
          by_cases hki : k = i
          · rw [if_pos hki, if_pos (by omega)]
            congr 1
            omega
          · rw [if_neg hki, if_neg (by omega)]
    · rw [if_neg hij]
      refine ⟨rfl, fun k => ?_⟩
      by_cases hk : i ≤ k ∧ k ≤ j
      · rw [if_pos hk]
        congr 1
        omega
      · rw [if_neg hk]

/-- What `nvg__polyReverse` does on `npts` points from index `first` that lie
within the array: it reverses them and leaves the others. -/
theorem polyReverse_spec (points : List NVGpoint) (first npts : Nat)
    (h : first + npts ≤ points.length) :
    (nvg__polyReverse points first npts).length = points.length ∧
      ∀ k, getPt (nvg__polyReverse points first npts) k =
        if first ≤ k ∧ k < first + npts then getPt points (first + (first + npts - 1) - k)
        else getPt points k := by
  unfold nvg__polyReverse
  by_cases h0 : npts = 0
  · rw [if_pos h0]
    refine ⟨rfl, fun k => ?_⟩
    rw [if_neg (by omega)]
  · rw [if_neg h0]
    obtain ⟨h1, h2⟩ := polyReverseLoop_spec npts points first (first + npts - 1) (by omega)
      (by omega)
    refine ⟨h1, fun k => ?_⟩
    rw [h2 k]
    by_cases hk : first ≤ k ∧ k < first + npts
    · rw [if_pos hk, if_pos (by omega)]
    · rw [if_neg hk, if_neg (by omega)]

theorem shoelace_congr (f g : Nat → ℚ × ℚ) (n : Nat) (hn : 1 ≤ n) (h : ∀ k, k < n → g k = f k) :
    shoelace g n = shoelace f n := by
  unfold shoelace
  rw [h 0 (by omega), h (n - 1) (by omega)]
  congr 1
  apply Finset.sum_congr rfl
  intro i hi
  rw [Finset.mem_range] at hi
  rw [h i (by omega), h (i + 1) (by omega)]

/-- The area that `nvg__polyArea` computes depends on the coordinates of the
points of the path only. -/
theorem polyArea_congr (l l' : List NVGpoint) (first n : Nat) (hn : 2 ≤ n)
    (h : ∀ k, k < n → xyAt l' first k = xyAt l first k) :
    nvg__polyArea (l'.drop first) n = nvg__polyArea (l.drop first) n := by
  rw [polyArea_eq_shoelace l' first n hn, polyArea_eq_shoelace l first n hn,
    shoelace_congr (xyAt l first) (xyAt l' first) n (by omega) h]

/-- Reversing the points of a path negates the area that `nvg__polyArea` computes. -/
theorem polyArea_reverse (points : List NVGpoint) (first n : Nat) (hn : 2 ≤ n)
    (h : first + n ≤ points.length) :
    nvg__polyArea ((nvg__polyReverse points first n).drop first) n =
      -nvg__polyArea (points.drop first) n := by
  rw [polyArea_eq_shoelace _ first n hn, polyArea_eq_shoelace points first n hn,
    shoelace_reflect (xyAt points first) (xyAt (nvg__polyReverse points first n) first) n (by omega)]
  · ring
  · intro k hk
    unfold xyAt
    rw [(polyReverse_spec points first n h).2 (first + k), if_pos (by omega)]
    have e : first + (first + n - 1) - (first + k) = first + (n - 1 - k) := by omega
    rw [e]

theorem flattenPathClose_fields (distTol : ℚ) (points : List NVGpoint) (path : NVGpath) :
    (flattenPathClose distTol points path).first = path.first ∧
      (flattenPathClose distTol points path).count ≤ path.count ∧
      (flattenPathClose distTol points path).winding = path.winding := by
  unfold flattenPathClose
  simp only
  split_ifs
  · exact ⟨rfl, Nat.sub_le _ _, rfl⟩
  · exact ⟨rfl, le_refl _, rfl⟩

/-- The part "Enforce winding" keeps the number of points, changes no point
outside the path, and leaves the path with the winding its area agrees with. -/
theorem flattenPathWinding_spec (points : List NVGpoint) (path : NVGpath)
    (h : path.first + path.count ≤ points.length) :
    (flattenPathWinding points path).length = points.length ∧
      (∀ k, ¬ (path.first ≤ k ∧ k < path.first + path.count) →
        getPt (flattenPathWinding points path) k = getPt points k) ∧
      WindingOk (flattenPathWinding points path) path := by
  unfold flattenPathWinding WindingOk
  by_cases hc : path.count > 2
  · rw [if_pos hc]
    simp only
    have hrev := polyReverse_spec points path.first path.count h
    have harea := polyArea_reverse points path.first path.count (by omega) h
    by_cases h1 : path.winding = NVG_CCW ∧ nvg__polyArea (points.drop path.first) path.count < 0
    · have h2 : ¬ (path.winding = NVG_CW ∧
          nvg__polyArea (points.drop path.first) path.count > 0) := by
        rintro ⟨hw, _⟩
        rw [h1.1] at hw
        exact absurd hw (by decide)
      rw [if_pos h1, if_neg h2]
      refine ⟨hrev.1, fun k hk => ?_, fun _ => ⟨fun _ => ?_, fun hw => ?_⟩⟩
      · rw [hrev.2 k, if_neg hk]
      · rw [harea]; linarith [h1.2]
      · rw [h1.1] at hw; exact absurd hw (by decide)
    · rw [if_neg h1]
      by_cases h2 : path.winding = NVG_CW ∧ nvg__polyArea (points.drop path.first) path.count > 0
      · rw [if_pos h2]
        refine ⟨hrev.1, fun k hk => ?_, fun _ => ⟨fun hw => ?_, fun _ => ?_⟩⟩
        · rw [hrev.2 k, if_neg hk]
        · rw [h2.1] at hw; exact absurd hw (by decide)
        · rw [harea]; linarith [h2.2]
      · rw [if_neg h2]
        refine ⟨rfl, fun k _ => rfl, fun _ => ⟨fun hw => ?_, fun hw => ?_⟩⟩
        · by_contra hneg
          exact h1 ⟨hw, lt_of_not_ge hneg⟩
        · by_contra hpos
          exact h2 ⟨hw, lt_of_not_ge hpos⟩
  · rw [if_neg hc]
    exact ⟨rfl, fun k _ => rfl, fun hc' => absurd hc' hc⟩

theorem flattenDirStep_xy (sqrtf : ℚ → ℚ) (s : FlattenDirVars) :
    (flattenDirStep sqrtf s).points.length = s.points.length ∧
      ∀ k, (getPt (flattenDirStep sqrtf s).points k).x = (getPt s.points k).x ∧
        (getPt (flattenDirStep sqrtf s).points k).y = (getPt s.points k).y := by
  unfold flattenDirStep
  simp only [List.length_set, true_and]
  intro k
  by_cases hp : s.p0 < s.points.length
  · rw [getPt_set _ _ _ _ hp]
    by_cases hk : k = s.p0
    · rw [if_pos hk, hk]
      exact ⟨rfl, rfl⟩
    · rw [if_neg hk]
      exact ⟨rfl, rfl⟩
  · rw [getPt_set_of_le _ _ _ _ (by omega)]
    exact ⟨rfl, rfl⟩

theorem flattenDirStep_iterate_xy (sqrtf : ℚ → ℚ) (n : Nat) :
    ∀ s : FlattenDirVars,
      (Nat.iterate (flattenDirStep sqrtf) n s).points.length = s.points.length ∧
        ∀ k, (getPt (Nat.iterate (flattenDirStep sqrtf) n s).points k).x = (getPt s.points k).x ∧
          (getPt (Nat.iterate (flattenDirStep sqrtf) n s).points k).y = (getPt s.points k).y := by
  induction n with
  | zero => intro s; exact ⟨rfl, fun k => ⟨rfl, rfl⟩⟩
  | succ m ih =>
    intro s
    rw [Function.iterate_succ_apply]
    obtain ⟨h1, h2⟩ := ih (flattenDirStep sqrtf s)
    obtain ⟨h3, h4⟩ := flattenDirStep_xy sqrtf s
    refine ⟨by rw [h1, h3], fun k => ?_⟩
    rw [(h2 k).1, (h2 k).2]
    exact h4 k

/-! ### The paths of the cache tile its points -/

theorem tiled_set (paths : List NVGpath) (n n' k : Nat) (p p' : NVGpath)
    (H : PathsTiled paths n) (hk : paths[k]? = some p) (hf : p'.first = p.first) (hn : n ≤ n')
    (hc : p'.first + p'.count ≤ n')
    (hnext : ∀ j q, k < j → paths[j]? = some q → p'.first + p'.count ≤ q.first) :
    PathsTiled (paths.set k p') n' := by
  have hklt : k < paths.length := (List.getElem?_eq_some_iff.mp hk).1
  refine ⟨?_, ?_⟩
  · intro i j a b hij ha hb
    rw [List.getElem?_set] at ha hb
    by_cases hi : k = i
    · rw [if_pos hi, if_pos hklt] at ha
      rw [if_neg (by omega)] at hb
      cases ha
      exact hnext j b (by omega) hb
    · rw [if_neg hi] at ha
      by_cases hj : k = j
      · rw [if_pos hj, if_pos hklt] at hb
        cases hb
        rw [hf]
        exact H.1 i k a p (by omega) ha hk
      · rw [if_neg hj] at hb
        exact H.1 i j a b hij ha hb
  · intro i a ha
    rw [List.getElem?_set] at ha
    by_cases hi : k = i
    · rw [if_pos hi, if_pos hklt] at ha
      cases ha
      exact hc
    · rw [if_neg hi] at ha
      exact le_trans (H.2 i a ha) hn

theorem tiled_append (paths : List NVGpath) (n : Nat) (a : NVGpath) (H : PathsTiled paths n)
    (ha1 : n ≤ a.first) (ha2 : a.first + a.count ≤ n) : PathsTiled (paths ++ [a]) n := by
  refine ⟨?_, ?_⟩
  · intro i j p q hij hp hq
    rw [List.getElem?_append] at hp hq
    by_cases hj : j < paths.length
    · rw [if_pos hj] at hq
      rw [if_pos (by omega)] at hp
      exact H.1 i j p q hij hp hq
    · rw [if_neg hj] at hq
      by_cases hi : i < paths.length
      · rw [if_pos hi] at hp
        have hq' : q = a := by
          have hlt : j - paths.length < [a].length := (List.getElem?_eq_some_iff.mp hq).1
          simp only [List.length_singleton, Nat.lt_one_iff] at hlt
          rw [hlt] at hq
          simpa using hq.symm
        rw [hq']
        exact le_trans (H.2 i p hp) ha1
      · exfalso
        rw [if_neg hi] at hp
        have h1 : i - paths.length < [a].length := (List.getElem?_eq_some_iff.mp hp).1
        have h2 : j - paths.length < [a].length := (List.getElem?_eq_some_iff.mp hq).1
        simp only [List.length_singleton, Nat.lt_one_iff] at h1 h2
        omega
  · intro i p hp
    rw [List.getElem?_append] at hp
    by_cases hi : i < paths.length
    · rw [if_pos hi] at hp
      exact H.2 i p hp
    · rw [if_neg hi] at hp
      have hlt : i - paths.length < [a].length := (List.getElem?_eq_some_iff.mp hp).1
      simp only [List.length_singleton, Nat.lt_one_iff] at hlt
      rw [hlt] at hp
      have : p = a := by simpa using hp.symm
      rw [this]
      exact ha2

theorem tiled_set_last (paths : List NVGpath) (n n' : Nat) (p p' : NVGpath)
    (H : PathsTiled paths n) (hk : paths.getLast? = some p) (hf : p'.first = p.first)
    (hn : n ≤ n') (hc : p'.first + p'.count ≤ n') :
    PathsTiled (paths.set (paths.length - 1) p') n' := by
  rw [List.getLast?_eq_getElem?] at hk
  apply tiled_set paths n n' (paths.length - 1) p p' H hk hf hn hc
  intro j q hj hq
  have := (List.getElem?_eq_some_iff.mp hq).1
  omega

theorem addPath_tiled (c : NVGpathCache) (H : PathsTiled c.paths c.points.length) :
    PathsTiled (nvg__addPath c).paths (nvg__addPath c).points.length := by
  unfold nvg__addPath
  exact tiled_append c.paths c.points.length _ H (le_refl _) (le_refl _)

theorem addPoint_tiled (d : ℚ) (c : NVGpathCache) (x y : ℚ) (f : Nat)
    (H : PathsTiled c.paths c.points.length) :
    PathsTiled (nvg__addPoint d c x y f).paths (nvg__addPoint d c x y f).points.length := by
  unfold nvg__addPoint nvg__lastPath
  cases hl : c.paths.getLast? with
  | none => exact H
  | some path =>
    have hb : path.first + path.count ≤ c.points.length := by
      rw [List.getLast?_eq_getElem?] at hl
      exact H.2 _ path hl
    have grow : PathsTiled
        (setLastPath
          { c with points := c.points ++ [{ zeroPoint with x := x, y := y, flags := f % 256 }] }
          { path with count := path.count + 1 }).paths
        (setLastPath
          { c with points := c.points ++ [{ zeroPoint with x := x, y := y, flags := f % 256 }] }
          { path with count := path.count + 1 }).points.length := by
      simp only [setLastPath, List.length_append, List.length_singleton]
      exact tiled_set_last c.paths c.points.length (c.points.length + 1) path _ H hl rfl
        (by omega) (by simp only; omega)
    simp only
    split
    · split_ifs
      · simp only [List.length_set]
        exact H
      · exact grow
    · exact grow

theorem closePath_tiled (c : NVGpathCache) (H : PathsTiled c.paths c.points.length) :
    PathsTiled (nvg__closePath c).paths (nvg__closePath c).points.length := by
  unfold nvg__closePath nvg__lastPath
  cases hl : c.paths.getLast? with
  | none => exact H
  | some path =>
    have hb : path.first + path.count ≤ c.points.length := by
      rw [List.getLast?_eq_getElem?] at hl
      exact H.2 _ path hl
    simp only [setLastPath]
    exact tiled_set_last c.paths c.points.length c.points.length path _ H hl rfl (le_refl _) hb

theorem pathWinding_tiled (c : NVGpathCache) (w : Int) (H : PathsTiled c.paths c.points.length) :
    PathsTiled (nvg__pathWinding c w).paths (nvg__pathWinding c w).points.length := by
  unfold nvg__pathWinding nvg__lastPath
  cases hl : c.paths.getLast? with
  | none => exact H
  | some path =>
    have hb : path.first + path.count ≤ c.points.length := by
      rw [List.getLast?_eq_getElem?] at hl
      exact H.2 _ path hl
    simp only [setLastPath]
    exact tiled_set_last c.paths c.points.length c.points.length path _ H hl rfl (le_refl _) hb

theorem tesselateBezier_tiled (tessTol distTol : ℚ) (levels : Nat) :
    ∀ (c : NVGpathCache) (x1 y1 x2 y2 x3 y3 x4 y4 : ℚ) (type : Nat),
      PathsTiled c.paths c.points.length →
      PathsTiled (nvg__tesselateBezier tessTol distTol levels c x1 y1 x2 y2 x3 y3 x4 y4 type).paths
        (nvg__tesselateBezier tessTol distTol levels c x1 y1 x2 y2 x3 y3 x4 y4
          type).points.length := by
  induction levels with
  | zero => intro c _ _ _ _ _ _ _ _ _ H; exact H
  | succ n ih =>
    intro c x1 y1 x2 y2 x3 y3 x4 y4 type H
    simp only [nvg__tesselateBezier]
    split_ifs
    · exact addPoint_tiled _ _ _ _ _ H
    · exact ih _ _ _ _ _ _ _ _ _ _ (ih _ _ _ _ _ _ _ _ _ _ H)

theorem flattenCommand_tiled (tessTol distTol : ℚ) (commands : List ℚ) (i : Nat)
    (c : NVGpathCache) (H : PathsTiled c.paths c.points.length) :
    PathsTiled (flattenCommand tessTol distTol commands i c).1.paths
      (flattenCommand tessTol distTol commands i c).1.points.length := by
  unfold flattenCommand
  simp only
  split_ifs
  · exact addPoint_tiled _ _ _ _ _ (addPath_tiled c H)
  · exact addPoint_tiled _ _ _ _ _ H
  · split
    · exact tesselateBezier_tiled _ _ _ _ _ _ _ _ _ _ _ _ _ H
    · exact H
  · exact closePath_tiled c H
  · exact pathWinding_tiled c _ H
  · exact H

theorem flattenCommandsLoop_tiled (tessTol distTol : ℚ) (commands : List ℚ) (fuel : Nat) :
    ∀ (i : Nat) (c : NVGpathCache), PathsTiled c.paths c.points.length →
      PathsTiled (flattenCommandsLoop tessTol distTol commands fuel i c).paths
        (flattenCommandsLoop tessTol distTol commands fuel i c).points.length := by
  induction fuel with
  | zero => intro _ c H; exact H
  | succ n ih =>
    intro i c H
    simp only [flattenCommandsLoop]
    split_ifs
    · exact ih _ _ (flattenCommand_tiled tessTol distTol commands i c H)
    · exact H

/-! ### The loop over the paths -/

theorem flattenPath_spec (sqrtf : ℚ → ℚ) (distTol : ℚ) (c : NVGpathCache) (j : Nat)
    (path : NVGpath) (hget : c.paths[j]? = some path)
    (hb : path.first + path.count ≤ c.points.length) :
    (flattenPath sqrtf distTol c j).paths =
        c.paths.set j (flattenPathClose distTol c.points path) ∧
      (flattenPath sqrtf distTol c j).points.length = c.points.length ∧
      (∀ k, ¬ (path.first ≤ k ∧ k < path.first + (flattenPathClose distTol c.points path).count) →
        (getPt (flattenPath sqrtf distTol c j).points k).x = (getPt c.points k).x ∧
          (getPt (flattenPath sqrtf distTol c j).points k).y = (getPt c.points k).y) ∧
      WindingOk (flattenPath sqrtf distTol c j).points (flattenPathClose distTol c.points path) := by
  obtain ⟨hf, hc, _⟩ := flattenPathClose_fields distTol c.points path
  have hb1 : (flattenPathClose distTol c.points path).first +
      (flattenPathClose distTol c.points path).count ≤ c.points.length := by
    rw [hf]; omega
  obtain ⟨hw1, hw2, hw3⟩ := flattenPathWinding_spec c.points
    (flattenPathClose distTol c.points path) hb1
  obtain ⟨hi1, hi2⟩ := flattenDirStep_iterate_xy sqrtf (flattenPathClose distTol c.points path).count
    { points := flattenPathWinding c.points (flattenPathClose distTol c.points path)
      bounds := c.bounds
      p0 := (flattenPathClose distTol c.points path).first +
        ((flattenPathClose distTol c.points path).count - 1)
      p1 := (flattenPathClose distTol c.points path).first }
  simp only [flattenPath, List.get?_eq_getElem?, hget]
  refine ⟨trivial, by rw [hi1, hw1], fun k hk => ?_, ?_⟩
  · rw [(hi2 k).1, (hi2 k).2, hw2 k (by rw [hf]; exact hk)]
    exact ⟨rfl, rfl⟩
  · intro hcount
    rw [polyArea_congr (flattenPathWinding c.points (flattenPathClose distTol c.points path)) _
      (flattenPathClose distTol c.points path).first _ (by omega)
      (fun k _ => Prod.ext (hi2 _).1 (hi2 _).2)]
    exact hw3 hcount

theorem flattenPath_foldl_spec (sqrtf : ℚ → ℚ) (distTol : ℚ) (m : Nat) :
    ∀ c : NVGpathCache, PathsTiled c.paths c.points.length → m ≤ c.paths.length →
      PathsTiled ((List.range m).foldl (flattenPath sqrtf distTol) c).paths
          ((List.range m).foldl (flattenPath sqrtf distTol) c).points.length ∧
        ((List.range m).foldl (flattenPath sqrtf distTol) c).paths.length = c.paths.length ∧
        ∀ (i : Nat) (p : NVGpath), i < m →
          ((List.range m).foldl (flattenPath sqrtf distTol) c).paths[i]? = some p →
          WindingOk ((List.range m).foldl (flattenPath sqrtf distTol) c).points p := by
  induction m with
  | zero =>
    intro c H _
    exact ⟨H, rfl, fun i p hi _ => absurd hi (Nat.not_lt_zero i)⟩
  | succ m ih =>
    intro c H hm
    obtain ⟨T, L, W⟩ := ih c H (by omega)
    rw [List.range_succ, List.foldl_append, List.foldl_cons, List.foldl_nil]
    generalize (List.range m).foldl (flattenPath sqrtf distTol) c = cm at T L W
    have hmlt : m < cm.paths.length := by omega
    have hget : cm.paths[m]? = some cm.paths[m] := List.getElem?_eq_getElem hmlt
    generalize cm.paths[m] = path at hget
    obtain ⟨s1, s2, s3, s4⟩ := flattenPath_spec sqrtf distTol cm m path hget (T.2 m path hget)
    obtain ⟨hf, hc, _⟩ := flattenPathClose_fields distTol cm.points path
    have hbound := T.2 m path hget
    refine ⟨?_, ?_, ?_⟩
    · rw [s1, s2]
      apply tiled_set cm.paths cm.points.length cm.points.length m path _ T hget hf (le_refl _)
      · rw [hf]; omega
      · intro j q hj hq
        have := T.1 m j path q hj hget hq
        rw [hf]; omega
    · rw [s1, List.length_set, L]
    · intro i p hi hp
      rw [s1, List.getElem?_set] at hp
      by_cases him : m = i
      · rw [if_pos him, if_pos hmlt] at hp
        cases hp
        exact s4
      · rw [if_neg him] at hp
        have hWi := W i p (by omega) hp
        have hdisj := T.1 i m p path (by omega) hp hget
        intro hcount
        rw [polyArea_congr cm.points _ p.first p.count (by omega)
          (fun k hk => Prod.ext (s3 (p.first + k) (by omega)).1 (s3 (p.first + k) (by omega)).2)]
        exact hWi hcount

/-- The points of `clockwiseCommands` are stored in the reverse order, with the
area 5000 that the winding `NVG_CCW` asks for. -/
theorem flattenPaths_reverses_clockwise :
    (nvg__flattenPaths sqrtfExact clockwiseCommands (1 / 4) (1 / 100)
          ⟨[], [], ⟨0, 0, 0, 0⟩⟩).points.map (fun p => (p.x, p.y)) =
        [(10, 60), (110, 60), (110, 10), (10, 10)] ∧
      nvg__polyArea
          (nvg__flattenPaths sqrtfExact clockwiseCommands (1 / 4) (1 / 100)
            ⟨[], [], ⟨0, 0, 0, 0⟩⟩).points 4 = 5000 := by
  decide!

/-! ### Every path has a point when the loop over the paths reaches it -/

theorem addPoint_counts (d : ℚ) (c : NVGpathCache) (x y : ℚ) (f : Nat)
    (H : ∀ (i : Nat) (p : NVGpath), i + 1 < c.paths.length → c.paths[i]? = some p → 1 ≤ p.count) :
    ∀ (i : Nat) (p : NVGpath), (nvg__addPoint d c x y f).paths[i]? = some p → 1 ≤ p.count := by
  unfold nvg__addPoint nvg__lastPath
  cases hl : c.paths.getLast? with
  | none =>
    intro i p hp
    have hnil : c.paths = [] := List.getLast?_eq_none_iff.mp hl
    simp only at hp
    rw [hnil] at hp
    simp at hp
  | some path =>
    rw [List.getLast?_eq_getElem?] at hl
    have hlen : c.paths.length - 1 < c.paths.length := (List.getElem?_eq_some_iff.mp hl).1
    have grow : ∀ (i : Nat) (p : NVGpath),
        (setLastPath
          { c with points := c.points ++ [{ zeroPoint with x := x, y := y, flags := f % 256 }] }
          { path with count := path.count + 1 }).paths[i]? = some p → 1 ≤ p.count := by
      intro i p hp
      simp only [setLastPath, List.getElem?_set] at hp
      by_cases hi : c.paths.length - 1 = i
      · rw [if_pos hi, if_pos hlen] at hp
        cases hp
        exact Nat.le_add_left 1 _
      · rw [if_neg hi] at hp
        have := (List.getElem?_eq_some_iff.mp hp).1
        exact H i p (by omega) hp
    simp only
    by_cases hc : path.count > 0
    · rw [if_pos hc]
      split
      · split_ifs
        · intro i p hp
          simp only at hp
          by_cases hi : c.paths.length - 1 = i
          · rw [← hi, hl] at hp
            cases hp
            exact hc
          · have := (List.getElem?_eq_some_iff.mp hp).1
            exact H i p (by omega) hp
        · exact grow
      · exact grow
    · rw [if_neg hc]
      exact grow

theorem setLast_counts (c : NVGpathCache) (path path' : NVGpath)
    (hl : c.paths.getLast? = some path) (hc : path'.count = path.count)
    (H : ∀ (i : Nat) (p : NVGpath), c.paths[i]? = some p → 1 ≤ p.count) :
    ∀ (i : Nat) (p : NVGpath), (setLastPath c path').paths[i]? = some p → 1 ≤ p.count := by
  intro i p hp
  rw [List.getLast?_eq_getElem?] at hl
  have hlen : c.paths.length - 1 < c.paths.length := (List.getElem?_eq_some_iff.mp hl).1
  simp only [setLastPath, List.getElem?_set] at hp
  by_cases hi : c.paths.length - 1 = i
  · rw [if_pos hi, if_pos hlen] at hp
    cases hp
    rw [hc]
    exact H _ path hl
  · rw [if_neg hi] at hp
    exact H i p hp

theorem tesselateBezier_counts (tessTol distTol : ℚ) (levels : Nat) :
    ∀ (c : NVGpathCache) (x1 y1 x2 y2 x3 y3 x4 y4 : ℚ) (type : Nat),
      (∀ (i : Nat) (p : NVGpath), c.paths[i]? = some p → 1 ≤ p.count) →
      ∀ (i : Nat) (p : NVGpath),
        (nvg__tesselateBezier tessTol distTol levels c x1 y1 x2 y2 x3 y3 x4 y4 type).paths[i]? =
          some p → 1 ≤ p.count := by
  induction levels with
  | zero => intro c _ _ _ _ _ _ _ _ _ H; exact H
  | succ n ih =>
    intro c x1 y1 x2 y2 x3 y3 x4 y4 type H
    simp only [nvg__tesselateBezier]
    split_ifs
    · exact addPoint_counts _ _ _ _ _ (fun i p _ hp => H i p hp)
    · exact ih _ _ _ _ _ _ _ _ _ _ (ih _ _ _ _ _ _ _ _ _ _ H)

theorem flattenCommand_counts (tessTol distTol : ℚ) (commands : List ℚ) (i : Nat)
    (c : NVGpathCache) (H : ∀ (k : Nat) (p : NVGpath), c.paths[k]? = some p → 1 ≤ p.count) :
    ∀ (k : Nat) (p : NVGpath),
      (flattenCommand tessTol distTol commands i c).1.paths[k]? = some p → 1 ≤ p.count := by
  unfold flattenCommand
  simp only
  split_ifs
  · apply addPoint_counts
    intro k p hk hp
    simp only [nvg__addPath, List.length_append, List.length_singleton] at hk hp
    rw [List.getElem?_append_left (by omega)] at hp
    exact H k p hp
  · exact addPoint_counts _ _ _ _ _ (fun k p _ hp => H k p hp)
  · split
    · exact tesselateBezier_counts _ _ _ _ _ _ _ _ _ _ _ _ _ H
    · exact H
  · unfold nvg__closePath nvg__lastPath
    cases hl : c.paths.getLast? with
    | none => exact H
    | some path => exact setLast_counts c path _ hl rfl H
  · unfold nvg__pathWinding nvg__lastPath
    cases hl : c.paths.getLast? with
    | none => exact H
    | some path => exact setLast_counts c path _ hl rfl H
  · exact H

/-- After the loop over the commands every path of the cache has a point, so the
index `count - 1` of its last point is not negative. -/
theorem flattenCommandsLoop_counts (tessTol distTol : ℚ) (commands : List ℚ) (fuel : Nat) :
    ∀ (i : Nat) (c : NVGpathCache),
      (∀ (k : Nat) (p : NVGpath), c.paths[k]? = some p → 1 ≤ p.count) →
      ∀ (k : Nat) (p : NVGpath),
        (flattenCommandsLoop tessTol distTol commands fuel i c).paths[k]? = some p →
          1 ≤ p.count := by
  induction fuel with
  | zero => intro _ c H; exact H
  | succ n ih =>
    intro i c H
    simp only [flattenCommandsLoop]
    split_ifs
    · exact ih _ _ (flattenCommand_counts tessTol distTol commands i c H)
    · exact H

/-! ## Theorems: scenario S2 -/

theorem s2Cache_value :
    s2Cache.paths =
      [{ first := 0, count := 2, closed := 0, nbevel := 2, fill := [],
         stroke := [⟨-1 / 2, -11 / 2, 0, 0⟩, ⟨-1 / 2, 11 / 2, 1, 0⟩,
           ⟨1 / 2, -11 / 2, 0, 1⟩, ⟨1 / 2, 11 / 2, 1, 1⟩,
           ⟨199 / 2, -11 / 2, 0, 1⟩, ⟨199 / 2, 11 / 2, 1, 1⟩,
           ⟨201 / 2, -11 / 2, 0, 0⟩, ⟨201 / 2, 11 / 2, 1, 0⟩],
         winding := NVG_CCW, convex := 0 }] := by
  decide!

/-- With butt caps and a join other than `NVG_ROUND`, `nvg__expandStroke` calls no
function of libm but `sqrtf`: the number `ncap` of divisions and the trigonometric
functions serve the round caps and joins only. -/
theorem expandStroke_butt (ex ex' : ArcExternals) (hs : ex.sqrtf = ex'.sqrtf)
    (cache : NVGpathCache) (tessTol w fringe : ℚ) (lineJoin : Int) (miterLimit : ℚ)
    (hj : lineJoin ≠ NVG_ROUND) :
    nvg__expandStroke ex cache tessTol w fringe NVG_BUTT lineJoin miterLimit =
      nvg__expandStroke ex' cache tessTol w fringe NVG_BUTT lineJoin miterLimit := by
  have key : ∀ (points : List NVGpoint) (w1 aa u0 u1 : ℚ) (ncap ncap' : Int),
      expandStrokePath ex points w1 aa u0 u1 NVG_BUTT lineJoin ncap =
        expandStrokePath ex' points w1 aa u0 u1 NVG_BUTT lineJoin ncap' := by
    intro points w1 aa u0 u1 ncap ncap'
    funext path
    simp only [expandStrokePath, expandStrokeJoin, expandStrokeCapStart, expandStrokeCapEnd,
      if_neg hj, if_true, hs]
  simp only [nvg__expandStroke]
  rw [key]

theorem stroke_call (ex : ArcExternals) (ctx : NVGcontext)
    (haa : ctx.edgeAntiAlias ≠ 0 ∧ (nvg__getState ctx).shapeAntiAlias ≠ 0) :
    (nvgStroke ex ctx).2.paths =
        (nvg__expandStroke ex
          (nvg__flattenPaths ex.sqrtf ctx.commands ctx.tessTol ctx.distTol ctx.cache) ctx.tessTol
          ((nvgStroke ex ctx).2.strokeWidth * (1 / 2)) ctx.fringeWidth (nvg__getState ctx).lineCap
          (nvg__getState ctx).lineJoin (nvg__getState ctx).miterLimit).paths ∧
      (nvgStroke ex ctx).2.strokeWidth =
        if nvg__clampf ((nvg__getState ctx).strokeWidth *
            nvg__getAverageScale ex.sqrtf (nvg__getState ctx).xform) 0 200 < ctx.fringeWidth then
          ctx.fringeWidth
        else
          nvg__clampf ((nvg__getState ctx).strokeWidth *
            nvg__getAverageScale ex.sqrtf (nvg__getState ctx).xform) 0 200 := by
  simp only [nvgStroke, if_pos haa, and_self]

theorem s2_state (ctx0 : NVGcontext) (w h : ℚ) :
    nvg__getState (s2Path (nvgBeginFrame ctx0 w h 1)) = s2State := by
  unfold s2Path nvgLineTo nvgMoveTo nvgLineCap nvgStrokeWidth
  rw [getState_appendCommands, getState_appendCommands, getState_beginPath, getState_setState,
    getState_setState, beginFrame_getState]
  rfl

theorem s2_commands (ctx0 : NVGcontext) (w h : ℚ) :
    (s2Path (nvgBeginFrame ctx0 w h 1)).commands = lineCommands := by
  have hs : nvg__getState (nvgBeginPath (nvgLineCap (nvgStrokeWidth (nvgBeginFrame ctx0 w h 1) 10)
      NVG_BUTT)) = s2State := by
    unfold nvgLineCap nvgStrokeWidth
    rw [getState_beginPath, getState_setState, getState_setState, beginFrame_getState]
    rfl
  unfold s2Path nvgLineTo nvgMoveTo
  rw [commands_appendCommands, commands_appendCommands, getState_appendCommands, commands_beginPath,
    hs]
  exact line_commands

theorem s2Path_fields (c : NVGcontext) :
    (s2Path c).tessTol = c.tessTol ∧ (s2Path c).distTol = c.distTol ∧
      (s2Path c).fringeWidth = c.fringeWidth ∧ (s2Path c).edgeAntiAlias = c.edgeAntiAlias ∧
      (s2Path c).cache = ⟨[], [], c.cache.bounds⟩ :=
  ⟨rfl, rfl, rfl, rfl, rfl⟩

/-- C21 (scenario S2): in a frame begun with device pixel ratio 1 on a context
with edge anti-aliasing on, stroke width 10, butt caps, `nvgBeginPath`,
`nvgMoveTo(0, 0)`, `nvgLineTo(100, 0)` and `nvgStroke` hand `renderStroke` exactly
one path, open, whose stroke strip has the 8 vertices of two butt caps and no
join: (-0.5, -5.5) and (-0.5, 5.5) with `v = 0`, (0.5, -5.5), (0.5, 5.5),
(99.5, -5.5), (99.5, 5.5) with `v = 1`, (100.5, -5.5) and (100.5, 5.5) with
`v = 0`, with `u = 0` on the side `y = -5.5` and `u = 1` on the side `y = 5.5`;
the stroke width handed over is 10. The functions of libm other than `sqrtf`
are arbitrary. -/
theorem scenario_S2 (ctx0 : NVGcontext) (w h : ℚ) (cosf sinf tanf acosf : ℚ → ℚ)
    (atan2f : ℚ → ℚ → ℚ) (haa : ctx0.edgeAntiAlias ≠ 0) :
    (nvgStroke ⟨sqrtfExact, cosf, sinf, tanf, acosf, atan2f⟩
          (s2Path (nvgBeginFrame ctx0 w h 1))).2.paths =
        [{ first := 0, count := 2, closed := 0, nbevel := 2, fill := [],
           stroke := [⟨-1 / 2, -11 / 2, 0, 0⟩, ⟨-1 / 2, 11 / 2, 1, 0⟩,
             ⟨1 / 2, -11 / 2, 0, 1⟩, ⟨1 / 2, 11 / 2, 1, 1⟩,
             ⟨199 / 2, -11 / 2, 0, 1⟩, ⟨199 / 2, 11 / 2, 1, 1⟩,
             ⟨201 / 2, -11 / 2, 0, 0⟩, ⟨201 / 2, 11 / 2, 1, 0⟩],
           winding := NVG_CCW, convex := 0 }] ∧
      (nvgStroke ⟨sqrtfExact, cosf, sinf, tanf, acosf, atan2f⟩
          (s2Path (nvgBeginFrame ctx0 w h 1))).2.strokeWidth = 10 := by
  have hstate := s2_state ctx0 w h
  have hcmd := s2_commands ctx0 w h
  have htess : (s2Path (nvgBeginFrame ctx0 w h 1)).tessTol = 1 / 4 := by
    rw [(s2Path_fields _).1]
    show (1 : ℚ) / 4 / 1 = 1 / 4
    norm_num
  have hdist : (s2Path (nvgBeginFrame ctx0 w h 1)).distTol = 1 / 100 := by
    rw [(s2Path_fields _).2.1]
    show (1 : ℚ) / 100 / 1 = 1 / 100
    norm_num
  have hfringe : (s2Path (nvgBeginFrame ctx0 w h 1)).fringeWidth = 1 := by
    rw [(s2Path_fields _).2.2.1]
    show (1 : ℚ) / 1 = 1
    norm_num
  have hcache : (s2Path (nvgBeginFrame ctx0 w h 1)).cache = ⟨[], [], ctx0.cache.bounds⟩ := by
    rw [(s2Path_fields _).2.2.2.2]
    rfl
  have hedge : (s2Path (nvgBeginFrame ctx0 w h 1)).edgeAntiAlias = ctx0.edgeAntiAlias := by
    rw [(s2Path_fields _).2.2.2.1]
    rfl
  have hcall := stroke_call ⟨sqrtfExact, cosf, sinf, tanf, acosf, atan2f⟩
    (s2Path (nvgBeginFrame ctx0 w h 1)) ⟨by rw [hedge]; exact haa, by rw [hstate]; decide⟩
  have hwidth : (nvgStroke ⟨sqrtfExact, cosf, sinf, tanf, acosf, atan2f⟩
      (s2Path (nvgBeginFrame ctx0 w h 1))).2.strokeWidth = 10 := by
    rw [hcall.2, hstate, hfringe]
    have hv : (if nvg__clampf (s2State.strokeWidth *
          nvg__getAverageScale sqrtfExact s2State.xform) 0 200 < 1 then (1 : ℚ)
        else nvg__clampf (s2State.strokeWidth *
          nvg__getAverageScale sqrtfExact s2State.xform) 0 200) = 10 := by decide!
    exact hv
  refine ⟨?_, hwidth⟩
  rw [hcall.1, hwidth, hcmd, htess, hdist, hfringe, hcache, hstate,
    flattenPaths_bounds sqrtfExact lineCommands (1 / 4) (1 / 100) [] ctx0.cache.bounds ⟨0, 0, 0, 0⟩]
  have h5 : (10 : ℚ) * (1 / 2) = 5 := by norm_num
  rw [h5]
  have hb := expandStroke_butt ⟨sqrtfExact, cosf, sinf, tanf, acosf, atan2f⟩ sqrtOnly rfl
    (nvg__flattenPaths sqrtfExact lineCommands (1 / 4) (1 / 100) ⟨[], [], ⟨0, 0, 0, 0⟩⟩) (1 / 4) 5 1
    NVG_MITER 10 (by decide)
  have hl : s2State.lineCap = NVG_BUTT := rfl
  have hjoin : s2State.lineJoin = NVG_MITER := rfl
  have hm : s2State.miterLimit = 10 := rfl
  rw [hl, hjoin, hm, hb]
  exact s2Cache_value

/-- C21 in a frame of 320 by 240 on the context that `nvgCreateInternal` returns
with edge anti-aliasing on, with the libm functions of `sqrtOnly`. -/
theorem scenario_S2_witness :
    (nvgCreateInternal 1).edgeAntiAlias ≠ 0 ∧
      (nvgStroke ⟨sqrtfExact, fun _ => 0, fun _ => 0, fun _ => 0, fun _ => 0, fun _ _ => 0⟩
          (s2Path (nvgBeginFrame (nvgCreateInternal 1) 320 240 1))).2.strokeWidth = 10 :=
  ⟨by decide,
    (scenario_S2 (nvgCreateInternal 1) 320 240 (fun _ => 0) (fun _ => 0) (fun _ => 0) (fun _ => 0)
      (fun _ _ => 0) (by decide)).2⟩

/-! ## Theorems: stroke width and coverage -/

theorem clampf_nonneg (a mx : ℚ) (h : 0 ≤ mx) : 0 ≤ nvg__clampf a 0 mx := by
  unfold nvg__clampf
  split_ifs with h1 h2
  · exact le_refl _
  · exact h
  · exact le_of_not_lt h1

theorem clampf_of_mem (a mn mx : ℚ) (h1 : mn ≤ a) (h2 : a ≤ mx) : nvg__clampf a mn mx = a := by
  unfold nvg__clampf
  rw [if_neg (not_lt.mpr h1), if_neg (not_lt.mpr h2)]

/-- C22: in `nvgStroke`, with `s = clamp(strokeWidth * averageScale(transform), 0,
200)`: when `s < fringeWidth`, `renderStroke` receives the stroke width
`fringeWidth` and the stroke paint of the state with the alpha of its inner and
outer colours multiplied by `(s / fringeWidth)^2` and by the global alpha; when
`s >= fringeWidth` it receives the stroke width `s` and that paint with the
alphas multiplied by the global alpha only. -/
theorem stroke_width_and_coverage (ex : ArcExternals) (ctx : NVGcontext) :
    (scaledStrokeWidth ex.sqrtf ctx < ctx.fringeWidth →
        (nvgStroke ex ctx).2.strokeWidth = ctx.fringeWidth ∧
          (nvgStroke ex ctx).2.paint =
            { (nvg__getState ctx).stroke with
              innerColor :=
                { (nvg__getState ctx).stroke.innerColor with
                  a := (nvg__getState ctx).stroke.innerColor.a *
                    (scaledStrokeWidth ex.sqrtf ctx / ctx.fringeWidth *
                      (scaledStrokeWidth ex.sqrtf ctx / ctx.fringeWidth)) *
                    (nvg__getState ctx).alpha }
              outerColor :=
                { (nvg__getState ctx).stroke.outerColor with
                  a := (nvg__getState ctx).stroke.outerColor.a *
                    (scaledStrokeWidth ex.sqrtf ctx / ctx.fringeWidth *
                      (scaledStrokeWidth ex.sqrtf ctx / ctx.fringeWidth)) *
                    (nvg__getState ctx).alpha } }) ∧
      (ctx.fringeWidth ≤ scaledStrokeWidth ex.sqrtf ctx →
        (nvgStroke ex ctx).2.strokeWidth = scaledStrokeWidth ex.sqrtf ctx ∧
          (nvgStroke ex ctx).2.paint =
            { (nvg__getState ctx).stroke with
              innerColor :=
                { (nvg__getState ctx).stroke.innerColor with
                  a := (nvg__getState ctx).stroke.innerColor.a * (nvg__getState ctx).alpha }
              outerColor :=
                { (nvg__getState ctx).stroke.outerColor with
                  a := (nvg__getState ctx).stroke.outerColor.a * (nvg__getState ctx).alpha } }) := by
  constructor
  · intro h
    have h0 : 0 ≤ scaledStrokeWidth ex.sqrtf ctx := clampf_nonneg _ 200 (by norm_num)
    have hf : 0 < ctx.fringeWidth := lt_of_le_of_lt h0 h
    have hc : nvg__clampf (scaledStrokeWidth ex.sqrtf ctx / ctx.fringeWidth) 0 1 =
        scaledStrokeWidth ex.sqrtf ctx / ctx.fringeWidth :=
      clampf_of_mem _ 0 1 (div_nonneg h0 (le_of_lt hf)) (le_of_lt ((div_lt_one hf).mpr h))
    unfold scaledStrokeWidth at h hc
    simp only [nvgStroke, scaledStrokeWidth, if_pos h, hc, and_self]
  · intro h
    have h' : ¬ scaledStrokeWidth ex.sqrtf ctx < ctx.fringeWidth := not_lt.mpr h
    unfold scaledStrokeWidth at h'
    simp only [nvgStroke, scaledStrokeWidth, if_neg h', and_self]

/-- C22 on `thinFrame`, whose stroke width 1/2 is under the fringe width 1 (the
stroke width handed over is the fringe width), and on `refFrame`, whose stroke
width 1 is not (the stroke width handed over is 1). -/
theorem stroke_width_and_coverage_witness :
    (scaledStrokeWidth sqrtOnly.sqrtf thinFrame < thinFrame.fringeWidth ∧
        (nvgStroke sqrtOnly thinFrame).2.strokeWidth = thinFrame.fringeWidth) ∧
      refFrame.fringeWidth ≤ scaledStrokeWidth sqrtOnly.sqrtf refFrame ∧
      (nvgStroke sqrtOnly refFrame).2.strokeWidth = scaledStrokeWidth sqrtOnly.sqrtf refFrame :=
  ⟨⟨by decide!, ((stroke_width_and_coverage sqrtOnly thinFrame).1 (by decide!)).1⟩, by decide!,
    ((stroke_width_and_coverage sqrtOnly refFrame).2 (by decide!)).1⟩

/-! ## Theorems: the order of the registered paths -/

theorem fillHitRegion_registers (sqrtf : ℚ → ℚ) (ctx : NVGcontext) (id : Int) :
    (nvgFillHitRegion sqrtf ctx id).pickScene =
      some (registerHitRegion sqrtf (nvg__pickSceneGet ctx)
        ⟨ctx.commands, nvg__getState ctx, id, false⟩) := rfl

theorem strokeHitRegion_registers (sqrtf : ℚ → ℚ) (ctx : NVGcontext) (id : Int) :
    (nvgStrokeHitRegion sqrtf ctx id).pickScene =
      some (registerHitRegion sqrtf (nvg__pickSceneGet ctx)
        ⟨ctx.commands, nvg__getState ctx, id, true⟩) := rfl

/-- A registration appends one record to the store, with the order
`(short)npaths`, and increments `npaths`. -/
theorem registerHitRegion_order (sqrtf : ℚ → ℚ) (ps : NVGpickScene) (r : HitRegionCall) :
    (registerHitRegion sqrtf ps r).store.map (fun pp => pp.order) =
        ps.store.map (fun pp => pp.order) ++ [cShort ps.npaths] ∧
      (registerHitRegion sqrtf ps r).npaths = ps.npaths + 1 := by
  simp [registerHitRegion, nvg__pickSceneInsert]

theorem registerHitRegion_foldl_order (sqrtf : ℚ → ℚ) (rs : List HitRegionCall) :
    ∀ ps : NVGpickScene,
      (rs.foldl (registerHitRegion sqrtf) ps).store.map (fun pp => pp.order) =
          ps.store.map (fun pp => pp.order) ++
            (List.range rs.length).map (fun (k : Nat) => cShort (ps.npaths + (k : Int))) ∧
        (rs.foldl (registerHitRegion sqrtf) ps).npaths = ps.npaths + (rs.length : Int) := by
  induction rs with
  | nil => intro ps; simp
  | cons r rs ih =>
    intro ps
    obtain ⟨h1, h2⟩ := registerHitRegion_order sqrtf ps r
    obtain ⟨i1, i2⟩ := ih (registerHitRegion sqrtf ps r)
    rw [List.foldl_cons, i1, i2, h1, h2]
    refine ⟨?_, by simp only [List.length_cons]; push_cast; ring⟩
    simp only [List.length_cons, List.range_succ_eq_map, List.map_cons, List.map_map,
      List.append_assoc, List.singleton_append, Nat.cast_zero, add_zero]
    congr 2
    apply List.map_congr_left
    intro k _
    simp only [Function.comp, Nat.cast_succ]
    congr 1
    ring

/-- The orders of a frame: the registration of index `k` gets `(short)k`. -/
theorem frameOrders_eq (sqrtf : ℚ → ℚ) (ctx : NVGcontext) (width height : Int)
    (rs : List HitRegionCall) :
    frameOrders sqrtf ctx width height rs = (List.range rs.length).map (fun (k : Nat) => cShort (k : Int)) := by
  unfold frameOrders
  rw [(registerHitRegion_foldl_order sqrtf rs _).1]
  have h0 : (nvg__pickSceneGet (nvg__pickBeginFrame ctx width height)).store = [] := rfl
  have h1 : (nvg__pickSceneGet (nvg__pickBeginFrame ctx width height)).npaths = 0 := rfl
  rw [h0, h1]
  simp

theorem frameOrders_getD (sqrtf : ℚ → ℚ) (ctx : NVGcontext) (width height : Int)
    (rs : List HitRegionCall) (k : Nat) (hk : k < rs.length) :
    (frameOrders sqrtf ctx width height rs).getD k 0 = cShort (k : Int) := by
  rw [frameOrders_eq]
  simp [hk]

theorem cShort_of_small (k : Nat) (hk : k < 32768) : cShort (k : Int) = (k : Int) := by
  unfold cShort
  omega

/-- C23, the claim as stated fails: the registration 32769 of a frame (index
32768) gets the order -32768, below the order 0 of the first one: `order` is
`(short)npaths`. -/
theorem order_wraps_at_32768 :
    (frameOrders sqrtfExact refFrame 320 240
          (List.replicate 32769 ⟨rectCommands, resetState, 7, false⟩)).getD 0 0 = 0 ∧
      (frameOrders sqrtfExact refFrame 320 240
          (List.replicate 32769 ⟨rectCommands, resetState, 7, false⟩)).getD 32768 0 = -32768 := by
  constructor
  · rw [frameOrders_getD _ _ _ _ _ 0 (by rw [List.length_replicate]; norm_num)]
    rfl
  · rw [frameOrders_getD _ _ _ _ _ 32768 (by rw [List.length_replicate]; norm_num)]
    decide

/-- C23, amended: within one frame, the orders that successive `nvgFillHitRegion`
and `nvgStrokeHitRegion` calls record are strictly increasing over the first
32768 registrations: the registration of index `j < 32768` gets an order
greater than that of every registration of index `i < j`. -/
theorem orders_increase_below_32768 (sqrtf : ℚ → ℚ) (ctx : NVGcontext) (width height : Int)
    (rs : List HitRegionCall) (i j : Nat) (hij : i < j) (hj : j < rs.length) (h : j < 32768) :
    (frameOrders sqrtf ctx width height rs).getD i 0 <
      (frameOrders sqrtf ctx width height rs).getD j 0 := by
  rw [frameOrders_getD sqrtf ctx width height rs i (by omega),
    frameOrders_getD sqrtf ctx width height rs j hj, cShort_of_small i (by omega),
    cShort_of_small j h]
  exact_mod_cast hij

/-- C23, amended, on a fill and a stroke registered in the frame `refFrame`. -/
theorem orders_increase_below_32768_witness :
    (frameOrders sqrtfExact refFrame 320 240
          [⟨rectCommands, resetState, 7, false⟩, ⟨lineCommands, roundCapState, 3, true⟩]).getD 0 0 <
      (frameOrders sqrtfExact refFrame 320 240
          [⟨rectCommands, resetState, 7, false⟩, ⟨lineCommands, roundCapState, 3, true⟩]).getD 1 0 :=
  orders_increase_below_32768 sqrtfExact refFrame 320 240
    [⟨rectCommands, resetState, 7, false⟩, ⟨lineCommands, roundCapState, 3, true⟩] 0 1 (by decide)
    (by decide) (by decide)

/-! ## Theorems: the tessellator -/

/-- The cache that `nvg__tesselateBezier` returns is the cache after the calls of
`nvg__addPoint` that `tesselateCalls` lists. -/
theorem tesselateBezier_eq_calls (tessTol distTol : ℚ) (levels : Nat) :
    ∀ (c : NVGpathCache) (x1 y1 x2 y2 x3 y3 x4 y4 : ℚ) (type : Nat),
      nvg__tesselateBezier tessTol distTol levels c x1 y1 x2 y2 x3 y3 x4 y4 type =
        (tesselateCalls tessTol levels x1 y1 x2 y2 x3 y3 x4 y4 type).foldl
          (fun c a => nvg__addPoint distTol c a.1 a.2.1 a.2.2) c := by
  induction levels with
  | zero => intro c _ _ _ _ _ _ _ _ _; rfl
  | succ n ih =>
    intro c x1 y1 x2 y2 x3 y3 x4 y4 type
    simp only [nvg__tesselateBezier, tesselateCalls]
    split_ifs
    · rfl
    · rw [List.foldl_append, ih, ih]

theorem tesselateCalls_type_zero (tessTol : ℚ) (levels : Nat) :
    ∀ (x1 y1 x2 y2 x3 y3 x4 y4 : ℚ),
      ∀ a ∈ tesselateCalls tessTol levels x1 y1 x2 y2 x3 y3 x4 y4 0, a.2.2 = 0 := by
  induction levels with
  | zero => intro _ _ _ _ _ _ _ _ a ha; simp [tesselateCalls] at ha
  | succ n ih =>
    intro x1 y1 x2 y2 x3 y3 x4 y4 a ha
    simp only [tesselateCalls] at ha
    split_ifs at ha
    · rw [List.mem_singleton] at ha
      rw [ha]
    · rcases List.mem_append.mp ha with h | h
      · exact ih _ _ _ _ _ _ _ _ a h
      · exact ih _ _ _ _ _ _ _ _ a h

theorem tesselateCalls_before_last (tessTol : ℚ) (levels : Nat) :
    ∀ (x1 y1 x2 y2 x3 y3 x4 y4 : ℚ) (type : Nat),
      ∀ a ∈ (tesselateCalls tessTol levels x1 y1 x2 y2 x3 y3 x4 y4 type).dropLast, a.2.2 = 0 := by
  induction levels with
  | zero => intro _ _ _ _ _ _ _ _ _ a ha; simp [tesselateCalls] at ha
  | succ n ih =>
    intro x1 y1 x2 y2 x3 y3 x4 y4 type a ha
    simp only [tesselateCalls] at ha
    split_ifs at ha
    · simp at ha
    · rename_i hflat
      generalize hA : tesselateCalls tessTol n x1 y1 ((x1 + x2) * (1 / 2)) ((y1 + y2) * (1 / 2))
        (((x1 + x2) * (1 / 2) + (x2 + x3) * (1 / 2)) * (1 / 2))
        (((y1 + y2) * (1 / 2) + (y2 + y3) * (1 / 2)) * (1 / 2))
        ((((x1 + x2) * (1 / 2) + (x2 + x3) * (1 / 2)) * (1 / 2) +
          ((x2 + x3) * (1 / 2) + (x3 + x4) * (1 / 2)) * (1 / 2)) * (1 / 2))
        ((((y1 + y2) * (1 / 2) + (y2 + y3) * (1 / 2)) * (1 / 2) +
          ((y2 + y3) * (1 / 2) + (y3 + y4) * (1 / 2)) * (1 / 2)) * (1 / 2)) 0 = A at ha
      have hA0 : ∀ b ∈ A, b.2.2 = 0 := by
        intro b hb
        rw [← hA] at hb
        exact tesselateCalls_type_zero tessTol n _ _ _ _ _ _ _ _ b hb
      generalize hB : tesselateCalls tessTol n
        ((((x1 + x2) * (1 / 2) + (x2 + x3) * (1 / 2)) * (1 / 2) +
          ((x2 + x3) * (1 / 2) + (x3 + x4) * (1 / 2)) * (1 / 2)) * (1 / 2))
        ((((y1 + y2) * (1 / 2) + (y2 + y3) * (1 / 2)) * (1 / 2) +
          ((y2 + y3) * (1 / 2) + (y3 + y4) * (1 / 2)) * (1 / 2)) * (1 / 2))
        (((x2 + x3) * (1 / 2) + (x3 + x4) * (1 / 2)) * (1 / 2))
        (((y2 + y3) * (1 / 2) + (y3 + y4) * (1 / 2)) * (1 / 2)) ((x3 + x4) * (1 / 2))
        ((y3 + y4) * (1 / 2)) x4 y4 type = B at ha
      have hB0 : ∀ b ∈ B.dropLast, b.2.2 = 0 := by
        intro b hb
        rw [← hB] at hb
        exact ih _ _ _ _ _ _ _ _ _ b hb
      by_cases hnil : B = []
      · rw [hnil, List.append_nil] at ha
        exact hA0 a (List.dropLast_subset A ha)
      · rw [List.dropLast_append_of_ne_nil _ hnil] at ha
        rcases List.mem_append.mp ha with h | h
        · exact hA0 a h
        · exact hB0 a h

theorem tesselateCalls_last (tessTol : ℚ) (levels : Nat) :
    ∀ (x1 y1 x2 y2 x3 y3 x4 y4 : ℚ) (type : Nat),
      lastHalfFlat tessTol levels x1 y1 x2 y2 x3 y3 x4 y4 = true →
        (tesselateCalls tessTol levels x1 y1 x2 y2 x3 y3 x4 y4 type).getLast? =
          some (x4, y4, type) := by
  induction levels with
  | zero => intro _ _ _ _ _ _ _ _ _ h; simp [lastHalfFlat] at h
  | succ n ih =>
    intro x1 y1 x2 y2 x3 y3 x4 y4 type h
    simp only [lastHalfFlat] at h
    simp only [tesselateCalls]
    split_ifs at h with hflat
    · rw [if_pos hflat]
      rfl
    · rw [if_neg hflat, List.getLast?_append, ih _ _ _ _ _ _ _ _ type h]
      rfl

theorem tesselateCalls_no_flag (tessTol : ℚ) (levels : Nat) :
    ∀ (x1 y1 x2 y2 x3 y3 x4 y4 : ℚ) (type : Nat),
      lastHalfFlat tessTol levels x1 y1 x2 y2 x3 y3 x4 y4 = false →
        ∀ a ∈ tesselateCalls tessTol levels x1 y1 x2 y2 x3 y3 x4 y4 type, a.2.2 = 0 := by
  induction levels with
  | zero => intro _ _ _ _ _ _ _ _ _ _ a ha; simp [tesselateCalls] at ha
  | succ n ih =>
    intro x1 y1 x2 y2 x3 y3 x4 y4 type h a ha
    simp only [lastHalfFlat] at h
    simp only [tesselateCalls] at ha
    split_ifs at h with hflat
    rw [if_neg hflat] at ha
    rcases List.mem_append.mp ha with h1 | h1
    · exact tesselateCalls_type_zero tessTol n _ _ _ _ _ _ _ _ a h1
    · exact ih _ _ _ _ _ _ _ _ type h a h1

/-- A cubic whose four control points coincide passes the flatness test at no
level (`dx = dy = 0` makes its right side 0), and its halves are that cubic, so
`nvg__tesselateBezier` reaches the level 11 everywhere and calls `nvg__addPoint`
nowhere. -/
theorem tesselateCalls_of_point (tessTol : ℚ) (levels : Nat) (x y : ℚ) (type : Nat) :
    tesselateCalls tessTol levels x y x y x y x y type = [] := by
  induction levels generalizing type with
  | zero => rfl
  | succ n ih =>
    have hx : (x + x) * (1 / 2) = x := by ring
    have hy : (y + y) * (1 / 2) = y := by ring
    have h0 : nvg__absf 0 = 0 := by decide!
    simp only [tesselateCalls, hx, hy, sub_self, mul_zero, zero_mul, h0, add_zero, lt_irrefl,
      if_false, ih, List.append_nil]

/-- C24, the claim as stated fails: for the cubic with the four control points
(5, 5), which `nvgMoveTo(5, 5); nvgBezierTo(5, 5, 5, 5, 5, 5)` passes to
`nvg__tesselateBezier` at level 0 with the type `NVG_PT_CORNER` and
`tessTol = 1/4`, the tessellator makes no `nvg__addPoint` call, and the cache
keeps its single point. -/
theorem tesselateBezier_skips_point_cubic :
    tesselateCalls (1 / 4) 11 5 5 5 5 5 5 5 5 NVG_PT_CORNER = [] ∧
      nvg__tesselateBezier (1 / 4) (1 / 100) 11 penCache 5 5 5 5 5 5 5 5 NVG_PT_CORNER = penCache ∧
      penCache.points.length = 1 := by
  refine ⟨tesselateCalls_of_point _ _ _ _ _, ?_, by decide!⟩
  rw [tesselateBezier_eq_calls, tesselateCalls_of_point]
  rfl

/-- C24, amended: the cache that `nvg__tesselateBezier` returns at level 0 is the
cache after the `nvg__addPoint` calls of `tesselateCalls`, and for the type
`NVG_PT_CORNER` these calls are at least one, with the last one for the far
endpoint `(x4, y4)` with the flag `NVG_PT_CORNER` and every earlier one with the
flags 0, exactly when the cubic or one of its successive last halves passes the
flatness test before the level exceeds 10; otherwise no call passes the flag. -/
theorem tesselateBezier_corner_iff (tessTol distTol : ℚ) (c : NVGpathCache)
    (x1 y1 x2 y2 x3 y3 x4 y4 : ℚ) :
    nvg__tesselateBezier tessTol distTol 11 c x1 y1 x2 y2 x3 y3 x4 y4 NVG_PT_CORNER =
        (tesselateCalls tessTol 11 x1 y1 x2 y2 x3 y3 x4 y4 NVG_PT_CORNER).foldl
          (fun c a => nvg__addPoint distTol c a.1 a.2.1 a.2.2) c ∧
      (((tesselateCalls tessTol 11 x1 y1 x2 y2 x3 y3 x4 y4 NVG_PT_CORNER).getLast? =
            some (x4, y4, NVG_PT_CORNER) ∧
          ∀ a ∈ (tesselateCalls tessTol 11 x1 y1 x2 y2 x3 y3 x4 y4 NVG_PT_CORNER).dropLast,
            a.2.2 = 0) ↔
        lastHalfFlat tessTol 11 x1 y1 x2 y2 x3 y3 x4 y4 = true) ∧
      (lastHalfFlat tessTol 11 x1 y1 x2 y2 x3 y3 x4 y4 = false →
        ∀ a ∈ tesselateCalls tessTol 11 x1 y1 x2 y2 x3 y3 x4 y4 NVG_PT_CORNER, a.2.2 = 0) := by
  refine ⟨tesselateBezier_eq_calls _ _ _ _ _ _ _ _ _ _ _ _ _, ⟨?_, ?_⟩, ?_⟩
  · rintro ⟨hlast, _⟩
    by_contra hf
    rw [Bool.not_eq_true] at hf
    have h0 := tesselateCalls_no_flag tessTol 11 x1 y1 x2 y2 x3 y3 x4 y4 NVG_PT_CORNER hf
      (x4, y4, NVG_PT_CORNER) (List.mem_of_getLast?_eq_some hlast)
    have h1 : NVG_PT_CORNER ≠ 0 := by decide
    exact h1 h0
  · intro hf
    exact ⟨tesselateCalls_last tessTol 11 _ _ _ _ _ _ _ _ _ hf,
      tesselateCalls_before_last tessTol 11 _ _ _ _ _ _ _ _ _⟩
  · exact tesselateCalls_no_flag tessTol 11 _ _ _ _ _ _ _ _ _

/-- C24, amended, on the cubic (0, 0), (0, 10), (10, 10), (10, 0) with
`tessTol = 1/4`: its last call is for (10, 0) with `NVG_PT_CORNER`, and no call
passes the flag for the point cubic at (5, 5). -/
theorem tesselateBezier_corner_iff_witness :
    (tesselateCalls (1 / 4) 11 0 0 0 10 10 10 10 0 NVG_PT_CORNER).getLast? =
        some (10, 0, NVG_PT_CORNER) ∧
      ∀ a ∈ tesselateCalls (1 / 4) 11 5 5 5 5 5 5 5 5 NVG_PT_CORNER, a.2.2 = 0 :=
  ⟨(((tesselateBezier_corner_iff (1 / 4) (1 / 100) penCache 0 0 0 10 10 10 10 0).2.1).mpr
      (by decide!)).1,
    (tesselateBezier_corner_iff (1 / 4) (1 / 100) penCache 5 5 5 5 5 5 5 5).2.2 (by decide!)⟩

theorem addPoint_points_length (d : ℚ) (c : NVGpathCache) (x y : ℚ) (f : Nat) :
    c.points.length ≤ (nvg__addPoint d c x y f).points.length ∧
      (nvg__addPoint d c x y f).points.length ≤ c.points.length + 1 := by
  unfold nvg__addPoint
  split
  · exact ⟨le_refl _, Nat.le_succ _⟩
  · split
    · split_ifs
      · simp
      · simp [setLastPath]
    · simp [setLastPath]

theorem tesselateBezier_points_length (tessTol distTol : ℚ) (levels : Nat) :
    ∀ (c : NVGpathCache) (x1 y1 x2 y2 x3 y3 x4 y4 : ℚ) (type : Nat),
      c.points.length ≤
          (nvg__tesselateBezier tessTol distTol levels c x1 y1 x2 y2 x3 y3 x4 y4
            type).points.length ∧
        (nvg__tesselateBezier tessTol distTol levels c x1 y1 x2 y2 x3 y3 x4 y4
            type).points.length ≤ c.points.length + 2 ^ levels / 2 := by
  induction levels with
  | zero => intro c _ _ _ _ _ _ _ _ _; exact ⟨le_refl _, Nat.le_add_right _ _⟩
  | succ n ih =>
    intro c x1 y1 x2 y2 x3 y3 x4 y4 type
    have hpow : 1 ≤ 2 ^ (n + 1) / 2 ∧ 2 ^ n / 2 + 2 ^ n / 2 ≤ 2 ^ (n + 1) / 2 := by
      have h1 : 2 ^ (n + 1) / 2 = 2 ^ n := by
        rw [pow_succ]
        exact Nat.mul_div_cancel _ (by norm_num)
      have h2 : 1 ≤ 2 ^ n := Nat.one_le_two_pow
      rw [h1]
      omega
    simp only [nvg__tesselateBezier]
    split_ifs
    · obtain ⟨h1, h2⟩ := addPoint_points_length distTol c x4 y4 type
      exact ⟨h1, by omega⟩
    · generalize hc1 : nvg__tesselateBezier tessTol distTol n c x1 y1 ((x1 + x2) * (1 / 2))
        ((y1 + y2) * (1 / 2)) (((x1 + x2) * (1 / 2) + (x2 + x3) * (1 / 2)) * (1 / 2))
        (((y1 + y2) * (1 / 2) + (y2 + y3) * (1 / 2)) * (1 / 2))
        ((((x1 + x2) * (1 / 2) + (x2 + x3) * (1 / 2)) * (1 / 2) +
          ((x2 + x3) * (1 / 2) + (x3 + x4) * (1 / 2)) * (1 / 2)) * (1 / 2))
        ((((y1 + y2) * (1 / 2) + (y2 + y3) * (1 / 2)) * (1 / 2) +
          ((y2 + y3) * (1 / 2) + (y3 + y4) * (1 / 2)) * (1 / 2)) * (1 / 2)) 0 = c1
      have hA := ih c x1 y1 ((x1 + x2) * (1 / 2))
        ((y1 + y2) * (1 / 2)) (((x1 + x2) * (1 / 2) + (x2 + x3) * (1 / 2)) * (1 / 2))
        (((y1 + y2) * (1 / 2) + (y2 + y3) * (1 / 2)) * (1 / 2))
        ((((x1 + x2) * (1 / 2) + (x2 + x3) * (1 / 2)) * (1 / 2) +
          ((x2 + x3) * (1 / 2) + (x3 + x4) * (1 / 2)) * (1 / 2)) * (1 / 2))
        ((((y1 + y2) * (1 / 2) + (y2 + y3) * (1 / 2)) * (1 / 2) +
          ((y2 + y3) * (1 / 2) + (y3 + y4) * (1 / 2)) * (1 / 2)) * (1 / 2)) 0
      rw [hc1] at hA
      have hB := ih c1
        ((((x1 + x2) * (1 / 2) + (x2 + x3) * (1 / 2)) * (1 / 2) +
          ((x2 + x3) * (1 / 2) + (x3 + x4) * (1 / 2)) * (1 / 2)) * (1 / 2))
        ((((y1 + y2) * (1 / 2) + (y2 + y3) * (1 / 2)) * (1 / 2) +
          ((y2 + y3) * (1 / 2) + (y3 + y4) * (1 / 2)) * (1 / 2)) * (1 / 2))
        (((x2 + x3) * (1 / 2) + (x3 + x4) * (1 / 2)) * (1 / 2))
        (((y2 + y3) * (1 / 2) + (y3 + y4) * (1 / 2)) * (1 / 2)) ((x3 + x4) * (1 / 2))
        ((y3 + y4) * (1 / 2)) x4 y4 type
      exact ⟨by omega, by omega⟩

/-- C25: `nvg__tesselateBezier` is total, by recursion on `11 - level`: a call at a
level above 10 (`levels = 0`) returns the cache as it is, and a call at level 0
(`levels = 11`) removes no point and adds at most 2^10 = 1024 points to the path
cache. -/
theorem tesselateBezier_returns_with_at_most_1024_points (tessTol distTol : ℚ)
    (c : NVGpathCache) (x1 y1 x2 y2 x3 y3 x4 y4 : ℚ) (type : Nat) :
    nvg__tesselateBezier tessTol distTol 0 c x1 y1 x2 y2 x3 y3 x4 y4 type = c ∧
      c.points.length ≤
        (nvg__tesselateBezier tessTol distTol 11 c x1 y1 x2 y2 x3 y3 x4 y4 type).points.length ∧
      (nvg__tesselateBezier tessTol distTol 11 c x1 y1 x2 y2 x3 y3 x4 y4 type).points.length ≤
        c.points.length + 1024 :=
  ⟨rfl, (tesselateBezier_points_length tessTol distTol 11 c x1 y1 x2 y2 x3 y3 x4 y4 type).1,
    (tesselateBezier_points_length tessTol distTol 11 c x1 y1 x2 y2 x3 y3 x4 y4 type).2⟩

/-! ## Theorems: cubics in the pick scene -/

/-- A cubic whose third-degree coefficient vanishes in the coordinate `coord` (in
exact arithmetic, every cubic that `nvgQuadTo` records) gets no parameter from
`nvg__bezierInflections`: with `a = 0` the single-root branch computes
`-b / 2 * a = 0` and the two-root branch divides by `2 * a = 0` (in C the
quotients are infinite or NaN, which the range test rejects as it rejects 0). -/
theorem bezierInflections_of_degree_two (sqrtf : ℚ → ℚ) (points : List ℚ) (coord : Nat)
    (inflections : List ℚ)
    (h : -points.getD (0 * 2 + coord) 0 + 3 * points.getD (1 * 2 + coord) 0
      - 3 * points.getD (2 * 2 + coord) 0 + points.getD (3 * 2 + coord) 0 = 0) :
    nvg__bezierInflections sqrtf points coord inflections = inflections := by
  have hE : ¬ ((0 : ℚ) > NVG_PICK_EPS) := by decide!
  simp only [nvg__bezierInflections]
  rw [h]
  simp only [mul_zero, div_zero, hE, false_and, if_false, ite_self]

theorem archPath_commands : (archPath refFrame).commands = [0, 0, 0, 2, 1, 2, 2, 2, 3, 0] := by
  decide!

/-- C29, evaluated at a failing input: for the cubic (0, 0), (1, 2), (2, 2),
(3, 0) after `nvgMoveTo(0, 0)` (the cubic of `nvgQuadTo(1.5, 3, 3, 0)`),
`nvg__bezierInflections` finds no parameter in either coordinate, whatever
`sqrtf` returns, and `nvg__pickPathCreate` stores the cubic as one Bezier segment
over its four control points; the segment is not monotone in y, which rises
from 0 at `t = 0` to 3/2 at `t = 1/2` and falls to 0 at `t = 1`. -/
theorem pickPathCreate_stores_non_monotone_cubic :
    (∀ sqrtf : ℚ → ℚ,
        nvg__bezierInflections sqrtf archCubic 0 [] = [] ∧
          nvg__bezierInflections sqrtf archCubic 1 [] = []) ∧
      (nvg__pickPathCreate sqrtfExact ⟨[], []⟩ (archPath refFrame).commands resetState 1
          false).1.points = archCubic ∧
      (nvg__pickPathCreate sqrtfExact ⟨[], []⟩ (archPath refFrame).commands resetState 1
          false).1.segments.map (fun s => (s.firstPoint, s.type)) = [(0, NVG_BEZIERTO)] ∧
      (nvg__bezierEval archCubic 0).2 < (nvg__bezierEval archCubic (1 / 2)).2 ∧
      (nvg__bezierEval archCubic 1).2 < (nvg__bezierEval archCubic (1 / 2)).2 := by
  refine ⟨?_, by decide!, by decide!, by decide!, by decide!⟩
  intro sqrtf
  exact ⟨bezierInflections_of_degree_two sqrtf archCubic 0 [] (by decide!),
    bezierInflections_of_degree_two sqrtf archCubic 1 [] (by decide!)⟩

/-- C30, evaluated at a failing input: for the cubic (0, 0), (1, 2), (2, 2),
(3, 0), `nvg__bezierBounds` returns the box [0, 0, 3, 0] of the two endpoints,
whatever `sqrtf` returns, and the point (3/2, 3/2) of the cubic at `t = 1/2` is
outside it. -/
theorem bezierBounds_misses_arch (sqrtf : ℚ → ℚ) :
    nvg__bezierBounds sqrtf archCubic = ⟨0, 0, 3, 0⟩ ∧
      nvg__bezierEval archCubic (1 / 2) = (3 / 2, 3 / 2) ∧
      nvg__pointInBounds (nvg__bezierEval archCubic (1 / 2)).1 (nvg__bezierEval archCubic (1 / 2)).2
        (nvg__bezierBounds sqrtf archCubic) = 0 := by
  have h0 : nvg__bezierInflections sqrtf archCubic 0 [] = [] :=
    bezierInflections_of_degree_two sqrtf archCubic 0 [] (by decide!)
  have h1 : nvg__bezierInflections sqrtf archCubic 1 [] = [] :=
    bezierInflections_of_degree_two sqrtf archCubic 1 [] (by decide!)
  have hb : nvg__bezierBounds sqrtf archCubic = ⟨0, 0, 3, 0⟩ := by
    unfold nvg__bezierBounds
    simp only [h0, h1, List.foldl_nil]
    decide!
  refine ⟨hb, by decide!, ?_⟩
  rw [hb]
  decide!

/-! ## Theorems: consecutive points of a flattened path -/

theorem ptEquals_eq_zero (a b : NVGpoint) (tol : ℚ) :
    nvg__ptEquals a.x a.y b.x b.y tol = 0 ↔ tol * tol ≤ dist2 a b := by
  unfold nvg__ptEquals dist2
  simp only
  split_ifs with h
  · constructor
    · intro h1; exact absurd h1 (by decide)
    · intro h1; exact absurd h (not_lt.mpr h1)
  · exact ⟨fun _ => le_of_not_lt h, fun _ => rfl⟩

theorem dist2_comm (a b : NVGpoint) : dist2 a b = dist2 b a := by
  unfold dist2
  ring

theorem dist2_congr (a b a' b' : NVGpoint) (hax : a'.x = a.x) (hay : a'.y = a.y)
    (hbx : b'.x = b.x) (hby : b'.y = b.y) : dist2 a' b' = dist2 a b := by
  unfold dist2
  rw [hax, hay, hbx, hby]

/-- Separation reads the coordinates of the points of the path only. -/
theorem separated_congr (d : ℚ) (pts pts' : List NVGpoint) (p p' : NVGpath)
    (hf : p'.first = p.first) (hc : p'.count ≤ p.count)
    (h : ∀ k, k < p'.count → (getPt pts' (p.first + k)).x = (getPt pts (p.first + k)).x ∧
      (getPt pts' (p.first + k)).y = (getPt pts (p.first + k)).y)
    (S : Separated d pts p) : Separated d pts' p' := by
  intro k hk
  have h1 := h (k + 1) hk
  rw [← Nat.add_assoc] at h1
  rw [hf, dist2_congr _ _ _ _ (h k (by omega)).1 (h k (by omega)).2 h1.1 h1.2]
  exact S k (by omega)

theorem getPt_append_left (l : List NVGpoint) (q : NVGpoint) (k : Nat) (hk : k < l.length) :
    getPt (l ++ [q]) k = getPt l k := by
  simp [getPt, List.getD_eq_getElem?_getD, List.getElem?_append_left hk]

theorem getPt_append_length (l : List NVGpoint) (q : NVGpoint) :
    getPt (l ++ [q]) l.length = q := by
  simp [getPt, List.getD_eq_getElem?_getD]

theorem getLast_of_set_last (l : List NVGpath) (a : NVGpath) (h : l ≠ []) :
    (l.set (l.length - 1) a).getLast? = some a := by
  have hlen : 0 < l.length := List.length_pos.mpr h
  rw [List.getLast?_eq_getElem?, List.length_set, List.getElem?_set]
  simp [hlen]

/-- Appending a point to the last path keeps the invariant when the new point is
separated from the last point of the path. -/
theorem grow_sep (d : ℚ) (c : NVGpathCache) (path : NVGpath) (q : NVGpoint)
    (T : PathsTiled c.paths c.points.length) (I : SepInv d c)
    (hl : c.paths.getLast? = some path)
    (hnew : path.count > 0 → d * d ≤ dist2 (getPt c.points (c.points.length - 1)) q) :
    SepInv d (setLastPath { c with points := c.points ++ [q] } { path with count := path.count + 1 }) := by
  have hend := I.1 path hl
  have hne : c.paths ≠ [] := by
    intro h0
    rw [h0] at hl
    simp at hl
  have hidx : c.paths[c.paths.length - 1]? = some path := by
    rw [← List.getLast?_eq_getElem?]; exact hl
  have hlen : c.paths.length - 1 < c.paths.length := (List.getElem?_eq_some_iff.mp hidx).1
  refine ⟨?_, ?_⟩
  · intro p hp
    simp only [setLastPath] at hp ⊢
    rw [getLast_of_set_last _ _ hne] at hp
    cases hp
    simp only [List.length_append, List.length_singleton]
    omega
  · intro i p hp
    simp only [setLastPath, List.getElem?_set] at hp ⊢
    by_cases hi : c.paths.length - 1 = i
    · rw [if_pos hi, if_pos hlen] at hp
      cases hp
      intro k hk
      simp only at hk ⊢
      by_cases hk2 : k + 1 < path.count
      · rw [getPt_append_left _ _ _ (by omega), getPt_append_left _ _ _ (by omega)]
        exact I.2 _ path hidx k hk2
      · have e1 : path.first + k = c.points.length - 1 := by omega
        have e2 : path.first + k + 1 = c.points.length := by omega
        rw [e2, getPt_append_length, e1, getPt_append_left _ _ _ (by omega)]
        exact hnew (by omega)
    · rw [if_neg hi] at hp
      have hilt : i < c.paths.length - 1 := by
        have := (List.getElem?_eq_some_iff.mp hp).1
        omega
      have hdis := T.1 i (c.paths.length - 1) p path hilt hp hidx
      have hb := T.2 _ path hidx
      intro k hk
      rw [getPt_append_left _ _ _ (by omega), getPt_append_left _ _ _ (by omega)]
      exact I.2 i p hp k hk

theorem lastPoint_eq (c : NVGpathCache) (pt : NVGpoint) (h : nvg__lastPoint c = some pt) :
    getPt c.points (c.points.length - 1) = pt ∧ 0 < c.points.length := by
  unfold nvg__lastPoint at h
  rw [List.getLast?_eq_getElem?] at h
  have hlt := (List.getElem?_eq_some_iff.mp h).1
  refine ⟨?_, by omega⟩
  simp [getPt, List.getD_eq_getElem?_getD, h]

theorem addPoint_sep (d : ℚ) (c : NVGpathCache) (x y : ℚ) (f : Nat)
    (T : PathsTiled c.paths c.points.length) (I : SepInv d c) :
    SepInv d (nvg__addPoint d c x y f) := by
  unfold nvg__addPoint nvg__lastPath
  cases hl : c.paths.getLast? with
  | none => exact I
  | some path =>
    have hend := I.1 path hl
    simp only
    split
    · rename_i pt heq
      have hc : path.count > 0 := by
        by_contra h0
        rw [if_neg h0] at heq
        cases heq
      rw [if_pos hc] at heq
      obtain ⟨hpt, hlen⟩ := lastPoint_eq c pt heq
      split_ifs with heqv
      · -- the point is merged into the last point
        refine ⟨?_, ?_⟩
        · intro p hp
          simp only [List.length_set] at hp ⊢
          exact I.1 p hp
        · intro i p hp
          simp only at hp ⊢
          apply separated_congr d c.points _ p p rfl (le_refl _) _ (I.2 i p hp)
          intro k _
          rw [getPt_set _ _ _ _ (by omega)]
          by_cases hk : p.first + k = c.points.length - 1
          · rw [if_pos hk, hk, hpt]
            exact ⟨rfl, rfl⟩
          · rw [if_neg hk]
            exact ⟨rfl, rfl⟩
      · apply grow_sep d c path _ T I hl
        intro _
        rw [hpt]
        have h0 : nvg__ptEquals pt.x pt.y x y d = 0 := by
          by_contra hne
          exact heqv hne
        exact (ptEquals_eq_zero pt { zeroPoint with x := x, y := y, flags := f % 256 } d).mp h0
    · rename_i heq
      apply grow_sep d c path _ T I hl
      intro hc
      rw [if_pos hc] at heq
      unfold nvg__lastPoint at heq
      have hnil : c.points = [] := List.getLast?_eq_none_iff.mp heq
      rw [hnil] at hend
      simp only [List.length_nil] at hend
      omega

theorem addPath_sep (d : ℚ) (c : NVGpathCache) (I : SepInv d c) : SepInv d (nvg__addPath c) := by
  unfold nvg__addPath
  refine ⟨?_, ?_⟩
  · intro p hp
    simp only [List.getLast?_append, List.getLast?_singleton, Option.or_some] at hp
    simp only [Option.or, Option.some.injEq] at hp
    rw [← hp]
    rfl
  · intro i p hp
    simp only at hp ⊢
    rw [List.getElem?_append] at hp
    split_ifs at hp with hi
    · exact I.2 i p hp
    · have hlt := (List.getElem?_eq_some_iff.mp hp).1
      simp only [List.length_singleton] at hlt
      have h0 : i - c.paths.length = 0 := by omega
      rw [h0] at hp
      simp only [List.getElem?_cons_zero, Option.some.injEq] at hp
      rw [← hp]
      intro k hk
      simp only at hk
      omega

/-- An assignment to the last path that keeps its first index and its number of
points keeps the invariant. -/
theorem setLast_sep (d : ℚ) (c : NVGpathCache) (path path' : NVGpath) (I : SepInv d c)
    (hl : c.paths.getLast? = some path) (hf : path'.first = path.first)
    (hc : path'.count = path.count) : SepInv d (setLastPath c path') := by
  have hne : c.paths ≠ [] := by
    intro h0
    rw [h0] at hl
    simp at hl
  have hidx : c.paths[c.paths.length - 1]? = some path := by
    rw [← List.getLast?_eq_getElem?]; exact hl
  have hlen : c.paths.length - 1 < c.paths.length := (List.getElem?_eq_some_iff.mp hidx).1
  refine ⟨?_, ?_⟩
  · intro p hp
    simp only [setLastPath] at hp ⊢
    rw [getLast_of_set_last _ _ hne] at hp
    cases hp
    rw [hf, hc]
    exact I.1 path hl
  · intro i p hp
    simp only [setLastPath, List.getElem?_set] at hp ⊢
    by_cases hi : c.paths.length - 1 = i
    · rw [if_pos hi, if_pos hlen] at hp
      cases hp
      exact separated_congr d c.points c.points path path' hf (le_of_eq hc)
        (fun k _ => ⟨rfl, rfl⟩) (I.2 _ path hidx)
    · rw [if_neg hi] at hp
      exact I.2 i p hp

theorem closePath_sep (d : ℚ) (c : NVGpathCache) (I : SepInv d c) : SepInv d (nvg__closePath c) := by
  unfold nvg__closePath nvg__lastPath
  cases hl : c.paths.getLast? with
  | none => exact I
  | some path => exact setLast_sep d c path _ I hl rfl rfl

theorem pathWinding_sep (d : ℚ) (c : NVGpathCache) (w : Int) (I : SepInv d c) :
    SepInv d (nvg__pathWinding c w) := by
  unfold nvg__pathWinding nvg__lastPath
  cases hl : c.paths.getLast? with
  | none => exact I
  | some path => exact setLast_sep d c path _ I hl rfl rfl

theorem tesselateBezier_sep (tessTol distTol : ℚ) (levels : Nat) :
    ∀ (c : NVGpathCache) (x1 y1 x2 y2 x3 y3 x4 y4 : ℚ) (type : Nat),
      PathsTiled c.paths c.points.length → SepInv distTol c →
      SepInv distTol (nvg__tesselateBezier tessTol distTol levels c x1 y1 x2 y2 x3 y3 x4 y4 type) := by
  induction levels with
  | zero => intro c _ _ _ _ _ _ _ _ _ _ I; exact I
  | succ n ih =>
    intro c x1 y1 x2 y2 x3 y3 x4 y4 type T I
    simp only [nvg__tesselateBezier]
    split_ifs
    · exact addPoint_sep _ _ _ _ _ T I
    · exact ih _ _ _ _ _ _ _ _ _ _ (tesselateBezier_tiled _ _ _ _ _ _ _ _ _ _ _ _ _ T)
        (ih _ _ _ _ _ _ _ _ _ _ T I)

theorem flattenCommand_sep (tessTol distTol : ℚ) (commands : List ℚ) (i : Nat)
    (c : NVGpathCache) (T : PathsTiled c.paths c.points.length) (I : SepInv distTol c) :
    SepInv distTol (flattenCommand tessTol distTol commands i c).1 := by
  unfold flattenCommand
  simp only
  split_ifs
  · exact addPoint_sep _ _ _ _ _ (addPath_tiled c T) (addPath_sep _ c I)
  · exact addPoint_sep _ _ _ _ _ T I
  · split
    · exact tesselateBezier_sep _ _ _ _ _ _ _ _ _ _ _ _ _ T I
    · exact I
  · exact closePath_sep _ c I
  · exact pathWinding_sep _ c _ I
  · exact I

theorem flattenCommandsLoop_sep (tessTol distTol : ℚ) (commands : List ℚ) (fuel : Nat) :
    ∀ (i : Nat) (c : NVGpathCache), PathsTiled c.paths c.points.length → SepInv distTol c →
      SepInv distTol (flattenCommandsLoop tessTol distTol commands fuel i c) := by
  induction fuel with
  | zero => intro _ c _ I; exact I
  | succ n ih =>
    intro i c T I
    simp only [flattenCommandsLoop]
    split_ifs
    · exact ih _ _ (flattenCommand_tiled tessTol distTol commands i c T)
        (flattenCommand_sep tessTol distTol commands i c T I)
    · exact I

/-! ### The loop over the paths keeps the separation -/

theorem flattenPathWinding_cases (points : List NVGpoint) (path : NVGpath) :
    flattenPathWinding points path = points ∨
      flattenPathWinding points path = nvg__polyReverse points path.first path.count := by
  unfold flattenPathWinding
  by_cases hc : path.count > 2
  · rw [if_pos hc]
    simp only
    by_cases h1 : path.winding = NVG_CCW ∧ nvg__polyArea (points.drop path.first) path.count < 0
    · have h2 : ¬ (path.winding = NVG_CW ∧
          nvg__polyArea (points.drop path.first) path.count > 0) := by
        intro h
        exact absurd (h1.1.symm.trans h.1) (by decide)
      rw [if_pos h1, if_neg h2]
      exact Or.inr rfl
    · rw [if_neg h1]
      by_cases h2 : path.winding = NVG_CW ∧ nvg__polyArea (points.drop path.first) path.count > 0
      · rw [if_pos h2]
        exact Or.inr rfl
      · rw [if_neg h2]
        exact Or.inl rfl
  · rw [if_neg hc]
    exact Or.inl rfl

/-- The coordinates of the points of the path after `flattenPath`: those before,
in the same order or in the reverse order. -/
theorem flattenPath_xy_inside (sqrtf : ℚ → ℚ) (distTol : ℚ) (c : NVGpathCache) (j : Nat)
    (path : NVGpath) (hget : c.paths[j]? = some path)
    (hb : path.first + path.count ≤ c.points.length) :
    (∀ k, (getPt (flattenPath sqrtf distTol c j).points k).x = (getPt c.points k).x ∧
        (getPt (flattenPath sqrtf distTol c j).points k).y = (getPt c.points k).y) ∨
      ∀ k, k < (flattenPathClose distTol c.points path).count →
        (getPt (flattenPath sqrtf distTol c j).points (path.first + k)).x =
            (getPt c.points
              (path.first + ((flattenPathClose distTol c.points path).count - 1 - k))).x ∧
          (getPt (flattenPath sqrtf distTol c j).points (path.first + k)).y =
            (getPt c.points
              (path.first + ((flattenPathClose distTol c.points path).count - 1 - k))).y := by
  obtain ⟨hf, hc, _⟩ := flattenPathClose_fields distTol c.points path
  have hdir := flattenDirStep_iterate_xy sqrtf (flattenPathClose distTol c.points path).count
    { points := flattenPathWinding c.points (flattenPathClose distTol c.points path),
      bounds := c.bounds,
      p0 := (flattenPathClose distTol c.points path).first +
        ((flattenPathClose distTol c.points path).count - 1),
      p1 := (flattenPathClose distTol c.points path).first }
  have hpts : (flattenPath sqrtf distTol c j).points =
      (Nat.iterate (flattenDirStep sqrtf) (flattenPathClose distTol c.points path).count
        { points := flattenPathWinding c.points (flattenPathClose distTol c.points path),
          bounds := c.bounds,
          p0 := (flattenPathClose distTol c.points path).first +
            ((flattenPathClose distTol c.points path).count - 1),
          p1 := (flattenPathClose distTol c.points path).first }).points := by
    simp only [flattenPath, List.get?_eq_getElem?, hget]
  rw [hpts]
  rcases flattenPathWinding_cases c.points (flattenPathClose distTol c.points path) with hw | hw
  · left
    intro k
    rw [(hdir.2 k).1, (hdir.2 k).2]
    simp only [hw, and_self]
  · right
    intro k hk
    rw [(hdir.2 _).1, (hdir.2 _).2]
    simp only [hw]
    have hrev := (polyReverse_spec c.points (flattenPathClose distTol c.points path).first
      (flattenPathClose distTol c.points path).count (by rw [hf]; omega)).2 (path.first + k)
    rw [hf] at hrev
    rw [hf, hrev, if_pos (by omega)]
    have e : path.first + (path.first + (flattenPathClose distTol c.points path).count - 1) -
        (path.first + k) = path.first + ((flattenPathClose distTol c.points path).count - 1 - k) := by
      omega
    rw [e]
    exact ⟨rfl, rfl⟩

/-- The part "If the first and last points are the same, remove the last" on a
separated path with a point: the path has not one point afterwards, and it has
two or more when it is left open. -/
theorem flattenPathClose_count (distTol : ℚ) (hd : 0 < distTol) (points : List NVGpoint)
    (path : NVGpath) (h1 : 1 ≤ path.count) (S : Separated distTol points path) :
    (flattenPathClose distTol points path).count ≠ 1 ∧
      ((flattenPathClose distTol points path).closed = 0 →
        2 ≤ (flattenPathClose distTol points path).count) := by
  have hself : ∀ p : NVGpoint, nvg__ptEquals p.x p.y p.x p.y distTol ≠ 0 := by
    intro p
    unfold nvg__ptEquals
    simp only [sub_self, mul_zero, add_zero]
    rw [if_pos (mul_pos hd hd)]
    decide
  unfold flattenPathClose
  simp only
  split_ifs with hfire
  · refine ⟨?_, fun h => absurd h (by decide)⟩
    simp only
    intro h2
    have hc2 : path.count = 2 := by omega
    have hs := S 0 (by omega)
    rw [hc2] at hfire
    have e : path.first + (2 - 1) = path.first + 0 + 1 := by omega
    rw [e] at hfire
    apply hfire
    rw [ptEquals_eq_zero, dist2_comm]
    simpa using hs
  · have hne : path.count ≠ 1 := by
      intro h1'
      apply hfire
      rw [h1']
      exact hself _
    exact ⟨hne, fun _ => by omega⟩

/-- One round of the loop over the paths keeps every path separated. -/
theorem flattenPath_sep (sqrtf : ℚ → ℚ) (distTol : ℚ) (c : NVGpathCache) (j : Nat)
    (path : NVGpath) (hget : c.paths[j]? = some path)
    (T : PathsTiled c.paths c.points.length)
    (S : ∀ (i : Nat) (p : NVGpath), c.paths[i]? = some p → Separated distTol c.points p) :
    ∀ (i : Nat) (p : NVGpath), (flattenPath sqrtf distTol c j).paths[i]? = some p →
      Separated distTol (flattenPath sqrtf distTol c j).points p := by
  have hb := T.2 j path hget
  have hjlt : j < c.paths.length := (List.getElem?_eq_some_iff.mp hget).1
  obtain ⟨s1, _, s3, _⟩ := flattenPath_spec sqrtf distTol c j path hget hb
  obtain ⟨hf, hc, _⟩ := flattenPathClose_fields distTol c.points path
  intro i p hp
  rw [s1, List.getElem?_set] at hp
  by_cases hij : j = i
  · rw [if_pos hij, if_pos hjlt] at hp
    cases hp
    rcases flattenPath_xy_inside sqrtf distTol c j path hget hb with hx | hx
    · exact separated_congr distTol c.points _ path _ hf hc (fun k _ => hx _) (S j path hget)
    · intro k hk
      rw [hf]
      have h1 := hx k (by omega)
      have h2 := hx (k + 1) hk
      rw [← Nat.add_assoc] at h2
      rw [dist2_congr _ _ _ _ h1.1 h1.2 h2.1 h2.2, dist2_comm]
      have hs := S j path hget ((flattenPathClose distTol c.points path).count - 1 - (k + 1))
        (by omega)
      have e : path.first + ((flattenPathClose distTol c.points path).count - 1 - (k + 1)) + 1 =
          path.first + ((flattenPathClose distTol c.points path).count - 1 - k) := by omega
      rw [e] at hs
      exact hs
  · rw [if_neg hij] at hp
    apply separated_congr distTol c.points _ p p rfl (le_refl _) _ (S i p hp)
    intro k hk
    apply s3
    rcases Nat.lt_or_gt_of_ne hij with h | h
    · have := T.1 j i path p h hget hp
      omega
    · have := T.1 i j p path h hp hget
      omega

theorem flattenPath_foldl_sep (sqrtf : ℚ → ℚ) (distTol : ℚ) (m : Nat) :
    ∀ c : NVGpathCache, PathsTiled c.paths c.points.length →
      (∀ (i : Nat) (p : NVGpath), c.paths[i]? = some p → Separated distTol c.points p) →
      (∀ (i : Nat) (p : NVGpath), c.paths[i]? = some p → 1 ≤ p.count) →
      m ≤ c.paths.length →
      PathsTiled ((List.range m).foldl (flattenPath sqrtf distTol) c).paths
          ((List.range m).foldl (flattenPath sqrtf distTol) c).points.length ∧
        ((List.range m).foldl (flattenPath sqrtf distTol) c).paths.length = c.paths.length ∧
        (∀ (i : Nat) (p : NVGpath),
          ((List.range m).foldl (flattenPath sqrtf distTol) c).paths[i]? = some p →
          Separated distTol ((List.range m).foldl (flattenPath sqrtf distTol) c).points p) ∧
        (∀ (i : Nat) (p : NVGpath), m ≤ i →
          ((List.range m).foldl (flattenPath sqrtf distTol) c).paths[i]? = some p → 1 ≤ p.count) ∧
        (0 < distTol → ∀ (i : Nat) (p : NVGpath), i < m →
          ((List.range m).foldl (flattenPath sqrtf distTol) c).paths[i]? = some p →
          p.count ≠ 1 ∧ (p.closed = 0 → 2 ≤ p.count)) := by
  induction m with
  | zero =>
    intro c T S C _
    exact ⟨T, rfl, S, fun i p _ hp => C i p hp, fun _ i p hi _ => absurd hi (Nat.not_lt_zero i)⟩
  | succ m ih =>
    intro c T S C hm
    obtain ⟨Tm, L, Sm, Cm, Dm⟩ := ih c T S C (by omega)
    rw [List.range_succ, List.foldl_append, List.foldl_cons, List.foldl_nil]
    generalize (List.range m).foldl (flattenPath sqrtf distTol) c = cm at Tm L Sm Cm Dm
    have hmlt : m < cm.paths.length := by omega
    have hget : cm.paths[m]? = some cm.paths[m] := List.getElem?_eq_getElem hmlt
    generalize cm.paths[m] = path at hget
    obtain ⟨s1, s2, _, _⟩ := flattenPath_spec sqrtf distTol cm m path hget (Tm.2 m path hget)
    obtain ⟨hf, hc, _⟩ := flattenPathClose_fields distTol cm.points path
    have hbound := Tm.2 m path hget
    refine ⟨?_, ?_, flattenPath_sep sqrtf distTol cm m path hget Tm Sm, ?_, ?_⟩
    · rw [s1, s2]
      apply tiled_set cm.paths cm.points.length cm.points.length m path _ Tm hget hf (le_refl _)
      · rw [hf]; omega
      · intro j q hj hq
        have := Tm.1 m j path q hj hget hq
        rw [hf]; omega
    · rw [s1, List.length_set, L]
    · intro i p hi hp
      rw [s1, List.getElem?_set, if_neg (by omega)] at hp
      exact Cm i p (by omega) hp
    · intro hd i p hi hp
      rw [s1, List.getElem?_set] at hp
      by_cases him : m = i
      · rw [if_pos him, if_pos hmlt] at hp
        cases hp
        exact flattenPathClose_count distTol hd cm.points path (Cm m path (le_refl _) hget)
          (Sm m path hget)
      · rw [if_neg him] at hp
        exact Dm hd i p (by omega) hp

/-- After `nvg__flattenPaths` on a cache without paths: the paths are tiled, every
path is separated, and for `distTol > 0` no path has exactly one point and every
open path has two or more. -/
theorem flattenPaths_sep (sqrtf : ℚ → ℚ) (commands : List ℚ) (tessTol distTol : ℚ)
    (cache : NVGpathCache) (h : cache.paths = []) :
    PathsTiled (nvg__flattenPaths sqrtf commands tessTol distTol cache).paths
        (nvg__flattenPaths sqrtf commands tessTol distTol cache).points.length ∧
      (∀ (i : Nat) (p : NVGpath),
        (nvg__flattenPaths sqrtf commands tessTol distTol cache).paths[i]? = some p →
        Separated distTol (nvg__flattenPaths sqrtf commands tessTol distTol cache).points p) ∧
      (0 < distTol → ∀ (i : Nat) (p : NVGpath),
        (nvg__flattenPaths sqrtf commands tessTol distTol cache).paths[i]? = some p →
        p.count ≠ 1 ∧ (p.closed = 0 → 2 ≤ p.count)) := by
  rw [flattenPaths_of_no_path sqrtf commands tessTol distTol cache h]
  have T0 : PathsTiled cache.paths cache.points.length := by
    rw [h]
    exact ⟨fun i j p q _ hp _ => by simp at hp, fun i p hp => by simp at hp⟩
  have I0 : SepInv distTol cache := by
    rw [SepInv, h]
    exact ⟨fun p hp => by simp at hp, fun i p hp => by simp at hp⟩
  have C0 : ∀ (k : Nat) (p : NVGpath), cache.paths[k]? = some p → 1 ≤ p.count := by
    rw [h]
    intro k p hp
    simp at hp
  have T1 := flattenCommandsLoop_tiled tessTol distTol commands commands.length 0 cache T0
  have I1 := flattenCommandsLoop_sep tessTol distTol commands commands.length 0 cache T0 I0
  have C1 := flattenCommandsLoop_counts tessTol distTol commands commands.length 0 cache C0
  generalize flattenCommandsLoop tessTol distTol commands commands.length 0 cache = c1 at T1 I1 C1 ⊢
  obtain ⟨T, L, S, _, D⟩ := flattenPath_foldl_sep sqrtf distTol c1.paths.length
    { c1 with bounds := ⟨1000000, 1000000, -1000000, -1000000⟩ } T1 I1.2 C1 (le_refl _)
  refine ⟨T, S, fun hd i p hp => D hd i p ?_ hp⟩
  have hlt := (List.getElem?_eq_some_iff.mp hp).1
  rw [L] at hlt
  exact hlt

/-! ## Theorems: the vertex budget of the stroke and fill expansion -/

theorem bevelCount_succ (points : List NVGpoint) (first t : Nat) :
    bevelCount points first (t + 1) =
      bevelCount points first t + (if bevelFlagged (getPt points (first + t)) then 1 else 0) := by
  unfold bevelCount
  rw [List.range_succ, List.countP_append, List.countP_singleton]

theorem bevelCount_congr (points points' : List NVGpoint) (first n : Nat)
    (h : ∀ j, j < n → getPt points' (first + j) = getPt points (first + j)) :
    bevelCount points' first n = bevelCount points first n := by
  unfold bevelCount
  apply List.countP_congr
  intro j hj
  rw [List.mem_range] at hj
  rw [h j hj]

theorem calculateJoinStep_spec (iw : ℚ) (lineJoin : Int) (miterLimit : ℚ) (s : JoinVars)
    (h : s.p1 < s.points.length) :
    (calculateJoinStep iw lineJoin miterLimit s).p1 = s.p1 + 1 ∧
      (calculateJoinStep iw lineJoin miterLimit s).points.length = s.points.length ∧
      (∀ k, k ≠ s.p1 →
        getPt (calculateJoinStep iw lineJoin miterLimit s).points k = getPt s.points k) ∧
      (calculateJoinStep iw lineJoin miterLimit s).nbevel =
        s.nbevel +
          (if bevelFlagged (getPt (calculateJoinStep iw lineJoin miterLimit s).points s.p1) then 1
            else 0) := by
  obtain ⟨R, hpts, hnb⟩ : ∃ R : NVGpoint,
      (calculateJoinStep iw lineJoin miterLimit s).points = s.points.set s.p1 R ∧
        (calculateJoinStep iw lineJoin miterLimit s).nbevel =
          if R.flags &&& (NVG_PT_BEVEL ||| NVG_PR_INNERBEVEL) ≠ 0 then s.nbevel + 1
          else s.nbevel := ⟨_, rfl, rfl⟩
  refine ⟨rfl, by rw [hpts, List.length_set], ?_, ?_⟩
  · intro k hk
    rw [hpts, getPt_set _ _ _ _ h, if_neg hk]
  · rw [hnb, hpts, getPt_set _ _ _ _ h, if_pos rfl]
    unfold bevelFlagged
    by_cases hR : R.flags &&& (NVG_PT_BEVEL ||| NVG_PR_INNERBEVEL) ≠ 0
    · rw [if_pos hR, decide_eq_true hR]
      rfl
    · rw [if_neg hR, decide_eq_false hR]
      rfl

theorem calculateJoin_iterate_spec (iw : ℚ) (lineJoin : Int) (miterLimit : ℚ)
    (pts : List NVGpoint) (first count p0 : Nat) (hb : first + count ≤ pts.length) (t : Nat) :
    t ≤ count →
      (Nat.iterate (calculateJoinStep iw lineJoin miterLimit) t
          { points := pts, p0 := p0, p1 := first, nleft := 0, nbevel := 0 }).p1 = first + t ∧
        (Nat.iterate (calculateJoinStep iw lineJoin miterLimit) t
          { points := pts, p0 := p0, p1 := first, nleft := 0, nbevel := 0 }).points.length =
            pts.length ∧
        (∀ k, (k < first ∨ first + t ≤ k) →
          getPt (Nat.iterate (calculateJoinStep iw lineJoin miterLimit) t
            { points := pts, p0 := p0, p1 := first, nleft := 0, nbevel := 0 }).points k =
              getPt pts k) ∧
        (Nat.iterate (calculateJoinStep iw lineJoin miterLimit) t
          { points := pts, p0 := p0, p1 := first, nleft := 0, nbevel := 0 }).nbevel =
          bevelCount
            (Nat.iterate (calculateJoinStep iw lineJoin miterLimit) t
              { points := pts, p0 := p0, p1 := first, nleft := 0, nbevel := 0 }).points first t := by
  induction t with
  | zero => intro _; exact ⟨rfl, rfl, fun k _ => rfl, rfl⟩
  | succ t ih =>
    intro ht
    obtain ⟨i1, i2, i3, i4⟩ := ih (by omega)
    rw [Function.iterate_succ_apply']
    generalize Nat.iterate (calculateJoinStep iw lineJoin miterLimit) t
      { points := pts, p0 := p0, p1 := first, nleft := 0, nbevel := 0 } = s at i1 i2 i3 i4
    obtain ⟨s1, s2, s3, s4⟩ := calculateJoinStep_spec iw lineJoin miterLimit s (by omega)
    refine ⟨by rw [s1, i1]; omega, by rw [s2, i2], ?_, ?_⟩
    · intro k hk
      rw [s3 k (by omega)]
      exact i3 k (by omega)
    · rw [s4, bevelCount_succ, i4, i1]
      congr 1
      apply (bevelCount_congr _ _ _ _ _).symm
      intro j hj
      exact s3 _ (by omega)

/-- The round of `nvg__calculateJoins` for the path of index `i`: the path keeps
its points, its `nbevel` counts the flagged points among them, and no point
outside the path and no other path changes. -/
theorem calculateJoinsPath_spec (iw : ℚ) (lineJoin : Int) (miterLimit : ℚ) (c : NVGpathCache)
    (i : Nat) (path : NVGpath) (hget : c.paths[i]? = some path)
    (hb : path.first + path.count ≤ c.points.length) :
    ∃ path' : NVGpath,
      (calculateJoinsPath iw lineJoin miterLimit c i).paths = c.paths.set i path' ∧
        path'.first = path.first ∧ path'.count = path.count ∧ path'.closed = path.closed ∧
        path'.nbevel =
          bevelCount (calculateJoinsPath iw lineJoin miterLimit c i).points path.first path.count ∧
        (calculateJoinsPath iw lineJoin miterLimit c i).points.length = c.points.length ∧
        ∀ k, (k < path.first ∨ path.first + path.count ≤ k) →
          getPt (calculateJoinsPath iw lineJoin miterLimit c i).points k = getPt c.points k := by
  obtain ⟨i1, i2, i3, i4⟩ := calculateJoin_iterate_spec iw lineJoin miterLimit c.points path.first
    path.count (path.first + (path.count - 1)) hb path.count (le_refl _)
  simp only [calculateJoinsPath, List.get?_eq_getElem?, hget]
  exact ⟨_, rfl, rfl, rfl, rfl, i4, i2, i3⟩

theorem calculateJoins_foldl_spec (iw : ℚ) (lineJoin : Int) (miterLimit : ℚ) (m : Nat) :
    ∀ c : NVGpathCache, PathsTiled c.paths c.points.length → m ≤ c.paths.length →
      PathsTiled ((List.range m).foldl (calculateJoinsPath iw lineJoin miterLimit) c).paths
          ((List.range m).foldl (calculateJoinsPath iw lineJoin miterLimit) c).points.length ∧
        ((List.range m).foldl (calculateJoinsPath iw lineJoin miterLimit) c).paths.length =
          c.paths.length ∧
        ∀ (i : Nat) (p : NVGpath), i < m →
          ((List.range m).foldl (calculateJoinsPath iw lineJoin miterLimit) c).paths[i]? = some p →
          p.nbevel =
            bevelCount ((List.range m).foldl (calculateJoinsPath iw lineJoin miterLimit) c).points
              p.first p.count := by
  induction m with
  | zero =>
    intro c T _
    exact ⟨T, rfl, fun i p hi _ => absurd hi (Nat.not_lt_zero i)⟩
  | succ m ih =>
    intro c T hm
    obtain ⟨Tm, L, B⟩ := ih c T (by omega)
    rw [List.range_succ, List.foldl_append, List.foldl_cons, List.foldl_nil]
    generalize (List.range m).foldl (calculateJoinsPath iw lineJoin miterLimit) c = cm at Tm L B
    have hmlt : m < cm.paths.length := by omega
    have hget : cm.paths[m]? = some cm.paths[m] := List.getElem?_eq_getElem hmlt
    generalize cm.paths[m] = path at hget
    have hbound := Tm.2 m path hget
    obtain ⟨path', s1, hf, hc, _, hn, s2, s3⟩ :=
      calculateJoinsPath_spec iw lineJoin miterLimit cm m path hget hbound
    refine ⟨?_, ?_, ?_⟩
    · rw [s1, s2]
      apply tiled_set cm.paths cm.points.length cm.points.length m path _ Tm hget hf (le_refl _)
      · rw [hf, hc]; exact hbound
      · intro j q hj hq
        have := Tm.1 m j path q hj hget hq
        rw [hf, hc]; exact this
    · rw [s1, List.length_set, L]
    · intro i p hi hp
      rw [s1, List.getElem?_set] at hp
      by_cases him : m = i
      · rw [if_pos him, if_pos hmlt] at hp
        cases hp
        rw [hn, hf, hc]
      · rw [if_neg him] at hp
        rw [B i p (by omega) hp]
        apply (bevelCount_congr _ _ _ _ _).symm
        intro j hj
        apply s3
        have := Tm.1 i m p path (by omega) hp hget
        omega

/-- After `nvg__calculateJoins` on a cache whose paths are tiled, the paths are
tiled and the field `nbevel` of every path is the number of its points that the
join loops treat as bevelled. -/
theorem calculateJoins_nbevel (c : NVGpathCache) (w : ℚ) (lineJoin : Int) (miterLimit : ℚ)
    (T : PathsTiled c.paths c.points.length) :
    PathsTiled (nvg__calculateJoins c w lineJoin miterLimit).paths
        (nvg__calculateJoins c w lineJoin miterLimit).points.length ∧
      ∀ p ∈ (nvg__calculateJoins c w lineJoin miterLimit).paths,
        p.nbevel = bevelCount (nvg__calculateJoins c w lineJoin miterLimit).points p.first p.count := by
  unfold nvg__calculateJoins
  simp only
  obtain ⟨T1, L, B⟩ := calculateJoins_foldl_spec (if w > 0 then 1 / w else 0) lineJoin miterLimit
    c.paths.length c T (le_refl _)
  refine ⟨T1, ?_⟩
  intro p hp
  obtain ⟨i, hi⟩ := List.mem_iff_getElem?.mp hp
  have hlt := (List.getElem?_eq_some_iff.mp hi).1
  rw [L] at hlt
  exact B i p hlt hi

/-! ### The numbers of vertices of the joins and caps -/

theorem bevelJoin_length (p0 p1 : NVGpoint) (lw rw lu ru : ℚ) :
    (nvg__bevelJoin p0 p1 lw rw lu ru).length ≤ 10 := by
  unfold nvg__bevelJoin
  simp only
  split_ifs <;> simp

theorem flatten_pairs_length (n : Nat) (f : Nat → List NVGvertex) (h : ∀ i, (f i).length = 2) :
    ((List.range n).map f).flatten.length = 2 * n := by
  induction n with
  | zero => rfl
  | succ n ih =>
    rw [List.range_succ, List.map_append, List.flatten_append, List.length_append, ih]
    simp only [List.map_cons, List.map_nil, List.flatten_cons, List.flatten_nil, List.append_nil, h]
    omega

theorem roundJoin_length (cosf sinf : ℚ → ℚ) (atan2f : ℚ → ℚ → ℚ) (p0 p1 : NVGpoint)
    (lw rw lu ru : ℚ) (ncap : Int) (h : 2 ≤ ncap) :
    (nvg__roundJoin cosf sinf atan2f p0 p1 lw rw lu ru ncap).length ≤ 2 * ncap.toNat + 4 := by
  unfold nvg__roundJoin nvg__clampi
  simp only
  split_ifs <;>
    (simp only [List.length_append, List.length_cons, List.length_nil]
     rw [flatten_pairs_length]
     · omega
     · intro i
       rfl)

theorem curveDivs_ge_two (acosf : ℚ → ℚ) (r arc tol : ℚ) : 2 ≤ nvg__curveDivs acosf r arc tol := by
  unfold nvg__curveDivs nvg__maxi
  simp only
  split_ifs <;> omega

theorem capStart_length (ex : ArcExternals) (w aa u0 u1 : ℚ) (lineCap ncap : Int)
    (p0 p1 : NVGpoint) :
    (lineCap = NVG_ROUND →
        (expandStrokeCapStart ex w aa u0 u1 lineCap ncap p0 p1).length = 2 * ncap.toNat + 2) ∧
      (lineCap ≠ NVG_ROUND → (expandStrokeCapStart ex w aa u0 u1 lineCap ncap p0 p1).length ≤ 4) := by
  constructor
  · intro h
    have h1 : ¬ lineCap = NVG_BUTT := by rw [h]; decide
    have h2 : ¬ (lineCap = NVG_BUTT ∨ lineCap = NVG_SQUARE) := by rw [h]; decide
    simp only [expandStrokeCapStart, if_neg h1, if_neg h2, if_pos h, nvg__roundCapStart,
      List.length_append, List.length_cons, List.length_nil]
    rw [flatten_pairs_length]
    · intro i
      rfl
  · intro h
    simp only [expandStrokeCapStart, if_neg h]
    split_ifs <;> simp [nvg__buttCapStart]

theorem capEnd_length (ex : ArcExternals) (w aa u0 u1 : ℚ) (lineCap ncap : Int)
    (p0 p1 : NVGpoint) :
    (lineCap = NVG_ROUND →
        (expandStrokeCapEnd ex w aa u0 u1 lineCap ncap p0 p1).length = 2 * ncap.toNat + 2) ∧
      (lineCap ≠ NVG_ROUND → (expandStrokeCapEnd ex w aa u0 u1 lineCap ncap p0 p1).length ≤ 4) := by
  constructor
  · intro h
    have h1 : ¬ lineCap = NVG_BUTT := by rw [h]; decide
    have h2 : ¬ (lineCap = NVG_BUTT ∨ lineCap = NVG_SQUARE) := by rw [h]; decide
    simp only [expandStrokeCapEnd, if_neg h1, if_neg h2, if_pos h, nvg__roundCapEnd,
      List.length_append, List.length_cons, List.length_nil]
    rw [flatten_pairs_length]
    · omega
    · intro i
      rfl
  · intro h
    simp only [expandStrokeCapEnd, if_neg h]
    split_ifs <;> simp [nvg__buttCapEnd]

/-- The extra vertices of a join on a flagged point, beyond the two of a plain
point: at most `2 * ncap + 2` for a round join and 8 for a bevel join. -/
theorem expandStrokeJoin_length (ex : ArcExternals) (w u0 u1 : ℚ) (lineJoin ncap : Int)
    (p0 p1 : NVGpoint) (h : 2 ≤ ncap) :
    (expandStrokeJoin ex w u0 u1 lineJoin ncap p0 p1).length ≤
      2 + (if bevelFlagged p1 then (if lineJoin = NVG_ROUND then 2 * ncap.toNat + 2 else 8) else 0) := by
  unfold expandStrokeJoin bevelFlagged
  by_cases hf : p1.flags &&& (NVG_PT_BEVEL ||| NVG_PR_INNERBEVEL) ≠ 0
  · rw [if_pos hf, decide_eq_true hf, if_pos rfl]
    split_ifs
    · have := roundJoin_length ex.cosf ex.sinf ex.atan2f p0 p1 w w u0 u1 ncap h
      omega
    · have := bevelJoin_length p0 p1 w w u0 u1
      omega
  · rw [if_neg hf, decide_eq_false hf]
    simp

theorem expandFillFringe_length (lw rw lu ru : ℚ) (p0 p1 : NVGpoint) :
    (expandFillFringe lw rw lu ru p0 p1).length ≤ 2 + (if bevelFlagged p1 then 8 else 0) := by
  unfold expandFillFringe bevelFlagged
  by_cases hf : p1.flags &&& (NVG_PT_BEVEL ||| NVG_PR_INNERBEVEL) ≠ 0
  · rw [if_pos hf, decide_eq_true hf, if_pos rfl]
    have := bevelJoin_length p0 p1 lw rw lu ru
    omega
  · rw [if_neg hf, decide_eq_false hf]
    simp

theorem bevel_flag_of_bevel (x : Nat) (h : x &&& NVG_PT_BEVEL ≠ 0) :
    x &&& (NVG_PT_BEVEL ||| NVG_PR_INNERBEVEL) ≠ 0 := by
  intro h0
  apply h
  have e : x &&& NVG_PT_BEVEL = (x &&& (NVG_PT_BEVEL ||| NVG_PR_INNERBEVEL)) &&& NVG_PT_BEVEL := by
    rw [Nat.land_assoc]
    rfl
  rw [e, h0]
  rfl

theorem expandFillShape_length (woff : ℚ) (p0 p1 : NVGpoint) :
    (expandFillShape woff p0 p1).length ≤ 1 + (if bevelFlagged p1 then 1 else 0) := by
  unfold expandFillShape bevelFlagged
  by_cases hb : p1.flags &&& NVG_PT_BEVEL ≠ 0
  · rw [if_pos hb, decide_eq_true (bevel_flag_of_bevel _ hb), if_pos rfl]
    simp only
    split_ifs <;> simp
  · rw [if_neg hb]
    simp

/-- The strip of a loop over `n` points: each round writes `b` vertices and at
most `e` more on a flagged point. -/
theorem flatten_length_le (b e : Nat) (f : Nat → List NVGvertex) (flag : Nat → Bool)
    (h : ∀ j, (f j).length ≤ b + (if flag j then e else 0)) (n : Nat) :
    ((List.range n).map f).flatten.length ≤ b * n + e * (List.range n).countP flag := by
  induction n with
  | zero => simp
  | succ n ih =>
    rw [List.range_succ, List.map_append, List.flatten_append, List.length_append,
      List.countP_append, List.countP_singleton]
    simp only [List.map_cons, List.map_nil, List.flatten_cons, List.flatten_nil, List.append_nil]
    have hn := h n
    by_cases hf : flag n = true
    · rw [if_pos hf] at hn
      rw [if_pos hf]
      rw [Nat.mul_add, Nat.mul_add]
      omega
    · rw [if_neg hf] at hn
      rw [if_neg hf]
      simp only [Nat.add_zero, Nat.mul_add, Nat.mul_one]
      omega

theorem countP_range_mono (flag : Nat → Bool) (a b : Nat) (h : a ≤ b) :
    (List.range a).countP flag ≤ (List.range b).countP flag := by
  induction b with
  | zero =>
    have : a = 0 := by omega
    rw [this]
  | succ b ih =>
    by_cases hab : a = b + 1
    · rw [hab]
    · have := ih (by omega)
      rw [List.range_succ, List.countP_append]
      omega

theorem countP_range_shift (flag : Nat → Bool) (n : Nat) :
    (List.range n).countP (fun k => flag (k + 1)) ≤ (List.range (n + 1)).countP flag := by
  induction n with
  | zero => simp
  | succ n ih =>
    rw [List.range_succ, List.countP_append, List.countP_singleton,
      List.range_succ (n := n + 1), List.countP_append, List.countP_singleton]
    omega

/-! ### The vertices of a path against its share of `cverts` -/

theorem loop_strip_length (points : List NVGpoint) (path : NVGpath) (b e : Nat)
    (J : NVGpoint → NVGpoint → List NVGvertex)
    (hJ : ∀ p0 p1, (J p0 p1).length ≤ b + (if bevelFlagged p1 then e else 0)) :
    ((loopPairs points path).map (fun p => J p.1 p.2)).flatten.length ≤
      b * path.count + e * bevelCount points path.first path.count := by
  unfold loopPairs bevelCount
  rw [List.map_map]
  exact flatten_length_le b e _ (fun j => bevelFlagged (getPt points (path.first + j)))
    (fun j => hJ _ _) path.count

theorem open_strip_length (points : List NVGpoint) (path : NVGpath) (e : Nat)
    (J : NVGpoint → NVGpoint → List NVGvertex)
    (hJ : ∀ p0 p1, (J p0 p1).length ≤ 2 + (if bevelFlagged p1 then e else 0)) :
    ((List.range (path.count - 1 - 1)).map
        (fun k => J (getPt points (path.first + k)) (getPt points (path.first + (k + 1))))).flatten.length +
        4 ≤
      2 * path.count + e * bevelCount points path.first path.count + 4 := by
  have h1 := flatten_length_le 2 e
    (fun k => J (getPt points (path.first + k)) (getPt points (path.first + (k + 1))))
    (fun k => bevelFlagged (getPt points (path.first + (k + 1)))) (fun k => hJ _ _)
    (path.count - 1 - 1)
  have h2 : (List.range (path.count - 1 - 1)).countP
      (fun k => bevelFlagged (getPt points (path.first + (k + 1)))) ≤
      bevelCount points path.first path.count := by
    unfold bevelCount
    by_cases h0 : path.count - 1 - 1 = 0
    · rw [h0]
      simp
    · exact le_trans
        (countP_range_shift (fun j => bevelFlagged (getPt points (path.first + j)))
          (path.count - 1 - 1))
        (countP_range_mono _ _ _ (by omega))
  have h3 := Nat.mul_le_mul_left e h2
  omega

theorem expandStrokePath_budget (ex : ArcExternals) (points : List NVGpoint) (w aa u0 u1 : ℚ)
    (lineCap lineJoin ncap : Int) (path : NVGpath) (h : 2 ≤ ncap)
    (hnb : path.nbevel = bevelCount points path.first path.count) :
    ((expandStrokePath ex points w aa u0 u1 lineCap lineJoin ncap path).fill.length : Int) +
        ((expandStrokePath ex points w aa u0 u1 lineCap lineJoin ncap path).stroke.length : Int) ≤
      strokePathCverts lineCap lineJoin ncap path := by
  obtain ⟨N, hN⟩ : ∃ N : Nat, ncap = (N : Int) := ⟨ncap.toNat, (Int.toNat_of_nonneg (by omega)).symm⟩
  have hN2 : 2 ≤ N := by omega
  have hJ := fun p0 p1 => expandStrokeJoin_length ex w u0 u1 lineJoin ncap p0 p1 h
  have htoNat : ncap.toNat = N := by rw [hN]; rfl
  rw [htoNat] at hJ
  unfold strokePathCverts
  rw [hnb]
  generalize hB : bevelCount points path.first path.count = B
  by_cases hc : path.closed ≠ 0
  · have hstrip := loop_strip_length points path 2 _
      (expandStrokeJoin ex w u0 u1 lineJoin ncap) hJ
    rw [hB] at hstrip
    simp only [expandStrokePath, if_pos hc, List.length_nil, List.length_append, List.length_cons,
      if_neg hc]
    by_cases hr : lineJoin = NVG_ROUND
    · rw [if_pos hr] at hstrip ⊢
      rw [hN]
      push_cast
      have : ((((loopPairs points path).map
          (fun p => expandStrokeJoin ex w u0 u1 lineJoin (N : Int) p.1 p.2)).flatten.length : Nat) :
          Int) ≤ ((2 * path.count + (2 * N + 2) * B : Nat) : Int) := by
        rw [← hN]
        exact_mod_cast hstrip
      push_cast at this
      nlinarith [this, Int.natCast_nonneg B, Int.natCast_nonneg N]
    · rw [if_neg hr] at hstrip ⊢
      have : ((((loopPairs points path).map
          (fun p => expandStrokeJoin ex w u0 u1 lineJoin ncap p.1 p.2)).flatten.length : Nat) :
          Int) ≤ ((2 * path.count + 8 * B : Nat) : Int) := by
        exact_mod_cast hstrip
      push_cast at this
      omega
  · have hc0 : path.closed = 0 := by
      by_contra h0
      exact hc h0
    have hjoins := open_strip_length points path _
      (expandStrokeJoin ex w u0 u1 lineJoin ncap) hJ
    rw [hB] at hjoins
    have hs := capStart_length ex w aa u0 u1 lineCap ncap (getPt points (path.first + 0))
      (getPt points (path.first + 1))
    have he := capEnd_length ex w aa u0 u1 lineCap ncap
      (getPt points (path.first + (path.count - 1 - 1)))
      (getPt points (path.first + (path.count - 1 - 1 + 1)))
    rw [htoNat] at hs he
    simp only [expandStrokePath, if_neg hc, List.length_nil, List.length_append, if_pos hc0]
    generalize hS : (expandStrokeCapStart ex w aa u0 u1 lineCap ncap (getPt points (path.first + 0))
      (getPt points (path.first + 1))).length = S at hs
    generalize hE : (expandStrokeCapEnd ex w aa u0 u1 lineCap ncap
      (getPt points (path.first + (path.count - 1 - 1)))
      (getPt points (path.first + (path.count - 1 - 1 + 1)))).length = E at he
    generalize hL : ((List.range (path.count - 1 - 1)).map
        (fun k => expandStrokeJoin ex w u0 u1 lineJoin ncap (getPt points (path.first + k))
          (getPt points (path.first + (k + 1))))).flatten.length = L at hjoins
    have hcaps : (S : Int) + E ≤ (if lineCap = NVG_ROUND then (ncap * 2 + 2) * 2 else (3 + 3) * 2) := by
      by_cases hr : lineCap = NVG_ROUND
      · rw [if_pos hr, hs.1 hr, he.1 hr, hN]
        push_cast
        omega
      · rw [if_neg hr]
        have := hs.2 hr
        have := he.2 hr
        omega
    by_cases hr : lineJoin = NVG_ROUND
    · rw [if_pos hr] at hjoins ⊢
      generalize (if lineCap = NVG_ROUND then (ncap * 2 + 2) * 2 else (3 + 3) * 2 : Int) = C
        at hcaps ⊢
      rw [hN]
      have : ((L + 4 : Nat) : Int) ≤ ((2 * path.count + (2 * N + 2) * B + 4 : Nat) : Int) := by
        exact_mod_cast hjoins
      push_cast at this ⊢
      nlinarith [this, Int.natCast_nonneg B, Int.natCast_nonneg N, hcaps]
    · rw [if_neg hr] at hjoins ⊢
      generalize (if lineCap = NVG_ROUND then (ncap * 2 + 2) * 2 else (3 + 3) * 2 : Int) = C
        at hcaps ⊢
      have : ((L + 4 : Nat) : Int) ≤ ((2 * path.count + 8 * B + 4 : Nat) : Int) := by
        exact_mod_cast hjoins
      push_cast at this ⊢
      omega

theorem expandFillPath_budget (points : List NVGpoint) (aa w : ℚ) (fringe convex : Bool)
    (path : NVGpath) (hnb : path.nbevel = bevelCount points path.first path.count) :
    ((expandFillPath points aa w fringe convex path).fill.length : Int) +
        ((expandFillPath points aa w fringe convex path).stroke.length : Int) ≤
      fillPathCverts fringe path := by
  unfold fillPathCverts
  rw [hnb]
  generalize hB : bevelCount points path.first path.count = B
  cases fringe with
  | false =>
    simp only [expandFillPath, Bool.false_eq_true, if_false, List.length_map, List.length_range,
      List.length_nil]
    omega
  | true =>
    have hfill := loop_strip_length points path 1 1 (expandFillShape ((1 / 2) * aa))
      (expandFillShape_length ((1 / 2) * aa))
    have hstrip := loop_strip_length points path 2 8
      (expandFillFringe (if convex then (1 / 2) * aa else w + (1 / 2) * aa) (w - (1 / 2) * aa)
        (if convex then 1 / 2 else 0) 1)
      (expandFillFringe_length _ _ _ _)
    rw [hB] at hfill hstrip
    simp only [expandFillPath, if_true, List.length_append, List.length_cons, List.length_nil]
    generalize ((loopPairs points path).map
      (fun p => expandFillShape ((1 / 2) * aa) p.1 p.2)).flatten.length = F at hfill
    generalize ((loopPairs points path).map
      (fun p => expandFillFringe (if convex then (1 / 2) * aa else w + (1 / 2) * aa)
        (w - (1 / 2) * aa) (if convex then 1 / 2 else 0) 1 p.1 p.2)).flatten.length = S at hstrip
    omega

/-! ### The vertices written against `cverts` -/

theorem foldl_add_eq_sum (g : NVGpath → Int) (paths : List NVGpath) :
    ∀ acc : Int, paths.foldl (fun c p => c + g p) acc = acc + (paths.map g).sum := by
  induction paths with
  | nil => intro acc; simp
  | cons p ps ih =>
    intro acc
    rw [List.foldl_cons, ih, List.map_cons, List.sum_cons]
    ring

theorem expandStrokeCverts_eq_sum (paths : List NVGpath) (lineCap lineJoin ncap : Int) :
    expandStrokeCverts paths lineCap lineJoin ncap =
      (paths.map (strokePathCverts lineCap lineJoin ncap)).sum := by
  have hstep : (fun (cverts : Int) (path : NVGpath) =>
      (if path.closed = 0 then
        if lineCap = NVG_ROUND then
          (if lineJoin = NVG_ROUND then
            cverts + ((path.count : Int) + (path.nbevel : Int) * (ncap + 2) + 1) * 2
          else cverts + ((path.count : Int) + (path.nbevel : Int) * 5 + 1) * 2) + (ncap * 2 + 2) * 2
        else
          (if lineJoin = NVG_ROUND then
            cverts + ((path.count : Int) + (path.nbevel : Int) * (ncap + 2) + 1) * 2
          else cverts + ((path.count : Int) + (path.nbevel : Int) * 5 + 1) * 2) + (3 + 3) * 2
      else
        if lineJoin = NVG_ROUND then
          cverts + ((path.count : Int) + (path.nbevel : Int) * (ncap + 2) + 1) * 2
        else cverts + ((path.count : Int) + (path.nbevel : Int) * 5 + 1) * 2)) =
      fun (cverts : Int) (path : NVGpath) => cverts + strokePathCverts lineCap lineJoin ncap path := by
    funext cverts path
    unfold strokePathCverts
    split_ifs <;> ring
  unfold expandStrokeCverts
  simp only
  rw [hstep, foldl_add_eq_sum, zero_add]

theorem expandFillCverts_eq_sum (paths : List NVGpath) (fringe : Bool) :
    expandFillCverts paths fringe = (paths.map (fillPathCverts fringe)).sum := by
  have hstep : (fun (cverts : Int) (path : NVGpath) =>
      (if fringe = true then
        cverts + ((path.count : Int) + (path.nbevel : Int) + 1) +
          ((path.count : Int) + (path.nbevel : Int) * 5 + 1) * 2
      else cverts + ((path.count : Int) + (path.nbevel : Int) + 1))) =
      fun (cverts : Int) (path : NVGpath) => cverts + fillPathCverts fringe path := by
    funext cverts path
    unfold fillPathCverts
    split_ifs <;> ring
  unfold expandFillCverts
  simp only
  rw [hstep, foldl_add_eq_sum, zero_add]

theorem vertsWritten_map_le (paths : List NVGpath) (f : NVGpath → NVGpath) (g : NVGpath → Int)
    (h : ∀ p ∈ paths, ((f p).fill.length : Int) + ((f p).stroke.length : Int) ≤ g p) :
    vertsWritten (paths.map f) ≤ (paths.map g).sum := by
  unfold vertsWritten
  rw [List.map_map]
  exact List.sum_le_sum h

/-- C28: for a path cache whose paths are tiled (as `nvg__flattenPaths` leaves
them) and every stroke width, fringe, line cap, line join and miter limit, the
number of vertices that `nvg__expandStroke` writes is at most the count `cverts`
it passes to `nvg__allocTempVerts`, and so is the number that `nvg__expandFill`
writes, with and without fringe; a bevel join writes at most the pair of a plain
point and 5 extra pairs, and a round join at most that pair and `ncap + 2` extra
pairs, for every `ncap >= 2`, as `nvg__curveDivs` returns it. -/
theorem expand_writes_within_cverts (ex : ArcExternals) (cache : NVGpathCache)
    (tessTol w fringe aa : ℚ) (lineCap lineJoin : Int) (miterLimit : ℚ)
    (T : PathsTiled cache.paths cache.points.length) :
    vertsWritten (nvg__expandStroke ex cache tessTol w fringe lineCap lineJoin miterLimit).paths ≤
        expandStrokeCverts
          (nvg__calculateJoins cache (w + fringe * (1 / 2)) lineJoin miterLimit).paths lineCap
          lineJoin (nvg__curveDivs ex.acosf w NVG_PI tessTol) ∧
      vertsWritten (nvg__expandFill cache aa w lineJoin miterLimit).paths ≤
        expandFillCverts (nvg__calculateJoins cache w lineJoin miterLimit).paths (decide (w > 0)) ∧
      (∀ (p0 p1 : NVGpoint) (lw rw lu ru : ℚ),
        (nvg__bevelJoin p0 p1 lw rw lu ru).length ≤ (1 + 5) * 2) ∧
      2 ≤ nvg__curveDivs ex.acosf w NVG_PI tessTol ∧
      ∀ (ncap : Int) (p0 p1 : NVGpoint) (lw rw lu ru : ℚ), 2 ≤ ncap →
        (nvg__roundJoin ex.cosf ex.sinf ex.atan2f p0 p1 lw rw lu ru ncap).length ≤
          (1 + (ncap.toNat + 2)) * 2 := by
  refine ⟨?_, ?_, ?_, curveDivs_ge_two _ _ _ _, ?_⟩
  · obtain ⟨_, B⟩ := calculateJoins_nbevel cache (w + fringe * (1 / 2)) lineJoin miterLimit T
    rw [expandStrokeCverts_eq_sum]
    simp only [nvg__expandStroke]
    apply vertsWritten_map_le
    intro p hp
    exact expandStrokePath_budget ex _ _ _ _ _ lineCap lineJoin _ p (curveDivs_ge_two _ _ _ _)
      (B p hp)
  · obtain ⟨_, B⟩ := calculateJoins_nbevel cache w lineJoin miterLimit T
    rw [expandFillCverts_eq_sum]
    simp only [nvg__expandFill]
    apply vertsWritten_map_le
    intro p hp
    exact expandFillPath_budget _ _ _ _ _ p (B p hp)
  · intro p0 p1 lw rw lu ru
    have := bevelJoin_length p0 p1 lw rw lu ru
    omega
  · intro ncap p0 p1 lw rw lu ru h
    have := roundJoin_length ex.cosf ex.sinf ex.atan2f p0 p1 lw rw lu ru ncap h
    omega

/-- C28 on the cache that `nvg__flattenPaths` leaves for `clockwiseCommands`, with
the stroke of half width 5, fringe 1, round caps and round joins of the libm
functions of `sqrtOnly`, and the fill with fringe 1. -/
theorem expand_writes_within_cverts_witness :
    PathsTiled
        (nvg__flattenPaths sqrtfExact clockwiseCommands (1 / 4) (1 / 100)
          ⟨[], [], ⟨0, 0, 0, 0⟩⟩).paths
        (nvg__flattenPaths sqrtfExact clockwiseCommands (1 / 4) (1 / 100)
          ⟨[], [], ⟨0, 0, 0, 0⟩⟩).points.length ∧
      vertsWritten
          (nvg__expandStroke sqrtOnly
            (nvg__flattenPaths sqrtfExact clockwiseCommands (1 / 4) (1 / 100)
              ⟨[], [], ⟨0, 0, 0, 0⟩⟩) (1 / 4) 5 1 NVG_ROUND NVG_ROUND 10).paths ≤
        expandStrokeCverts
          (nvg__calculateJoins
            (nvg__flattenPaths sqrtfExact clockwiseCommands (1 / 4) (1 / 100)
              ⟨[], [], ⟨0, 0, 0, 0⟩⟩) (5 + 1 * (1 / 2)) NVG_ROUND 10).paths NVG_ROUND NVG_ROUND
          (nvg__curveDivs sqrtOnly.acosf 5 NVG_PI (1 / 4)) :=
  ⟨(flattenPaths_sep sqrtfExact clockwiseCommands (1 / 4) (1 / 100) ⟨[], [], ⟨0, 0, 0, 0⟩⟩ rfl).1,
    (expand_writes_within_cverts sqrtOnly
      (nvg__flattenPaths sqrtfExact clockwiseCommands (1 / 4) (1 / 100) ⟨[], [], ⟨0, 0, 0, 0⟩⟩)
      (1 / 4) 5 1 1 NVG_ROUND NVG_ROUND 10
      (flattenPaths_sep sqrtfExact clockwiseCommands (1 / 4) (1 / 100) ⟨[], [], ⟨0, 0, 0, 0⟩⟩
        rfl).1).1⟩

/-! ## Theorems: the quadtree cell of a path and of a query point -/

theorem xor_nonneg_neg (a c : Int) (ha : 0 ≤ a) (ha2 : a < 2147483648) (hc : c < 0)
    (hc2 : -2147483648 ≤ c) : Int.xor a c < 0 ∧ -2147483648 ≤ Int.xor a c := by
  obtain ⟨n, rfl⟩ := Int.eq_ofNat_of_zero_le ha
  obtain ⟨m, rfl⟩ := Int.eq_negSucc_of_lt_zero hc
  have hm : m < 2 ^ 31 := by
    have : Int.negSucc m = -((m : Int) + 1) := rfl
    norm_num
    omega
  have hn : n < 2 ^ 31 := by
    norm_num
    omega
  have hx := Nat.xor_lt_two_pow hn hm
  have e : Int.xor (n : Int) (Int.negSucc m) = Int.negSucc (n ^^^ m) := rfl
  rw [e]
  have : Int.negSucc (n ^^^ m) = -(((n ^^^ m : Nat) : Int) + 1) := rfl
  rw [this]
  norm_num at hx
  constructor <;> omega

theorem nat_shiftRight_eq_of_xor_lt (m n s : Nat) (h : m ^^^ n < 2 ^ s) : m >>> s = n >>> s := by
  apply Nat.eq_of_testBit_eq
  intro i
  rw [Nat.testBit_shiftRight, Nat.testBit_shiftRight]
  have h1 : (m ^^^ n).testBit (s + i) = false :=
    Nat.testBit_lt_two_pow (lt_of_lt_of_le h (Nat.pow_le_pow_right (by norm_num) (by omega)))
  rw [Nat.testBit_xor] at h1
  cases hm : m.testBit (s + i) <;> cases hn : n.testBit (s + i) <;> simp [hm, hn] at h1 ⊢

/-- Two `int` values whose exclusive or uses at most `s` bits agree above bit `s`:
their arithmetic right shifts by `s` are equal. -/
theorem shiftRight_eq_of_xor_bits (a c : Int) (s : Nat)
    (ha1 : -2147483648 ≤ a) (ha2 : a < 2147483648) (hc1 : -2147483648 ≤ c)
    (hc2 : c < 2147483648) (hs : s < 32) (hb : nvg__countBitsUsed (Int.xor a c) ≤ s) :
    a >>> s = c >>> s := by
  have key : ∀ m n : Nat, m < 2 ^ 31 → n < 2 ^ 31 →
      nvg__countBitsUsed ((m ^^^ n : Nat) : Int) ≤ s → m >>> s = n >>> s := by
    intro m n hm hn hbits
    apply nat_shiftRight_eq_of_xor_lt
    have hx := Nat.xor_lt_two_pow hm hn
    rw [countBitsUsed_eq] at hbits
    have e : (((m ^^^ n : Nat) : Int) % 4294967296).toNat = m ^^^ n := by
      norm_num at hx
      omega
    rw [e] at hbits
    have hlt := lt_two_pow_bitLength 32 (m ^^^ n) (by norm_num at hx ⊢; omega)
    exact lt_of_lt_of_le hlt (Nat.pow_le_pow_right (by norm_num) (by exact_mod_cast hbits))
  rcases lt_or_le a 0 with han | hap
  · rcases lt_or_le c 0 with hcn | hcp
    · obtain ⟨m, rfl⟩ := Int.eq_negSucc_of_lt_zero han
      obtain ⟨n, rfl⟩ := Int.eq_negSucc_of_lt_zero hcn
      have hm : m < 2 ^ 31 := by
        have : Int.negSucc m = -((m : Int) + 1) := rfl
        norm_num
        omega
      have hn : n < 2 ^ 31 := by
        have : Int.negSucc n = -((n : Int) + 1) := rfl
        norm_num
        omega
      have e : Int.xor (Int.negSucc m) (Int.negSucc n) = ((m ^^^ n : Nat) : Int) := rfl
      rw [e] at hb
      have := key m n hm hn hb
      show Int.negSucc (m >>> s) = Int.negSucc (n >>> s)
      rw [this]
    · have h := xor_neg_nonneg a c han ha1 hcp hc2
      have := countBitsUsed_neg _ h.2 h.1
      omega
  · rcases lt_or_le c 0 with hcn | hcp
    · have h := xor_nonneg_neg a c hap ha2 hcn hc1
      have := countBitsUsed_neg _ h.2 h.1
      omega
    · obtain ⟨m, rfl⟩ := Int.eq_ofNat_of_zero_le hap
      obtain ⟨n, rfl⟩ := Int.eq_ofNat_of_zero_le hcp
      have hm : m < 2 ^ 31 := by
        norm_num
        omega
      have hn : n < 2 ^ 31 := by
        norm_num
        omega
      have e : Int.xor (m : Int) (n : Int) = ((m ^^^ n : Nat) : Int) := rfl
      rw [e] at hb
      have := key m n hm hn hb
      show ((m >>> s : Nat) : Int) = ((n >>> s : Nat) : Int)
      rw [this]

theorem int_shiftRight_mono (a b : Int) (s : Nat) (h : a ≤ b) : a >>> s ≤ b >>> s := by
  rw [Int.shiftRight_eq_div_pow, Int.shiftRight_eq_div_pow]
  exact Int.ediv_le_ediv (by positivity) h

/-- Clamping to the deepest grid and shifting is shifting and clamping to the
grid of the coarser level. -/
theorem clampi_shiftRight (c : Int) (s : Nat) (hs : s ≤ 4) :
    nvg__clampi c 0 15 >>> s = nvg__clampi (c >>> s) 0 (((1 <<< (4 - s) : Nat) : Int) - 1) := by
  have h15 : (15 : Int) >>> s = ((1 <<< (4 - s) : Nat) : Int) - 1 := by
    interval_cases s <;> rfl
  have h0 : (0 : Int) >>> s = 0 := by
    rw [Int.shiftRight_eq_div_pow]
    exact Int.zero_ediv _
  have hnn : (0 : Int) ≤ ((1 <<< (4 - s) : Nat) : Int) - 1 := by
    interval_cases s <;> decide
  rw [← h15] at hnn ⊢
  unfold nvg__clampi
  by_cases h1 : c < 0
  · have := int_shiftRight_mono c (-1) s (by omega)
    have hm1 : (-1 : Int) >>> s = -1 := by
      interval_cases s <;> rfl
    rw [if_pos h1, h0, if_pos (show c >>> s < 0 by omega)]
  · rw [if_neg h1]
    have h2 := int_shiftRight_mono 0 c s (by omega)
    rw [h0] at h2
    rw [if_neg (show ¬ c >>> s < 0 by omega)]
    by_cases h3 : c > 15
    · rw [if_pos h3]
      have h4 := int_shiftRight_mono 15 c s (by omega)
      by_cases h5 : c >>> s > (15 : Int) >>> s
      · rw [if_pos h5]
      · rw [if_neg h5]
        omega
    · rw [if_neg h3]
      have h4 := int_shiftRight_mono c 15 s (by omega)
      rw [if_neg (show ¬ c >>> s > (15 : Int) >>> s by omega)]

theorem pickSceneInsert_levels (ps : NVGpickScene) (pp : NVGpickPath) :
    (nvg__pickSceneInsert ps pp).levels =
      ps.levels.set (insertPos ps pp) (some ps.store.length) := rfl

theorem pickSceneInsert_fields (ps : NVGpickScene) (pp : NVGpickPath) :
    (nvg__pickSceneInsert ps pp).nlevels = ps.nlevels ∧
      (nvg__pickSceneInsert ps pp).xdim = ps.xdim ∧
      (nvg__pickSceneInsert ps pp).ydim = ps.ydim ∧
      (nvg__pickSceneInsert ps pp).pools = ps.pools ∧
      (nvg__pickSceneInsert ps pp).paths = some ps.store.length ∧
      (nvg__pickSceneInsert ps pp).store.length = ps.store.length + 1 :=
  ⟨rfl, rfl, rfl, rfl, rfl, by simp [nvg__pickSceneInsert]⟩

/-- The record that `nvg__pickSceneInsert` stores keeps the bounds of the path, has
the previous head of the path list as its `next` and the previous content of
the cell as its `cellnext`. -/
theorem pickSceneInsert_store (ps : NVGpickScene) (pp : NVGpickPath) :
    ∃ r : NVGpickPath, (nvg__pickSceneInsert ps pp).store = ps.store ++ [r] ∧
      r.bounds = pp.bounds ∧ r.next = ps.paths ∧
      r.cellnext =
        cellAt ps (insertLevel ps pp).toNat
          ((insertCell ps pp).2 * ((1 <<< (insertLevel ps pp).toNat : Nat) : Int) +
            (insertCell ps pp).1) :=
  ⟨_, rfl, rfl, rfl, rfl⟩

/-- The level of a path in a scene of five levels is between 0 and 4, the shift is
4 minus the level, and above level 0 the exclusive or of the cell coordinates
uses at most that many bits on both axes. -/
theorem insertLevel_cases (ps : NVGpickScene) (pp : NVGpickPath) (hn : ps.nlevels = 5) :
    ∃ L : Nat, L ≤ 4 ∧ insertLevel ps pp = (L : Int) ∧ insertShift ps pp = 4 - L ∧
      (L = 0 ∨
        (nvg__countBitsUsed
            (Int.xor (cInt (pp.bounds.b0 / ps.xdim)) (cInt (pp.bounds.b2 / ps.xdim))) ≤
              ((4 - L : Nat) : Int) ∧
          nvg__countBitsUsed
            (Int.xor (cInt (pp.bounds.b1 / ps.ydim)) (cInt (pp.bounds.b3 / ps.ydim))) ≤
              ((4 - L : Nat) : Int))) := by
  have hbx := countBitsUsed_nonneg
    (Int.xor (cInt (pp.bounds.b0 / ps.xdim)) (cInt (pp.bounds.b2 / ps.xdim)))
  have hby := countBitsUsed_nonneg
    (Int.xor (cInt (pp.bounds.b1 / ps.ydim)) (cInt (pp.bounds.b3 / ps.ydim)))
  unfold insertShift insertLevel
  simp only [hn]
  generalize nvg__countBitsUsed
    (Int.xor (cInt (pp.bounds.b0 / ps.xdim)) (cInt (pp.bounds.b2 / ps.xdim))) = bx at hbx ⊢
  generalize nvg__countBitsUsed
    (Int.xor (cInt (pp.bounds.b1 / ps.ydim)) (cInt (pp.bounds.b3 / ps.ydim))) = by_ at hby ⊢
  unfold nvg__mini
  by_cases h1 : ((5 : Nat) : Int) - 1 - bx < ((5 : Nat) : Int) - 1 - by_
  · simp only [if_pos h1]
    by_cases h2 : ((5 : Nat) : Int) - 1 - bx < 0
    · simp only [if_pos h2]
      exact ⟨0, by omega, rfl, rfl, Or.inl rfl⟩
    · simp only [if_neg h2]
      refine ⟨(((5 : Nat) : Int) - 1 - bx).toNat, by omega, by omega, by omega, Or.inr ?_⟩
      omega
  · simp only [if_neg h1]
    by_cases h2 : ((5 : Nat) : Int) - 1 - by_ < 0
    · simp only [if_pos h2]
      exact ⟨0, by omega, rfl, rfl, Or.inl rfl⟩
    · simp only [if_neg h2]
      refine ⟨(((5 : Nat) : Int) - 1 - by_).toNat, by omega, by omega, by omega, Or.inr ?_⟩
      omega

/-- On one axis, with the cell coordinates `c0 ≤ c ≤ c2` of the bounds and of a
point between them, the cell of the point on the level of the path is the cell
of the path. -/
theorem axis_cell_match (c0 c c2 : Int) (L : Nat) (hL : L ≤ 4)
    (h0 : -2147483648 ≤ c0) (h2 : c2 < 2147483648) (h01 : c0 ≤ c) (h12 : c ≤ c2)
    (hb : L = 0 ∨ nvg__countBitsUsed (Int.xor c0 c2) ≤ ((4 - L : Nat) : Int)) :
    nvg__clampi c 0 15 >>> (4 - L) =
      nvg__clampi (c2 >>> (4 - L)) 0 (((1 <<< L : Nat) : Int) - 1) := by
  have hcs := clampi_shiftRight c (4 - L) (by omega)
  have e : 4 - (4 - L) = L := by omega
  rw [e] at hcs
  rw [hcs]
  rcases hb with hz | hb
  · subst hz
    rw [show (((1 <<< 0 : Nat) : Int) - 1) = 0 from rfl, clampi_zero_zero, clampi_zero_zero]
  · have hs := shiftRight_eq_of_xor_bits c0 c2 (4 - L) h0 (by omega) (by omega) h2 (by omega)
      (by exact_mod_cast hb)
    have m1 := int_shiftRight_mono c0 c (4 - L) h01
    have m2 := int_shiftRight_mono c c2 (4 - L) h12
    have : c >>> (4 - L) = c2 >>> (4 - L) := by omega
    rw [this]

/-- The cell that `nvg__pickSceneInsert` writes lies in the block of 342 cells. -/
theorem insertCell_eq (ps : NVGpickScene) (pp : NVGpickPath) (L : Nat)
    (hlev : insertLevel ps pp = (L : Int)) (hsh : insertShift ps pp = 4 - L) :
    (insertCell ps pp).1 =
        nvg__clampi (cInt (pp.bounds.b2 / ps.xdim) >>> (4 - L)) 0 (((1 <<< L : Nat) : Int) - 1) ∧
      (insertCell ps pp).2 =
        nvg__clampi (cInt (pp.bounds.b3 / ps.ydim) >>> (4 - L)) 0 (((1 <<< L : Nat) : Int) - 1) := by
  unfold insertCell
  rw [hlev, hsh, Int.toNat_ofNat]
  exact ⟨rfl, rfl⟩

theorem insertPos_lt (ps : NVGpickScene) (pp : NVGpickPath) (hn : ps.nlevels = 5) :
    insertPos ps pp < 342 := by
  obtain ⟨L, hL, hlev, hsh, _⟩ := insertLevel_cases ps pp hn
  obtain ⟨hcx, hcy⟩ := insertCell_eq ps pp L hlev hsh
  have hpow : (0 : Int) ≤ ((1 <<< L : Nat) : Int) - 1 := by
    interval_cases L <;> decide
  have bx := clampi_bounds (cInt (pp.bounds.b2 / ps.xdim) >>> (4 - L))
    (((1 <<< L : Nat) : Int) - 1) hpow
  have by_ := clampi_bounds (cInt (pp.bounds.b3 / ps.ydim) >>> (4 - L))
    (((1 <<< L : Nat) : Int) - 1) hpow
  rw [← hcx] at bx
  rw [← hcy] at by_
  unfold insertPos
  rw [hlev, Int.toNat_ofNat]
  generalize (insertCell ps pp).1 = lx at bx ⊢
  generalize (insertCell ps pp).2 = ly at by_ ⊢
  interval_cases L <;>
    simp only [levelBase, Nat.shiftLeft_eq, Nat.one_mul, Nat.reducePow, Nat.cast_ofNat,
      Nat.cast_one, Nat.reduceMul, Nat.reduceAdd] at bx by_ ⊢ <;> omega

/-- C32: in a scene of five levels with its 342 cells, `nvg__pickSceneInsert`
writes the pointer of the path into one cell and leaves every other cell as it
was; the cell is on the level `L = max(0, min(4 - bitsUsed(x0), 4 - bitsUsed(x1)))`,
with `x0`, `x1` the exclusive or of the min and max cell coordinates on the two
axes; and when these coordinates are within the grid `0 .. 15`, the min and the
max coordinate (and so every coordinate between them) shifted right by
`s = 4 - L` give the chosen cell coordinate on each axis. -/
theorem pickSceneInsert_one_cell (ps : NVGpickScene) (pp : NVGpickPath) (qx qy : Int)
    (hn : ps.nlevels = 5) (hlen : ps.levels.length = 342)
    (hx0 : 0 ≤ cInt (pp.bounds.b0 / ps.xdim) ∧ cInt (pp.bounds.b0 / ps.xdim) < 16)
    (hx2 : 0 ≤ cInt (pp.bounds.b2 / ps.xdim) ∧ cInt (pp.bounds.b2 / ps.xdim) < 16)
    (hy1 : 0 ≤ cInt (pp.bounds.b1 / ps.ydim) ∧ cInt (pp.bounds.b1 / ps.ydim) < 16)
    (hy3 : 0 ≤ cInt (pp.bounds.b3 / ps.ydim) ∧ cInt (pp.bounds.b3 / ps.ydim) < 16)
    (hqx : cInt (pp.bounds.b0 / ps.xdim) ≤ qx ∧ qx ≤ cInt (pp.bounds.b2 / ps.xdim))
    (hqy : cInt (pp.bounds.b1 / ps.ydim) ≤ qy ∧ qy ≤ cInt (pp.bounds.b3 / ps.ydim)) :
    insertLevel ps pp =
        max 0
          (min
            (4 - nvg__countBitsUsed
              (Int.xor (cInt (pp.bounds.b0 / ps.xdim)) (cInt (pp.bounds.b2 / ps.xdim))))
            (4 - nvg__countBitsUsed
              (Int.xor (cInt (pp.bounds.b1 / ps.ydim)) (cInt (pp.bounds.b3 / ps.ydim))))) ∧
      (insertShift ps pp : Int) = 4 - insertLevel ps pp ∧
      (nvg__pickSceneInsert ps pp).levels.getD (insertPos ps pp) none = some ps.store.length ∧
      (∀ k, k ≠ insertPos ps pp →
        (nvg__pickSceneInsert ps pp).levels.getD k none = ps.levels.getD k none) ∧
      cInt (pp.bounds.b0 / ps.xdim) >>> insertShift ps pp = (insertCell ps pp).1 ∧
      cInt (pp.bounds.b2 / ps.xdim) >>> insertShift ps pp = (insertCell ps pp).1 ∧
      cInt (pp.bounds.b1 / ps.ydim) >>> insertShift ps pp = (insertCell ps pp).2 ∧
      cInt (pp.bounds.b3 / ps.ydim) >>> insertShift ps pp = (insertCell ps pp).2 ∧
      qx >>> insertShift ps pp = (insertCell ps pp).1 ∧
      qy >>> insertShift ps pp = (insertCell ps pp).2 := by
  obtain ⟨L, hL, hlev, hsh, hbits⟩ := insertLevel_cases ps pp hn
  have hpos := insertPos_lt ps pp hn
  have hcl : ∀ c : Int, 0 ≤ c → c < 16 → nvg__clampi c 0 15 = c := by
    intro c h0 h1
    unfold nvg__clampi
    rw [if_neg (by omega), if_neg (by omega)]
  have hax : ∀ c0 c c2 : Int, 0 ≤ c0 → c2 < 16 → c0 ≤ c → c ≤ c2 →
      (L = 0 ∨ nvg__countBitsUsed (Int.xor c0 c2) ≤ ((4 - L : Nat) : Int)) →
      c >>> (4 - L) = nvg__clampi (c2 >>> (4 - L)) 0 (((1 <<< L : Nat) : Int) - 1) := by
    intro c0 c c2 h0 h2 h01 h12 hb
    have := axis_cell_match c0 c c2 L hL (by omega) (by omega) h01 h12 hb
    rwa [hcl c (by omega) (by omega)] at this
  have hbx : L = 0 ∨ nvg__countBitsUsed
      (Int.xor (cInt (pp.bounds.b0 / ps.xdim)) (cInt (pp.bounds.b2 / ps.xdim))) ≤
        ((4 - L : Nat) : Int) := hbits.imp id (fun h => h.1)
  have hby : L = 0 ∨ nvg__countBitsUsed
      (Int.xor (cInt (pp.bounds.b1 / ps.ydim)) (cInt (pp.bounds.b3 / ps.ydim))) ≤
        ((4 - L : Nat) : Int) := hbits.imp id (fun h => h.2)
  obtain ⟨hcx, hcy⟩ := insertCell_eq ps pp L hlev hsh
  rw [hcx, hcy, hsh]
  refine ⟨?_, by rw [hlev]; omega, ?_, ?_, ?_, ?_, ?_, ?_, ?_, ?_⟩
  · unfold insertLevel nvg__mini
    rw [hn, max_def, min_def]
    have hbx0 := countBitsUsed_nonneg
      (Int.xor (cInt (pp.bounds.b0 / ps.xdim)) (cInt (pp.bounds.b2 / ps.xdim)))
    have hby0 := countBitsUsed_nonneg
      (Int.xor (cInt (pp.bounds.b1 / ps.ydim)) (cInt (pp.bounds.b3 / ps.ydim)))
    simp only [Nat.cast_ofNat]
    split_ifs <;> omega
  · rw [pickSceneInsert_levels, List.getD_eq_getElem?_getD, List.getElem?_set]
    simp [hlen, hpos]
  · intro k hk
    rw [pickSceneInsert_levels, List.getD_eq_getElem?_getD, List.getD_eq_getElem?_getD,
      List.getElem?_set]
    rw [if_neg (fun h => hk h.symm)]
  · exact hax _ _ _ hx0.1 hx2.2 (le_refl _) (le_trans hqx.1 hqx.2) hbx
  · exact hax _ _ _ hx0.1 hx2.2 (le_trans hqx.1 hqx.2) (le_refl _) hbx
  · exact hax _ _ _ hy1.1 hy3.2 (le_refl _) (le_trans hqy.1 hqy.2) hby
  · exact hax _ _ _ hy1.1 hy3.2 (le_trans hqy.1 hqy.2) (le_refl _) hby
  · exact hax _ _ _ hx0.1 hx2.2 hqx.1 hqx.2 hbx
  · exact hax _ _ _ hy1.1 hy3.2 hqy.1 hqy.2 hby

/-- C32, at the fill of the rectangle (0, 0) to (10, 10) inserted into the empty
scene of a frame of 160 by 160 pixels: the cell coordinates 0 and 1 differ in
one bit, the level is 3 and the shift 1, and both coordinates shifted give the
cell coordinate 0. -/
theorem pickSceneInsert_one_cell_witness :
    insertLevel (nvg__pickSceneGet frame160) rectFill.2 = 3 ∧
      (cInt (rectFill.2.bounds.b0 / (nvg__pickSceneGet frame160).xdim) = 0 ∧
        cInt (rectFill.2.bounds.b2 / (nvg__pickSceneGet frame160).xdim) = 1) ∧
      (1 : Int) >>> insertShift (nvg__pickSceneGet frame160) rectFill.2 =
        (insertCell (nvg__pickSceneGet frame160) rectFill.2).1 := by
  have h := pickSceneInsert_one_cell (nvg__pickSceneGet frame160) rectFill.2 1 1 (by decide!)
    (by decide!) (by decide!) (by decide!) (by decide!) (by decide!) (by decide!) (by decide!)
  exact ⟨by decide!, by decide!, h.2.2.2.2.2.2.2.2.1⟩

/-! ### The scene during a frame -/

theorem insertPos_congr (ps ps1 : NVGpickScene) (r r1 : NVGpickPath)
    (hn : ps1.nlevels = ps.nlevels) (hx : ps1.xdim = ps.xdim) (hy : ps1.ydim = ps.ydim)
    (hb : r1.bounds = r.bounds) : insertPos ps1 r1 = insertPos ps r := by
  unfold insertPos insertCell insertShift insertLevel
  rw [hn, hx, hy, hb]

theorem sceneLinked_of_empty (ps : NVGpickScene) (h : EmptyScene ps) : SceneLinked ps := by
  obtain ⟨hl, hlev, hst, hp, _⟩ := h
  refine ⟨hl, by rw [hlev, List.length_replicate], by rw [hp, hst]; rfl, ?_, ?_, ?_⟩
  · intro k r hk
    rw [hst] at hk
    simp at hk
  · intro i h hi
    rw [hlev, List.getD_eq_getElem?_getD, List.getElem?_replicate] at hi
    split at hi <;> simp at hi
  · intro k r hk
    rw [hst] at hk
    simp at hk

theorem sceneLinked_insert (ps : NVGpickScene) (pp : NVGpickPath) (h : SceneLinked ps) :
    SceneLinked (nvg__pickSceneInsert ps pp) := by
  obtain ⟨hn, hlen, hpaths, hchain, hcells, htrack⟩ := h
  obtain ⟨r, hstore, hrb, hrn, _⟩ := pickSceneInsert_store ps pp
  obtain ⟨fn, fx, fy, _, fp, fl⟩ := pickSceneInsert_fields ps pp
  have hpos := insertPos_lt ps pp hn
  have hget : ∀ k r1, (nvg__pickSceneInsert ps pp).store.get? k = some r1 →
      (k < ps.store.length ∧ ps.store.get? k = some r1) ∨ (k = ps.store.length ∧ r1 = r) := by
    intro k r1 hk
    rw [hstore, List.get?_eq_getElem?] at hk
    rcases lt_trichotomy k ps.store.length with hlt | heq | hgt
    · left
      rw [List.getElem?_append_left hlt] at hk
      exact ⟨hlt, by rw [List.get?_eq_getElem?]; exact hk⟩
    · right
      subst heq
      rw [List.getElem?_append_right (le_refl _)] at hk
      simp at hk
      exact ⟨rfl, hk.symm⟩
    · rw [List.getElem?_append_right (le_of_lt hgt)] at hk
      have : k - ps.store.length ≠ 0 := by omega
      obtain ⟨m, hm⟩ := Nat.exists_eq_succ_of_ne_zero this
      rw [hm] at hk
      simp at hk
  refine ⟨by rw [fn]; exact hn, by rw [pickSceneInsert_levels, List.length_set]; exact hlen, ?_,
    ?_, ?_, ?_⟩
  · rw [fp, fl, if_neg (by omega)]
    rfl
  · intro k r1 hk
    rcases hget k r1 hk with ⟨_, hold⟩ | ⟨hk2, hr⟩
    · exact hchain k r1 hold
    · rw [hr, hrn, hpaths, hk2]
  · intro i h hi
    rw [fl]
    rw [pickSceneInsert_levels, List.getD_eq_getElem?_getD, List.getElem?_set] at hi
    split at hi
    · split at hi
      · simp at hi
        omega
      · simp at hi
    · have := hcells i h (by rw [List.getD_eq_getElem?_getD]; exact hi)
      omega
  · intro k r1 hk
    have hnew : (nvg__pickSceneInsert ps pp).levels.getD (insertPos ps pp) none =
        some ps.store.length := by
      rw [pickSceneInsert_levels, List.getD_eq_getElem?_getD, List.getElem?_set]
      simp [hlen, hpos]
    rcases hget k r1 hk with ⟨hlt, hold⟩ | ⟨hk2, hr⟩
    · rw [insertPos_congr ps (nvg__pickSceneInsert ps pp) r1 r1 fn fx fy rfl]
      obtain ⟨h, hh, hkh⟩ := htrack k r1 hold
      by_cases hp : insertPos ps r1 = insertPos ps pp
      · rw [hp]
        exact ⟨_, hnew, le_of_lt hlt⟩
      · refine ⟨h, ?_, hkh⟩
        rw [pickSceneInsert_levels, List.getD_eq_getElem?_getD, List.getElem?_set,
          if_neg (fun e => hp e.symm), ← List.getD_eq_getElem?_getD]
        exact hh
    · rw [insertPos_congr ps (nvg__pickSceneInsert ps pp) pp r1 fn fx fy (by rw [hr, hrb])]
      exact ⟨_, hnew, le_of_eq hk2⟩

theorem sceneLinked_register (sqrtf : ℚ → ℚ) (ps : NVGpickScene) (r : HitRegionCall)
    (h : SceneLinked ps) :
    SceneLinked (registerHitRegion sqrtf ps r) ∧
      (registerHitRegion sqrtf ps r).xdim = ps.xdim ∧
      (registerHitRegion sqrtf ps r).ydim = ps.ydim := by
  refine ⟨?_, rfl, rfl⟩
  unfold registerHitRegion
  apply sceneLinked_insert
  exact h

theorem sceneLinked_foldl (sqrtf : ℚ → ℚ) (rs : List HitRegionCall) :
    ∀ ps : NVGpickScene, SceneLinked ps →
      SceneLinked (rs.foldl (registerHitRegion sqrtf) ps) ∧
        (rs.foldl (registerHitRegion sqrtf) ps).xdim = ps.xdim ∧
        (rs.foldl (registerHitRegion sqrtf) ps).ydim = ps.ydim := by
  induction rs with
  | nil => intro ps h; exact ⟨h, rfl, rfl⟩
  | cons r rs ih =>
    intro ps h
    obtain ⟨h1, h2, h3⟩ := sceneLinked_register sqrtf ps r h
    obtain ⟨i1, i2, i3⟩ := ih _ h1
    rw [List.foldl_cons]
    exact ⟨i1, by rw [i2, h2], by rw [i3, h3]⟩

/-! ### The paths that a hit test examines -/

theorem hitTestWalk_none (ps : NVGpickScene) (x y : ℚ) (flags : Nat) (fuel : Nat)
    (v : HitTestVars) : hitTestWalk ps x y flags fuel none v = some v := by
  cases fuel <;> rfl

theorem hitTestWalkVisits_none (ps : NVGpickScene) (fuel : Nat) :
    hitTestWalkVisits ps fuel none = [] := by
  cases fuel <;> rfl

/-- In a linked scene the walk from a stored path examines that path and every
path stored before it. -/
theorem mem_hitTestWalkVisits (ps : NVGpickScene) (hs : SceneLinked ps) (p : Nat) :
    ∀ (fuel h : Nat), h < fuel → h < ps.store.length → p ≤ h →
      p ∈ hitTestWalkVisits ps fuel (some h) := by
  obtain ⟨_, _, _, hchain, _, _⟩ := hs
  intro fuel
  induction fuel with
  | zero => intro h hf; omega
  | succ f ih =>
    intro h hf hlen hp
    obtain ⟨r, hr⟩ : ∃ r, ps.store.get? h = some r := by
      rw [List.get?_eq_getElem?, List.getElem?_eq_getElem hlen]
      exact ⟨_, rfl⟩
    have hnext := hchain h r hr
    simp only [hitTestWalkVisits, hr]
    rcases Nat.eq_or_lt_of_le hp with heq | hlt
    · rw [heq]
      exact List.mem_cons_self _ _
    · apply List.mem_cons_of_mem
      rw [hnext, if_neg (by omega)]
      exact ih (h - 1) (by omega) (by omega) (by omega)

/-- In a linked scene the walk of `nvgHitTest` from a cell ends, and its result is
the body of the loop run on the paths of `hitTestWalkVisits`. -/
theorem hitTestWalk_eq_visitAll (ps : NVGpickScene) (hs : SceneLinked ps) (x y : ℚ)
    (flags : Nat) :
    ∀ (fuel : Nat) (p : Option Nat) (v : HitTestVars),
      (∀ h, p = some h → h < fuel ∧ h < ps.store.length) →
      hitTestWalk ps x y flags fuel p v =
        some (visitAll ps x y flags (hitTestWalkVisits ps fuel p) v) := by
  obtain ⟨_, _, _, hchain, _, _⟩ := hs
  intro fuel
  induction fuel with
  | zero =>
    intro p v hp
    cases p with
    | none => rfl
    | some h => have := hp h rfl; omega
  | succ f ih =>
    intro p v hp
    cases p with
    | none => rfl
    | some h =>
      obtain ⟨hf, hlen⟩ := hp h rfl
      obtain ⟨r, hr⟩ : ∃ r, ps.store.get? h = some r := by
        rw [List.get?_eq_getElem?, List.getElem?_eq_getElem hlen]
        exact ⟨_, rfl⟩
      have hnext := hchain h r hr
      simp only [hitTestWalk, hitTestWalkVisits, hr, visitAll, List.foldl_cons]
      have := ih r.next (hitTestVisit ps.pools x y flags r v) (by
        intro h1 h1e
        rw [hnext] at h1e
        split at h1e
        · simp at h1e
        · simp at h1e
          omega)
      rw [this]
      rfl

theorem visitAll_append (ps : NVGpickScene) (x y : ℚ) (flags : Nat) (l1 l2 : List Nat)
    (v : HitTestVars) :
    visitAll ps x y flags (l1 ++ l2) v = visitAll ps x y flags l2 (visitAll ps x y flags l1 v) := by
  unfold visitAll
  rw [List.foldl_append]

theorem cellAt_lt (ps : NVGpickScene) (hs : SceneLinked ps) (lvl : Nat) (idx : Int) (h : Nat)
    (hc : cellAt ps lvl idx = some h) : h < ps.store.length := by
  obtain ⟨_, _, _, _, hcells, _⟩ := hs
  unfold cellAt at hc
  split at hc
  · simp at hc
  · exact hcells _ h hc

/-- In a linked scene the loop over the levels of `nvgHitTest` ends, and its
result is the body of the inner loop run on the paths of `hitTestLevelsVisits`. -/
theorem hitTestLevels_eq_visitAll (ps : NVGpickScene) (hs : SceneLinked ps) (x y : ℚ)
    (flags : Nat) :
    ∀ (n : Nat) (cx cy lw : Int) (v : HitTestVars),
      hitTestLevels ps x y flags n cx cy lw v =
        some (visitAll ps x y flags (hitTestLevelsVisits ps n cx cy lw) v) := by
  intro n
  induction n with
  | zero => intro cx cy lw v; rfl
  | succ k ih =>
    intro cx cy lw v
    simp only [hitTestLevels, hitTestLevelsVisits]
    rw [hitTestWalk_eq_visitAll ps hs x y flags ps.store.length _ v (by
      intro h hh
      have := cellAt_lt ps hs _ _ h hh
      exact ⟨this, this⟩)]
    simp only
    rw [ih, visitAll_append]

/-- A path examined by the walk from the cell of the chain at one of the levels is
examined by the loop over the levels. -/
theorem mem_hitTestLevelsVisits (ps : NVGpickScene) (p : Nat) :
    ∀ (n : Nat) (cx cy lw : Int) (j : Nat), j < n →
      p ∈ hitTestWalkVisits ps ps.store.length
        (cellAt ps (n - 1 - j) ((cy >>> (j : Nat)) * (lw >>> (j : Nat)) + (cx >>> (j : Nat)))) →
      p ∈ hitTestLevelsVisits ps n cx cy lw := by
  intro n
  induction n with
  | zero => intro cx cy lw j hj; omega
  | succ k ih =>
    intro cx cy lw j hj hmem
    simp only [hitTestLevelsVisits]
    rw [List.mem_append]
    cases j with
    | zero =>
      left
      simpa [int_shiftRight_zero] using hmem
    | succ i =>
      right
      apply ih (cx >>> (1 : Nat)) (cy >>> (1 : Nat)) (lw >>> (1 : Nat)) i (by omega)
      have e : k + 1 - 1 - (i + 1) = k - 1 - i := by omega
      rw [e, show i + 1 = 1 + i from Nat.add_comm i 1] at hmem
      simpa only [Int.shiftRight_add] using hmem

theorem pointInBounds_ne_zero (x y : ℚ) (b : Bounds) (h : nvg__pointInBounds x y b ≠ 0) :
    b.b0 ≤ x ∧ x ≤ b.b2 ∧ b.b1 ≤ y ∧ y ≤ b.b3 := by
  unfold nvg__pointInBounds at h
  split at h
  · rename_i hc
    exact ⟨hc.1, hc.2.1, hc.2.2.1, hc.2.2.2⟩
  · exact absurd rfl h

/-- The cell of the chain of a query point on the level of a stored path whose
bounds contain the point is the cell that `nvg__pickSceneInsert` chose for the
path. -/
theorem query_cell_eq_insertPos (ps : NVGpickScene) (pp : NVGpickPath) (W H : Int)
    (hn : ps.nlevels = 5) (hW : 0 ≤ W) (hH : 0 ≤ H) (hx : ps.xdim = (W : ℚ) / 16)
    (hy : ps.ydim = (H : ℚ) / 16) (hm : CellsAreInts ps pp) (x y : ℚ)
    (hin : nvg__pointInBounds x y pp.bounds ≠ 0) :
    ∃ j, j < 5 ∧
      cellAt ps (5 - 1 - j)
          ((nvg__clampi (cInt (y / ps.ydim)) 0 15 >>> (j : Nat)) * ((16 : Int) >>> (j : Nat)) +
            (nvg__clampi (cInt (x / ps.xdim)) 0 15 >>> (j : Nat))) =
        ps.levels.getD (insertPos ps pp) none := by
  obtain ⟨L, hL, hlev, hsh, hbits⟩ := insertLevel_cases ps pp hn
  obtain ⟨hcx, hcy⟩ := insertCell_eq ps pp L hlev hsh
  obtain ⟨hb0, hb2, hb1, hb3⟩ := pointInBounds_ne_zero x y pp.bounds hin
  obtain ⟨r0, r1, r2, r3⟩ := hm
  have hxd : (0 : ℚ) ≤ ps.xdim := by
    rw [hx]
    have : (0 : ℚ) ≤ (W : ℚ) := by exact_mod_cast hW
    positivity
  have hyd : (0 : ℚ) ≤ ps.ydim := by
    rw [hy]
    have : (0 : ℚ) ≤ (H : ℚ) := by exact_mod_cast hH
    positivity
  have mx := axis_cell_match (cInt (pp.bounds.b0 / ps.xdim)) (cInt (x / ps.xdim))
    (cInt (pp.bounds.b2 / ps.xdim)) L hL r0.1 r2.2
    (cInt_mono (div_le_div_of_nonneg_right hb0 hxd)) (cInt_mono (div_le_div_of_nonneg_right hb2 hxd))
    (hbits.imp id (fun h => h.1))
  have my := axis_cell_match (cInt (pp.bounds.b1 / ps.ydim)) (cInt (y / ps.ydim))
    (cInt (pp.bounds.b3 / ps.ydim)) L hL r1.1 r3.2
    (cInt_mono (div_le_div_of_nonneg_right hb1 hyd)) (cInt_mono (div_le_div_of_nonneg_right hb3 hyd))
    (hbits.imp id (fun h => h.2))
  rw [← hcx] at mx
  rw [← hcy] at my
  have hpow : (0 : Int) ≤ ((1 <<< L : Nat) : Int) - 1 := by
    interval_cases L <;> decide
  have bx := clampi_bounds (cInt (pp.bounds.b2 / ps.xdim) >>> (4 - L))
    (((1 <<< L : Nat) : Int) - 1) hpow
  have by_ := clampi_bounds (cInt (pp.bounds.b3 / ps.ydim) >>> (4 - L))
    (((1 <<< L : Nat) : Int) - 1) hpow
  rw [← hcx] at bx
  rw [← hcy] at by_
  have h16 : (16 : Int) >>> (4 - L) = ((1 <<< L : Nat) : Int) := by
    interval_cases L <;> rfl
  refine ⟨4 - L, by omega, ?_⟩
  rw [mx, my, h16, show 5 - 1 - (4 - L) = L from by omega]
  unfold cellAt insertPos
  rw [hlev, Int.toNat_ofNat]
  have hnn : ¬ (insertCell ps pp).2 * ((1 <<< L : Nat) : Int) + (insertCell ps pp).1 < 0 := by
    have : 0 ≤ (insertCell ps pp).2 * ((1 <<< L : Nat) : Int) :=
      mul_nonneg by_.1 (by omega)
    omega
  rw [if_neg hnn]

/-- C33: in a frame begun with a width and a height of at least one pixel, after
any sequence of registrations, for every stored pick path `pp` (at pointer `p`)
for which the four casts `(int)(bounds / dim)` of `nvg__pickSceneInsert` are
defined, and every query point inside the bounds of `pp`, the path is among
those that `nvgHitTest` examines; and `nvgHitTest` returns, its result being the
`bestID` left by the body of its loop run on the examined paths in order. -/
theorem hitTest_examines_paths_containing_point (sqrtf : ℚ → ℚ) (ctx ctx1 : NVGcontext)
    (w h r : ℚ) (rs : List HitRegionCall) (x y : ℚ) (flags : Nat) (p : Nat) (pp : NVGpickPath)
    (hok : PickSceneOk ctx) (hw : 0 < cInt w) (hh : 0 < cInt h)
    (hctx : ctx1.pickScene = some (frameScene sqrtf ctx w h r rs))
    (hp : (frameScene sqrtf ctx w h r rs).store.get? p = some pp)
    (hm : CellsAreInts (frameScene sqrtf ctx w h r rs) pp)
    (hin : nvg__pointInBounds x y pp.bounds ≠ 0) :
    p ∈ hitTestVisits (frameScene sqrtf ctx w h r rs) x y ∧
      nvgHitTest ctx1 x y flags =
        some (visitAll (frameScene sqrtf ctx w h r rs) x y flags
          (hitTestVisits (frameScene sqrtf ctx w h r rs) x y) hitTestStart).bestID := by
  obtain ⟨ps0, hps0, hempty, _, hx0, hy0⟩ := beginFrame_pickScene ctx hok w h r
  have hget : nvg__pickSceneGet (nvgBeginFrame ctx w h r) = ps0 :=
    pickSceneGet_of_some _ _ hps0
  obtain ⟨hS, hxS, hyS⟩ := sceneLinked_foldl sqrtf rs ps0 (sceneLinked_of_empty ps0 hempty)
  have hfs : frameScene sqrtf ctx w h r rs = rs.foldl (registerHitRegion sqrtf) ps0 := by
    unfold frameScene
    rw [hget]
  rw [hfs] at hctx hp hm ⊢
  generalize rs.foldl (registerHitRegion sqrtf) ps0 = S at hS hxS hyS hctx hp hm ⊢
  have hn : S.nlevels = 5 := hS.1
  have hcells : hitTestCells S x y =
      (16, nvg__clampi (cInt (x / S.xdim)) 0 15, nvg__clampi (cInt (y / S.ydim)) 0 15) := by
    unfold hitTestCells
    rw [hn]
    rfl
  constructor
  · obtain ⟨hd, hhd, hle⟩ := hS.2.2.2.2.2 p pp hp
    have hlt : hd < S.store.length := hS.2.2.2.2.1 _ hd hhd
    obtain ⟨j, hj, hcell⟩ := query_cell_eq_insertPos S pp (cInt w) (cInt h) hn (le_of_lt hw)
      (le_of_lt hh) (by rw [hxS, hx0]) (by rw [hyS, hy0]) hm x y hin
    unfold hitTestVisits
    rw [hcells, hn]
    apply mem_hitTestLevelsVisits S p 5 _ _ _ j hj
    rw [hcell, hhd]
    exact mem_hitTestWalkVisits S hS p _ hd hlt hlt hle
  · unfold nvgHitTest
    rw [hctx]
    simp only
    rw [hitTestLevels_eq_visitAll S hS]
    rfl

/-- C33, at the fill of the rectangle (0, 0) to (10, 10) registered in a frame of
160 by 160 pixels and the query point (5, 5): the path, stored at pointer 0, is
among those that `nvgHitTest` examines. -/
theorem hitTest_examines_paths_containing_point_witness :
    0 ∈ hitTestVisits
      (frameScene sqrtfExact (nvgCreateInternal 1) 160 160 1 [⟨rectCommands, resetState, 7, false⟩])
      5 5 :=
  (hitTest_examines_paths_containing_point sqrtfExact (nvgCreateInternal 1)
    { frame160 with
      pickScene := some
        (frameScene sqrtfExact (nvgCreateInternal 1) 160 160 1
          [⟨rectCommands, resetState, 7, false⟩]) }
    160 160 1 [⟨rectCommands, resetState, 7, false⟩] 5 5 NVG_TEST_FILL 0 (firstRecord rectFill.2)
    (pickSceneOk_create 1) (by decide!) (by decide!) rfl (by decide!)
    (by unfold CellsAreInts; decide!) (by decide!)).1

/-! ## Theorems: point queries on the current path -/

/-- The cells that `nvgHitTestAll` passes to its loop over the levels are those of
`hitTestAllCells`. -/
theorem hitTestAll_cells (ctx : NVGcontext) (ps : NVGpickScene) (x y : ℚ) (flags : Nat)
    (maxids : Int) (h : ctx.pickScene = some ps) :
    (nvgHitTestAll ctx x y flags maxids).isSome =
      (hitTestAllLevels ps x y flags ps.nlevels (hitTestAllCells ps x y).2.1
        (hitTestAllCells ps x y).2.2 (hitTestAllCells ps x y).1 []).isSome := by
  unfold nvgHitTestAll hitTestAllCells
  rw [h]
  simp only
  cases hitTestAllLevels ps x y flags ps.nlevels
      (nvg__clampi (cInt (x / ps.xdim)) 0 ((1 <<< (ps.nlevels - 1) : Nat) : Int))
      (nvg__clampi (cInt (y / ps.ydim)) 0 ((1 <<< (ps.nlevels - 1) : Nat) : Int))
      ((1 <<< (ps.nlevels - 1) : Nat) : Int) [] <;> rfl

/-- C34, evaluated at a failing input. In a frame of 160 by 160 pixels the query
point (160, 160) gives `nvgHitTestAll` the cell coordinates `cellx = celly = 16`
with `levelwidth = 16`: the clamp is to `levelwidth`, not to `levelwidth - 1` as
in `nvgHitTest` (which gets 15 and 15), so the index `celly * levelwidth + cellx`
is 272, beyond the 256 cells of the deepest level and, from that level's base
85, beyond the 342 cells allocated. -/
theorem hitTestAll_cell_reaches_levelwidth :
    hitTestAllCells (nvg__pickSceneGet frame160) 160 160 = (16, 16, 16) ∧
      hitTestCells (nvg__pickSceneGet frame160) 160 160 = (16, 15, 15) ∧
      (nvg__pickSceneGet frame160).levels.length = 342 ∧
      levelBase 4 + (16 * 16 + 16) = 357 := by
  refine ⟨by decide!, by decide!, by decide!, by decide!⟩

/-- C35, evaluated at a failing input. With the current path
`nvgRect(ctx, 1, 1, 8, 8)` in a fresh frame, whose scene holds no point and no
segment, the query point (20, 20) lies outside the bounds of the path: `nvgInFill`
and `nvgInStroke` return 0 at once, before the counts are restored, and leave 5
points (10 floats) and 4 segments in the scene; at the query point (5, 5), inside
the bounds, the counts are restored. -/
theorem inFill_outside_bounds_keeps_points :
    (nvg__pickSceneGet rectPathFrame).pools = ⟨[], []⟩ ∧
      (nvgInFill sqrtfExact rectPathFrame 20 20).2 = 0 ∧
      (nvg__pickSceneGet (nvgInFill sqrtfExact rectPathFrame 20 20).1).pools.points.length = 10 ∧
      (nvg__pickSceneGet (nvgInFill sqrtfExact rectPathFrame 20 20).1).pools.segments.length = 4 ∧
      (nvgInStroke sqrtfExact rectPathFrame 20 20).2 = 0 ∧
      (nvg__pickSceneGet (nvgInStroke sqrtfExact rectPathFrame 20 20).1).pools.points.length = 10 ∧
      (nvg__pickSceneGet (nvgInStroke sqrtfExact rectPathFrame 20 20).1).pools.segments.length = 4 ∧
      (nvg__pickSceneGet (nvgInFill sqrtfExact rectPathFrame 5 5).1).pools = ⟨[], []⟩ := by
  refine ⟨by decide!, by decide!, by decide!, by decide!, by decide!, by decide!, by decide!,
    by decide!⟩

/-- C37, evaluated at a failing input. The open path (0, 0) to (30, 40) is stroked
with width 10 and butt caps; the query point (30.6, 40.8) lies on the line of the
segment one unit beyond its end point. With the round line join `nvgInStroke`
returns 1 (the test of the first branch, which the condition
`lineJoin == NVG_ROUND` opens to the cap region, sees distance 1 below the half
width 5), while with the miter and bevel joins the butt cap branch excludes the
point and the function returns 0. -/
theorem inStroke_butt_cap_hit_with_round_join :
    ((153 / 5 : ℚ) - 30) * 30 + ((204 / 5 : ℚ) - 40) * 40 > 0 ∧
      (nvg__getState (slantedLineFrame NVG_ROUND)).lineCap = NVG_BUTT ∧
      (nvgInStroke sqrtfExact (slantedLineFrame NVG_ROUND) (153 / 5) (204 / 5)).2 = 1 ∧
      (nvgInStroke sqrtfExact (slantedLineFrame NVG_MITER) (153 / 5) (204 / 5)).2 = 0 ∧
      (nvgInStroke sqrtfExact (slantedLineFrame NVG_BEVEL) (153 / 5) (204 / 5)).2 = 0 := by
  refine ⟨by norm_num, by decide!, by decide!, by decide!, by decide!⟩

/-! ## Theorems: stroke containment -/

/-- The state of `scaledFrame` carries the transform `[4, 0, 0, 4, 0, 0]`. -/
theorem scaledFrame_xform : (nvg__getState scaledFrame).xform = ⟨4, 0, 0, 4, 0, 0⟩ := by
  decide!

/-- C38, the claim as stated fails: in a frame begun with device pixel ratio 2 and
scaled by 4, the font scale is 4 and the text scale
`nvg__getFontScale(state) * ctx->devicePxRatio` is 8. -/
theorem textScale_exceeds_4 :
    nvg__getFontScale sqrtfExact (nvg__getState scaledFrame) = 4 ∧
      scaledFrame.devicePxRatio = 2 ∧ textScale sqrtfExact scaledFrame = 8 := by
  have hx := scaledFrame_xform
  have hr : scaledFrame.devicePxRatio = 2 := rfl
  have hf : nvg__getFontScale sqrtfExact (nvg__getState scaledFrame) = 4 := by
    unfold nvg__getFontScale
    rw [hx]
    decide!
  refine ⟨hf, hr, ?_⟩
  unfold textScale
  rw [hf, hr]
  norm_num

/-- C38, amended: the cap at 4 is on the font scale alone, before the device pixel
ratio is applied: `nvg__getFontScale` never exceeds 4, and for a device pixel
ratio that is not negative the text scale never exceeds four times that ratio. -/
theorem textScale_le_four_times_ratio (sqrtf : ℚ → ℚ) (ctx : NVGcontext)
    (h : 0 ≤ ctx.devicePxRatio) :
    nvg__getFontScale sqrtf (nvg__getState ctx) ≤ 4 ∧
      textScale sqrtf ctx ≤ 4 * ctx.devicePxRatio := by
  have hf : nvg__getFontScale sqrtf (nvg__getState ctx) ≤ 4 := by
    unfold nvg__getFontScale nvg__minf
    split_ifs with hlt
    · exact le_of_lt hlt
    · exact le_refl _
  exact ⟨hf, mul_le_mul_of_nonneg_right hf h⟩

/-- C38, amended, at the frame with device pixel ratio 2 scaled by 4: the text
scale is at most 8. -/
theorem textScale_le_four_times_ratio_witness :
    0 ≤ scaledFrame.devicePxRatio ∧
      textScale sqrtfExact scaledFrame ≤ 4 * scaledFrame.devicePxRatio :=
  ⟨by decide!, (textScale_le_four_times_ratio sqrtfExact scaledFrame (by decide!)).2⟩

/-! ## Theorems: the miter vector -/

/-- C39: in one round of the loop of `nvg__calculateJoins`, when the directions of
the edges into and out of the point `p1` are unit vectors, `dmr2` is above
`0.000001` and `1 / dmr2` does not exceed 600, the miter vector `dm` stored on
the point has dot product 1 with both left normals, so the two vertices
`p1 + dm * w` and `p1 - dm * w` that `nvg__expandStroke` writes lie at signed
distance `w` and `-w` from the lines of both adjacent edges. -/
theorem calculateJoinStep_miter_vector (iw : ℚ) (lineJoin : Int) (miterLimit w : ℚ)
    (s : JoinVars) (h : s.p1 < s.points.length)
    (hu0 : dot2 (leftNormal (getPt s.points s.p0)) (leftNormal (getPt s.points s.p0)) = 1)
    (hu1 : dot2 (leftNormal (getPt s.points s.p1)) (leftNormal (getPt s.points s.p1)) = 1)
    (hbig : halfNormalSq (getPt s.points s.p0) (getPt s.points s.p1) > 1 / 1000000)
    (hcap : 1 / halfNormalSq (getPt s.points s.p0) (getPt s.points s.p1) ≤ 600) :
    dot2 ((getPt (calculateJoinStep iw lineJoin miterLimit s).points s.p1).dmx,
          (getPt (calculateJoinStep iw lineJoin miterLimit s).points s.p1).dmy)
        (leftNormal (getPt s.points s.p0)) = 1 ∧
      dot2 ((getPt (calculateJoinStep iw lineJoin miterLimit s).points s.p1).dmx,
          (getPt (calculateJoinStep iw lineJoin miterLimit s).points s.p1).dmy)
        (leftNormal (getPt s.points s.p1)) = 1 ∧
      (∀ n, n = leftNormal (getPt s.points s.p0) ∨ n = leftNormal (getPt s.points s.p1) →
        dot2 ((getPt (calculateJoinStep iw lineJoin miterLimit s).points s.p1).x +
              (getPt (calculateJoinStep iw lineJoin miterLimit s).points s.p1).dmx * w -
                (getPt s.points s.p1).x,
            (getPt (calculateJoinStep iw lineJoin miterLimit s).points s.p1).y +
              (getPt (calculateJoinStep iw lineJoin miterLimit s).points s.p1).dmy * w -
                (getPt s.points s.p1).y) n = w ∧
          dot2 ((getPt (calculateJoinStep iw lineJoin miterLimit s).points s.p1).x -
              (getPt (calculateJoinStep iw lineJoin miterLimit s).points s.p1).dmx * w -
                (getPt s.points s.p1).x,
            (getPt (calculateJoinStep iw lineJoin miterLimit s).points s.p1).y -
              (getPt (calculateJoinStep iw lineJoin miterLimit s).points s.p1).dmy * w -
                (getPt s.points s.p1).y) n = -w) := by
  obtain ⟨R, hpts, hx, hy, hdmx, hdmy⟩ : ∃ R : NVGpoint,
      (calculateJoinStep iw lineJoin miterLimit s).points = s.points.set s.p1 R ∧
        R.x = (getPt s.points s.p1).x ∧ R.y = (getPt s.points s.p1).y ∧
        R.dmx =
          (if halfNormalSq (getPt s.points s.p0) (getPt s.points s.p1) > 1 / 1000000 then
            ((leftNormal (getPt s.points s.p0)).1 + (leftNormal (getPt s.points s.p1)).1) * (1 / 2) *
              (if 1 / halfNormalSq (getPt s.points s.p0) (getPt s.points s.p1) > 600 then 600
                else 1 / halfNormalSq (getPt s.points s.p0) (getPt s.points s.p1))
          else ((leftNormal (getPt s.points s.p0)).1 + (leftNormal (getPt s.points s.p1)).1) * (1 / 2)) ∧
        R.dmy =
          (if halfNormalSq (getPt s.points s.p0) (getPt s.points s.p1) > 1 / 1000000 then
            ((leftNormal (getPt s.points s.p0)).2 + (leftNormal (getPt s.points s.p1)).2) * (1 / 2) *
              (if 1 / halfNormalSq (getPt s.points s.p0) (getPt s.points s.p1) > 600 then 600
                else 1 / halfNormalSq (getPt s.points s.p0) (getPt s.points s.p1))
          else ((leftNormal (getPt s.points s.p0)).2 + (leftNormal (getPt s.points s.p1)).2) * (1 / 2)) :=
    ⟨_, rfl, rfl, rfl, rfl, rfl⟩
  rw [hpts, getPt_set _ _ _ _ h, if_pos rfl, hx, hy, hdmx, hdmy]
  simp only [if_pos hbig, if_neg (not_lt.mpr hcap)]
  have hne : halfNormalSq (getPt s.points s.p0) (getPt s.points s.p1) ≠ 0 := by
    intro h0
    rw [h0] at hbig
    exact absurd hbig (by norm_num)
  generalize getPt s.points s.p0 = p0 at hu0 hu1 hbig hcap hne ⊢
  generalize getPt s.points s.p1 = p1 at hu0 hu1 hbig hcap hne ⊢
  simp only [halfNormalSq, dot2, leftNormal] at hu0 hu1 hne ⊢
  have key0 : ((p0.dy + p1.dy) * (1 / 2)) * p0.dy + ((-p0.dx + -p1.dx) * (1 / 2)) * (-p0.dx) =
      (p0.dy + p1.dy) * (1 / 2) * ((p0.dy + p1.dy) * (1 / 2)) +
        (-p0.dx + -p1.dx) * (1 / 2) * ((-p0.dx + -p1.dx) * (1 / 2)) := by
    linear_combination (1 / 4 : ℚ) * hu0 - (1 / 4 : ℚ) * hu1
  have key1 : ((p0.dy + p1.dy) * (1 / 2)) * p1.dy + ((-p0.dx + -p1.dx) * (1 / 2)) * (-p1.dx) =
      (p0.dy + p1.dy) * (1 / 2) * ((p0.dy + p1.dy) * (1 / 2)) +
        (-p0.dx + -p1.dx) * (1 / 2) * ((-p0.dx + -p1.dx) * (1 / 2)) := by
    linear_combination (1 / 4 : ℚ) * hu1 - (1 / 4 : ℚ) * hu0
  generalize hD : (p0.dy + p1.dy) * (1 / 2) * ((p0.dy + p1.dy) * (1 / 2)) +
      (-p0.dx + -p1.dx) * (1 / 2) * ((-p0.dx + -p1.dx) * (1 / 2)) = D at key0 key1 hne ⊢
  have hD1 : D * (1 / D) = 1 := by field_simp
  have e0 : (p0.dy + p1.dy) * (1 / 2) * (1 / D) * p0.dy +
      (-p0.dx + -p1.dx) * (1 / 2) * (1 / D) * -p0.dx = 1 := by
    linear_combination (1 / D) * key0 + hD1
  have e1 : (p0.dy + p1.dy) * (1 / 2) * (1 / D) * p1.dy +
      (-p0.dx + -p1.dx) * (1 / 2) * (1 / D) * -p1.dx = 1 := by
    linear_combination (1 / D) * key1 + hD1
  refine ⟨e0, e1, ?_⟩
  intro n hn
  rcases hn with hn | hn
  · subst hn
    constructor
    · linear_combination w * e0
    · linear_combination (-w) * e0
  · subst hn
    constructor
    · linear_combination w * e1
    · linear_combination (-w) * e1

/-- C39, at the corner between an edge along `(1, 0)` and an edge along `(0, 1)`:
`dmr2 = 1/2`, and the stored miter vector `(1, -1)` has dot product 1 with both
left normals. -/
theorem calculateJoinStep_miter_vector_witness :
    dot2 ((getPt (calculateJoinStep 1 NVG_MITER 10 ⟨cornerPoints, 0, 1, 0, 0⟩).points 1).dmx,
        (getPt (calculateJoinStep 1 NVG_MITER 10 ⟨cornerPoints, 0, 1, 0, 0⟩).points 1).dmy)
      (leftNormal (getPt cornerPoints 0)) = 1 :=
  (calculateJoinStep_miter_vector 1 NVG_MITER 10 1 ⟨cornerPoints, 0, 1, 0, 0⟩ (by decide)
    (by decide!) (by decide!) (by decide!) (by decide!)).1

/-! ## Theorems: the small sort of the inflection parameters -/

/-- C40, evaluated at a failing input. On the three values 3, 2, 1 the function
`nvg__smallsort` runs its inner pass once (the flag `bSwapped` is cleared at the
start of the round and never set again, so the outer loop stops) and leaves
2, 1, 3: a permutation of the input that is not in ascending order. -/
theorem smallsort_leaves_3_2_1_unsorted :
    nvg__smallsort [3, 2, 1] = [2, 1, 3] ∧
      (nvg__smallsort [3, 2, 1]).Perm [3, 2, 1] ∧
      (nvg__smallsort [3, 2, 1]).getD 0 0 > (nvg__smallsort [3, 2, 1]).getD 1 0 := by
  have h : nvg__smallsort [3, 2, 1] = [2, 1, 3] := by decide!
  rw [h]
  refine ⟨rfl, ?_, by decide!⟩
  exact (((List.Perm.swap (3 : ℚ) 1 []).cons 2).trans (List.Perm.swap (3 : ℚ) 2 [1]))

/-! ## Theorems: operations that do not round -/

theorem noRounding_append (fl : ℚ → ℚ) (l1 l2 : List ℚ) :
    NoRounding fl (l1 ++ l2) ↔ NoRounding fl l1 ∧ NoRounding fl l2 := by
  unfold NoRounding
  constructor
  · intro h
    exact ⟨fun v hv => h v (List.mem_append_left _ hv), fun v hv => h v (List.mem_append_right _ hv)⟩
  · intro h v hv
    rcases List.mem_append.mp hv with h1 | h2
    · exact h.1 v h1
    · exact h.2 v h2

/-- The rounding to a binary floating-point format commutes with the negation. -/
theorem roundBinary_neg (p : Nat) (emin : Int) (q : ℚ) :
    roundBinary p emin (-q) = -roundBinary p emin q := by
  unfold roundBinary
  rcases lt_trichotomy q 0 with h | h | h
  · rw [if_neg (by linarith : ¬ -q = 0), if_neg (by linarith : ¬ -q < 0),
      if_neg (by linarith : ¬ q = 0), if_pos h, neg_neg]
  · rw [h]
    simp
  · rw [if_neg (by linarith : ¬ -q = 0), if_pos (by linarith : -q < 0),
      if_neg (by linarith : ¬ q = 0), if_neg (by linarith : ¬ q < 0), neg_neg]

theorem f32_neg (a : ℚ) : f32 (-a) = -f32 a := roundBinary_neg 24 (-126) a

/-! ## Theorems: splitting a cubic, with rounding -/

/-- Without rounding in its operations, the rounded `nvgTransformMultiply` is the
exact one. -/
theorem transformMultiply_fl_eq (fl : ℚ → ℚ) (t s : Xform)
    (h : NoRounding fl (transformMultiplyOps t s)) :
    nvgTransformMultiply_fl fl t s = nvgTransformMultiply t s := by
  simp only [NoRounding, transformMultiplyOps, List.mem_cons, List.mem_singleton,
    forall_eq_or_imp, forall_eq, List.not_mem_nil, false_implies, implies_true, and_true] at h
  obtain ⟨a1, a2, a3, a4, a5, a6, a7, a8, a9, a10, a11, a12, a13, a14, a15, a16, a17, a18, a19,
    a20⟩ := h
  simp only [nvgTransformMultiply_fl, nvgTransformMultiply, a1, a2, a3, a4, a5, a6, a7, a8, a9,
    a10, a11, a12, a13, a14, a15, a16, a17, a18, a19, a20]

/-- Without rounding in its operations, the rounded `nvgTransformPoint` is the
exact one. -/
theorem transformPoint_fl_eq (fl : ℚ → ℚ) (t : Xform) (sx sy : ℚ)
    (h : NoRounding fl (transformPointOps t sx sy)) :
    nvgTransformPoint_fl fl t sx sy = nvgTransformPoint t sx sy := by
  simp only [NoRounding, transformPointOps, List.mem_cons, List.mem_singleton,
    forall_eq_or_imp, forall_eq, List.not_mem_nil, false_implies, implies_true, and_true] at h
  obtain ⟨a1, a2, a3, a4, a5, a6, a7, a8⟩ := h
  simp only [nvgTransformPoint_fl, nvgTransformPoint, a1, a2, a3, a4, a5, a6, a7, a8]

/-- C12, the claim as stated fails: in `float` arithmetic, with the current
transform `T = (0.3f, 0, 0, 0.3f, 0.1f, 0.1f)`, after
`nvgTransform(ctx, 0.7f, 0, 0, 0.7f, 0.2f, 0.2f)` the point `p = (0.9f, 0.9f)` is
mapped by the new current transform to `x = 365953 / 2^20 = 0.34899998`, while
`T(M(p))` has `x = 11710497 / 2^25 = 0.34900001`. -/
theorem transform_composition_rounds_in_float :
    (nvg__getState
        (nvgTransform_fl f32 (nvgCreateInternal 1) xformT.t0 0 0 xformT.t3 xformT.t4
          xformT.t5)).xform = xformT ∧
      (nvgTransformPoint_fl f32
          (nvg__getState
            (nvgTransform_fl f32
              (nvgTransform_fl f32 (nvgCreateInternal 1) xformT.t0 0 0 xformT.t3 xformT.t4
                xformT.t5)
              xformM.t0 0 0 xformM.t3 xformM.t4 xformM.t5)).xform
          (f32 (9 / 10)) (f32 (9 / 10))).1 = 365953 / 1048576 ∧
      (nvgTransformPoint_fl f32 xformT
          (nvgTransformPoint_fl f32 xformM (f32 (9 / 10)) (f32 (9 / 10))).1
          (nvgTransformPoint_fl f32 xformM (f32 (9 / 10)) (f32 (9 / 10))).2).1 =
        11710497 / 33554432 := by
  refine ⟨by decide!, by decide!, by decide!⟩

/-- C12, amended: for every rounding `fl`, when none of the operations involved
rounds (those of the product of the two matrices and of the three applications to
the point `p`), after `nvgTransform` with the matrix `M` the current transform
maps `p` to `T(M(p))`, where `T` is the transform that was current before;
`nvgTransformMultiply(M, T)` and `nvgTransformPremultiply(T, M)` leave that map;
and `nvgTranslate`, `nvgScale`, `nvgRotate`, `nvgSkewX` and `nvgSkewY` are
`nvgTransform` with the matrix each of them builds. -/
theorem transform_fl_applies_new_matrix_first (fl : ℚ → ℚ) (ctx : NVGcontext) (m : Xform)
    (px py : ℚ) (h : NoRounding fl (composeOps (nvg__getState ctx).xform m px py)) :
    nvgTransformPoint_fl fl
          (nvg__getState (nvgTransform_fl fl ctx m.t0 m.t1 m.t2 m.t3 m.t4 m.t5)).xform px py =
        nvgTransformPoint_fl fl (nvg__getState ctx).xform (nvgTransformPoint_fl fl m px py).1
          (nvgTransformPoint_fl fl m px py).2 ∧
      nvgTransformPoint_fl fl (nvgTransformMultiply_fl fl m (nvg__getState ctx).xform) px py =
        nvgTransformPoint_fl fl (nvg__getState ctx).xform (nvgTransformPoint_fl fl m px py).1
          (nvgTransformPoint_fl fl m px py).2 ∧
      nvgTransformPoint_fl fl (nvgTransformPremultiply_fl fl (nvg__getState ctx).xform m) px py =
        nvgTransformPoint_fl fl (nvg__getState ctx).xform (nvgTransformPoint_fl fl m px py).1
          (nvgTransformPoint_fl fl m px py).2 ∧
      (∀ x y : ℚ, nvgTranslate_fl fl ctx x y = nvgTransform_fl fl ctx 1 0 0 1 x y) ∧
      (∀ x y : ℚ, nvgScale_fl fl ctx x y = nvgTransform_fl fl ctx x 0 0 y 0 0) ∧
      (∀ (cosf sinf : ℚ → ℚ) (a : ℚ),
        nvgRotate_fl fl cosf sinf ctx a =
          nvgTransform_fl fl ctx (cosf a) (sinf a) (-sinf a) (cosf a) 0 0) ∧
      (∀ (tanf : ℚ → ℚ) (a : ℚ),
        nvgSkewX_fl fl tanf ctx a = nvgTransform_fl fl ctx 1 0 (tanf a) 1 0 0) ∧
      ∀ (tanf : ℚ → ℚ) (a : ℚ),
        nvgSkewY_fl fl tanf ctx a = nvgTransform_fl fl ctx 1 (tanf a) 0 1 0 0 := by
  unfold composeOps at h
  simp only [noRounding_append] at h
  obtain ⟨⟨⟨h1, h2⟩, h3⟩, h4⟩ := h
  have key : nvgTransformPoint_fl fl (nvgTransformMultiply_fl fl m (nvg__getState ctx).xform)
      px py =
        nvgTransformPoint_fl fl (nvg__getState ctx).xform (nvgTransformPoint_fl fl m px py).1
          (nvgTransformPoint_fl fl m px py).2 := by
    rw [transformMultiply_fl_eq fl _ _ h1, transformPoint_fl_eq fl _ _ _ h2,
      transformPoint_fl_eq fl _ _ _ h3, transformPoint_fl_eq fl _ _ _ h4]
    exact transformMultiply_point m _ px py
  refine ⟨?_, key, key, fun _ _ => rfl, fun _ _ => rfl, fun _ _ _ => rfl, fun _ _ => rfl,
    fun _ _ => rfl⟩
  simp only [nvgTransform_fl, getState_setState]
  exact key

/-- C12, amended, in `float` arithmetic with the current transform
`(2, 0, 0, 2, 1, 1)`, the matrix `(3, 0, 0, 3, 4, 5)` and the point (1, 2), where no
operation rounds. -/
theorem transform_fl_applies_new_matrix_first_witness :
    nvgTransformPoint_fl f32
        (nvg__getState
          (nvgTransform_fl f32 (nvgTransform (nvgCreateInternal 1) 2 0 0 2 1 1) 3 0 0 3 4 5)).xform
        1 2 =
      nvgTransformPoint_fl f32 (nvg__getState (nvgTransform (nvgCreateInternal 1) 2 0 0 2 1 1)).xform
        (nvgTransformPoint_fl f32 ⟨3, 0, 0, 3, 4, 5⟩ 1 2).1
        (nvgTransformPoint_fl f32 ⟨3, 0, 0, 3, 4, 5⟩ 1 2).2 :=
  (transform_fl_applies_new_matrix_first f32 (nvgTransform (nvgCreateInternal 1) 2 0 0 2 1 1)
    ⟨3, 0, 0, 3, 4, 5⟩ 1 2 (by unfold NoRounding; decide!)).1

/-! ## Theorems: the inverse of a transform, with rounding -/

/-- Without rounding in its operations, the rounded `nvgTransformInverse` is the
exact one, for a determinant outside the interval. -/
theorem transformInverse_fl_eq (ff fd : ℚ → ℚ) (t : Xform)
    (hc : 0 < fd (1 / 1000000) ∧ fd (1 / 1000000) ≤ 1 / 1000000)
    (hdet : t.t0 * t.t3 - t.t2 * t.t1 ≤ -(1 / 1000000) ∨
      1 / 1000000 ≤ t.t0 * t.t3 - t.t2 * t.t1)
    (hd : NoRounding fd (transformInverseOps t))
    (hf : NoRounding ff
      [(transformInverseMatrix t).t0, (transformInverseMatrix t).t1,
        (transformInverseMatrix t).t2, (transformInverseMatrix t).t3,
        (transformInverseMatrix t).t4, (transformInverseMatrix t).t5]) :
    nvgTransformInverse_fl ff fd t = nvgTransformInverse t := by
  simp only [NoRounding, List.mem_cons, List.mem_singleton, forall_eq_or_imp, forall_eq,
    List.not_mem_nil, false_implies, implies_true, and_true] at hf
  obtain ⟨f0, f1, f2, f3, f4, f5⟩ := hf
  simp only [NoRounding, transformInverseOps, List.mem_cons, List.mem_singleton,
    forall_eq_or_imp, forall_eq, List.not_mem_nil, false_implies, implies_true,
    and_true] at hd
  obtain ⟨d1, d2, d3, d4, d5, d6, d7, d8, d9, d10, d11, d12, d13, d14, d15, d16⟩ := hd
  simp only [transformInverseMatrix] at d5 d6 d10 d11 d12 d16 f0 f1 f2 f3 f4 f5
  have h1 : ¬ (t.t0 * t.t3 - t.t2 * t.t1 > -fd (1 / 1000000) ∧
      t.t0 * t.t3 - t.t2 * t.t1 < fd (1 / 1000000)) := by
    rintro ⟨ha, hb⟩
    rcases hdet with h | h <;> linarith [hc.1, hc.2]
  have h2 : ¬ (t.t0 * t.t3 - t.t2 * t.t1 > -(1 / 1000000) ∧
      t.t0 * t.t3 - t.t2 * t.t1 < 1 / 1000000) := by
    rintro ⟨ha, hb⟩
    rcases hdet with h | h <;> linarith
  simp only [nvgTransformInverse_fl, nvgTransformInverse, d1, d2, d3, if_neg h1, if_neg h2, d4,
    d5, d6, d7, d8, d9, d10, d11, d12, d13, d14, d15, d16, f0, f1, f2, f3, f4, f5]

/-- Without rounding in its operations, the rounded `nvgScissor` is the exact
one. -/
theorem scissor_fl_eq (fl : ℚ → ℚ) (ctx : NVGcontext) (x y w h : ℚ)
    (hr : NoRounding fl (scissorOps (nvg__getState ctx).xform x y w h)) :
    nvgScissor_fl fl ctx x y w h = nvgScissor ctx x y w h := by
  unfold scissorOps at hr
  rw [noRounding_append] at hr
  obtain ⟨h0, hm⟩ := hr
  simp only [NoRounding, List.mem_cons, List.mem_singleton, forall_eq_or_imp, forall_eq,
    List.not_mem_nil, false_implies, implies_true, and_true] at h0
  obtain ⟨a1, a2, a3, a4⟩ := h0
  have e := transformMultiply_fl_eq fl _ _ hm
  simp only [nvgScissor_fl, nvgScissor, a1, a2, a3, a4, e]

/-- Without rounding in its operations, the rounded `nvg__isectRects` is the
exact one. -/
theorem isectRects_fl_eq (fl : ℚ → ℚ) (ax ay aw ah bx by_ bw bh : ℚ)
    (hr : NoRounding fl (isectRectsOps ax ay aw ah bx by_ bw bh)) :
    nvg__isectRects_fl fl ax ay aw ah bx by_ bw bh = nvg__isectRects ax ay aw ah bx by_ bw bh := by
  simp only [NoRounding, isectRectsOps, List.mem_cons, List.mem_singleton, forall_eq_or_imp,
    forall_eq, List.not_mem_nil, false_implies, implies_true, and_true] at hr
  obtain ⟨a1, a2, a3, a4, a5, a6⟩ := hr
  simp only [nvg__isectRects_fl, nvg__isectRects, a1, a2, a3, a4, a5, a6]

/-- Without rounding in its operations, the rounded `nvgIntersectScissor` on a
context that has a scissor is the exact one, for a determinant outside the
interval. -/
theorem intersectScissor_fl_eq (ff fd : ℚ → ℚ) (ctx : NVGcontext) (x y w h : ℚ)
    (hc : 0 < fd (1 / 1000000) ∧ fd (1 / 1000000) ≤ 1 / 1000000)
    (hsome : ¬ (nvg__getState ctx).scissor.extent0 < 0)
    (hdet : (nvg__getState ctx).xform.t0 * (nvg__getState ctx).xform.t3 -
          (nvg__getState ctx).xform.t2 * (nvg__getState ctx).xform.t1 ≤ -(1 / 1000000) ∨
      1 / 1000000 ≤ (nvg__getState ctx).xform.t0 * (nvg__getState ctx).xform.t3 -
          (nvg__getState ctx).xform.t2 * (nvg__getState ctx).xform.t1)
    (hd : NoRounding fd (transformInverseOps (nvg__getState ctx).xform))
    (hf : NoRounding ff (intersectScissorOps ctx x y w h)) :
    nvgIntersectScissor_fl ff fd ctx x y w h = nvgIntersectScissor ctx x y w h := by
  unfold intersectScissorOps at hf
  simp only [noRounding_append] at hf
  obtain ⟨⟨⟨⟨h1, h2⟩, h3⟩, h4⟩, h5⟩ := hf
  have einv := transformInverse_fl_eq ff fd _ hc hdet hd h1
  have hM : transformInverseMatrix (nvg__getState ctx).xform =
      (nvgTransformInverse (nvg__getState ctx).xform).2 := by
    have h2' : ¬ ((nvg__getState ctx).xform.t0 * (nvg__getState ctx).xform.t3 -
          (nvg__getState ctx).xform.t2 * (nvg__getState ctx).xform.t1 > -(1 / 1000000) ∧
        (nvg__getState ctx).xform.t0 * (nvg__getState ctx).xform.t3 -
          (nvg__getState ctx).xform.t2 * (nvg__getState ctx).xform.t1 < 1 / 1000000) := by
      rintro ⟨ha, hb⟩
      rcases hdet with h | h <;> linarith
    simp only [nvgTransformInverse, if_neg h2', transformInverseMatrix]
  rw [hM] at h2 h3
  have emul := transformMultiply_fl_eq ff _ _ h2
  simp only [NoRounding, List.mem_cons, List.mem_singleton, forall_eq_or_imp, forall_eq,
    List.not_mem_nil, false_implies, implies_true, and_true, scissorUserRect] at h3
  obtain ⟨b1, b2, b3, b4, b5, b6, b7, b8, b9, b10⟩ := h3
  have eis := isectRects_fl_eq ff _ _ _ _ x y w h h4
  have esc := scissor_fl_eq ff ctx _ _ _ _ h5
  simp only [scissorUserRect] at eis esc
  simp only [nvgIntersectScissor_fl, nvgIntersectScissor, if_neg hsome, einv, emul, b1, b2, b3,
    b4, b5, b6, b7, b8, b9, b10, eis, esc]

/-- C19, amended, in rounded arithmetic (`ff` rounds to `float`, `fd` to
`double`, with the constant 1e-6 of `nvgTransformInverse` rounded to a positive
value not above 1e-6): for every current transform that is a pure translate and
scale (`t1 = t2 = 0`) with determinant `t0 * t3` outside the open interval
(-1e-6, 1e-6), and all rectangles `a` and `b` that meet (in each axis the larger
of the two minima is at most the smaller of the two maxima), starting from a
state with no scissor, when no operation of the two calls rounds,
`nvgIntersectScissor(a)` followed by `nvgIntersectScissor(b)` leaves a scissor
whose rectangle in that user space is the intersection of `a` and `b`, and so is
contained in both. -/
theorem intersectScissor_fl_twice (ff fd : ℚ → ℚ) (ctx : NVGcontext)
    (ax ay aw ah bx by_ bw bh : ℚ)
    (hc : 0 < fd (1 / 1000000) ∧ fd (1 / 1000000) ≤ 1 / 1000000)
    (h1 : (nvg__getState ctx).xform.t1 = 0) (h2 : (nvg__getState ctx).xform.t2 = 0)
    (hdet : (nvg__getState ctx).xform.t0 * (nvg__getState ctx).xform.t3 ≤ -(1 / 1000000) ∨
      1 / 1000000 ≤ (nvg__getState ctx).xform.t0 * (nvg__getState ctx).xform.t3)
    (hnone : (nvg__getState ctx).scissor.extent0 < 0)
    (hx : nvg__maxf ax bx ≤ nvg__minf (ax + aw) (bx + bw))
    (hy : nvg__maxf ay by_ ≤ nvg__minf (ay + ah) (by_ + bh))
    (hd : NoRounding fd (transformInverseOps (nvg__getState ctx).xform))
    (hfa : NoRounding ff (scissorOps (nvg__getState ctx).xform ax ay aw ah))
    (hfb : NoRounding ff (intersectScissorOps (nvgScissor ctx ax ay aw ah) bx by_ bw bh)) :
    scissorUserRect
          (nvgIntersectScissor_fl ff fd (nvgIntersectScissor_fl ff fd ctx ax ay aw ah) bx by_ bw
            bh) =
        (nvg__maxf ax bx, nvg__maxf ay by_,
          nvg__minf (ax + aw) (bx + bw) - nvg__maxf ax bx,
          nvg__minf (ay + ah) (by_ + bh) - nvg__maxf ay by_) ∧
      RectInside
        (scissorUserRect
          (nvgIntersectScissor_fl ff fd (nvgIntersectScissor_fl ff fd ctx ax ay aw ah) bx by_ bw
            bh))
        (ax, ay, aw, ah) ∧
      RectInside
        (scissorUserRect
          (nvgIntersectScissor_fl ff fd (nvgIntersectScissor_fl ff fd ctx ax ay aw ah) bx by_ bw
            bh))
        (bx, by_, bw, bh) := by
  have haw : 0 ≤ aw := by
    have := hx
    unfold nvg__maxf nvg__minf at this
    split_ifs at this <;> linarith
  have hs := getState_scissor ctx ax ay aw ah
  have hsome : ¬ (nvg__getState (nvgScissor ctx ax ay aw ah)).scissor.extent0 < 0 := by
    rw [hs.2, maxf_zero_of_nonneg aw haw]
    linarith
  have e1 : nvgIntersectScissor_fl ff fd ctx ax ay aw ah = nvgIntersectScissor ctx ax ay aw ah := by
    rw [intersectScissor_of_none ctx ax ay aw ah hnone, ← scissor_fl_eq ff ctx ax ay aw ah hfa]
    simp only [nvgIntersectScissor_fl, if_pos hnone]
  have hdet1 : (nvg__getState (nvgScissor ctx ax ay aw ah)).xform.t0 *
          (nvg__getState (nvgScissor ctx ax ay aw ah)).xform.t3 -
        (nvg__getState (nvgScissor ctx ax ay aw ah)).xform.t2 *
          (nvg__getState (nvgScissor ctx ax ay aw ah)).xform.t1 ≤ -(1 / 1000000) ∨
      1 / 1000000 ≤ (nvg__getState (nvgScissor ctx ax ay aw ah)).xform.t0 *
          (nvg__getState (nvgScissor ctx ax ay aw ah)).xform.t3 -
        (nvg__getState (nvgScissor ctx ax ay aw ah)).xform.t2 *
          (nvg__getState (nvgScissor ctx ax ay aw ah)).xform.t1 := by
    rw [hs.1, h1, h2]
    simpa using hdet
  have hd1 : NoRounding fd (transformInverseOps (nvg__getState (nvgScissor ctx ax ay aw ah)).xform) := by
    rw [hs.1]
    exact hd
  have e2 : nvgIntersectScissor_fl ff fd (nvgIntersectScissor ctx ax ay aw ah) bx by_ bw bh =
      nvgIntersectScissor (nvgIntersectScissor ctx ax ay aw ah) bx by_ bw bh := by
    rw [intersectScissor_of_none ctx ax ay aw ah hnone]
    exact intersectScissor_fl_eq ff fd _ bx by_ bw bh hc hsome hdet1 hd1 hfb
  rw [e1, e2]
  exact intersectScissor_exact ctx ax ay aw ah bx by_ bw bh h1 h2 hdet hnone hx hy

/-- C19, amended, in `float` and `double` arithmetic under the identity transform
of a fresh context, where no operation rounds: the rectangles (0, 0, 10, 10) and
(5, 5, 10, 10) leave the scissor rectangle (5, 5, 5, 5). -/
theorem intersectScissor_fl_twice_witness :
    scissorUserRect
        (nvgIntersectScissor_fl f32 f64
          (nvgIntersectScissor_fl f32 f64 (nvgCreateInternal 1) 0 0 10 10) 5 5 10 10) =
      (nvg__maxf 0 5, nvg__maxf 0 5, nvg__minf (0 + 10) (5 + 10) - nvg__maxf 0 5,
        nvg__minf (0 + 10) (5 + 10) - nvg__maxf 0 5) :=
  (intersectScissor_fl_twice f32 f64 (nvgCreateInternal 1) 0 0 10 10 5 5 10 10 (by decide!)
    (by decide!) (by decide!) (by decide!) (by decide!) (by decide!) (by decide!)
    (by unfold NoRounding; decide!) (by unfold NoRounding; decide!)
    (by unfold NoRounding; decide!)).1

theorem addPoint_paths_length_fl (fl : ℚ → ℚ) (d : ℚ) (c : NVGpathCache) (x y : ℚ) (f : Nat) :
    (nvg__addPoint_fl fl d c x y f).paths.length = c.paths.length := by
  unfold nvg__addPoint_fl
  split
  · rfl
  · split
    · split_ifs
      · rfl
      · simp [setLastPath]
    · simp [setLastPath]

theorem tesselateBezier_paths_length_fl (fl : ℚ → ℚ) (tessTol distTol : ℚ) (levels : Nat) :
    ∀ (c : NVGpathCache) (x1 y1 x2 y2 x3 y3 x4 y4 : ℚ) (type : Nat),
      (nvg__tesselateBezier_fl fl tessTol distTol levels c x1 y1 x2 y2 x3 y3 x4 y4 type).paths.length =
        c.paths.length := by
  induction levels with
  | zero => intros; rfl
  | succ n ih =>
    intro c x1 y1 x2 y2 x3 y3 x4 y4 type
    simp only [nvg__tesselateBezier_fl]
    split_ifs
    · exact addPoint_paths_length_fl fl _ _ _ _ _
    · rw [ih, ih]

theorem flattenCommand_paths_length_fl (fl : ℚ → ℚ) (tessTol distTol : ℚ) (commands : List ℚ) (i : Nat)
    (c : NVGpathCache) :
    c.paths.length ≤ (flattenCommand_fl fl tessTol distTol commands i c).1.paths.length := by
  unfold flattenCommand_fl
  simp only
  split_ifs
  · rw [addPoint_paths_length_fl]
    simp [nvg__addPath]
  · rw [addPoint_paths_length_fl]
  · split
    · rw [tesselateBezier_paths_length_fl]
    · exact le_refl _
  · rw [closePath_paths_length]
  · rw [pathWinding_paths_length]
  · exact le_refl _

theorem flattenCommandsLoop_paths_length_fl (fl : ℚ → ℚ) (tessTol distTol : ℚ) (commands : List ℚ) (fuel : Nat) :
    ∀ (i : Nat) (c : NVGpathCache),
      c.paths.length ≤ (flattenCommandsLoop_fl fl tessTol distTol commands fuel i c).paths.length := by
  induction fuel with
  | zero => intros; exact le_refl _
  | succ n ih =>
    intro i c
    simp only [flattenCommandsLoop_fl]
    split_ifs
    · exact le_trans (flattenCommand_paths_length_fl fl tessTol distTol commands i c) (ih _ _)
    · exact le_refl _

theorem addPoint_of_no_path_fl (fl : ℚ → ℚ) (d : ℚ) (c : NVGpathCache) (x y : ℚ) (f : Nat) (h : c.paths = []) :
    nvg__addPoint_fl fl d c x y f = c := by
  simp [nvg__addPoint_fl, nvg__lastPath, h]

theorem tesselateBezier_of_no_path_fl (fl : ℚ → ℚ) (tessTol distTol : ℚ) (levels : Nat) :
    ∀ (c : NVGpathCache) (x1 y1 x2 y2 x3 y3 x4 y4 : ℚ) (type : Nat), c.paths = [] →
      nvg__tesselateBezier_fl fl tessTol distTol levels c x1 y1 x2 y2 x3 y3 x4 y4 type = c := by
  induction levels with
  | zero => intros; rfl
  | succ n ih =>
    intro c x1 y1 x2 y2 x3 y3 x4 y4 type h
    simp only [nvg__tesselateBezier_fl]
    split_ifs
    · exact addPoint_of_no_path_fl fl _ _ _ _ _ h
    · rw [ih c _ _ _ _ _ _ _ _ _ h, ih c _ _ _ _ _ _ _ _ _ h]

/-- A command other than `NVG_MOVETO` leaves a cache without paths as it is; the
index of the next command does not depend on the cache. -/
theorem flattenCommand_of_no_path_fl (fl : ℚ → ℚ) (tessTol distTol : ℚ) (commands : List ℚ) (i : Nat)
    (c c' : NVGpathCache) (h' : c'.paths = [])
    (hr : (flattenCommand_fl fl tessTol distTol commands i c).1.paths = []) :
    flattenCommand_fl fl tessTol distTol commands i c' =
      (c', (flattenCommand_fl fl tessTol distTol commands i c).2) := by
  unfold flattenCommand_fl at hr ⊢
  simp only at hr ⊢
  split_ifs at hr ⊢
  · exfalso
    have := addPoint_paths_length_fl fl distTol (nvg__addPath c) (commands.getD (i + 1) 0)
      (commands.getD (i + 2) 0) NVG_PT_CORNER
    rw [hr] at this
    simp [nvg__addPath] at this
  · rw [addPoint_of_no_path_fl fl _ _ _ _ _ h']
  · split <;> split <;> first
      | rfl
      | (rw [tesselateBezier_of_no_path_fl fl _ _ _ _ _ _ _ _ _ _ _ _ _ h'])
  · simp [nvg__closePath, nvg__lastPath, h']
  · simp [nvg__pathWinding, nvg__lastPath, h']
  · rfl

theorem flattenCommandsLoop_of_no_path_fl (fl : ℚ → ℚ) (tessTol distTol : ℚ) (commands : List ℚ) (fuel : Nat) :
    ∀ (i : Nat) (c c' : NVGpathCache), c.paths = [] → c'.paths = [] →
      (flattenCommandsLoop_fl fl tessTol distTol commands fuel i c).paths = [] →
      flattenCommandsLoop_fl fl tessTol distTol commands fuel i c' = c' := by
  induction fuel with
  | zero => intros; rfl
  | succ n ih =>
    intro i c c' h h' hr
    simp only [flattenCommandsLoop_fl] at hr ⊢
    split_ifs at hr ⊢ with hi
    · have hstep : (flattenCommand_fl fl tessTol distTol commands i c).1.paths = [] := by
        have := flattenCommandsLoop_paths_length_fl fl tessTol distTol commands n
          (flattenCommand_fl fl tessTol distTol commands i c).2
          (flattenCommand_fl fl tessTol distTol commands i c).1
        rw [hr] at this
        exact List.length_eq_zero.mp (Nat.le_zero.mp this)
      rw [flattenCommand_of_no_path_fl fl tessTol distTol commands i c c' h' hstep]
      have hc := flattenCommand_of_no_path_fl fl tessTol distTol commands i c c h hstep
      rw [hc] at hr
      exact ih _ c c' h h' hr
    · rfl

theorem flattenPath_paths_length_fl (fl : ℚ → ℚ) (sqrtf : ℚ → ℚ) (distTol : ℚ) (c : NVGpathCache) (j : Nat) :
    (flattenPath_fl fl sqrtf distTol c j).paths.length = c.paths.length := by
  unfold flattenPath_fl
  split
  · rfl
  · simp

theorem flattenPath_foldl_paths_length_fl (fl : ℚ → ℚ) (sqrtf : ℚ → ℚ) (distTol : ℚ) (l : List Nat) :
    ∀ c : NVGpathCache, (l.foldl (flattenPath_fl fl sqrtf distTol) c).paths.length = c.paths.length := by
  induction l with
  | nil => intro c; rfl
  | cons j l ih =>
    intro c
    rw [List.foldl_cons, ih, flattenPath_paths_length_fl]

theorem flattenPaths_of_no_path_fl (fl : ℚ → ℚ) (sqrtf : ℚ → ℚ) (commands : List ℚ) (tessTol distTol : ℚ)
    (c : NVGpathCache) (h : c.paths = []) :
    nvg__flattenPaths_fl fl sqrtf commands tessTol distTol c =
      (List.range (flattenCommandsLoop_fl fl tessTol distTol commands commands.length 0 c).paths.length).foldl
        (flattenPath_fl fl sqrtf distTol)
        { flattenCommandsLoop_fl fl tessTol distTol commands commands.length 0 c with
          bounds := ⟨1000000, 1000000, -1000000, -1000000⟩ } := by
  have h0 : ¬ c.npaths > 0 := by simp [NVGpathCache.npaths, h]
  simp only [nvg__flattenPaths_fl, if_neg h0]

theorem flattenPathClose_fields_fl (fl : ℚ → ℚ) (distTol : ℚ) (points : List NVGpoint) (path : NVGpath) :
    (flattenPathClose_fl fl distTol points path).first = path.first ∧
      (flattenPathClose_fl fl distTol points path).count ≤ path.count ∧
      (flattenPathClose_fl fl distTol points path).winding = path.winding := by
  unfold flattenPathClose_fl
  simp only
  split_ifs
  · exact ⟨rfl, Nat.sub_le _ _, rfl⟩
  · exact ⟨rfl, le_refl _, rfl⟩

theorem flattenDirStep_xy_fl (fl : ℚ → ℚ) (sqrtf : ℚ → ℚ) (s : FlattenDirVars) :
    (flattenDirStep_fl fl sqrtf s).points.length = s.points.length ∧
      ∀ k, (getPt (flattenDirStep_fl fl sqrtf s).points k).x = (getPt s.points k).x ∧
        (getPt (flattenDirStep_fl fl sqrtf s).points k).y = (getPt s.points k).y := by
  unfold flattenDirStep_fl
  simp only [List.length_set, true_and]
  intro k
  by_cases hp : s.p0 < s.points.length
  · rw [getPt_set _ _ _ _ hp]
    by_cases hk : k = s.p0
    · rw [if_pos hk, hk]
      exact ⟨rfl, rfl⟩
    · rw [if_neg hk]
      exact ⟨rfl, rfl⟩
  · rw [getPt_set_of_le _ _ _ _ (by omega)]
    exact ⟨rfl, rfl⟩

theorem flattenDirStep_iterate_xy_fl (fl : ℚ → ℚ) (sqrtf : ℚ → ℚ) (n : Nat) :
    ∀ s : FlattenDirVars,
      (Nat.iterate (flattenDirStep_fl fl sqrtf) n s).points.length = s.points.length ∧
        ∀ k, (getPt (Nat.iterate (flattenDirStep_fl fl sqrtf) n s).points k).x = (getPt s.points k).x ∧
          (getPt (Nat.iterate (flattenDirStep_fl fl sqrtf) n s).points k).y = (getPt s.points k).y := by
  induction n with
  | zero => intro s; exact ⟨rfl, fun k => ⟨rfl, rfl⟩⟩
  | succ m ih =>
    intro s
    rw [Function.iterate_succ_apply]
    obtain ⟨h1, h2⟩ := ih (flattenDirStep_fl fl sqrtf s)
    obtain ⟨h3, h4⟩ := flattenDirStep_xy_fl fl sqrtf s
    refine ⟨by rw [h1, h3], fun k => ?_⟩
    rw [(h2 k).1, (h2 k).2]
    exact h4 k

theorem addPoint_tiled_fl (fl : ℚ → ℚ) (d : ℚ) (c : NVGpathCache) (x y : ℚ) (f : Nat)
    (H : PathsTiled c.paths c.points.length) :
    PathsTiled (nvg__addPoint_fl fl d c x y f).paths (nvg__addPoint_fl fl d c x y f).points.length := by
  unfold nvg__addPoint_fl nvg__lastPath
  cases hl : c.paths.getLast? with
  | none => exact H
  | some path =>
    have hb : path.first + path.count ≤ c.points.length := by
      rw [List.getLast?_eq_getElem?] at hl
      exact H.2 _ path hl
    have grow : PathsTiled
        (setLastPath
          { c with points := c.points ++ [{ zeroPoint with x := x, y := y, flags := f % 256 }] }
          { path with count := path.count + 1 }).paths
        (setLastPath
          { c with points := c.points ++ [{ zeroPoint with x := x, y := y, flags := f % 256 }] }
          { path with count := path.count + 1 }).points.length := by
      simp only [setLastPath, List.length_append, List.length_singleton]
      exact tiled_set_last c.paths c.points.length (c.points.length + 1) path _ H hl rfl
        (by omega) (by simp only; omega)
    simp only
    split
    · split_ifs
      · simp only [List.length_set]
        exact H
      · exact grow
    · exact grow

theorem tesselateBezier_tiled_fl (fl : ℚ → ℚ) (tessTol distTol : ℚ) (levels : Nat) :
    ∀ (c : NVGpathCache) (x1 y1 x2 y2 x3 y3 x4 y4 : ℚ) (type : Nat),
      PathsTiled c.paths c.points.length →
      PathsTiled (nvg__tesselateBezier_fl fl tessTol distTol levels c x1 y1 x2 y2 x3 y3 x4 y4 type).paths
        (nvg__tesselateBezier_fl fl tessTol distTol levels c x1 y1 x2 y2 x3 y3 x4 y4
          type).points.length := by
  induction levels with
  | zero => intro c _ _ _ _ _ _ _ _ _ H; exact H
  | succ n ih =>
    intro c x1 y1 x2 y2 x3 y3 x4 y4 type H
    simp only [nvg__tesselateBezier_fl]
    split_ifs
    · exact addPoint_tiled_fl fl _ _ _ _ _ H
    · exact ih _ _ _ _ _ _ _ _ _ _ (ih _ _ _ _ _ _ _ _ _ _ H)

theorem flattenCommand_tiled_fl (fl : ℚ → ℚ) (tessTol distTol : ℚ) (commands : List ℚ) (i : Nat)
    (c : NVGpathCache) (H : PathsTiled c.paths c.points.length) :
    PathsTiled (flattenCommand_fl fl tessTol distTol commands i c).1.paths
      (flattenCommand_fl fl tessTol distTol commands i c).1.points.length := by
  unfold flattenCommand_fl
  simp only
  split_ifs
  · exact addPoint_tiled_fl fl _ _ _ _ _ (addPath_tiled c H)
  · exact addPoint_tiled_fl fl _ _ _ _ _ H
  · split
    · exact tesselateBezier_tiled_fl fl _ _ _ _ _ _ _ _ _ _ _ _ _ H
    · exact H
  · exact closePath_tiled c H
  · exact pathWinding_tiled c _ H
  · exact H

theorem flattenCommandsLoop_tiled_fl (fl : ℚ → ℚ) (tessTol distTol : ℚ) (commands : List ℚ) (fuel : Nat) :
    ∀ (i : Nat) (c : NVGpathCache), PathsTiled c.paths c.points.length →
      PathsTiled (flattenCommandsLoop_fl fl tessTol distTol commands fuel i c).paths
        (flattenCommandsLoop_fl fl tessTol distTol commands fuel i c).points.length := by
  induction fuel with
  | zero => intro _ c H; exact H
  | succ n ih =>
    intro i c H
    simp only [flattenCommandsLoop_fl]
    split_ifs
    · exact ih _ _ (flattenCommand_tiled_fl fl tessTol distTol commands i c H)
    · exact H

theorem addPoint_counts_fl (fl : ℚ → ℚ) (d : ℚ) (c : NVGpathCache) (x y : ℚ) (f : Nat)
    (H : ∀ (i : Nat) (p : NVGpath), i + 1 < c.paths.length → c.paths[i]? = some p → 1 ≤ p.count) :
    ∀ (i : Nat) (p : NVGpath), (nvg__addPoint_fl fl d c x y f).paths[i]? = some p → 1 ≤ p.count := by
  unfold nvg__addPoint_fl nvg__lastPath
  cases hl : c.paths.getLast? with
  | none =>
    intro i p hp
    have hnil : c.paths = [] := List.getLast?_eq_none_iff.mp hl
    simp only at hp
    rw [hnil] at hp
    simp at hp
  | some path =>
    rw [List.getLast?_eq_getElem?] at hl
    have hlen : c.paths.length - 1 < c.paths.length := (List.getElem?_eq_some_iff.mp hl).1
    have grow : ∀ (i : Nat) (p : NVGpath),
        (setLastPath
          { c with points := c.points ++ [{ zeroPoint with x := x, y := y, flags := f % 256 }] }
          { path with count := path.count + 1 }).paths[i]? = some p → 1 ≤ p.count := by
      intro i p hp
      simp only [setLastPath, List.getElem?_set] at hp
      by_cases hi : c.paths.length - 1 = i
      · rw [if_pos hi, if_pos hlen] at hp
        cases hp
        exact Nat.le_add_left 1 _
      · rw [if_neg hi] at hp
        have := (List.getElem?_eq_some_iff.mp hp).1
        exact H i p (by omega) hp
    simp only
    by_cases hc : path.count > 0
    · rw [if_pos hc]
      split
      · split_ifs
        · intro i p hp
          simp only at hp
          by_cases hi : c.paths.length - 1 = i
          · rw [← hi, hl] at hp
            cases hp
            exact hc
          · have := (List.getElem?_eq_some_iff.mp hp).1
            exact H i p (by omega) hp
        · exact grow
      · exact grow
    · rw [if_neg hc]
      exact grow

theorem tesselateBezier_counts_fl (fl : ℚ → ℚ) (tessTol distTol : ℚ) (levels : Nat) :
    ∀ (c : NVGpathCache) (x1 y1 x2 y2 x3 y3 x4 y4 : ℚ) (type : Nat),
      (∀ (i : Nat) (p : NVGpath), c.paths[i]? = some p → 1 ≤ p.count) →
      ∀ (i : Nat) (p : NVGpath),
        (nvg__tesselateBezier_fl fl tessTol distTol levels c x1 y1 x2 y2 x3 y3 x4 y4 type).paths[i]? =
          some p → 1 ≤ p.count := by
  induction levels with
  | zero => intro c _ _ _ _ _ _ _ _ _ H; exact H
  | succ n ih =>
    intro c x1 y1 x2 y2 x3 y3 x4 y4 type H
    simp only [nvg__tesselateBezier_fl]
    split_ifs
    · exact addPoint_counts_fl fl _ _ _ _ _ (fun i p _ hp => H i p hp)
    · exact ih _ _ _ _ _ _ _ _ _ _ (ih _ _ _ _ _ _ _ _ _ _ H)

theorem flattenCommand_counts_fl (fl : ℚ → ℚ) (tessTol distTol : ℚ) (commands : List ℚ) (i : Nat)
    (c : NVGpathCache) (H : ∀ (k : Nat) (p : NVGpath), c.paths[k]? = some p → 1 ≤ p.count) :
    ∀ (k : Nat) (p : NVGpath),
      (flattenCommand_fl fl tessTol distTol commands i c).1.paths[k]? = some p → 1 ≤ p.count := by
  unfold flattenCommand_fl
  simp only
  split_ifs
  · apply addPoint_counts_fl fl
    intro k p hk hp
    simp only [nvg__addPath, List.length_append, List.length_singleton] at hk hp
    rw [List.getElem?_append_left (by omega)] at hp
    exact H k p hp
  · exact addPoint_counts_fl fl _ _ _ _ _ (fun k p _ hp => H k p hp)
  · split
    · exact tesselateBezier_counts_fl fl _ _ _ _ _ _ _ _ _ _ _ _ _ H
    · exact H
  · unfold nvg__closePath nvg__lastPath
    cases hl : c.paths.getLast? with
    | none => exact H
    | some path => exact setLast_counts c path _ hl rfl H
  · unfold nvg__pathWinding nvg__lastPath
    cases hl : c.paths.getLast? with
    | none => exact H
    | some path => exact setLast_counts c path _ hl rfl H
  · exact H

/-- After the loop over the commands every path of the cache has a point, so the
index `count - 1` of its last point is not negative. -/
theorem flattenCommandsLoop_counts_fl (fl : ℚ → ℚ) (tessTol distTol : ℚ) (commands : List ℚ) (fuel : Nat) :
    ∀ (i : Nat) (c : NVGpathCache),
      (∀ (k : Nat) (p : NVGpath), c.paths[k]? = some p → 1 ≤ p.count) →
      ∀ (k : Nat) (p : NVGpath),
        (flattenCommandsLoop_fl fl tessTol distTol commands fuel i c).paths[k]? = some p →
          1 ≤ p.count := by
  induction fuel with
  | zero => intro _ c H; exact H
  | succ n ih =>
    intro i c H
    simp only [flattenCommandsLoop_fl]
    split_ifs
    · exact ih _ _ (flattenCommand_counts_fl fl tessTol distTol commands i c H)
    · exact H

theorem flattenPathWinding_cases_fl (fl : ℚ → ℚ) (points : List NVGpoint) (path : NVGpath) :
    flattenPathWinding_fl fl points path = points ∨
      flattenPathWinding_fl fl points path = nvg__polyReverse points path.first path.count := by
  unfold flattenPathWinding_fl
  by_cases hc : path.count > 2
  · rw [if_pos hc]
    simp only
    by_cases h1 : path.winding = NVG_CCW ∧ nvg__polyArea_fl fl (points.drop path.first) path.count < 0
    · have h2 : ¬ (path.winding = NVG_CW ∧
          nvg__polyArea_fl fl (points.drop path.first) path.count > 0) := by
        intro h
        exact absurd (h1.1.symm.trans h.1) (by decide)
      rw [if_pos h1, if_neg h2]
      exact Or.inr rfl
    · rw [if_neg h1]
      by_cases h2 : path.winding = NVG_CW ∧ nvg__polyArea_fl fl (points.drop path.first) path.count > 0
      · rw [if_pos h2]
        exact Or.inr rfl
      · rw [if_neg h2]
        exact Or.inl rfl
  · rw [if_neg hc]
    exact Or.inl rfl

/-! ### The rounded area reads the coordinates of the points of the path only -/

theorem polyArea_congr_fl (fl : ℚ → ℚ) (l l' : List NVGpoint) (first n : Nat)
    (h : ∀ k, k < n → xyAt l' first k = xyAt l first k) :
    nvg__polyArea_fl fl (l'.drop first) n = nvg__polyArea_fl fl (l.drop first) n := by
  unfold nvg__polyArea_fl
  congr 2
  apply List.foldl_ext
  intro a k hk
  rw [List.mem_range] at hk
  have h0 := h 0 (by omega)
  have h1 := h (k + 2 - 1) (by omega)
  have h2 := h (k + 2) (by omega)
  simp only [xyAt, Prod.mk.injEq] at h0 h1 h2
  simp only [getPt_drop, h0.1, h0.2, h1.1, h1.2, h2.1, h2.2]

theorem polyReverse_xy_congr (l l' : List NVGpoint) (first n : Nat)
    (hl : first + n ≤ l.length) (hl' : first + n ≤ l'.length)
    (h : ∀ k, k < n → xyAt l' first k = xyAt l first k) :
    ∀ k, k < n → xyAt (nvg__polyReverse l' first n) first k =
      xyAt (nvg__polyReverse l first n) first k := by
  intro k hk
  unfold xyAt
  rw [(polyReverse_spec l first n hl).2 (first + k), (polyReverse_spec l' first n hl').2 (first + k),
    if_pos (by omega), if_pos (by omega)]
  have e : first + (first + n - 1) - (first + k) = first + (n - 1 - k) := by omega
  rw [e]
  exact h (n - 1 - k) (by omega)

theorem polyReverse_twice_xy (l : List NVGpoint) (first n : Nat) (hl : first + n ≤ l.length) :
    ∀ k, k < n → xyAt (nvg__polyReverse (nvg__polyReverse l first n) first n) first k =
      xyAt l first k := by
  intro k hk
  have h1 := polyReverse_spec l first n hl
  have h2 := polyReverse_spec (nvg__polyReverse l first n) first n (by rw [h1.1]; exact hl)
  unfold xyAt
  rw [h2.2 (first + k), if_pos (by omega), h1.2, if_pos (by omega)]
  have e : first + (first + n - 1) - (first + (first + n - 1) - (first + k)) = first + k := by
    omega
  rw [e]

theorem windingOk_congr_fl (fl : ℚ → ℚ) (l l' : List NVGpoint) (p : NVGpath)
    (hl : p.first + p.count ≤ l.length) (hl' : p.first + p.count ≤ l'.length)
    (h : ∀ k, k < p.count → xyAt l' p.first k = xyAt l p.first k)
    (W : WindingOk_fl fl l p) : WindingOk_fl fl l' p := by
  intro hcount
  rw [polyArea_congr_fl fl l l' p.first p.count h,
    polyArea_congr_fl fl (nvg__polyReverse l p.first p.count) (nvg__polyReverse l' p.first p.count)
      p.first p.count (polyReverse_xy_congr l l' p.first p.count hl hl' h)]
  exact W hcount

/-- The part "Enforce winding" keeps the number of points, changes no point
outside the path, and leaves the path in an order whose rounded area agrees with
the winding or whose reverse has a rounded area that disagrees with it. -/
theorem flattenPathWinding_spec_fl (fl : ℚ → ℚ) (points : List NVGpoint) (path : NVGpath)
    (h : path.first + path.count ≤ points.length) :
    (flattenPathWinding_fl fl points path).length = points.length ∧
      (∀ k, ¬ (path.first ≤ k ∧ k < path.first + path.count) →
        getPt (flattenPathWinding_fl fl points path) k = getPt points k) ∧
      WindingOk_fl fl (flattenPathWinding_fl fl points path) path := by
  unfold flattenPathWinding_fl WindingOk_fl
  by_cases hc : path.count > 2
  · rw [if_pos hc]
    simp only
    have hrev := polyReverse_spec points path.first path.count h
    have harea := polyArea_congr_fl fl points
      (nvg__polyReverse (nvg__polyReverse points path.first path.count) path.first path.count)
      path.first path.count (polyReverse_twice_xy points path.first path.count h)
    by_cases h1 : path.winding = NVG_CCW ∧
        nvg__polyArea_fl fl (points.drop path.first) path.count < 0
    · have h2 : ¬ (path.winding = NVG_CW ∧
          nvg__polyArea_fl fl (points.drop path.first) path.count > 0) := by
        rintro ⟨hw, _⟩
        rw [h1.1] at hw
        exact absurd hw (by decide)
      rw [if_pos h1, if_neg h2]
      refine ⟨hrev.1, fun k hk => ?_, fun _ => ⟨fun _ => ?_, fun hw => ?_⟩⟩
      · rw [hrev.2 k, if_neg hk]
      · right
        rw [harea]
        exact h1.2
      · rw [h1.1] at hw; exact absurd hw (by decide)
    · rw [if_neg h1]
      by_cases h2 : path.winding = NVG_CW ∧
          nvg__polyArea_fl fl (points.drop path.first) path.count > 0
      · rw [if_pos h2]
        refine ⟨hrev.1, fun k hk => ?_, fun _ => ⟨fun hw => ?_, fun _ => ?_⟩⟩
        · rw [hrev.2 k, if_neg hk]
        · rw [h2.1] at hw; exact absurd hw (by decide)
        · right
          rw [harea]
          exact h2.2
      · rw [if_neg h2]
        refine ⟨rfl, fun k _ => rfl, fun _ => ⟨fun hw => ?_, fun hw => ?_⟩⟩
        · left
          by_contra hneg
          exact h1 ⟨hw, lt_of_not_ge hneg⟩
        · left
          by_contra hpos
          exact h2 ⟨hw, lt_of_not_ge hpos⟩
  · rw [if_neg hc]
    exact ⟨rfl, fun k _ => rfl, fun hc' => absurd hc' hc⟩

/-! ### The loop over the paths, with rounding -/

theorem flattenPath_spec_fl (fl : ℚ → ℚ) (sqrtf : ℚ → ℚ) (distTol : ℚ) (c : NVGpathCache)
    (j : Nat) (path : NVGpath) (hget : c.paths[j]? = some path)
    (hb : path.first + path.count ≤ c.points.length) :
    (flattenPath_fl fl sqrtf distTol c j).paths =
        c.paths.set j (flattenPathClose_fl fl distTol c.points path) ∧
      (flattenPath_fl fl sqrtf distTol c j).points.length = c.points.length ∧
      (∀ k, ¬ (path.first ≤ k ∧
          k < path.first + (flattenPathClose_fl fl distTol c.points path).count) →
        (getPt (flattenPath_fl fl sqrtf distTol c j).points k).x = (getPt c.points k).x ∧
          (getPt (flattenPath_fl fl sqrtf distTol c j).points k).y = (getPt c.points k).y) ∧
      WindingOk_fl fl (flattenPath_fl fl sqrtf distTol c j).points
        (flattenPathClose_fl fl distTol c.points path) := by
  obtain ⟨hf, hc, _⟩ := flattenPathClose_fields_fl fl distTol c.points path
  have hb1 : (flattenPathClose_fl fl distTol c.points path).first +
      (flattenPathClose_fl fl distTol c.points path).count ≤ c.points.length := by
    rw [hf]; omega
  obtain ⟨hw1, hw2, hw3⟩ := flattenPathWinding_spec_fl fl c.points
    (flattenPathClose_fl fl distTol c.points path) hb1
  obtain ⟨hi1, hi2⟩ := flattenDirStep_iterate_xy_fl fl sqrtf
    (flattenPathClose_fl fl distTol c.points path).count
    { points := flattenPathWinding_fl fl c.points (flattenPathClose_fl fl distTol c.points path)
      bounds := c.bounds
      p0 := (flattenPathClose_fl fl distTol c.points path).first +
        ((flattenPathClose_fl fl distTol c.points path).count - 1)
      p1 := (flattenPathClose_fl fl distTol c.points path).first }
  simp only [flattenPath_fl, List.get?_eq_getElem?, hget]
  refine ⟨trivial, by rw [hi1, hw1], fun k hk => ?_, ?_⟩
  · rw [(hi2 k).1, (hi2 k).2, hw2 k (by rw [hf]; exact hk)]
    exact ⟨rfl, rfl⟩
  · apply windingOk_congr_fl fl
      (flattenPathWinding_fl fl c.points (flattenPathClose_fl fl distTol c.points path)) _ _
      (by rw [hw1]; exact hb1) (by rw [hi1, hw1]; exact hb1) _ hw3
    intro k _
    exact Prod.ext (hi2 _).1 (hi2 _).2

/-- The test of `nvg__ptEquals` gives the same result on the two points
exchanged, for a rounding that commutes with the negation. -/
theorem ptEquals_comm_fl (fl : ℚ → ℚ) (hodd : ∀ a : ℚ, fl (-a) = -fl a) (x1 y1 x2 y2 tol : ℚ) :
    nvg__ptEquals_fl fl x2 y2 x1 y1 tol = nvg__ptEquals_fl fl x1 y1 x2 y2 tol := by
  have ex : fl (x1 - x2) = -fl (x2 - x1) := by rw [← hodd, neg_sub]
  have ey : fl (y1 - y2) = -fl (y2 - y1) := by rw [← hodd, neg_sub]
  simp only [nvg__ptEquals_fl, ex, ey, neg_mul_neg]

/-- Separation reads the coordinates of the points of the path only. -/
theorem separated_congr_fl (fl : ℚ → ℚ) (d : ℚ) (pts pts' : List NVGpoint) (p p' : NVGpath)
    (hf : p'.first = p.first) (hc : p'.count ≤ p.count)
    (h : ∀ k, k < p'.count → (getPt pts' (p.first + k)).x = (getPt pts (p.first + k)).x ∧
      (getPt pts' (p.first + k)).y = (getPt pts (p.first + k)).y)
    (S : Separated_fl fl d pts p) : Separated_fl fl d pts' p' := by
  intro k hk
  have h1 := h (k + 1) hk
  rw [← Nat.add_assoc] at h1
  rw [hf, (h k (by omega)).1, (h k (by omega)).2, h1.1, h1.2]
  exact S k (by omega)

/-- Appending a point to the last path keeps the invariant when the new point is
separated from the last point of the path. -/
theorem grow_sep_fl (fl : ℚ → ℚ) (d : ℚ) (c : NVGpathCache) (path : NVGpath) (q : NVGpoint)
    (T : PathsTiled c.paths c.points.length) (I : SepInv_fl fl d c)
    (hl : c.paths.getLast? = some path)
    (hnew : path.count > 0 →
      nvg__ptEquals_fl fl (getPt c.points (c.points.length - 1)).x
        (getPt c.points (c.points.length - 1)).y q.x q.y d = 0) :
    SepInv_fl fl d (setLastPath { c with points := c.points ++ [q] } { path with count := path.count + 1 }) := by
  have hend := I.1 path hl
  have hne : c.paths ≠ [] := by
    intro h0
    rw [h0] at hl
    simp at hl
  have hidx : c.paths[c.paths.length - 1]? = some path := by
    rw [← List.getLast?_eq_getElem?]; exact hl
  have hlen : c.paths.length - 1 < c.paths.length := (List.getElem?_eq_some_iff.mp hidx).1
  refine ⟨?_, ?_⟩
  · intro p hp
    simp only [setLastPath] at hp ⊢
    rw [getLast_of_set_last _ _ hne] at hp
    cases hp
    simp only [List.length_append, List.length_singleton]
    omega
  · intro i p hp
    simp only [setLastPath, List.getElem?_set] at hp ⊢
    by_cases hi : c.paths.length - 1 = i
    · rw [if_pos hi, if_pos hlen] at hp
      cases hp
      intro k hk
      simp only at hk ⊢
      by_cases hk2 : k + 1 < path.count
      · rw [getPt_append_left _ _ _ (by omega), getPt_append_left _ _ _ (by omega)]
        exact I.2 _ path hidx k hk2
      · have e1 : path.first + k = c.points.length - 1 := by omega
        have e2 : path.first + k + 1 = c.points.length := by omega
        rw [e2, getPt_append_length, e1, getPt_append_left _ _ _ (by omega)]
        exact hnew (by omega)
    · rw [if_neg hi] at hp
      have hilt : i < c.paths.length - 1 := by
        have := (List.getElem?_eq_some_iff.mp hp).1
        omega
      have hdis := T.1 i (c.paths.length - 1) p path hilt hp hidx
      have hb := T.2 _ path hidx
      intro k hk
      rw [getPt_append_left _ _ _ (by omega), getPt_append_left _ _ _ (by omega)]
      exact I.2 i p hp k hk

theorem addPoint_sep_fl (fl : ℚ → ℚ) (d : ℚ) (c : NVGpathCache) (x y : ℚ) (f : Nat)
    (T : PathsTiled c.paths c.points.length) (I : SepInv_fl fl d c) :
    SepInv_fl fl d (nvg__addPoint_fl fl d c x y f) := by
  unfold nvg__addPoint_fl nvg__lastPath
  cases hl : c.paths.getLast? with
  | none => exact I
  | some path =>
    have hend := I.1 path hl
    simp only
    split
    · rename_i pt heq
      have hc : path.count > 0 := by
        by_contra h0
        rw [if_neg h0] at heq
        cases heq
      rw [if_pos hc] at heq
      obtain ⟨hpt, hlen⟩ := lastPoint_eq c pt heq
      split_ifs with heqv
      · -- the point is merged into the last point
        refine ⟨?_, ?_⟩
        · intro p hp
          simp only [List.length_set] at hp ⊢
          exact I.1 p hp
        · intro i p hp
          simp only at hp ⊢
          apply separated_congr_fl fl d c.points _ p p rfl (le_refl _) _ (I.2 i p hp)
          intro k _
          rw [getPt_set _ _ _ _ (by omega)]
          by_cases hk : p.first + k = c.points.length - 1
          · rw [if_pos hk, hk, hpt]
            exact ⟨rfl, rfl⟩
          · rw [if_neg hk]
            exact ⟨rfl, rfl⟩
      · apply grow_sep_fl fl d c path _ T I hl
        intro _
        rw [hpt]
        have h0 : nvg__ptEquals_fl fl pt.x pt.y x y d = 0 := by
          by_contra hne
          exact heqv hne
        exact h0
    · rename_i heq
      apply grow_sep_fl fl d c path _ T I hl
      intro hc
      rw [if_pos hc] at heq
      unfold nvg__lastPoint at heq
      have hnil : c.points = [] := List.getLast?_eq_none_iff.mp heq
      rw [hnil] at hend
      simp only [List.length_nil] at hend
      omega

theorem addPath_sep_fl (fl : ℚ → ℚ) (d : ℚ) (c : NVGpathCache) (I : SepInv_fl fl d c) : SepInv_fl fl d (nvg__addPath c) := by
  unfold nvg__addPath
  refine ⟨?_, ?_⟩
  · intro p hp
    simp only [List.getLast?_append, List.getLast?_singleton, Option.or_some] at hp
    simp only [Option.or, Option.some.injEq] at hp
    rw [← hp]
    rfl
  · intro i p hp
    simp only at hp ⊢
    rw [List.getElem?_append] at hp
    split_ifs at hp with hi
    · exact I.2 i p hp
    · have hlt := (List.getElem?_eq_some_iff.mp hp).1
      simp only [List.length_singleton] at hlt
      have h0 : i - c.paths.length = 0 := by omega
      rw [h0] at hp
      simp only [List.getElem?_cons_zero, Option.some.injEq] at hp
      rw [← hp]
      intro k hk
      simp only at hk
      omega

/-- An assignment to the last path that keeps its first index and its number of
points keeps the invariant. -/
theorem setLast_sep_fl (fl : ℚ → ℚ) (d : ℚ) (c : NVGpathCache) (path path' : NVGpath) (I : SepInv_fl fl d c)
    (hl : c.paths.getLast? = some path) (hf : path'.first = path.first)
    (hc : path'.count = path.count) : SepInv_fl fl d (setLastPath c path') := by
  have hne : c.paths ≠ [] := by
    intro h0
    rw [h0] at hl
    simp at hl
  have hidx : c.paths[c.paths.length - 1]? = some path := by
    rw [← List.getLast?_eq_getElem?]; exact hl
  have hlen : c.paths.length - 1 < c.paths.length := (List.getElem?_eq_some_iff.mp hidx).1
  refine ⟨?_, ?_⟩
  · intro p hp
    simp only [setLastPath] at hp ⊢
    rw [getLast_of_set_last _ _ hne] at hp
    cases hp
    rw [hf, hc]
    exact I.1 path hl
  · intro i p hp
    simp only [setLastPath, List.getElem?_set] at hp ⊢
    by_cases hi : c.paths.length - 1 = i
    · rw [if_pos hi, if_pos hlen] at hp
      cases hp
      exact separated_congr_fl fl d c.points c.points path path' hf (le_of_eq hc)
        (fun k _ => ⟨rfl, rfl⟩) (I.2 _ path hidx)
    · rw [if_neg hi] at hp
      exact I.2 i p hp

theorem closePath_sep_fl (fl : ℚ → ℚ) (d : ℚ) (c : NVGpathCache) (I : SepInv_fl fl d c) : SepInv_fl fl d (nvg__closePath c) := by
  unfold nvg__closePath nvg__lastPath
  cases hl : c.paths.getLast? with
  | none => exact I
  | some path => exact setLast_sep_fl fl d c path _ I hl rfl rfl

theorem pathWinding_sep_fl (fl : ℚ → ℚ) (d : ℚ) (c : NVGpathCache) (w : Int) (I : SepInv_fl fl d c) :
    SepInv_fl fl d (nvg__pathWinding c w) := by
  unfold nvg__pathWinding nvg__lastPath
  cases hl : c.paths.getLast? with
  | none => exact I
  | some path => exact setLast_sep_fl fl d c path _ I hl rfl rfl

theorem tesselateBezier_sep_fl (fl : ℚ → ℚ) (tessTol distTol : ℚ) (levels : Nat) :
    ∀ (c : NVGpathCache) (x1 y1 x2 y2 x3 y3 x4 y4 : ℚ) (type : Nat),
      PathsTiled c.paths c.points.length → SepInv_fl fl distTol c →
      SepInv_fl fl distTol (nvg__tesselateBezier_fl fl tessTol distTol levels c x1 y1 x2 y2 x3 y3 x4 y4 type) := by
  induction levels with
  | zero => intro c _ _ _ _ _ _ _ _ _ _ I; exact I
  | succ n ih =>
    intro c x1 y1 x2 y2 x3 y3 x4 y4 type T I
    simp only [nvg__tesselateBezier_fl]
    split_ifs
    · exact addPoint_sep_fl fl _ _ _ _ _ T I
    · exact ih _ _ _ _ _ _ _ _ _ _ (tesselateBezier_tiled_fl fl _ _ _ _ _ _ _ _ _ _ _ _ _ T)
        (ih _ _ _ _ _ _ _ _ _ _ T I)

theorem flattenCommand_sep_fl (fl : ℚ → ℚ) (tessTol distTol : ℚ) (commands : List ℚ) (i : Nat)
    (c : NVGpathCache) (T : PathsTiled c.paths c.points.length) (I : SepInv_fl fl distTol c) :
    SepInv_fl fl distTol (flattenCommand_fl fl tessTol distTol commands i c).1 := by
  unfold flattenCommand_fl
  simp only
  split_ifs
  · exact addPoint_sep_fl fl _ _ _ _ _ (addPath_tiled c T) (addPath_sep_fl fl _ c I)
  · exact addPoint_sep_fl fl _ _ _ _ _ T I
  · split
    · exact tesselateBezier_sep_fl fl _ _ _ _ _ _ _ _ _ _ _ _ _ T I
    · exact I
  · exact closePath_sep_fl fl _ c I
  · exact pathWinding_sep_fl fl _ c _ I
  · exact I

theorem flattenCommandsLoop_sep_fl (fl : ℚ → ℚ) (tessTol distTol : ℚ) (commands : List ℚ) (fuel : Nat) :
    ∀ (i : Nat) (c : NVGpathCache), PathsTiled c.paths c.points.length → SepInv_fl fl distTol c →
      SepInv_fl fl distTol (flattenCommandsLoop_fl fl tessTol distTol commands fuel i c) := by
  induction fuel with
  | zero => intro _ c _ I; exact I
  | succ n ih =>
    intro i c T I
    simp only [flattenCommandsLoop_fl]
    split_ifs
    · exact ih _ _ (flattenCommand_tiled_fl fl tessTol distTol commands i c T)
        (flattenCommand_sep_fl fl tessTol distTol commands i c T I)
    · exact I

/-- The coordinates of the points of the path after the rounded `flattenPath`: those before,
in the same order or in the reverse order. -/
theorem flattenPath_xy_inside_fl (fl : ℚ → ℚ) (sqrtf : ℚ → ℚ) (distTol : ℚ) (c : NVGpathCache) (j : Nat)
    (path : NVGpath) (hget : c.paths[j]? = some path)
    (hb : path.first + path.count ≤ c.points.length) :
    (∀ k, (getPt (flattenPath_fl fl sqrtf distTol c j).points k).x = (getPt c.points k).x ∧
        (getPt (flattenPath_fl fl sqrtf distTol c j).points k).y = (getPt c.points k).y) ∨
      ∀ k, k < (flattenPathClose_fl fl distTol c.points path).count →
        (getPt (flattenPath_fl fl sqrtf distTol c j).points (path.first + k)).x =
            (getPt c.points
              (path.first + ((flattenPathClose_fl fl distTol c.points path).count - 1 - k))).x ∧
          (getPt (flattenPath_fl fl sqrtf distTol c j).points (path.first + k)).y =
            (getPt c.points
              (path.first + ((flattenPathClose_fl fl distTol c.points path).count - 1 - k))).y := by
  obtain ⟨hf, hc, _⟩ := flattenPathClose_fields_fl fl distTol c.points path
  have hdir := flattenDirStep_iterate_xy_fl fl sqrtf (flattenPathClose_fl fl distTol c.points path).count
    { points := flattenPathWinding_fl fl c.points (flattenPathClose_fl fl distTol c.points path),
      bounds := c.bounds,
      p0 := (flattenPathClose_fl fl distTol c.points path).first +
        ((flattenPathClose_fl fl distTol c.points path).count - 1),
      p1 := (flattenPathClose_fl fl distTol c.points path).first }
  have hpts : (flattenPath_fl fl sqrtf distTol c j).points =
      (Nat.iterate (flattenDirStep_fl fl sqrtf) (flattenPathClose_fl fl distTol c.points path).count
        { points := flattenPathWinding_fl fl c.points (flattenPathClose_fl fl distTol c.points path),
          bounds := c.bounds,
          p0 := (flattenPathClose_fl fl distTol c.points path).first +
            ((flattenPathClose_fl fl distTol c.points path).count - 1),
          p1 := (flattenPathClose_fl fl distTol c.points path).first }).points := by
    simp only [flattenPath_fl, List.get?_eq_getElem?, hget]
  rw [hpts]
  rcases flattenPathWinding_cases_fl fl c.points (flattenPathClose_fl fl distTol c.points path) with hw | hw
  · left
    intro k
    rw [(hdir.2 k).1, (hdir.2 k).2]
    simp only [hw, and_self]
  · right
    intro k hk
    rw [(hdir.2 _).1, (hdir.2 _).2]
    simp only [hw]
    have hrev := (polyReverse_spec c.points (flattenPathClose_fl fl distTol c.points path).first
      (flattenPathClose_fl fl distTol c.points path).count (by rw [hf]; omega)).2 (path.first + k)
    rw [hf] at hrev
    rw [hf, hrev, if_pos (by omega)]
    have e : path.first + (path.first + (flattenPathClose_fl fl distTol c.points path).count - 1) -
        (path.first + k) = path.first + ((flattenPathClose_fl fl distTol c.points path).count - 1 - k) := by
      omega
    rw [e]
    exact ⟨rfl, rfl⟩

/-- The part "If the first and last points are the same, remove the last" on a
separated path with a point, for a rounding that commutes with the negation and
a tolerance whose rounded square is positive: the path has not one point afterwards, and it has
two or more when it is left open. -/
theorem flattenPathClose_count_fl (fl : ℚ → ℚ) (hodd : ∀ a : ℚ, fl (-a) = -fl a) (distTol : ℚ)
    (hd : 0 < fl (distTol * distTol)) (points : List NVGpoint)
    (path : NVGpath) (h1 : 1 ≤ path.count) (S : Separated_fl fl distTol points path) :
    (flattenPathClose_fl fl distTol points path).count ≠ 1 ∧
      ((flattenPathClose_fl fl distTol points path).closed = 0 →
        2 ≤ (flattenPathClose_fl fl distTol points path).count) := by
  have hself : ∀ p : NVGpoint, nvg__ptEquals_fl fl p.x p.y p.x p.y distTol ≠ 0 := by
    intro p
    have h0 : fl 0 = 0 := by
      have := hodd 0
      rw [neg_zero] at this
      linarith
    unfold nvg__ptEquals_fl
    simp only [sub_self, h0, mul_zero, add_zero]
    rw [if_pos hd]
    decide
  unfold flattenPathClose_fl
  simp only
  split_ifs with hfire
  · refine ⟨?_, fun h => absurd h (by decide)⟩
    simp only
    intro h2
    have hc2 : path.count = 2 := by omega
    have hs := S 0 (by omega)
    rw [hc2] at hfire
    have e : path.first + (2 - 1) = path.first + 0 + 1 := by omega
    rw [e] at hfire
    apply hfire
    rw [ptEquals_comm_fl fl hodd]
    simpa using hs
  · have hne : path.count ≠ 1 := by
      intro h1'
      apply hfire
      rw [h1']
      exact hself _
    exact ⟨hne, fun _ => by omega⟩

/-- One round of the loop over the paths keeps every path separated. -/
theorem flattenPath_sep_fl (fl : ℚ → ℚ) (hodd : ∀ a : ℚ, fl (-a) = -fl a) (sqrtf : ℚ → ℚ)
    (distTol : ℚ) (c : NVGpathCache) (j : Nat)
    (path : NVGpath) (hget : c.paths[j]? = some path)
    (T : PathsTiled c.paths c.points.length)
    (S : ∀ (i : Nat) (p : NVGpath), c.paths[i]? = some p → Separated_fl fl distTol c.points p) :
    ∀ (i : Nat) (p : NVGpath), (flattenPath_fl fl sqrtf distTol c j).paths[i]? = some p →
      Separated_fl fl distTol (flattenPath_fl fl sqrtf distTol c j).points p := by
  have hb := T.2 j path hget
  have hjlt : j < c.paths.length := (List.getElem?_eq_some_iff.mp hget).1
  obtain ⟨s1, _, s3, _⟩ := flattenPath_spec_fl fl sqrtf distTol c j path hget hb
  obtain ⟨hf, hc, _⟩ := flattenPathClose_fields_fl fl distTol c.points path
  intro i p hp
  rw [s1, List.getElem?_set] at hp
  by_cases hij : j = i
  · rw [if_pos hij, if_pos hjlt] at hp
    cases hp
    rcases flattenPath_xy_inside_fl fl sqrtf distTol c j path hget hb with hx | hx
    · exact separated_congr_fl fl distTol c.points _ path _ hf hc (fun k _ => hx _) (S j path hget)
    · intro k hk
      rw [hf]
      have h1 := hx k (by omega)
      have h2 := hx (k + 1) hk
      rw [← Nat.add_assoc] at h2
      rw [h1.1, h1.2, h2.1, h2.2, ptEquals_comm_fl fl hodd]
      have hs := S j path hget ((flattenPathClose_fl fl distTol c.points path).count - 1 - (k + 1))
        (by omega)
      have e : path.first + ((flattenPathClose_fl fl distTol c.points path).count - 1 - (k + 1)) + 1 =
          path.first + ((flattenPathClose_fl fl distTol c.points path).count - 1 - k) := by omega
      rw [e] at hs
      exact hs
  · rw [if_neg hij] at hp
    apply separated_congr_fl fl distTol c.points _ p p rfl (le_refl _) _ (S i p hp)
    intro k hk
    apply s3
    rcases Nat.lt_or_gt_of_ne hij with h | h
    · have := T.1 j i path p h hget hp
      omega
    · have := T.1 i j p path h hp hget
      omega

theorem flattenPath_foldl_sep_fl (fl : ℚ → ℚ) (hodd : ∀ a : ℚ, fl (-a) = -fl a) (sqrtf : ℚ → ℚ)
    (distTol : ℚ) (m : Nat) :
    ∀ c : NVGpathCache, PathsTiled c.paths c.points.length →
      (∀ (i : Nat) (p : NVGpath), c.paths[i]? = some p → Separated_fl fl distTol c.points p) →
      (∀ (i : Nat) (p : NVGpath), c.paths[i]? = some p → 1 ≤ p.count) →
      m ≤ c.paths.length →
      PathsTiled ((List.range m).foldl (flattenPath_fl fl sqrtf distTol) c).paths
          ((List.range m).foldl (flattenPath_fl fl sqrtf distTol) c).points.length ∧
        ((List.range m).foldl (flattenPath_fl fl sqrtf distTol) c).paths.length = c.paths.length ∧
        (∀ (i : Nat) (p : NVGpath),
          ((List.range m).foldl (flattenPath_fl fl sqrtf distTol) c).paths[i]? = some p →
          Separated_fl fl distTol ((List.range m).foldl (flattenPath_fl fl sqrtf distTol) c).points p) ∧
        (∀ (i : Nat) (p : NVGpath), m ≤ i →
          ((List.range m).foldl (flattenPath_fl fl sqrtf distTol) c).paths[i]? = some p → 1 ≤ p.count) ∧
        (0 < fl (distTol * distTol) → ∀ (i : Nat) (p : NVGpath), i < m →
          ((List.range m).foldl (flattenPath_fl fl sqrtf distTol) c).paths[i]? = some p →
          p.count ≠ 1 ∧ (p.closed = 0 → 2 ≤ p.count)) := by
  induction m with
  | zero =>
    intro c T S C _
    exact ⟨T, rfl, S, fun i p _ hp => C i p hp, fun _ i p hi _ => absurd hi (Nat.not_lt_zero i)⟩
  | succ m ih =>
    intro c T S C hm
    obtain ⟨Tm, L, Sm, Cm, Dm⟩ := ih c T S C (by omega)
    rw [List.range_succ, List.foldl_append, List.foldl_cons, List.foldl_nil]
    generalize (List.range m).foldl (flattenPath_fl fl sqrtf distTol) c = cm at Tm L Sm Cm Dm
    have hmlt : m < cm.paths.length := by omega
    have hget : cm.paths[m]? = some cm.paths[m] := List.getElem?_eq_getElem hmlt
    generalize cm.paths[m] = path at hget
    obtain ⟨s1, s2, _, _⟩ := flattenPath_spec_fl fl sqrtf distTol cm m path hget (Tm.2 m path hget)
    obtain ⟨hf, hc, _⟩ := flattenPathClose_fields_fl fl distTol cm.points path
    have hbound := Tm.2 m path hget
    refine ⟨?_, ?_, flattenPath_sep_fl fl hodd sqrtf distTol cm m path hget Tm Sm, ?_, ?_⟩
    · rw [s1, s2]
      apply tiled_set cm.paths cm.points.length cm.points.length m path _ Tm hget hf (le_refl _)
      · rw [hf]; omega
      · intro j q hj hq
        have := Tm.1 m j path q hj hget hq
        rw [hf]; omega
    · rw [s1, List.length_set, L]
    · intro i p hi hp
      rw [s1, List.getElem?_set, if_neg (by omega)] at hp
      exact Cm i p (by omega) hp
    · intro hd i p hi hp
      rw [s1, List.getElem?_set] at hp
      by_cases him : m = i
      · rw [if_pos him, if_pos hmlt] at hp
        cases hp
        exact flattenPathClose_count_fl fl hodd distTol hd cm.points path (Cm m path (le_refl _) hget)
          (Sm m path hget)
      · rw [if_neg him] at hp
        exact Dm hd i p (by omega) hp

/-- After the rounded `nvg__flattenPaths` on a cache without paths, for a rounding
that commutes with the negation: the paths are tiled, every path is separated,
and for a tolerance whose rounded square is positive no path has exactly one
point and every open path has two or more. -/
theorem flattenPaths_sep_fl (fl : ℚ → ℚ) (hodd : ∀ a : ℚ, fl (-a) = -fl a) (sqrtf : ℚ → ℚ)
    (commands : List ℚ) (tessTol distTol : ℚ)
    (cache : NVGpathCache) (h : cache.paths = []) :
    PathsTiled (nvg__flattenPaths_fl fl sqrtf commands tessTol distTol cache).paths
        (nvg__flattenPaths_fl fl sqrtf commands tessTol distTol cache).points.length ∧
      (∀ (i : Nat) (p : NVGpath),
        (nvg__flattenPaths_fl fl sqrtf commands tessTol distTol cache).paths[i]? = some p →
        Separated_fl fl distTol (nvg__flattenPaths_fl fl sqrtf commands tessTol distTol cache).points p) ∧
      (0 < fl (distTol * distTol) → ∀ (i : Nat) (p : NVGpath),
        (nvg__flattenPaths_fl fl sqrtf commands tessTol distTol cache).paths[i]? = some p →
        p.count ≠ 1 ∧ (p.closed = 0 → 2 ≤ p.count)) := by
  rw [flattenPaths_of_no_path_fl fl sqrtf commands tessTol distTol cache h]
  have T0 : PathsTiled cache.paths cache.points.length := by
    rw [h]
    exact ⟨fun i j p q _ hp _ => by simp at hp, fun i p hp => by simp at hp⟩
  have I0 : SepInv_fl fl distTol cache := by
    rw [SepInv_fl, h]
    exact ⟨fun p hp => by simp at hp, fun i p hp => by simp at hp⟩
  have C0 : ∀ (k : Nat) (p : NVGpath), cache.paths[k]? = some p → 1 ≤ p.count := by
    rw [h]
    intro k p hp
    simp at hp
  have T1 := flattenCommandsLoop_tiled_fl fl tessTol distTol commands commands.length 0 cache T0
  have I1 := flattenCommandsLoop_sep_fl fl tessTol distTol commands commands.length 0 cache T0 I0
  have C1 := flattenCommandsLoop_counts_fl fl tessTol distTol commands commands.length 0 cache C0
  generalize flattenCommandsLoop_fl fl tessTol distTol commands commands.length 0 cache = c1 at T1 I1 C1 ⊢
  obtain ⟨T, L, S, _, D⟩ := flattenPath_foldl_sep_fl fl hodd sqrtf distTol c1.paths.length
    { c1 with bounds := ⟨1000000, 1000000, -1000000, -1000000⟩ } T1 I1.2 C1 (le_refl _)
  refine ⟨T, S, fun hd i p hp => D hd i p ?_ hp⟩
  have hlt := (List.getElem?_eq_some_iff.mp hp).1
  rw [L] at hlt
  exact hlt

/-! ### The rounded tests and areas when no operation rounds -/

theorem ptEquals_fl_eq (fl : ℚ → ℚ) (x1 y1 x2 y2 tol : ℚ)
    (h : NoRounding fl (ptEqualsOps x1 y1 x2 y2 tol)) :
    nvg__ptEquals_fl fl x1 y1 x2 y2 tol = nvg__ptEquals x1 y1 x2 y2 tol := by
  simp only [NoRounding, ptEqualsOps, List.mem_cons, List.mem_singleton, forall_eq_or_imp,
    forall_eq, List.not_mem_nil, false_implies, implies_true, and_true] at h
  obtain ⟨a1, a2, a3, a4, a5, a6⟩ := h
  simp only [nvg__ptEquals_fl, nvg__ptEquals, a1, a2, a3, a4, a5, a6]

/-- C26, the claim as stated fails in `float` arithmetic. With `distTol = 0.01f`
(device pixel ratio 1), `nvgMoveTo(0, 0)` and `nvgLineTo(x, y)` for the floats
`x = 2419751/268435456` and `y = 4648551/1073741824` leave both points in the
path, although their squared distance is below `distTol^2`: the rounded sum
`dx*dx + dy*dy` is not below the rounded `tol*tol`. With `distTol = 1e-27f`
(device pixel ratio 1e25), which is positive, `tol*tol` rounds to 0, and
`nvgMoveTo(5, 5)` and `nvgLineTo(5, 5)` leave the point (5, 5) twice in the
path. -/
theorem flattenPaths_stores_points_within_distTol :
    ((nvg__flattenPaths_fl f32 sqrtfExact nearCommands (1 / 4) distTol1
            ⟨[], [], ⟨0, 0, 0, 0⟩⟩).points.map (fun p => (p.x, p.y)) =
          [(0, 0), (2419751 / 268435456, 4648551 / 1073741824)] ∧
        (nvg__flattenPaths_fl f32 sqrtfExact nearCommands (1 / 4) distTol1
              ⟨[], [], ⟨0, 0, 0, 0⟩⟩).paths.map (fun p => (p.first, p.count, p.closed)) =
          [(0, 2, 0)] ∧
        f32 (1 / 100) = distTol1 ∧ 0 < distTol1 ∧
        f32 (2419751 / 268435456) = 2419751 / 268435456 ∧
        f32 (4648551 / 1073741824) = 4648551 / 1073741824 ∧
        dist2 { zeroPoint with x := 0, y := 0 }
            { zeroPoint with x := 2419751 / 268435456, y := 4648551 / 1073741824 } <
          distTol1 * distTol1) ∧
      (nvg__flattenPaths_fl f32 sqrtfExact samePointCommands (1 / 4) distTolTiny
            ⟨[], [], ⟨0, 0, 0, 0⟩⟩).points.map (fun p => (p.x, p.y)) = [(5, 5), (5, 5)] ∧
        (nvg__flattenPaths_fl f32 sqrtfExact samePointCommands (1 / 4) distTolTiny
              ⟨[], [], ⟨0, 0, 0, 0⟩⟩).paths.map (fun p => (p.first, p.count, p.closed)) =
          [(0, 2, 0)] ∧
        f32 (1 / 10 ^ 27) = distTolTiny ∧ 0 < distTolTiny ∧
        f32 (distTolTiny * distTolTiny) = 0 ∧
        dist2 { zeroPoint with x := 5, y := 5 } { zeroPoint with x := 5, y := 5 } <
          distTolTiny * distTolTiny := by
  decide!

/-- C26, amended, in rounded arithmetic: after `nvg__flattenPaths` has flattened a
command buffer into a cache without paths, for every rounding `fl` of the `float`
operations that commutes with the negation and every `distTol`, any two points
stored consecutively (indices `i` and `i + 1`) in the same path fail the test
`dx*dx + dy*dy < tol*tol` of `nvg__ptEquals` as the code computes it, and are at
squared distance at least `distTol^2` when no operation of that test rounds on
them; and a point
that `nvg__addPoint` receives and that passes this test against the last point
of the last path, when that path has a point, adds no point: the call only ORs
its flags into the flags of that last point (an `unsigned char`). -/
theorem flattenPaths_fl_separates_consecutive_points (fl : ℚ → ℚ)
    (hodd : ∀ a : ℚ, fl (-a) = -fl a) (sqrtf : ℚ → ℚ) (commands : List ℚ)
    (tessTol distTol : ℚ) (cache : NVGpathCache) (h : cache.paths = []) :
    (∀ path ∈ (nvg__flattenPaths_fl fl sqrtf commands tessTol distTol cache).paths,
        Separated_fl fl distTol
            (nvg__flattenPaths_fl fl sqrtf commands tessTol distTol cache).points path ∧
          ∀ k : Nat, k + 1 < path.count →
            NoRounding fl
              (ptEqualsOps
                (getPt (nvg__flattenPaths_fl fl sqrtf commands tessTol distTol cache).points
                  (path.first + k)).x
                (getPt (nvg__flattenPaths_fl fl sqrtf commands tessTol distTol cache).points
                  (path.first + k)).y
                (getPt (nvg__flattenPaths_fl fl sqrtf commands tessTol distTol cache).points
                  (path.first + k + 1)).x
                (getPt (nvg__flattenPaths_fl fl sqrtf commands tessTol distTol cache).points
                  (path.first + k + 1)).y distTol) →
            distTol * distTol ≤
              dist2
                (getPt (nvg__flattenPaths_fl fl sqrtf commands tessTol distTol cache).points
                  (path.first + k))
                (getPt (nvg__flattenPaths_fl fl sqrtf commands tessTol distTol cache).points
                  (path.first + k + 1))) ∧
      ∀ (c : NVGpathCache) (x y : ℚ) (flags : Nat) (path : NVGpath) (pt : NVGpoint),
        nvg__lastPath c = some path → path.count > 0 → nvg__lastPoint c = some pt →
        nvg__ptEquals_fl fl pt.x pt.y x y distTol ≠ 0 →
        nvg__addPoint_fl fl distTol c x y flags =
          { c with
            points :=
              c.points.set (c.points.length - 1) { pt with flags := (pt.flags ||| flags) % 256 } } := by
  refine ⟨?_, ?_⟩
  · intro path hmem
    obtain ⟨i, hi⟩ := List.mem_iff_getElem?.mp hmem
    have hS := (flattenPaths_sep_fl fl hodd sqrtf commands tessTol distTol cache h).2.1 i path hi
    refine ⟨hS, fun k hk hn => ?_⟩
    have h0 := hS k hk
    rw [ptEquals_fl_eq fl _ _ _ _ _ hn] at h0
    exact (ptEquals_eq_zero _ _ distTol).mp h0
  · intro c x y flags path pt hl hc hp heq
    simp only [nvg__addPoint_fl, hl, if_pos hc, hp, if_pos heq]

/-- C26, amended, in `float` arithmetic on the buffer `nearCommands` and an empty
cache with `distTol = 0.01f`, and on the point (5, 5) sent again to the cache
`penCache`, whose last point it is. -/
theorem flattenPaths_fl_separates_consecutive_points_witness :
    (∀ a : ℚ, f32 (-a) = -f32 a) ∧ (⟨[], [], ⟨0, 0, 0, 0⟩⟩ : NVGpathCache).paths = [] ∧
      (∀ path ∈ (nvg__flattenPaths_fl f32 sqrtfExact nearCommands (1 / 4) distTol1
          ⟨[], [], ⟨0, 0, 0, 0⟩⟩).paths,
        Separated_fl f32 distTol1
          (nvg__flattenPaths_fl f32 sqrtfExact nearCommands (1 / 4) distTol1
            ⟨[], [], ⟨0, 0, 0, 0⟩⟩).points path) ∧
      nvg__addPoint_fl f32 distTol1 penCache 5 5 0 =
        { penCache with
          points :=
            penCache.points.set (penCache.points.length - 1)
              { ({ zeroPoint with x := 5, y := 5, flags := 1 } : NVGpoint) with
                flags := (1 ||| 0) % 256 } } :=
  ⟨f32_neg, rfl,
    fun path hmem =>
      ((flattenPaths_fl_separates_consecutive_points f32 f32_neg sqrtfExact nearCommands (1 / 4)
        distTol1 ⟨[], [], ⟨0, 0, 0, 0⟩⟩ rfl).1 path hmem).1,
    (flattenPaths_fl_separates_consecutive_points f32 f32_neg sqrtfExact nearCommands (1 / 4)
      distTol1 ⟨[], [], ⟨0, 0, 0, 0⟩⟩ rfl).2 penCache 5 5 0
      { first := 0, count := 1, closed := 0, nbevel := 0, fill := [], stroke := [],
        winding := NVG_CCW, convex := 0 }
      { zeroPoint with x := 5, y := 5, flags := 1 } (by decide!) (by decide) (by decide!)
      (by decide!)⟩

/-- C27, the claim as stated fails in `float` arithmetic. With `distTol = 1e-27f`
(the quotient `0.01f / 1e25f` of a device pixel ratio of 1e25), which is positive,
`tol*tol` rounds to 0, so the test of `nvg__ptEquals` fails on a point against
itself: the single point of
`nvgMoveTo(5, 5)` is not removed, and the path is left open with exactly one
point. -/
theorem flattenPaths_leaves_single_point :
    (nvg__flattenPaths_fl f32 sqrtfExact [0, 5, 5] (1 / 4) distTolTiny
          ⟨[], [], ⟨0, 0, 0, 0⟩⟩).paths.map (fun p => (p.first, p.count, p.closed)) =
        [(0, 1, 0)] ∧
      f32 (1 / 10 ^ 27) = distTolTiny ∧ f32 (f32 (1 / 100) / f32 (10 ^ 25)) = distTolTiny ∧
      0 < distTolTiny ∧ f32 (distTolTiny * distTolTiny) = 0 ∧
      nvg__ptEquals_fl f32 5 5 5 5 distTolTiny = 0 := by
  decide!

/-- C27, amended, in rounded arithmetic: after `nvg__flattenPaths` has flattened a
command buffer into a cache without paths, for every rounding `fl` of the `float`
operations that commutes with the negation and every `distTol` whose rounded
square `tol*tol` is positive, no path has exactly one point, and every path left
open (`closed = 0`) has two or more points, all within the points of the cache:
the points `pts[0]` and `pts[1]` that the cap code of `nvg__expandStroke` reads
are points of the path. -/
theorem flattenPaths_fl_leaves_no_single_point (fl : ℚ → ℚ) (hodd : ∀ a : ℚ, fl (-a) = -fl a)
    (sqrtf : ℚ → ℚ) (commands : List ℚ) (tessTol distTol : ℚ) (cache : NVGpathCache)
    (h : cache.paths = []) (hd : 0 < fl (distTol * distTol)) :
    ∀ path ∈ (nvg__flattenPaths_fl fl sqrtf commands tessTol distTol cache).paths,
      path.count ≠ 1 ∧
        (path.closed = 0 →
          2 ≤ path.count ∧
            path.first + path.count ≤
              (nvg__flattenPaths_fl fl sqrtf commands tessTol distTol cache).points.length) := by
  intro path hmem
  obtain ⟨i, hi⟩ := List.mem_iff_getElem?.mp hmem
  obtain ⟨T, _, D⟩ := flattenPaths_sep_fl fl hodd sqrtf commands tessTol distTol cache h
  obtain ⟨d1, d2⟩ := D hd i path hi
  exact ⟨d1, fun hc => ⟨d2 hc, T.2 i path hi⟩⟩

/-- C27, amended, in `float` arithmetic on the buffer `lineCommands` and an empty
cache, with `distTol = 0.01f`. -/
theorem flattenPaths_fl_leaves_no_single_point_witness :
    (∀ a : ℚ, f32 (-a) = -f32 a) ∧ (⟨[], [], ⟨0, 0, 0, 0⟩⟩ : NVGpathCache).paths = [] ∧
      0 < f32 (distTol1 * distTol1) ∧
      ∀ path ∈ (nvg__flattenPaths_fl f32 sqrtfExact lineCommands (1 / 4) distTol1
          ⟨[], [], ⟨0, 0, 0, 0⟩⟩).paths,
        path.count ≠ 1 ∧
          (path.closed = 0 →
            2 ≤ path.count ∧
              path.first + path.count ≤
                (nvg__flattenPaths_fl f32 sqrtfExact lineCommands (1 / 4) distTol1
                  ⟨[], [], ⟨0, 0, 0, 0⟩⟩).points.length) :=
  ⟨f32_neg, rfl, by decide!,
    flattenPaths_fl_leaves_no_single_point f32 f32_neg sqrtfExact lineCommands (1 / 4) distTol1
      ⟨[], [], ⟨0, 0, 0, 0⟩⟩ rfl (by decide!)⟩

end NanoVG
